import Mathlib

/-!
# ircd message delivery (common/send.c): a shallow embedding

The development follows `common/send.c` of the IRC daemon.  C strings are lists
of characters (the characters before the terminating NUL), the two static
scratch buffers `sendbuf` and `psendbuf` are lists of bytes that are written
in place, pointers to client and channel records are natural numbers into
the tables of a `World`, and nullable pointers are `Option`s.

Build configuration embedded here: `HUB` defined; `ZIP_LINKS`, `IRCII_KLUDGE`,
`UNIXPORT`, `USE_SERVICES`, `DEBUGMODE` and `LOG_OLDFORMAT` not defined.
-/

namespace Ircd

/-! ## Strings, `vsprintf` and in-place buffer writes -/

abbrev Str := List Char

/-- The string terminator. -/
def NUL : Char := Char.ofNat 0

/-- One variadic argument of a printf-style call. -/
inductive Arg where
  | str (s : Str)
  | int (n : Int)
  | chr (c : Char)
  deriving DecidableEq, Repr

/-- Decimal rendering of an integer, as `%d` prints it. -/
def fmtInt (n : Int) : Str :=
  if n < 0 then '-' :: Nat.toDigits 10 n.natAbs else Nat.toDigits 10 n.toNat

/-- Output of one conversion `%c` applied to one argument.  A conversion that
does not fit its argument is undefined in C; the model prints nothing. -/
def renderArg (c : Char) (a : Arg) : Str :=
  match a with
  | Arg.str s => if c = 's' then s else []
  | Arg.int n => if c = 'd' ∨ c = 'u' then fmtInt n else []
  | Arg.chr x => if c = 'c' then [x] else []

/-- Scanner behind `vsprintf`: the flag says whether a `%` has just been read.
Handles `%s`, `%d`, `%u`, `%c`, `%%` and the length modifier `l`. -/
def vsprintfAux : Bool → Str → List Arg → Str
  | _, [], _ => []
  | false, c :: cs, va =>
    if c = '%' then vsprintfAux true cs va else c :: vsprintfAux false cs va
  | true, c :: cs, va =>
    if c = 'l' then vsprintfAux true cs va
    else if c = '%' then '%' :: vsprintfAux false cs va
    else
      match va with
      | [] => vsprintfAux false cs []
      | a :: va' => renderArg c a ++ vsprintfAux false cs va'

/-- The characters libc's `vsprintf(buf, pattern, va)` writes before the
terminating NUL; its return value is the length of this list. -/
def vsprintf (pattern : Str) (va : List Arg) : Str :=
  vsprintfAux false pattern va

/-- The effect of `va_arg(va, char *)`: the argument read and the rest of the list.
Reading an argument that is missing or is no string is undefined in C; the
model reads the empty string. -/
def va_arg_str : List Arg → Str × List Arg
  | Arg.str s :: va => (s, va)
  | _ :: va => ([], va)
  | [] => ([], [])

/-- Write the bytes `s` into the buffer `buf` starting at offset `off`,
leaving every other byte of the buffer as it was. -/
def bufWrite (buf : List Char) (off : Nat) (s : List Char) : List Char :=
  buf.take off ++ s ++ buf.drop (off + s.length)

/-- The assignment `buf[i] = c`. -/
def bufSet (buf : List Char) (i : Nat) (c : Char) : List Char :=
  bufWrite buf i [c]

/-- The test `!strncmp(pattern, ":%s", 3)`. -/
def startsColonS (pattern : Str) : Bool :=
  match pattern with
  | ':' :: '%' :: 's' :: _ => true
  | _ => false

/-- Modelled from the spec: mycmp (match.c is not under src/), the
case-insensitive string comparison; 0 means equal. -/
def mycmp (a b : Str) : Int :=
  if a.map Char.toLower = b.map Char.toLower then 0 else 1

/-! ## Data model -/

/-- The `status` field of a client record. -/
inductive Status where
  | CONNECTING | HANDSHAKE | UNKNOWN | ME | SERVER | CLIENT | SERVICE
  deriving DecidableEq, Repr

/-- Exit codes a link can carry. -/
inductive ExitCode where
  | UNDEF | REG | SENDQ | MBUF | IOERR
  deriving DecidableEq, Repr

/-- The fields of `anUser` that delivery reads. -/
structure anUser where
  /-- chain of channels the user is on (`user->channel`) -/
  channel : List Nat
  username : Str
  host : Str
  server : Str
  deriving DecidableEq, Repr

/-- The fields of `aServer` that delivery reads. -/
structure aServer where
  version : Nat
  byuid : Str
  deriving DecidableEq, Repr

/-- The fields of `aClient` that delivery reads or writes.  The bits of
`flags` used by send.c are separate booleans. -/
structure aClient where
  user : Option anUser
  serv : Option aServer
  /-- `FLAGS_DEADSOCKET` -/
  dead : Bool
  /-- `FLAGS_CLOSING` -/
  closing : Bool
  /-- `FLAGS_CBURST` -/
  cburst : Bool
  /-- the `from` pointer: the local link through which the client is reached -/
  «from» : Option Nat
  fd : Int
  status : Status
  name : Str
  sockhost : Str
  /-- the accepting listener (`acpt`) -/
  acpt : Nat
  /-- class of the configuration line in use (`aconf->class`) -/
  cls : Nat
  recvQ : List Char
  sendQ : List Char
  lastsq : Nat
  exitc : ExitCode
  sendM : Nat
  deriving DecidableEq, Repr

/-- The fields of `aChannel` that delivery reads. -/
structure aChannel where
  chname : Str
  /-- `clist`: the local connections (clients and server links) with members -/
  clist : List Nat
  /-- `MODE_QUIET` -/
  quiet : Bool
  /-- `MODE_ANONYMOUS` -/
  anonymous : Bool
  deriving DecidableEq, Repr

/-- Index of a server channel in the table `svchans`. -/
inductive SChanId where
  | SCH_ERROR | SCH_NOTICE | SCH_KILL | SCH_CHAN | SCH_NUM | SCH_SERVER | SCH_HASH
  | SCH_LOCAL | SCH_SERVICE | SCH_DEBUG | SCH_AUTH | SCH_SAVE | SCH_WALLOP
  deriving DecidableEq, Repr

/-- The process-wide state send.c works on. -/
structure World where
  /-- client records by address -/
  cl : Nat → aClient
  /-- channel records by address -/
  ch : Nat → aChannel
  /-- `local[]`: the client of each file descriptor -/
  «local» : Int → Option Nat
  highest_fd : Int
  /-- `fdas.fd[]` -/
  fdas_fd : Nat → Int
  /-- `fdas.highest` -/
  fdas_highest : Int
  /-- address of the record `me` -/
  me : Nat
  /-- `svchans[i].svc_ptr` -/
  svchans : SChanId → Option Nat
  sendbuf : List Char
  psendbuf : List Char
  sentalong : Int → Int
  poolsize : Int
  /-- `MaxSendq` of each connection class -/
  MaxSendq : Nat → Int
  /-- `istat.is_dbufmore` -/
  is_dbufmore : Nat

/-- Functions send.c calls that live outside it (dbuf.c, s_bsd.c, s_misc.c,
hash.c, match.c).  Each may look at the whole state. -/
structure Env where
  /-- return code of `dbuf_put(&to->sendQ, msg, len)`: negative on failure,
  -2 when the buffer pool is exhausted -/
  dbuf_put : World → Nat → List Char → Int
  /-- the length `dbuf_map(&to->sendQ, &len)` reports for the contiguous head -/
  dbuf_map : World → Nat → Nat
  /-- return value of `deliver_it(to, msg, len)`: bytes written, negative on error -/
  deliver_it : World → Nat → List Char → Int
  /-- `get_client_name(to, FALSE)` -/
  get_client_name : World → Nat → Str
  /-- `find_uid(uid, NULL)` -/
  find_uid : World → Str → Option Nat
  /-- `match(mask, name)`: 0 when the name matches the mask -/
  «match» : Str → Str → Int

/-- What `send_message(to, msg, len)` is given as `msg`: one of the two scratch
buffers, or memory of the caller. -/
inductive Buf where
  | sendbuf
  | psendbuf
  | mem (s : List Char)
  deriving DecidableEq, Repr

/-- A client pointer that may be the static record `anon` of send.c. -/
inductive CPtr where
  | anon
  | reg (p : Nat)
  deriving DecidableEq, Repr

/-- The static user record `ausr`. -/
def ausr : anUser :=
  { channel := [], username := "anonymous".toList, host := "anonymous.".toList,
    server := "anonymous.".toList }

/-- The static client record `anon`. -/
def anon : aClient :=
  { user := some ausr, serv := none, dead := false, closing := false, cburst := false,
    «from» := none, fd := -2, status := Status.CLIENT, name := "anonymous".toList,
    sockhost := [], acpt := 0, cls := 0, recvQ := [], sendQ := [], lastsq := 0,
    exitc := ExitCode.UNDEF, sendM := 0 }

/-- Dereference a client pointer. -/
def World.deref (w : World) : CPtr → aClient
  | CPtr.anon => anon
  | CPtr.reg p => w.cl p

/-- The bytes `msg[0..len)` as they are in memory now. -/
def World.readBuf (w : World) (msg : Buf) (len : Nat) : List Char :=
  match msg with
  | Buf.sendbuf => w.sendbuf.take len
  | Buf.psendbuf => w.psendbuf.take len
  | Buf.mem s => s.take len

/-- The C string that starts at `msg`. -/
def World.cstr (w : World) (msg : Buf) : Str :=
  match msg with
  | Buf.sendbuf => w.sendbuf.takeWhile (· ≠ NUL)
  | Buf.psendbuf => w.psendbuf.takeWhile (· ≠ NUL)
  | Buf.mem s => s.takeWhile (· ≠ NUL)

/-! ### Macros of struct_def.h -/

/-- Modelled from the spec: the macro MyConnect of struct_def.h (not under
src/): the link is locally connected, it has a file descriptor. -/
def MyConnect (c : aClient) : Bool := decide (0 ≤ c.fd)

/-- Modelled from the spec: the macro IsClient of struct_def.h (not under src/). -/
def IsClient (c : aClient) : Bool := decide (c.status = Status.CLIENT)

/-- Modelled from the spec: the macro IsServer of struct_def.h (not under src/). -/
def IsServer (c : aClient) : Bool := decide (c.status = Status.SERVER)

/-- Modelled from the spec: the macro IsService of struct_def.h (not under src/). -/
def IsService (c : aClient) : Bool := decide (c.status = Status.SERVICE)

/-- Modelled from the spec: the macro IsMe of struct_def.h (not under src/). -/
def IsMe (c : aClient) : Bool := decide (c.status = Status.ME)

/-- Modelled from the spec: the macro IsUnknown of struct_def.h (not under src/). -/
def IsUnknown (c : aClient) : Bool := decide (c.status = Status.UNKNOWN)

/-- Modelled from the spec: the macro IsConnecting of struct_def.h (not under src/). -/
def IsConnecting (c : aClient) : Bool := decide (c.status = Status.CONNECTING)

/-- Modelled from the spec: the macro IsHandshake of struct_def.h (not under src/). -/
def IsHandshake (c : aClient) : Bool := decide (c.status = Status.HANDSHAKE)

/-- Modelled from the spec: the macro IsPerson of struct_def.h (not under
src/): an ordinary client, a CLIENT with a user record. -/
def IsPerson (c : aClient) : Bool := c.user.isSome && IsClient c

/-- Modelled from the spec: the macro IsRegisteredUser of struct_def.h (not
under src/): a CLIENT with a user record. -/
def IsRegisteredUser (c : aClient) : Bool := IsClient c && c.user.isSome

/-- Modelled from the spec: the macro MyClient of struct_def.h (not under
src/): a locally connected CLIENT. -/
def MyClient (c : aClient) : Bool := MyConnect c && IsClient c

/-- Modelled from the spec: the macro IsMember of struct_def.h (not under
src/): the channel is on the channel chain of the client's user record. -/
def IsMember (c : aClient) (chptr : Nat) : Bool :=
  match c.user with
  | some u => decide (chptr ∈ u.channel)
  | none => false

/-- Modelled from the spec: get_sendq of class.c (not under src/), the
class-derived SendQ cap of a link. -/
def get_sendq (w : World) (to_ : Nat) : Int := w.MaxSendq (w.cl to_).cls

/-- Modelled from the spec: the macro IncSendq of class_def.h (not under
src/): the class cap is doubled in place. -/
def IncSendq (w : World) (c : Nat) : World :=
  { w with MaxSendq := Function.update w.MaxSendq c (2 * w.MaxSendq c) }

/-- Replace one client record. -/
def World.setCl (w : World) (p : Nat) (c : aClient) : World :=
  { w with cl := Function.update w.cl p c }

/-! ### Preparing a line -/

/-- The common tail of `vsendprep` and `vsendpreprep`: cut the rendering
`r` (already in the buffer, NUL-terminated) at 510 bytes and append CR LF NUL.
Returns the buffer and the length of the line. -/
def terminate (buf : List Char) (rlen : Nat) : List Char × Nat :=
  let len := if rlen > 510 then 510 else rlen
  let b1 := bufSet buf len '\r'
  let b2 := bufSet b1 (len + 1) '\n'
  let b3 := bufSet b2 (len + 2) NUL
  (b3, len + 2)

/-- Function `vsendprep`: render into `sendbuf`; returns the length of the line. -/
def vsendprep (w : World) (pattern : Str) (va : List Arg) : World × Nat :=
  let r := vsprintf pattern va
  let r1 := terminate (bufWrite w.sendbuf 0 (r ++ [NUL])) r.length
  ({ w with sendbuf := r1.1 }, r1.2)

/-- The prefix `vsendpreprep` builds in `psendbuf` with strcpy/strcat when
the pattern starts with ":%s", for the argument `par` it has read. -/
def mkPrefix (isAnon : Bool) (from_ : aClient) (par : Str) : Str :=
  if isAnon ∨ mycmp par from_.name = 0 then
    let s0 := ':' :: from_.name
    match from_.user with
    | some user =>
      let s1 := if user.username ≠ [] then s0 ++ '!' :: user.username else s0
      let flag := decide (user.host ≠ []) && !MyConnect from_
      let s2 := if flag then s1 ++ '@' :: user.host else s1
      if !flag ∧ MyConnect from_ ∧ user.host ≠ [] then s2 ++ '@' :: from_.sockhost else s2
    | none => s0
  else
    ':' :: par

/-- The rendering `vsendpreprep` leaves in `psendbuf` before it is cut and
terminated: the pattern with a complete prefix when one is due. -/
def preprepRender (w : World) (to_ : Nat) (from_ : CPtr) (pattern : Str) (va : List Arg) : Str :=
  if MyClient (w.cl to_) ∧ IsPerson (w.deref from_) ∧ startsColonS pattern then
    let a := va_arg_str va
    mkPrefix (decide (from_ = CPtr.anon)) (w.deref from_) a.1 ++ vsprintf (pattern.drop 3) a.2
  else
    vsprintf pattern va

/-- Function `vsendpreprep`: render into `psendbuf`, adding a complete prefix if
necessary; returns the length of the line. -/
def vsendpreprep (w : World) (to_ : Nat) (from_ : CPtr) (pattern : Str) (va : List Arg) :
    World × Nat :=
  let r := preprepRender w to_ from_ pattern va
  let r1 := terminate (bufWrite w.psendbuf 0 (r ++ [NUL])) r.length
  ({ w with psendbuf := r1.1 }, r1.2)

/-- Statement `if (!len) len = vsendprep(pattern, va);` -/
def prepOnce (w : World) (pattern : Str) (va : List Arg) (len : Nat) : World × Nat :=
  if len = 0 then vsendprep w pattern va else (w, len)

/-- Statement `if (!len) len = vsendpreprep(to, from, pattern, va);` -/
def preprepOnce (w : World) (to_ : Nat) (from_ : CPtr) (pattern : Str) (va : List Arg)
    (len : Nat) : World × Nat :=
  if len = 0 then vsendpreprep w to_ from_ pattern va else (w, len)

/-! ### The send queue: `dead_link`, `send_queued`, `send_message`

`send_message` reaches itself again through `dead_link`, `sendto_flag` and
`sendto_channel_butserv`.  The functions of that cycle are first written over
an arbitrary `send_message` (the parameter `sm`), and the knot is tied by
`send_message` with a bound on the depth of the recursion; the same bound
limits the `tryagain` loop and the loop of `send_queued`.  `none` means the
bound was reached. -/

/-- The type of `send_message(to, msg, len)`. -/
abbrev SM := World → Nat → Buf → Nat → Option (World × Int)

/-- One call `send_message(to, msg, len)` as a routing function makes it: the
target and the bytes `msg[0..len)` at the time of the call. -/
abbrev Call := Nat × List Char

/-- What one routing call did: the state it leaves, the `send_message` calls
it made before its recipient loop (the echo to the source), the calls its
recipient loop made, and its return value. -/
structure Run where
  w : World
  echo : List Call
  fan : List Call
  rc : Int

/-- Function `vsendto_prefix_one` (and `sendto_prefix_one`): prepare with `vsendpreprep`
and hand `psendbuf` to `send_message`. -/
def vsendto_prefix_one_g (sm : SM) (w : World) (to_ : Nat) (from_ : CPtr) (pattern : Str)
    (va : List Arg) : Option World :=
  let p := vsendpreprep w to_ from_ pattern va
  (sm p.1 to_ Buf.psendbuf p.2).map (fun r => r.1)

/-- The recipient loop of `sendto_channel_butserv` over the links of `clist`
still to visit; `len` is the local of that name. -/
def butserv_loop (sm : SM) (from_ : Nat) (lfrm : CPtr) (pattern : Str) (va : List Arg) :
    List Nat → World → Nat → Option (World × List Call)
  | [], w, _ => some (w, [])
  | acptr :: lp, w, len =>
    if MyClient (w.cl acptr) ∧ acptr ≠ from_ then
      let p := preprepOnce w acptr lfrm pattern va len
      match sm p.1 acptr Buf.psendbuf p.2 with
      | none => none
      | some r =>
        match butserv_loop sm from_ lfrm pattern va lp r.1 p.2 with
        | none => none
        | some r2 => some (r2.1, (acptr, p.1.readBuf Buf.psendbuf p.2) :: r2.2)
    else butserv_loop sm from_ lfrm pattern va lp w len

/-- Function `sendto_channel_butserv`. -/
def sendto_channel_butserv_g (sm : SM) (w : World) (chptr : Nat) (from_ : Nat)
    (pattern : Str) (va : List Arg) : Option Run :=
  let lfrm (w1 : World) : CPtr :=
    if (w1.ch chptr).anonymous ∧ IsClient (w1.cl from_) then CPtr.anon else CPtr.reg from_
  if MyClient (w.cl from_) then
    let p := vsendpreprep w from_ (CPtr.reg from_) pattern va
    match sm p.1 from_ Buf.psendbuf p.2 with
    | none => none
    | some r =>
      let e : List Call := [(from_, p.1.readBuf Buf.psendbuf p.2)]
      if (r.1.ch chptr).quiet then some { w := r.1, echo := e, fan := [], rc := 0 }
      else
        (butserv_loop sm from_ (lfrm r.1) pattern va (r.1.ch chptr).clist r.1 0).map
          (fun r2 => { w := r2.1, echo := e, fan := r2.2, rc := 0 })
  else
    (butserv_loop sm from_ (lfrm w) pattern va (w.ch chptr).clist w 0).map
      (fun r2 => { w := r2.1, echo := [], fan := r2.2, rc := 0 })

/-- Function `sendto_flag`: post a notice to a server channel. -/
def sendto_flag_g (sm : SM) (w : World) (chan : SChanId) (pattern : Str) (va : List Arg) :
    Option World :=
  match w.svchans chan with
  | none => some w
  | some chptr =>
    let nbuf := vsprintf pattern va
    (sendto_channel_butserv_g sm w chptr w.me ":%s NOTICE %s :%s".toList
      [Arg.str (w.cl w.me).name, Arg.str (w.ch chptr).chname, Arg.str nbuf]).map (fun r => r.w)

/-- Function `sendto_one`. -/
def sendto_one_g (sm : SM) (w : World) (to_ : Nat) (pattern : Str) (va : List Arg) :
    Option (World × Int) :=
  let p := vsendprep w pattern va
  (sm p.1 to_ Buf.sendbuf p.2).map (fun r => (r.1, (p.2 : Int)))

/-- Statement `SetDead(to); DBufClear(&to->recvQ); DBufClear(&to->sendQ);` -/
def setDeadAndClear (w : World) (to_ : Nat) : World :=
  w.setCl to_ { w.cl to_ with dead := true, recvQ := [], sendQ := [] }

/-- Statement `to->exitc = e;` -/
def setExitc (w : World) (to_ : Nat) (e : ExitCode) : World :=
  w.setCl to_ { w.cl to_ with exitc := e }

/-- A successful `dbuf_put(&to->sendQ, msg, len)`: the bytes go to the tail of the queue. -/
def enqueue (w : World) (to_ : Nat) (bytes : List Char) : World :=
  w.setCl to_ { w.cl to_ with sendQ := (w.cl to_).sendQ ++ bytes }

/-- Statement `dbuf_delete(&to->sendQ, rlen); to->lastsq = DBufLength(&to->sendQ)/1024;` -/
def dequeue (w : World) (to_ : Nat) (rlen : Nat) : World :=
  let q := (w.cl to_).sendQ.drop rlen
  w.setCl to_ { w.cl to_ with sendQ := q, lastsq := q.length / 1024 }

/-- Statement `p->sendM += 1;` -/
def incSendM (w : World) (p : Nat) : World :=
  w.setCl p { w.cl p with sendM := (w.cl p).sendM + 1 }

/-- The statistics update of `send_message`: the link, `me`, and the acceptor
unless it is `me`. -/
def countSent (w : World) (to_ : Nat) : World :=
  let w2 := incSendM (incSendM w to_) w.me
  if (w2.cl to_).acpt ≠ w2.me then incSendM w2 (w2.cl to_).acpt else w2

/-- Function `dead_link`: mark the link dead, clear both queues, then post the notice
unless the link is a person, unknown, or closing.  Returns -1. -/
def dead_link_g (env : Env) (sm : SM) (w : World) (to_ : Nat) (notice : Str) :
    Option (World × Int) :=
  let w3 := setDeadAndClear w to_
  if !IsPerson (w3.cl to_) ∧ !IsUnknown (w3.cl to_) ∧ !(w3.cl to_).closing then
    (sendto_flag_g sm w3 SChanId.SCH_ERROR notice [Arg.str (env.get_client_name w3 to_)]).map
      (fun w4 => (w4, -1))
  else some (w3, -1)

/-- The courtesy notice `send_queued` sends on a write error to the operator
who started a link that is still connecting. -/
def write_error_notice (env : Env) (sm : SM) (w : World) (to_ : Nat) : Option World :=
  match (w.cl to_).serv with
  | some serv =>
    if (IsConnecting (w.cl to_) ∨ IsHandshake (w.cl to_)) ∧ serv.byuid ≠ [] then
      match env.find_uid w serv.byuid with
      | some bysptr =>
        if !MyConnect (w.cl bysptr) then
          (sendto_one_g sm w bysptr ":%s NOTICE %s :Write error to %s, closing link".toList
            [Arg.str (w.cl w.me).name, Arg.str (w.cl bysptr).name,
              Arg.str (w.cl to_).name]).map (fun r => r.1)
        else some w
      | none => some w
    else some w
  | none => some w

/-- The `while` loop of `send_queued` and its final `return`; the first
argument bounds the number of iterations. -/
def send_queued_loop (env : Env) (sm : SM) (to_ : Nat) : Nat → World → Option (World × Int)
  | 0, _ => none
  | n + 1, w =>
    if (w.cl to_).sendQ.length > 0 then
      let len := env.dbuf_map w to_
      let msg := (w.cl to_).sendQ.take len
      let rlen := env.deliver_it w to_ msg
      if rlen < 0 then
        match write_error_notice env sm w to_ with
        | none => none
        | some w1 => dead_link_g env sm w1 to_ "Write error to %s, closing link".toList
      else
        let w2 := dequeue w to_ rlen.toNat
        if rlen < len then some (w2, if (w2.cl to_).dead then -1 else 0)
        else send_queued_loop env sm to_ n w2
    else some (w, if (w.cl to_).dead then -1 else 0)

/-- Function `send_queued`. -/
def send_queued_g (env : Env) (sm : SM) (fuel : Nat) (w : World) (to_ : Nat) :
    Option (World × Int) :=
  if (w.cl to_).dead then some (w, -1) else send_queued_loop env sm to_ fuel w

/-- The burst adjustment of `send_message`: the class cap is raised and
`poolsize` follows by half of the change. -/
def raise_sendq (w : World) (to_ : Nat) : World :=
  let c := (w.cl to_).cls
  let w1 := { w with poolsize := w.poolsize - w.MaxSendq c / 2 }
  let w2 := IncSendq w1 c
  { w2 with poolsize := w2.poolsize + w2.MaxSendq c / 2 }

/-- The end of `send_message`, after `dbuf_put` has succeeded: statistics,
then a flush when one more kilobyte has piled up.  Returns 0. -/
def send_message_tail (env : Env) (sm : SM) (fuel : Nat) (w : World) (to_ : Nat) :
    Option (World × Int) :=
  let w3 := countSent w to_
  if (w3.cl to_).sendQ.length / 1024 > (w3.cl to_).lastsq then
    (send_queued_g env sm fuel w3 to_).map (fun r => (r.1, 0))
  else some (w3, 0)

/-- Function `send_message` from the label `tryagain` on; the first argument bounds
the number of passes through the label. -/
def send_message_put (env : Env) (sm : SM) (fuel : Nat) (to_ : Nat) (msg : Buf) (len : Nat) :
    Nat → World → Option (World × Int)
  | 0, _ => none
  | n + 1, w =>
    let i := env.dbuf_put w to_ (w.readBuf msg len)
    if i < 0 then
      if i = -2 ∧ (w.cl to_).cburst then
        let w1 := raise_sendq w to_
        match sendto_flag_g sm w1 SChanId.SCH_NOTICE "New poolsize %d. (reached)".toList
            [Arg.int w1.poolsize] with
        | none => none
        | some w2 =>
          send_message_put env sm fuel to_ msg len n { w2 with is_dbufmore := w2.is_dbufmore + 1 }
      else
        dead_link_g env sm (setExitc w to_ ExitCode.MBUF) to_
          "Buffer allocation error for %s".toList
    else send_message_tail env sm fuel (enqueue w to_ (w.readBuf msg len)) to_

/-- The link `send_message` works on: `if (to->from) to = to->from;` -/
def effective (w : World) (to0 : Nat) : Nat :=
  match (w.cl to0).«from» with
  | some f => f
  | none => to0

/-- The body of `send_message`, calls to `send_message` from inside it going to `sm`. -/
def send_message_body (env : Env) (sm : SM) (fuel : Nat) (w : World) (to0 : Nat) (msg : Buf)
    (len : Nat) : Option (World × Int) :=
  let to_ := effective w to0
  if IsMe (w.cl to_) then
    (sendto_flag_g sm w SChanId.SCH_ERROR "Trying to send to myself! [%s]".toList
      [Arg.str (w.cstr msg)]).map (fun w1 => (w1, 0))
  else if (w.cl to_).dead then some (w, 0)
  else if ((w.cl to_).sendQ.length : Int) > get_sendq w to_ then
    if (w.cl to_).cburst then
      let w1 := raise_sendq w to_
      match sendto_flag_g sm w1 SChanId.SCH_NOTICE "New poolsize %d. (sendq adjusted)".toList
          [Arg.int w1.poolsize] with
      | none => none
      | some w2 =>
        send_message_put env sm fuel to_ msg len fuel { w2 with is_dbufmore := w2.is_dbufmore + 1 }
    else
      let ebuf : Str :=
        if IsService (w.cl to_) ∨ IsServer (w.cl to_) then
          vsprintf "Max SendQ limit exceeded for %s: %d > %d".toList
            [Arg.str (env.get_client_name w to_), Arg.int (w.cl to_).sendQ.length,
              Arg.int (get_sendq w to_)]
        else []
      dead_link_g env sm (setExitc w to_ ExitCode.SENDQ) to_
        (if ebuf ≠ [] then ebuf else "Max Sendq exceeded".toList)
  else send_message_put env sm fuel to_ msg len fuel w

/-- Function `send_message`; the first argument bounds the depth of the recursion. -/
def send_message (env : Env) : Nat → SM
  | 0 => fun _ _ _ _ => none
  | fuel + 1 => send_message_body env (send_message env fuel) (fuel + 1)

/-- Function `send_queued` as the event loop calls it. -/
def send_queued (env : Env) (fuel : Nat) (w : World) (to_ : Nat) : Option (World × Int) :=
  send_queued_g env (send_message env fuel) fuel w to_

/-- Function `dead_link`. -/
def dead_link (env : Env) (fuel : Nat) (w : World) (to_ : Nat) (notice : Str) :
    Option (World × Int) :=
  dead_link_g env (send_message env fuel) w to_ notice

/-- Function `sendto_flag`. -/
def sendto_flag (env : Env) (fuel : Nat) (w : World) (chan : SChanId) (pattern : Str)
    (va : List Arg) : Option World :=
  sendto_flag_g (send_message env fuel) w chan pattern va

/-- Function `sendto_one`. -/
def sendto_one (env : Env) (fuel : Nat) (w : World) (to_ : Nat) (pattern : Str)
    (va : List Arg) : Option (World × Int) :=
  sendto_one_g (send_message env fuel) w to_ pattern va

/-- Function `sendto_prefix_one`.  The source is a client record of the registry: the
static `anon` cannot be named outside send.c. -/
def sendto_prefix_one (env : Env) (fuel : Nat) (w : World) (to_ : Nat) (from_ : Nat)
    (pattern : Str) (va : List Arg) : Option World :=
  vsendto_prefix_one_g (send_message env fuel) w to_ (CPtr.reg from_) pattern va

/-- Function `sendto_channel_butserv`. -/
def sendto_channel_butserv (env : Env) (fuel : Nat) (w : World) (chptr : Nat) (from_ : Nat)
    (pattern : Str) (va : List Arg) : Option Run :=
  sendto_channel_butserv_g (send_message env fuel) w chptr from_ pattern va

/-! ### Routing -/

/-- The recipient loop of `sendto_channel_butone` over the links of `clist`
still to visit; `len2` is the local of that name. -/
def butone_loop (sm : SM) (one : Option Nat) (from_ : Nat) (lfrm : CPtr) (pattern : Str)
    (va : List Arg) (len1 : Nat) : List Nat → World → Nat → Option (World × List Call)
  | [], w, _ => some (w, [])
  | acptr :: lp, w, len2 =>
    if (w.cl acptr).«from» = one ∨ IsMe (w.cl acptr) then
      butone_loop sm one from_ lfrm pattern va len1 lp w len2
    else if MyConnect (w.cl acptr) ∧ IsRegisteredUser (w.cl acptr) then
      let p := preprepOnce w acptr lfrm pattern va len2
      if acptr ≠ from_ then
        match sm p.1 acptr Buf.psendbuf p.2 with
        | none => none
        | some r =>
          match butone_loop sm one from_ lfrm pattern va len1 lp r.1 p.2 with
          | none => none
          | some r2 => some (r2.1, (acptr, p.1.readBuf Buf.psendbuf p.2) :: r2.2)
      else butone_loop sm one from_ lfrm pattern va len1 lp p.1 p.2
    else
      match sm w acptr Buf.sendbuf len1 with
      | none => none
      | some r =>
        match butone_loop sm one from_ lfrm pattern va len1 lp r.1 len2 with
        | none => none
        | some r2 => some (r2.1, (acptr, w.readBuf Buf.sendbuf len1) :: r2.2)

/-- Function `sendto_channel_butone`. -/
def sendto_channel_butone_g (sm : SM) (w : World) (one : Option Nat) (from_ : Nat)
    (chptr : Nat) (pattern : Str) (va : List Arg) : Option Run :=
  let lfrm : CPtr :=
    if (w.ch chptr).anonymous ∧ IsClient (w.cl from_) then CPtr.anon else CPtr.reg from_
  let doEcho : Bool :=
    decide (one ≠ some from_) && MyConnect (w.cl from_) && IsRegisteredUser (w.cl from_)
  let p0 := vsendpreprep w from_ (CPtr.reg from_) pattern va
  let afterEcho : Option (World × List Call) :=
    if doEcho then
      (sm p0.1 from_ Buf.psendbuf p0.2).map
        (fun r => (r.1, [(from_, p0.1.readBuf Buf.psendbuf p0.2)]))
    else some (w, [])
  match afterEcho with
  | none => none
  | some (w1, e) =>
    let p1 := vsendprep w1 pattern va
    (butone_loop sm one from_ lfrm pattern va p1.2 (p1.1.ch chptr).clist p1.1 0).map
      (fun r2 => { w := r2.1, echo := e, fan := r2.2, rc := 0 })

/-- The indices `fdas.highest, ..., 0` in the order the server loops visit them. -/
def fdasIndices (w : World) : List Nat :=
  (List.range (w.fdas_highest + 1).toNat).reverse

/-- The server loops' `cptr = local[fdas.fd[i]]`. -/
def fdasClient (w : World) (i : Nat) : Option Nat := w.«local» (w.fdas_fd i)

/-- The negotiated version mask `cptr->serv->version` (0 when there is no server record). -/
def servVersion (c : aClient) : Nat :=
  match c.serv with
  | some s => s.version
  | none => 0

/-- The loop shared by `sendto_serv_butone`, `sendto_serv_v` and
`sendto_serv_notv`: `pick` is the version test of the variant, a server that
fails it sets the return code. -/
def serv_loop (sm : SM) (one : Option Nat) (pick : aClient → Bool) (pattern : Str)
    (va : List Arg) : List Nat → World → Nat → Int → Option (World × List Call × Int)
  | [], w, _, rc => some (w, [], rc)
  | i :: is, w, len, rc =>
    match fdasClient w i with
    | none => serv_loop sm one pick pattern va is w len rc
    | some cptr =>
      let notOne : Bool :=
        match one with
        | none => true
        | some o => decide (some cptr ≠ (w.cl o).«from»)
      if notOne ∧ !IsMe (w.cl cptr) then
        if pick (w.cl cptr) then
          let p := prepOnce w pattern va len
          match sm p.1 cptr Buf.sendbuf p.2 with
          | none => none
          | some r =>
            match serv_loop sm one pick pattern va is r.1 p.2 rc with
            | none => none
            | some r2 => some (r2.1, (cptr, p.1.readBuf Buf.sendbuf p.2) :: r2.2.1, r2.2.2)
        else serv_loop sm one pick pattern va is w len 1
      else serv_loop sm one pick pattern va is w len rc

/-- Function `sendto_serv_butone`. -/
def sendto_serv_butone_g (sm : SM) (w : World) (one : Option Nat) (pattern : Str)
    (va : List Arg) : Option Run :=
  (serv_loop sm one (fun _ => true) pattern va (fdasIndices w) w 0 0).map
    (fun r => { w := r.1, echo := [], fan := r.2.1, rc := 0 })

/-- Function `sendto_serv_v`. -/
def sendto_serv_v_g (sm : SM) (w : World) (one : Option Nat) (ver : Nat) (pattern : Str)
    (va : List Arg) : Option Run :=
  (serv_loop sm one (fun c => decide (servVersion c &&& ver ≠ 0)) pattern va
      (fdasIndices w) w 0 0).map
    (fun r => { w := r.1, echo := [], fan := r.2.1, rc := r.2.2 })

/-- Function `sendto_serv_notv`. -/
def sendto_serv_notv_g (sm : SM) (w : World) (one : Option Nat) (ver : Nat) (pattern : Str)
    (va : List Arg) : Option Run :=
  (serv_loop sm one (fun c => decide (servVersion c &&& ver = 0)) pattern va
      (fdasIndices w) w 0 0).map
    (fun r => { w := r.1, echo := [], fan := r.2.1, rc := r.2.2 })

/-- The text after the last ':' of a channel name (`rindex(chname, ':')` plus
one), `none` when the name has no ':'. -/
def chanMask : Str → Option Str
  | [] => none
  | c :: cs =>
    match chanMask cs with
    | some m => some m
    | none => if c = ':' then some cs else none

/-- The recipient loop of `sendto_match_servs`. -/
def match_servs_loop (env : Env) (sm : SM) (from_ : Nat) (mask : Option Str) (format : Str)
    (va : List Arg) : List Nat → World → Nat → Option (World × List Call)
  | [], w, _ => some (w, [])
  | i :: is, w, len =>
    match fdasClient w i with
    | none => match_servs_loop env sm from_ mask format va is w len
    | some cptr =>
      if cptr = from_ ∨ IsMe (w.cl cptr) then
        match_servs_loop env sm from_ mask format va is w len
      else
        let badMatch : Bool :=
          match mask with
          | none => false
          | some m => decide (m ≠ []) && decide (env.«match» m (w.cl cptr).name ≠ 0)
        if badMatch then match_servs_loop env sm from_ mask format va is w len
        else
          let p := prepOnce w format va len
          match sm p.1 cptr Buf.sendbuf p.2 with
          | none => none
          | some r =>
            match match_servs_loop env sm from_ mask format va is r.1 p.2 with
            | none => none
            | some r2 => some (r2.1, (cptr, p.1.readBuf Buf.sendbuf p.2) :: r2.2)

/-- Function `sendto_match_servs`. -/
def sendto_match_servs_g (env : Env) (sm : SM) (w : World) (chptr : Option Nat) (from_ : Nat)
    (format : Str) (va : List Arg) : Option Run :=
  let go (mask : Option Str) : Option Run :=
    (match_servs_loop env sm from_ mask format va (fdasIndices w) w 0).map
      (fun r => { w := r.1, echo := [], fan := r.2, rc := 0 })
  match chptr with
  | some c =>
    if (w.ch c).chname.head? = some '&' then some { w := w, echo := [], fan := [], rc := 0 }
    else go (chanMask (w.ch c).chname)
  | none => go none

/-- The inner loop of the first part of `sendto_common_channels`: whether the
scan of the user's channels reaches a `send_message` for `cptr`. -/
def common_scan (w : World) (cptr : Nat) : List Nat → Bool
  | [] => false
  | chptr :: lp =>
    if !IsMember (w.cl cptr) chptr then common_scan w cptr lp
    else if (w.ch chptr).anonymous then common_scan w cptr lp
    else if !(w.ch chptr).quiet then true
    else common_scan w cptr lp

/-- The loop over file descriptors of the first part of `sendto_common_channels`. -/
def common_fd_loop (sm : SM) (user : Nat) (pattern : Str) (va : List Arg) :
    List Nat → World → Nat → Option (World × List Call)
  | [], w, _ => some (w, [])
  | i :: is, w, len =>
    match w.«local» (i : Int), (w.cl user).user with
    | some cptr, some u =>
      if IsServer (w.cl cptr) ∨ user = cptr then common_fd_loop sm user pattern va is w len
      else if common_scan w cptr u.channel then
        let p := preprepOnce w cptr (CPtr.reg user) pattern va len
        match sm p.1 cptr Buf.psendbuf p.2 with
        | none => none
        | some r =>
          match common_fd_loop sm user pattern va is r.1 p.2 with
          | none => none
          | some r2 => some (r2.1, (cptr, p.1.readBuf Buf.psendbuf p.2) :: r2.2)
      else common_fd_loop sm user pattern va is w len
    | _, _ => common_fd_loop sm user pattern va is w len

/-- The first part of `sendto_common_channels` (taken when `highest_fd < 50`). -/
def sendto_common_channels_fds (sm : SM) (w : World) (user : Nat) (pattern : Str)
    (va : List Arg) : Option Run :=
  let p0 := vsendpreprep w user (CPtr.reg user) pattern va
  let afterEcho : Option (World × Nat × List Call) :=
    if MyConnect (w.cl user) then
      (sm p0.1 user Buf.psendbuf p0.2).map
        (fun r => (r.1, p0.2, [(user, p0.1.readBuf Buf.psendbuf p0.2)]))
    else some (w, 0, [])
  match afterEcho with
  | none => none
  | some (w1, len, e) =>
    (common_fd_loop sm user pattern va (List.range (w1.highest_fd + 1).toNat) w1 len).map
      (fun r2 => { w := r2.1, echo := e, fan := r2.2, rc := 0 })

/-- Statement `sentalong[fd]++;` -/
def markSent (w : World) (fd : Int) : World :=
  { w with sentalong := Function.update w.sentalong fd (w.sentalong fd + 1) }

/-- Statement `bzero((char *)&sentalong[0], sizeof(int) * MAXCONNECTIONS);` -/
def clearSent (w : World) : World :=
  { w with sentalong := fun _ => 0 }

/-- Statement `sentalong[fd] = 1;` -/
def setSent (w : World) (fd : Int) : World :=
  { w with sentalong := Function.update w.sentalong fd 1 }

/-- The loop over the members of one channel of the second part of
`sendto_common_channels`. -/
def common_member_loop (sm : SM) (user : Nat) (pattern : Str) (va : List Arg) :
    List Nat → World → Nat → Option (World × Nat × List Call)
  | [], w, len => some (w, len, [])
  | cptr :: lp, w, len =>
    if user = cptr then common_member_loop sm user pattern va lp w len
    else if (w.cl cptr).user.isNone ∨ w.sentalong (w.cl cptr).fd ≠ 0 then
      common_member_loop sm user pattern va lp w len
    else
      let w1 := markSent w (w.cl cptr).fd
      let p := preprepOnce w1 cptr (CPtr.reg user) pattern va len
      match sm p.1 cptr Buf.psendbuf p.2 with
      | none => none
      | some r =>
        match common_member_loop sm user pattern va lp r.1 p.2 with
        | none => none
        | some r2 => some (r2.1, r2.2.1, (cptr, p.1.readBuf Buf.psendbuf p.2) :: r2.2.2)

/-- The loop over the user's channels of the second part of `sendto_common_channels`. -/
def common_chan_loop (sm : SM) (user : Nat) (pattern : Str) (va : List Arg) :
    List Nat → World → Nat → Option (World × List Call)
  | [], w, _ => some (w, [])
  | chptr :: channels, w, len =>
    if (w.ch chptr).quiet then common_chan_loop sm user pattern va channels w len
    else if (w.ch chptr).anonymous then common_chan_loop sm user pattern va channels w len
    else
      match common_member_loop sm user pattern va (w.ch chptr).clist w len with
      | none => none
      | some r =>
        match common_chan_loop sm user pattern va channels r.1 r.2.1 with
        | none => none
        | some r2 => some (r2.1, r.2.2 ++ r2.2)

/-- The second part of `sendto_common_channels` (taken when `highest_fd >= 50`). -/
def sendto_common_channels_chans (sm : SM) (w : World) (user : Nat) (pattern : Str)
    (va : List Arg) : Option Run :=
  let w0 := clearSent w
  let p0 := vsendpreprep w0 user (CPtr.reg user) pattern va
  let afterEcho : Option (World × Nat × List Call) :=
    if MyConnect (w0.cl user) then
      (sm p0.1 user Buf.psendbuf p0.2).map
        (fun r => (setSent r.1 (r.1.cl user).fd, p0.2,
          [(user, p0.1.readBuf Buf.psendbuf p0.2)]))
    else some (w0, 0, [])
  match afterEcho with
  | none => none
  | some (w1, len, e) =>
    match (w1.cl user).user with
    | none => some { w := w1, echo := e, fan := [], rc := 0 }
    | some u =>
      (common_chan_loop sm user pattern va u.channel w1 len).map
        (fun r2 => { w := r2.1, echo := e, fan := r2.2, rc := 0 })

/-- Function `sendto_common_channels`. -/
def sendto_common_channels_g (sm : SM) (w : World) (user : Nat) (pattern : Str)
    (va : List Arg) : Option Run :=
  if w.highest_fd < 50 then sendto_common_channels_fds sm w user pattern va
  else sendto_common_channels_chans sm w user pattern va

/-- Function `sendto_channel_butone`. -/
def sendto_channel_butone (env : Env) (fuel : Nat) (w : World) (one : Option Nat)
    (from_ : Nat) (chptr : Nat) (pattern : Str) (va : List Arg) : Option Run :=
  sendto_channel_butone_g (send_message env fuel) w one from_ chptr pattern va

/-- Function `sendto_serv_butone`. -/
def sendto_serv_butone (env : Env) (fuel : Nat) (w : World) (one : Option Nat)
    (pattern : Str) (va : List Arg) : Option Run :=
  sendto_serv_butone_g (send_message env fuel) w one pattern va

/-- Function `sendto_serv_v`. -/
def sendto_serv_v (env : Env) (fuel : Nat) (w : World) (one : Option Nat) (ver : Nat)
    (pattern : Str) (va : List Arg) : Option Run :=
  sendto_serv_v_g (send_message env fuel) w one ver pattern va

/-- Function `sendto_serv_notv`. -/
def sendto_serv_notv (env : Env) (fuel : Nat) (w : World) (one : Option Nat) (ver : Nat)
    (pattern : Str) (va : List Arg) : Option Run :=
  sendto_serv_notv_g (send_message env fuel) w one ver pattern va

/-- Function `sendto_match_servs`. -/
def sendto_match_servs (env : Env) (fuel : Nat) (w : World) (chptr : Option Nat)
    (from_ : Nat) (format : Str) (va : List Arg) : Option Run :=
  sendto_match_servs_g env (send_message env fuel) w chptr from_ format va

/-- Function `sendto_common_channels`. -/
def sendto_common_channels (env : Env) (fuel : Nat) (w : World) (user : Nat)
    (pattern : Str) (va : List Arg) : Option Run :=
  sendto_common_channels_g (send_message env fuel) w user pattern va

/-! ### What delivery never changes -/

/-- The fields of a client record that send.c never writes. -/
def aClient.static (c : aClient) :
    Option anUser × Option aServer × Bool × Bool × Option Nat × Int × Status × Str × Str ×
      Nat × Nat :=
  (c.user, c.serv, c.closing, c.cburst, c.«from», c.fd, c.status, c.name, c.sockhost,
    c.acpt, c.cls)

/-- Relation `Frame w w1`: the state `w1` differs from `w` at most in what delivery may
change: queues, counters, exit codes, scratch buffers, `sentalong`, the pool
and class caps, and links newly marked dead. -/
structure Frame (w w1 : World) : Prop where
  static : ∀ p, (w1.cl p).static = (w.cl p).static
  dead : ∀ p, (w.cl p).dead = true → (w1.cl p).dead = true
  ch : w1.ch = w.ch
  loc : w1.«local» = w.«local»
  highest_fd : w1.highest_fd = w.highest_fd
  fdas_fd : w1.fdas_fd = w.fdas_fd
  fdas_highest : w1.fdas_highest = w.fdas_highest
  me : w1.me = w.me
  svchans : w1.svchans = w.svchans

/-- A `send_message` that respects `Frame`. -/
def SMFrame (sm : SM) : Prop :=
  ∀ w to_ msg len r, sm w to_ msg len = some r → Frame w r.1

/-- The test with which the loop of `sendto_channel_butone` selects a link of `clist`. -/
def butoneSelects (w : World) (one : Option Nat) (from_ : Nat) (a : Nat) : Bool :=
  !(decide ((w.cl a).«from» = one) || IsMe (w.cl a)) &&
    !(MyConnect (w.cl a) && IsRegisteredUser (w.cl a) && decide (a = from_))

/-- An ordinary local client as a target of `send_message`: a locally
connected client with a user record that is its own `from` link and is not in
connect burst. -/
def Plain (w : World) (c : Nat) : Prop :=
  MyClient (w.cl c) = true ∧ IsPerson (w.cl c) = true ∧ effective w c = c ∧
    (w.cl c).cburst = false

/-- A `send_message` that, called for an ordinary local client, leaves
`psendbuf` and `sentalong` alone. -/
def SMKeeps (sm : SM) : Prop :=
  ∀ w c msg len r, Plain w c → sm w c msg len = some r →
    r.1.psendbuf = w.psendbuf ∧ r.1.sentalong = w.sentalong

/-- The line `vsendpreprep` prepares for the recipient `to_` of a message of `user`. -/
def commonLine (w : World) (to_ user : Nat) (pattern : Str) (va : List Arg) : List Char :=
  (preprepRender w to_ (CPtr.reg user) pattern va).take 510 ++ ['\r', '\n']

/-- What the first part of `sendto_common_channels` does with descriptor `i`:
the client it calls `send_message` for, if any. -/
def fdPeer (w : World) (user : Nat) (i : Nat) : Option Nat :=
  match w.«local» (i : Int), (w.cl user).user with
  | some cptr, some u =>
    if !IsServer (w.cl cptr) && decide (user ≠ cptr) && common_scan w cptr u.channel then
      some cptr
    else none
  | _, _ => none

/-- Client `c` is on a channel of `user` that is neither quiet nor anonymous. -/
def SharesOpenChannel (w : World) (user c : Nat) : Prop :=
  ∃ u, (w.cl user).user = some u ∧
    ∃ ch ∈ u.channel, IsMember (w.cl c) ch = true ∧ (w.ch ch).quiet = false ∧
      (w.ch ch).anonymous = false

/-- Client `c` is `user` or is on a channel of `user`. -/
def Concerned (w : World) (user c : Nat) : Prop :=
  c = user ∨ ∃ u, (w.cl user).user = some u ∧ ∃ ch ∈ u.channel, IsMember (w.cl c) ch = true

/-- The invariants of the registry that `sendto_common_channels` relies on,
for `user` and the channels of `user`: the table `local[]` and the descriptors
agree; `user`, when local, and every locally connected link with a user record
on a channel of `user` is a client in its slot of `local[]`, is its own `from`
link and is not in connect burst; `clist` and the channel chains of the user
records agree on the local members. -/
structure RegistryOK (w : World) (user : Nat) : Prop where
  slot_fd : ∀ (i : Nat) (c : Nat), (i : Int) ≤ w.highest_fd → w.«local» (i : Int) = some c →
    (w.cl c).fd = (i : Int)
  fd_slot : ∀ c, MyConnect (w.cl c) = true → (w.cl c).user.isSome = true →
    Concerned w user c →
    (w.cl c).fd ≤ w.highest_fd ∧ w.«local» (w.cl c).fd = some c ∧ IsClient (w.cl c) = true ∧
      effective w c = c ∧ (w.cl c).cburst = false
  clist_member : ∀ u, (w.cl user).user = some u → ∀ ch ∈ u.channel, ∀ c ∈ (w.ch ch).clist,
    (w.cl c).user.isSome = true → MyConnect (w.cl c) = true ∧ IsMember (w.cl c) ch = true
  member_clist : ∀ u, (w.cl user).user = some u → ∀ ch ∈ u.channel, ∀ c,
    MyConnect (w.cl c) = true → IsMember (w.cl c) ch = true → c ∈ (w.ch ch).clist

/-- Client `c` is a locally connected peer of `user`, other than `user`, on a channel
of `user` that is neither quiet nor anonymous. -/
def CommonPeer (w : World) (user c : Nat) : Prop :=
  c ≠ user ∧ MyConnect (w.cl c) = true ∧ SharesOpenChannel w user c

/-- A `send_message` that returns in every state that `Frame` relates to `w`. -/
def SMReturns (sm : SM) (w : World) : Prop :=
  ∀ w1 c msg len, Frame w w1 → (sm w1 c msg len).isSome = true

/-! ### Example states

The first end-to-end scenario of the specification: on the server
`irc.example.` (record 0) the channel `#dev` (channel 0) has the local members
`alice` (record 1, descriptor 4) and `bob` (record 2, descriptor 5) and the
remote member `carol` (record 3) behind the server link `peer.example.`
(record 4, descriptor 6). -/

/-- A client record with empty queues. -/
def mkClient (name : String) (st : Status) (fd : Int) (frm : Option Nat) (u : Option anUser)
    (sockhost : String) : aClient :=
  { user := u, serv := none, dead := false, closing := false, cburst := false,
    «from» := frm, fd := fd, status := st, name := name.toList, sockhost := sockhost.toList,
    acpt := 0, cls := 0, recvQ := [], sendQ := [], lastsq := 0, exitc := ExitCode.UNDEF,
    sendM := 0 }

/-- An environment in which the buffer pool never runs out and every socket
would block. -/
def scenarioEnv : Env :=
  { dbuf_put := fun _ _ _ => 0, dbuf_map := fun w p => (w.cl p).sendQ.length,
    deliver_it := fun _ _ _ => 0, get_client_name := fun w p => (w.cl p).name,
    find_uid := fun _ _ => none, «match» := fun _ _ => 0 }

/-- A user record on `#dev`. -/
def mkUser (username host server : String) : anUser :=
  { channel := [0], username := username.toList, host := host.toList, server := server.toList }

/-- The client records of the scenario. -/
def scenarioClients (p : Nat) : aClient :=
  match p with
  | 1 => mkClient "alice" Status.CLIENT 4 (some 1)
      (some (mkUser "~alice" "host.local" "irc.example.")) "host.local"
  | 2 => mkClient "bob" Status.CLIENT 5 (some 2)
      (some (mkUser "~bob" "b.local" "irc.example.")) "b.local"
  | 3 => mkClient "carol" Status.CLIENT (-1) (some 4)
      (some (mkUser "carol" "c.remote" "peer.example.")) ""
  | 4 => { mkClient "peer.example." Status.SERVER 6 (some 4) none "peer.example." with
      serv := some { version := 1, byuid := [] } }
  | _ => mkClient "irc.example." Status.ME (-1) none none ""

/-- The state of the scenario; no server channel has been set up, and every
class has a SendQ cap of 100000 bytes. -/
def scenarioWorld : World :=
  { cl := scenarioClients,
    ch := fun _ => { chname := "#dev".toList, clist := [1, 2, 4], quiet := false,
                      anonymous := false },
    «local» := fun fd =>
      if fd = 4 then some 1 else if fd = 5 then some 2 else if fd = 6 then some 4 else none,
    highest_fd := 6, fdas_fd := fun _ => 6, fdas_highest := 0, me := 0,
    svchans := fun _ => none, sendbuf := [], psendbuf := [], sentalong := fun _ => 0,
    poolsize := 1000000, MaxSendq := fun _ => 100000, is_dbufmore := 0 }

/-- The scenario with `bob` already marked dead. -/
def deadBobWorld : World :=
  scenarioWorld.setCl 2 { scenarioClients 2 with dead := true }

/-- The scenario with a SendQ cap of 4 bytes for every class and 4 bytes
waiting in `bob`'s send queue. -/
def fullBobWorld : World :=
  { scenarioWorld.setCl 2 { scenarioClients 2 with sendQ := "abcd".toList } with
    MaxSendq := fun _ => 4 }

/-- The scenario with `#dev` quiet. -/
def quietWorld : World :=
  { scenarioWorld with
    ch := fun _ => { chname := "#dev".toList, clist := [1, 2, 4], quiet := true,
                      anonymous := false } }

/-- The pattern of a relayed PRIVMSG. -/
def privmsgPattern : Str := ":%s PRIVMSG %s :%s".toList

/-- The arguments of the scenario's message, sent by `nick`. -/
def privmsgArgs (nick : String) : List Arg :=
  [Arg.str nick.toList, Arg.str "#dev".toList, Arg.str "hi".toList]

/-- A run that made no call, the default of the example runs. -/
def idleRun (w : World) : Run := { w := w, echo := [], fan := [], rc := 0 }

/-- The second scenario with two more local clients and a server link about
to be dropped: `#dev` is anonymous with `clist` alice, bob, peer.example.,
dave (record 5, descriptor 7); the link to `peer.example.` is of class 1,
whose SendQ cap is 4 bytes, and has 5 bytes queued; the operator `oper`
(record 6, descriptor 8) is on `&ERRORS` (channel 1). -/
def droppedPeerWorld : World :=
  { scenarioWorld with
    cl := fun p =>
      match p with
      | 4 => { scenarioClients 4 with cls := 1, sendQ := "abcde".toList }
      | 5 => mkClient "dave" Status.CLIENT 7 (some 5)
          (some (mkUser "~dave" "d.local" "irc.example.")) "d.local"
      | 6 => mkClient "oper" Status.CLIENT 8 (some 6)
          (some { channel := [1], username := "~oper".toList, host := "o.local".toList,
                  server := "irc.example.".toList }) "o.local"
      | q => scenarioClients q,
    ch := fun c =>
      match c with
      | 1 => { chname := "&ERRORS".toList, clist := [6], quiet := true, anonymous := true }
      | _ => { chname := "#dev".toList, clist := [1, 2, 4, 5], quiet := false,
               anonymous := true },
    «local» := fun fd =>
      if fd = 4 then some 1 else if fd = 5 then some 2 else if fd = 6 then some 4
      else if fd = 7 then some 5 else if fd = 8 then some 6 else none,
    highest_fd := 8,
    svchans := fun i => if i = SChanId.SCH_ERROR then some 1 else none,
    MaxSendq := fun c => if c = 1 then 4 else 100000 }

/-! ### What a dead link keeps -/

/-- The record of a client with its message counter set aside. -/
def aClient.noCount (c : aClient) : aClient := { c with sendM := 0 }

/-- A relation between a state and a later one that the fan-out to a channel
hands on: it holds of a state and itself, composes, and holds across a write
to `psendbuf`. -/
structure Passes (R : World → World → Prop) : Prop where
  refl : ∀ w, R w w
  trans : ∀ w1 w2 w3, R w1 w2 → R w2 w3 → R w1 w3
  psendbuf : ∀ (w : World) (b : List Char), R w { w with psendbuf := b }

/-- A relation between a state and a later one that holds across a write to
`sendbuf`. -/
def PassesSendbuf (R : World → World → Prop) : Prop :=
  ∀ (w : World) (b : List Char), R w { w with sendbuf := b }

/-- If the link `p` is marked dead in `w`, its record in `w1` is the one in `w`,
the message counter apart. -/
def Gone (p : Nat) (w w1 : World) : Prop :=
  (w.cl p).dead = true → (w1.cl p).noCount = (w.cl p).noCount

/-! ### A link over its cap -/

/-- The second scenario with the link to `peer.example.` already marked CLOSING. -/
def closingPeerWorld : World :=
  droppedPeerWorld.setCl 4 { droppedPeerWorld.cl 4 with closing := true }

/-- The text `send_message` prepares in `ebuf` for a server or service link over
its cap: the link's name, the queue length and the cap. -/
def maxSendqText (name : Str) (l c : Int) : Str :=
  "Max SendQ limit exceeded for ".toList ++ name ++ ": ".toList ++ fmtInt l ++ " > ".toList
    ++ fmtInt c

/-- The state in which `send_message` posts the diagnostic for a link over its
cap: the exit code is recorded, the link is marked dead and its queues are
cleared. -/
def overCapState (w : World) (t : Nat) : World :=
  setDeadAndClear (setExitc w t ExitCode.SENDQ) t

/-! ### What goes out on the socket -/

/-- The writes the loop of `send_queued` makes on the socket of `to_`, in
order: for each call of `deliver_it` that reports no error, the bytes
offered and the number of bytes accepted.  The recursion is that of
`send_queued_loop`. -/
def send_queued_writes (env : Env) (to_ : Nat) : Nat → World → List (List Char × Nat)
  | 0, _ => []
  | n + 1, w =>
    if (w.cl to_).sendQ.length > 0 then
      let len := env.dbuf_map w to_
      let msg := (w.cl to_).sendQ.take len
      let rlen := env.deliver_it w to_ msg
      if rlen < 0 then []
      else
        let w2 := dequeue w to_ rlen.toNat
        if rlen < len then [(msg, rlen.toNat)]
        else (msg, rlen.toNat) :: send_queued_writes env to_ n w2
    else []

/-- The bytes that went out on the socket in a sequence of writes. -/
def wireBytes (ws : List (List Char × Nat)) : List Char :=
  ws.flatMap (fun x => x.1.take x.2)

/-- Every write but the last took all the bytes it was offered. -/
def stopsAtShort : List (List Char × Nat) → Bool
  | [] => true
  | [_] => true
  | x :: y :: l => decide (x.2 = x.1.length) && stopsAtShort (y :: l)

/-- An environment whose socket takes the two bytes it is offered while more
than three bytes are queued, and one byte afterwards. -/
def slowSocketEnv : Env :=
  { scenarioEnv with
    dbuf_map := fun w p => min 2 (w.cl p).sendQ.length,
    deliver_it := fun w p m => if (w.cl p).sendQ.length ≤ 3 then min 1 m.length else m.length }

/-- An environment whose socket reports an error on every write. -/
def brokenSocketEnv : Env :=
  { scenarioEnv with deliver_it := fun _ _ _ => -1 }

/-! ### Relations kept by every update -/

/-- A relation between a state and a later one that holds across each of the
updates `send_message`, `send_queued` and `dead_link` make. -/
structure Updates (R : World → World → Prop) : Prop where
  dead : ∀ w t, R w (setDeadAndClear w t)
  sendq : ∀ w t, R w (setExitc w t ExitCode.SENDQ)
  mbuf : ∀ w t, R w (setExitc w t ExitCode.MBUF)
  enq : ∀ w t b, R w (enqueue w t b)
  deq : ∀ w t k, R w (dequeue w t k)
  count : ∀ w t, R w (incSendM w t)
  raise : ∀ w t, R w (raise_sendq w t)
  more : ∀ w : World, R w { w with is_dbufmore := w.is_dbufmore + 1 }
  sendbuf : PassesSendbuf R

/-- The exit code of every link in `w1` is the one it has in `w`, or one of
the two codes send.c records. -/
def ExitKept (w w1 : World) : Prop :=
  ∀ p, (w1.cl p).exitc = (w.cl p).exitc ∨ (w1.cl p).exitc = ExitCode.SENDQ ∨
    (w1.cl p).exitc = ExitCode.MBUF

/-- The loop of `send_queued` comes to a write for which `deliver_it` reports
an error.  The recursion is that of `send_queued_loop`. -/
def send_queued_errs (env : Env) (to_ : Nat) : Nat → World → Bool
  | 0, _ => false
  | n + 1, w =>
    if (w.cl to_).sendQ.length > 0 then
      let len := env.dbuf_map w to_
      let msg := (w.cl to_).sendQ.take len
      let rlen := env.deliver_it w to_ msg
      if rlen < 0 then true
      else
        let w2 := dequeue w to_ rlen.toNat
        if rlen < len then false else send_queued_errs env to_ n w2
    else false

/-! ### The links of the server fan-outs -/

/-- The test both server loops make before the version test: the link is not
the `from` link of `one` and is not the server itself. -/
def servEligible (w : World) (one : Option Nat) (cptr : Nat) : Bool :=
  (match one with
    | none => true
    | some o => decide (some cptr ≠ (w.cl o).«from»)) && !IsMe (w.cl cptr)

/-- The links the server loops consider, in the order they visit them: the
links found in `local[]` under the descriptors of `fdas` that pass
`servEligible`. -/
def servLinks (w : World) (one : Option Nat) : List Nat :=
  ((fdasIndices w).filterMap (fdasClient w)).filter (servEligible w one)

/-! ### The burst path of `send_message` -/

/-- The state `w1` has the class caps, the pool size, the burst counter and
the buffer `sendbuf` of `w`, and the record of the link `t` is the one in
`w`, the message counter apart. -/
def Calm (t : Nat) (w w1 : World) : Prop :=
  w1.MaxSendq = w.MaxSendq ∧ w1.poolsize = w.poolsize ∧ w1.is_dbufmore = w.is_dbufmore ∧
    w1.sendbuf = w.sendbuf ∧ (w1.cl t).noCount = (w.cl t).noCount

/-- Every locally connected client is an ordinary one: it has a user record,
is its own `from` link and is not in connect burst. -/
def LocalsPlain (w : World) : Prop :=
  ∀ c, MyClient (w.cl c) = true → Plain w c

/-- What a fan-out to local clients keeps when the local clients are
ordinary ones and `t` is not one of them. -/
def CalmFanout (t : Nat) (w w1 : World) : Prop :=
  Frame w w1 ∧ (LocalsPlain w → MyClient (w.cl t) = false → Calm t w w1)

/-- The second scenario with the link to `peer.example.` in connect burst and
the operator also on `&NOTICES` (channel 2): the link has 5 bytes queued
against the cap 4 of its class. -/
def burstPeerWorld : World :=
  { droppedPeerWorld with
    cl := fun p =>
      match p with
      | 4 => { droppedPeerWorld.cl 4 with cburst := true }
      | q => droppedPeerWorld.cl q,
    ch := fun c =>
      match c with
      | 2 => { chname := "&NOTICES".toList, clist := [6], quiet := true, anonymous := true }
      | d => droppedPeerWorld.ch d,
    svchans := fun i =>
      if i = SChanId.SCH_ERROR then some 1 else if i = SChanId.SCH_NOTICE then some 2 else none }

/-- The state `burstPeerWorld` with the odd cap 3 for every class. -/
def oddCapWorld : World :=
  { burstPeerWorld with MaxSendq := fun _ => 3 }

/-- An environment whose buffer allocator refuses every request. -/
def refusingEnv : Env :=
  { scenarioEnv with dbuf_put := fun _ _ _ => -1 }

/-! ## The resolver (ircd/res.c)

The build embedded here has neither `INET6`, nor `LRAND48`, nor `DEBUG`.
The intrusive singly linked lists of res.c (the cache list from `cachetop`,
the two kinds of hash chain, the list of requests from `first`) are the Lean
lists of the addresses of their nodes, in chain order: linking a node in
front is `::`, and unlinking the first node that equals a pointer is
`List.erase`.  `MyMalloc` hands out the addresses `brk`, `brk + 1`, ... -/

/-- The constants of res_def.h (not under src/) that res.c uses. -/
structure ResConf where
  ARES_CACSIZE : Nat
  MAXCACHED : Int
  MAXALIASES : Nat
  MAXADDRS : Nat
  AR_TTL : Int
  /-- `sizeof(hostbuf)`, that is `HOSTLEN + 1 + 100` -/
  hostbufSize : Nat

/-- The four bytes of a `struct in_addr`, in memory order. -/
structure InAddr where
  b0 : Nat
  b1 : Nat
  b2 : Nat
  b3 : Nat
  deriving DecidableEq, Repr

/-- The address 0.0.0.0, which res.c uses as "no address". -/
def InAddr.zero : InAddr := ⟨0, 0, 0, 0⟩

/-- Modelled from the spec: the macro WHOSTENTP of res_def.h (not under
src/), the test that an address slot is in use: the address is not zero. -/
def WHOSTENTP (a : InAddr) : Bool := decide (a ≠ InAddr.zero)

/-- The `struct hostent` of a cache entry.  Its two arrays are allocated by
`make_cache` for every entry, and are the lists of their elements before the
terminating NULL. -/
structure hostent where
  h_name : Str
  h_aliases : List Str
  h_addrtype : Int
  h_length : Int
  h_addr_list : List InAddr
  deriving DecidableEq, Repr

/-- A cache entry (`aCache`); its three link fields are the positions in the
lists of the resolver state. -/
structure aCache where
  expireat : Int
  ttl : Int
  he : hostent
  deriving DecidableEq, Repr

/-- The `struct hent` of a request: `h_name` may be NULL, `h_aliases` are the
entries before the first NULL, and `h_addr_list` is the array of addresses as
far as it has been written (the slots behind it are zero). -/
structure hent where
  h_name : Option Str
  h_aliases : List Str
  h_addrtype : Int
  h_length : Int
  h_addr_list : List InAddr
  deriving DecidableEq, Repr

/-- The counters `cainfo`. -/
structure cacheinfo where
  ca_adds : Nat
  ca_dels : Nat
  ca_expires : Nat
  ca_lookups : Nat
  ca_na_hits : Nat
  ca_nu_hits : Nat
  ca_updates : Nat
  deriving DecidableEq, Repr

/-- The state of the cache: the entries by address, the list from
`cachetop`, the chains of `hashtable`, `incache`, the counters, the clock, the
`hostp` pointer of the client in each slot of `local[]` (`none` for an empty
slot or a NULL pointer), and the next address `MyMalloc` hands out. -/
structure Cache where
  ce : Nat → aCache
  cachetop : List Nat
  name_list : Nat → List Nat
  num_list : Nat → List Nat
  incache : Int
  cainfo : cacheinfo
  timeofday : Int
  hostp : Int → Option Nat
  highest_fd : Int
  brk : Nat
  /-- `reinfo.re_shortttl` -/
  re_shortttl : Nat

/-- Function `hash_number`, on the four bytes of an address. -/
def hash_number (k : ResConf) (ip : InAddr) : Nat :=
  ((((ip.b0 + (ip.b0 + ip.b1)) + ((ip.b0 + (ip.b0 + ip.b1)) + ip.b2))
    + (((ip.b0 + (ip.b0 + ip.b1)) + ((ip.b0 + (ip.b0 + ip.b1)) + ip.b2)) + ip.b3)) % 2 ^ 32)
    % k.ARES_CACSIZE

/-- Function `hash_name`: the sum of the characters before the first '.'. -/
def hash_name (k : ResConf) (name : Str) : Nat :=
  (((name.takeWhile (· ≠ '.')).map Char.toNat).sum % 2 ^ 32) % k.ARES_CACSIZE

/-- The primary address `he.h_addr` of an entry, `h_addr_list[0]`. -/
def hostent.h_addr (h : hostent) : InAddr := h.h_addr_list.headD InAddr.zero

/-- The loop of `rem_cache` over `local[]`: every `hostp` that points to the
entry is set to NULL. -/
def clearHostp (c : Cache) (ocp : Nat) : Int → Option Nat :=
  fun fd => if 0 ≤ fd ∧ fd ≤ c.highest_fd ∧ c.hostp fd = some ocp then none else c.hostp fd

/-- Function `rem_cache`: unlink the entry from the list and from its two
hash chains, and count it out. -/
def rem_cache (k : ResConf) (c : Cache) (ocp : Nat) : Cache :=
  let hn := hash_name k (c.ce ocp).he.h_name
  let hu := hash_number k (c.ce ocp).he.h_addr
  let names := Function.update c.name_list hn ((c.name_list hn).erase ocp)
  let nums := Function.update c.num_list hu ((c.num_list hu).erase ocp)
  let info := { c.cainfo with ca_dels := c.cainfo.ca_dels + 1 }
  { c with hostp := clearHostp c ocp, cachetop := c.cachetop.erase ocp, name_list := names,
           num_list := nums, incache := c.incache - 1, cainfo := info }

/-- The LRU deletion of `add_to_cache`: the walk from `cachetop` to the entry
without successor, and `rem_cache` for it. -/
def evictLast (k : ResConf) (c : Cache) : Cache :=
  match c.cachetop.getLast? with
  | some cp => rem_cache k c cp
  | none => c

/-- Function `add_to_cache`: link the entry in front of the list and of its two
hash chains; one entry too many is removed from the end of the list. -/
def add_to_cache (k : ResConf) (c : Cache) (ocp : Nat) : Cache :=
  let hn := hash_name k (c.ce ocp).he.h_name
  let hu := hash_number k (c.ce ocp).he.h_addr
  let names := Function.update c.name_list hn (ocp :: c.name_list hn)
  let nums := Function.update c.num_list hu (ocp :: c.num_list hu)
  let c1 := { c with cachetop := ocp :: c.cachetop, name_list := names, num_list := nums,
                     incache := c.incache + 1 }
  let c2 := if c1.incache > k.MAXCACHED then evictLast k c1 else c1
  { c2 with cainfo := { c2.cainfo with ca_adds := c2.cainfo.ca_adds + 1 } }

/-- The names `update_list` reads from the request: `h_name` and the aliases,
as far as the loop index allows; none when `h_name` is NULL. -/
def requestNames (k : ResConf) (r : hent) : List Str :=
  match r.h_name with
  | some n => (n :: r.h_aliases).take k.MAXALIASES
  | none => []

/-- The first loop of `update_list` over the names of the request: a name
that none of the names of the entry equals under `mycmp` is appended to the
aliases, while there is room. -/
def mergeAliases (k : ResConf) : List Str → hostent → hostent
  | [], h => h
  | s :: rest, h =>
    let known := ((h.h_name :: h.h_aliases).take k.MAXALIASES).any (fun t => mycmp t s = 0)
    if !known ∧ h.h_aliases.length + 2 < k.MAXALIASES then
      mergeAliases k rest { h with h_aliases := h.h_aliases ++ [s] }
    else mergeAliases k rest h

/-- The second loop of `update_list` over the addresses of the request;
`addrcount` is the local of that name.  An address the entry does not have is
stored behind the first `addrcount` addresses, and the loop that rebuilds the
pointer array leaves `addrcount` at 0. -/
def mergeAddrs (k : ResConf) : List InAddr → hostent → Nat → hostent
  | [], h, _ => h
  | s :: rest, h, addrcount =>
    let i := h.h_addr_list.indexOf s
    if i ≥ k.MAXADDRS ∨ addrcount ≥ k.MAXADDRS then h
    else if s ∈ h.h_addr_list then mergeAddrs k rest h addrcount
    else mergeAddrs k rest { h with h_addr_list := h.h_addr_list.take addrcount ++ [s] } 0

/-- Function `update_list`: the entry moves to the top of the list, and with a
request at hand the names and addresses of the request that the entry lacks
are added to it. -/
def update_list (k : ResConf) (c : Cache) (rptr : Option hent) (cachep : Nat) : Cache :=
  let c1 := { c with cainfo := { c.cainfo with ca_updates := c.cainfo.ca_updates + 1 } }
  if cachep ∈ c1.cachetop then
    let c2 := { c1 with cachetop := cachep :: c1.cachetop.erase cachep }
    match rptr with
    | none => c2
    | some r =>
      let h1 := mergeAliases k (requestNames k r) (c2.ce cachep).he
      let h2 := mergeAddrs k (r.h_addr_list.takeWhile WHOSTENTP) h1 h1.h_addr_list.length
      { c2 with ce := Function.update c2.ce cachep { c2.ce cachep with he := h2 } }
  else c1

/-- The hit of the two lookups: count it (`name` says in which counter) and
call `update_list`. -/
def cacheHit (k : ResConf) (c : Cache) (byName : Bool) (rptr : Option hent) (cp : Nat) :
    Cache × Option Nat :=
  let info : cacheinfo :=
    if byName then { c.cainfo with ca_na_hits := c.cainfo.ca_na_hits + 1 }
    else { c.cainfo with ca_nu_hits := c.cainfo.ca_nu_hits + 1 }
  (update_list k { c with cainfo := info } rptr cp, some cp)

/-- Function `find_cache_name`: first the chain of the bucket of `name`, every
entry by its name and all its aliases; then the whole list, every entry of
another bucket that has aliases, by its first alias (the index of the inner
loop is not used to fetch the next alias). -/
def find_cache_name (k : ResConf) (c : Cache) (name : Str) : Cache × Option Nat :=
  let hashv := hash_name k name
  match (c.name_list hashv).find?
      (fun cp => ((c.ce cp).he.h_name :: (c.ce cp).he.h_aliases).any (fun s => mycmp s name = 0))
    with
  | some cp => cacheHit k c true none cp
  | none =>
    match c.cachetop.find? (fun cp =>
        match (c.ce cp).he.h_aliases with
        | [] => false
        | a :: _ =>
          decide (hashv ≠ hash_name k (c.ce cp).he.h_name) && decide (0 < k.MAXALIASES) &&
            decide (mycmp name a = 0)) with
    | some cp => cacheHit k c true none cp
    | none => (c, none)

/-- Function `find_cache_number`: first the chain of the bucket of the address,
every entry by all its addresses; then the whole list, every entry with more
than one address whose first address is of another bucket, by its further
addresses. -/
def find_cache_number (k : ResConf) (c : Cache) (rptr : Option hent) (numb : InAddr) :
    Cache × Option Nat :=
  let hashv := hash_number k numb
  match (c.num_list hashv).find? (fun cp => decide (numb ∈ (c.ce cp).he.h_addr_list)) with
  | some cp => cacheHit k c false rptr cp
  | none =>
    match c.cachetop.find? (fun cp =>
        match (c.ce cp).he.h_addr_list with
        | a :: b :: l => decide (hashv ≠ hash_number k a) && decide (numb ∈ b :: l)
        | _ => false) with
    | some cp => cacheHit k c false rptr cp
    | none => (c, none)

/-- The loop of `make_cache` that looks each address of the request up in the
cache, and stops at the first hit. -/
def make_cache_find (k : ResConf) (rhe : hent) : List InAddr → Cache → Cache × Option Nat
  | [], c => (c, none)
  | a :: rest, c =>
    match find_cache_number k c (some rhe) a with
    | (c1, some cp) => (c1, some cp)
    | (c1, none) => make_cache_find k rhe rest c1

/-- The `struct hostent` `make_cache` builds from a request whose name is
`name`: at most `MAXADDRS - 1` of its addresses, and the aliases in the
`MAXALIASES` slots of the request. -/
def newHostent (k : ResConf) (name : Str) (rhe : hent) : hostent :=
  { h_name := name, h_aliases := rhe.h_aliases.take k.MAXALIASES, h_addrtype := rhe.h_addrtype,
    h_length := rhe.h_length,
    h_addr_list := (rhe.h_addr_list.takeWhile WHOSTENTP).take (k.MAXADDRS - 1) }

/-- The TTL `make_cache` gives an entry: that of the request, or 600 when
that is less. -/
def cacheTtl (ttl : Int) : Int := if ttl < 600 then 600 else ttl

/-- The entry `make_cache` allocates: it is stored at the address the
allocator hands out, with its TTL and its expiry time `timeofday + cp->ttl`;
a TTL under 600 is counted in `re_shortttl`. -/
def storeEntry (c : Cache) (he : hostent) (ttl : Int) : Cache :=
  let entry : aCache := { expireat := c.timeofday + cacheTtl ttl, ttl := cacheTtl ttl, he := he }
  let n := if ttl < 600 then c.re_shortttl + 1 else c.re_shortttl
  { c with ce := Function.update c.ce c.brk entry, brk := c.brk + 1, re_shortttl := n }

/-- Function `make_cache` for a request with the record `rhe` and the TTL
`ttl`: the entry returned, if any, and the record of the request as it is
left (the name and the alias pointers that went into a new entry are set to
NULL there, the first alias slot among them). -/
def make_cache (k : ResConf) (c : Cache) (rhe : hent) (ttl : Int) :
    Cache × Option Nat × hent :=
  match rhe.h_name with
  | none => (c, none, rhe)
  | some name =>
    if !WHOSTENTP (rhe.h_addr_list.headD InAddr.zero) then (c, none, rhe)
    else
      match make_cache_find k rhe (rhe.h_addr_list.takeWhile WHOSTENTP) c with
      | (c1, some cp) => (c1, some cp, rhe)
      | (c1, none) =>
        let c2 := storeEntry c1 (newHostent k name rhe) ttl
        (add_to_cache k c2 c1.brk, some c1.brk, { rhe with h_name := none, h_aliases := [] })

/-- The loop of `expire_cache` over the entries of the list as it was at the
start (each successor is read before the entry is removed); `next` is the
local of that name. -/
def expire_loop (k : ResConf) (now : Int) : List Nat → Cache → Int → Cache × Int
  | [], c, next => (c, next)
  | cp :: rest, c, next =>
    if now ≥ (c.ce cp).expireat then
      let c1 := { c with cainfo := { c.cainfo with ca_expires := c.cainfo.ca_expires + 1 } }
      expire_loop k now rest (rem_cache k c1 cp) next
    else if next = 0 ∨ next > (c.ce cp).expireat then
      expire_loop k now rest c (c.ce cp).expireat
    else expire_loop k now rest c next

/-- Function `expire_cache`: remove the entries whose time has come; returns the
time of the next call. -/
def expire_cache (k : ResConf) (c : Cache) (now : Int) : Cache × Int :=
  let r := expire_loop k now c.cachetop c 0
  (r.1, if r.2 > now then r.2 else now + k.AR_TTL)

/-- The loop of `flush_cache`; the first argument bounds the iterations. -/
def flush_loop (k : ResConf) : Nat → Cache → Cache
  | 0, c => c
  | n + 1, c =>
    match c.cachetop with
    | cp :: _ => flush_loop k n (rem_cache k c cp)
    | [] => c

/-- Function `flush_cache`: one removal for each entry of the list. -/
def flush_cache (k : ResConf) (c : Cache) : Cache :=
  flush_loop k c.cachetop.length c

/-- The times of the cache are kept: the clock, the allocator, the counter of
short TTLs, and the TTL and expiry time of every entry. -/
def SameTimes (c c1 : Cache) : Prop :=
  c1.brk = c.brk ∧ c1.timeofday = c.timeofday ∧ c1.re_shortttl = c.re_shortttl ∧
    ∀ p, (c1.ce p).ttl = (c.ce p).ttl ∧ (c1.ce p).expireat = (c.ce p).expireat

/-! ### The operations of the cache and the invariant of its list -/

/-- What is done to the cache from outside `make_cache`: an answer is cached, a
name or an address is looked up, the expired entries are removed, an entry of
the list is removed, the cache is flushed, or the clock moves. -/
inductive CacheOp where
  | make (rhe : hent) (ttl : Int)
  | byName (name : Str)
  | byNumber (rptr : Option hent) (numb : InAddr)
  | expire (now : Int)
  | remove (cp : Nat)
  | flush
  | clock (t : Int)

/-- The effect of one operation; `rem_cache` is only ever called for an entry
of the list, so a removal of anything else is no operation of the cache. -/
def CacheOp.apply (k : ResConf) (c : Cache) : CacheOp → Cache
  | CacheOp.make rhe ttl => (make_cache k c rhe ttl).1
  | CacheOp.byName name => (find_cache_name k c name).1
  | CacheOp.byNumber rptr numb => (find_cache_number k c rptr numb).1
  | CacheOp.expire now => (expire_cache k c now).1
  | CacheOp.remove cp => if cp ∈ c.cachetop then rem_cache k c cp else c
  | CacheOp.flush => flush_cache k c
  | CacheOp.clock t => { c with timeofday := t }

/-- The invariant of the cache list: `incache` counts its entries, no entry
is on it twice, every entry was handed out by the allocator, has a TTL of at
least 600, and there are at most `MAXCACHED` entries. -/
structure CacheOK (k : ResConf) (c : Cache) : Prop where
  count : c.incache = c.cachetop.length
  nodup : c.cachetop.Nodup
  fresh : ∀ p ∈ c.cachetop, p < c.brk
  ttl : ∀ p ∈ c.cachetop, 600 ≤ (c.ce p).ttl
  bound : (c.cachetop.length : Int) ≤ k.MAXCACHED

/-! ### Example states of the cache -/

/-- The values the constants have in the distribution of the server. -/
def stdConf : ResConf :=
  { ARES_CACSIZE := 101, MAXCACHED := 81, MAXALIASES := 35, MAXADDRS := 35, AR_TTL := 600,
    hostbufSize := 164 }

/-- The same constants with room for two entries only. -/
def tinyConf : ResConf := { stdConf with MAXCACHED := 2 }

/-- An empty cache at time 1000. -/
def emptyCache : Cache :=
  { ce := fun _ => { expireat := 0, ttl := 0,
                     he := { h_name := [], h_aliases := [], h_addrtype := 0, h_length := 0,
                             h_addr_list := [] } },
    cachetop := [], name_list := fun _ => [], num_list := fun _ => [], incache := 0,
    cainfo := { ca_adds := 0, ca_dels := 0, ca_expires := 0, ca_lookups := 0, ca_na_hits := 0,
                ca_nu_hits := 0, ca_updates := 0 },
    timeofday := 1000, hostp := fun _ => none, highest_fd := -1, brk := 0, re_shortttl := 0 }

/-- The record of a request that has been answered with the name `name` and
the address 192.0.2.`last`. -/
def answered (name : String) (last : Nat) : hent :=
  { h_name := some name.toList, h_aliases := [], h_addrtype := 2, h_length := 4,
    h_addr_list := [⟨192, 0, 2, last⟩] }

/-! ### Requests and replies -/

/-- A `Link` as res.c uses it for the context of a request: its flags and
the pointer it carries. -/
structure Link where
  flags : Int
  value : Nat
  deriving DecidableEq, Repr

/-- A request (`ResRQ`); the `next` pointer is the position in the list of
the resolver state. -/
structure ResRQ where
  id : Int
  sent : Int
  srch : Int
  ttl : Int
  type : Int
  retries : Int
  sends : Int
  resend : Int
  sentat : Int
  timeout : Int
  addr : InAddr
  name : Option Str
  cinfo : Link
  he : hent
  deriving DecidableEq, Repr

/-- The counters `reinfo`, `re_shortttl` apart, which is kept with the cache. -/
structure resinfo where
  re_errors : Nat
  re_nu_look : Nat
  re_na_look : Nat
  re_replies : Nat
  re_requests : Nat
  re_resends : Nat
  re_sent : Nat
  re_timeouts : Nat
  re_unkrep : Nat
  deriving DecidableEq, Repr

/-- The state of the resolver: the cache, the requests by address and the
list from `first` to `last`, the counters, what res.c reads of `ircd_res`
(the addresses and the number of the name servers, the options `RES_DEFNAMES`
and `RES_PRIMARY`, the default domain, the retry count), `h_errno`, and the
notices handed to `sendto_flag`, the latest last. -/
structure Resolver where
  cache : Cache
  rq : Nat → ResRQ
  flight : List Nat
  reinfo : resinfo
  nsaddr_list : Nat → InAddr
  nscount : Int
  RES_DEFNAMES : Bool
  RES_PRIMARY : Bool
  defdname : Str
  retry : Int
  h_errno : Int
  notices : List (SChanId × Str)

/-- What res.c gets from outside: the query `ircd_res_mkquery` builds for a
name, a class and a type (its length, not positive on failure, and the id in
its header), the microseconds of `gettimeofday`, and whether the `sendto` to
the name server of an index sends the whole query. -/
structure ResEnv where
  mkquery : Resolver → Str → Int → Int → Int × Int
  usec : Resolver → Nat
  sendto_ok : Resolver → Nat → Bool

/-- One record of the answer section as the decoding functions of res_comp.c
present it: the owner name `ircd_dn_expand` writes to `hostbuf` (`none` when
it returns no positive length), type, class, TTL and data length, the data
read as an address, and the data expanded as a name (`none` when
`ircd_dn_expand` fails on it). -/
structure RR where
  owner : Option Str
  type : Int
  cls : Int
  ttl : Int
  dlen : Int
  addr : InAddr
  target : Option Str
  deriving DecidableEq, Repr

/-- A datagram as `get_res` reads it: the return value of `recvfrom`, the
source address, the id, the response code and the answer count of the header,
and the records of the answer section that lie before the end of the
datagram. -/
structure Datagram where
  rc : Int
  src : InAddr
  id : Int
  rcode : Int
  ancount : Int
  answers : List RR
  deriving DecidableEq, Repr

/-- Value of `h_errno` from netdb.h. -/
def TRY_AGAIN : Int := 2

/-- Value of `h_errno` from netdb.h. -/
def NO_RECOVERY : Int := 3

/-- Value of `h_errno` from netdb.h. -/
def NO_DATA : Int := 4

/-- Response code of arpa/nameser.h. -/
def NOERROR : Int := 0

/-- Response code of arpa/nameser.h. -/
def SERVFAIL : Int := 2

/-- Response code of arpa/nameser.h. -/
def NXDOMAIN : Int := 3

/-- Record type of arpa/nameser.h. -/
def T_A : Int := 1

/-- Record type of arpa/nameser.h. -/
def T_CNAME : Int := 5

/-- Record type of arpa/nameser.h. -/
def T_PTR : Int := 12

/-- The class of Internet records. -/
def C_IN : Int := 1

/-- The address family `AF_INET`, which `AFINET` stands for without INET6. -/
def AFINET : Int := 2

/-- The address family `AF_UNSPEC`. -/
def AF_UNSPEC : Int := 0

/-- The size of the header of a DNS message, `sizeof(HEADER)`. -/
def sizeofHEADER : Int := 12

/-- Modelled from the spec: inetntoa of support.c (not under src/), the
dotted decimal text of an address. -/
def inetntoa (a : InAddr) : Str :=
  vsprintf "%u.%u.%u.%u".toList [Arg.int a.b0, Arg.int a.b1, Arg.int a.b2, Arg.int a.b3]

/-- The C library's `isspace` in the C locale. -/
def isspace (c : Char) : Bool :=
  c = ' ' || c = '\t' || c = '\n' || c = Char.ofNat 11 || c = Char.ofNat 12 || c = '\r'

/-- Function `bad_hostname`: -1 when one of the first `len` characters of the name
is white space, BEL, ':', '*' or '?', else 0. -/
def bad_hostname (name : Str) (len : Nat) : Int :=
  if (name.take len).any
      (fun c => isspace c || c = Char.ofNat 7 || c = ':' || c = '*' || c = '?') then -1
  else 0

/-- Replace one request record. -/
def Resolver.setRq (s : Resolver) (p : Nat) (r : ResRQ) : Resolver :=
  { s with rq := Function.update s.rq p r }

/-- Hand a notice to `sendto_flag`. -/
def Resolver.post (s : Resolver) (chan : SChanId) (text : Str) : Resolver :=
  { s with notices := s.notices ++ [(chan, text)] }

/-- Function `find_id`: the first request of the list with the id. -/
def find_id (s : Resolver) (id : Int) : Option Nat :=
  s.flight.find? (fun p => decide ((s.rq p).id = id))

/-- Function `add_request` for a request that exists. -/
def add_request (s : Resolver) (new : Nat) : Resolver :=
  { s with flight := s.flight ++ [new],
           reinfo := { s.reinfo with re_requests := s.reinfo.re_requests + 1 } }

/-- Function `rem_request`: the request is unlinked from the list (and its memory
freed). -/
def rem_request (s : Resolver) (old : Nat) : Resolver :=
  { s with flight := s.flight.erase old }

/-- The record `make_request` fills in. -/
def freshRequest (timeofday : Int) (lp : Option Link) : ResRQ :=
  { id := 0, sent := 0, srch := -1, ttl := 0, type := 0, retries := 3, sends := 0, resend := 1,
    sentat := timeofday, timeout := 4, addr := InAddr.zero, name := none,
    cinfo := lp.getD { flags := 0, value := 0 },
    he := { h_name := none, h_aliases := [], h_addrtype := AFINET, h_length := 0,
            h_addr_list := [] } }

/-- Function `make_request`: a new request at the end of the list; returns its
address. -/
def make_request (s : Resolver) (lp : Option Link) : Resolver × Nat :=
  let p := s.cache.brk
  let s1 := { s with cache := { s.cache with brk := p + 1 },
                     rq := Function.update s.rq p (freshRequest s.cache.timeofday lp) }
  (add_request s1 p, p)

/-- The loop of `send_res_msg` over the name servers `i, ..., max - 1`; `sent`
is the local of that name. -/
def send_loop (env : ResEnv) (s0 : Resolver) : List Nat → Resolver → Int → Resolver × Int
  | [], s, sent => (s, sent)
  | i :: is, s, sent =>
    if env.sendto_ok s0 i then
      send_loop env s0 is
        { s with reinfo := { s.reinfo with re_sent := s.reinfo.re_sent + 1 } } (sent + 1)
    else send_loop env s0 is s sent

/-- Function `send_res_msg` for a query that exists: the number of name servers the
query went to, or -1 when it went to none. -/
def send_res_msg (env : ResEnv) (s : Resolver) (rcount : Int) : Resolver × Int :=
  let m0 := min s.nscount rcount
  let m1 := if s.RES_PRIMARY then 1 else m0
  let max := if m1 = 0 then 1 else m1
  let r := send_loop env s (List.range max.toNat) s 0
  (r.1, if r.2 ≠ 0 then r.2 else -1)

/-- The `do ... while (find_id(...))` loop of `query_name`: `id` is the id in
the header, `k` the local of that name; the first argument bounds the
iterations. -/
def pick_id (s : Resolver) (usec : Nat) : Nat → Int → Int → Option Int
  | 0, _, _ => none
  | n + 1, id, k =>
    let nstmp := (id + k + (usec % 65536 : Nat)) % 65536
    if (find_id s nstmp).isSome then pick_id s usec n nstmp (k + 1) else some nstmp

/-- Function `query_name`; `none` when the search for a free id does not end within
the bound. -/
def query_name (env : ResEnv) (fuel : Nat) (s : Resolver) (name : Str) (cls type : Int)
    (rptr : Nat) : Option (Resolver × Int) :=
  let q := env.mkquery s name cls type
  if q.1 ≤ 0 then some ({ s with h_errno := NO_RECOVERY }, q.1)
  else
    match pick_id s (env.usec s) fuel q.2 0 with
    | none => none
    | some id =>
      let r1 := { s.rq rptr with id := id, sends := (s.rq rptr).sends + 1 }
      let s1 := s.setRq rptr r1
      let m := send_res_msg env s1 r1.sends
      if m.2 = -1 then some ({ m.1 with h_errno := TRY_AGAIN }, -1)
      else some (m.1.setRq rptr { m.1.rq rptr with sent := (m.1.rq rptr).sent + m.2 }, 0)

/-- The name with the default domain appended, as `strncat` leaves it in a
buffer of `size` bytes that holds `name`: a dot, then as much of the domain
as fits. -/
def withDomain (size : Nat) (name dom : Str) : Str :=
  let n1 := name ++ (['.'].take (size - name.length - 1))
  n1 ++ dom.take (size - (name.length + 1) - 1)

/-- Function `do_query_name`, for a new request when `rptr` is NULL. -/
def do_query_name (k : ResConf) (env : ResEnv) (fuel : Nat) (s : Resolver) (lp : Option Link)
    (name : Str) (rptr : Option Nat) : Option (Resolver × Int) :=
  let hsize := k.hostbufSize - 100
  let hname0 := name.take (hsize - 1)
  let hname :=
    if rptr.isSome ∧ '.' ∉ hname0 ∧ s.RES_DEFNAMES then withDomain hsize hname0 s.defdname
    else hname0
  match rptr with
  | some p => query_name env fuel s hname C_IN T_A p
  | none =>
    let m := make_request s lp
    let s1 := m.1.setRq m.2 { m.1.rq m.2 with type := T_A, name := some name }
    query_name env fuel s1 hname C_IN T_A m.2

/-- The name `do_query_number` asks for. -/
def arpaName (numb : InAddr) : Str :=
  vsprintf "%u.%u.%u.%u.in-addr.arpa.".toList
    [Arg.int numb.b3, Arg.int numb.b2, Arg.int numb.b1, Arg.int numb.b0]

/-- The assignment `he.h_addr = numb` of `do_query_number`: slot 0 of the
address array. -/
def setFirstAddr (l : List InAddr) (a : InAddr) : List InAddr :=
  a :: l.drop 1

/-- Function `do_query_number`, for a new request when `rptr` is NULL. -/
def do_query_number (env : ResEnv) (fuel : Nat) (s : Resolver) (lp : Option Link)
    (numb : InAddr) (rptr : Option Nat) : Option (Resolver × Int) :=
  match rptr with
  | some p => query_name env fuel s (arpaName numb) C_IN T_PTR p
  | none =>
    let m := make_request s lp
    let r := m.1.rq m.2
    let he1 := { r.he with h_addr_list := setFirstAddr r.he.h_addr_list numb, h_length := 4 }
    let s1 := m.1.setRq m.2 { r with type := T_PTR, addr := numb, he := he1 }
    query_name env fuel s1 (arpaName numb) C_IN T_PTR m.2

/-- Function `resend_query`. -/
def resend_query (k : ResConf) (env : ResEnv) (fuel : Nat) (s : Resolver) (rptr : Nat) :
    Option Resolver :=
  if (s.rq rptr).resend = 0 then some s
  else
    let s1 := { s with reinfo := { s.reinfo with re_resends := s.reinfo.re_resends + 1 } }
    if (s1.rq rptr).type = T_PTR then
      (do_query_number env fuel s1 none (s1.rq rptr).addr (some rptr)).map (fun r => r.1)
    else if (s1.rq rptr).type = T_A then
      (do_query_name k env fuel s1 none ((s1.rq rptr).name.getD []) (some rptr)).map
        (fun r => r.1)
    else some s1

/-- Function `gethost_byname`: the entry of the cache, or NULL after a query has
been sent for the context `lp`. -/
def gethost_byname (k : ResConf) (env : ResEnv) (fuel : Nat) (s : Resolver) (name : Str)
    (lp : Option Link) : Option (Resolver × Option Nat) :=
  let s1 := { s with reinfo := { s.reinfo with re_na_look := s.reinfo.re_na_look + 1 } }
  match find_cache_name k s1.cache name with
  | (c1, some cp) => some ({ s1 with cache := c1 }, some cp)
  | (c1, none) =>
    match lp with
    | none => some ({ s1 with cache := c1 }, none)
    | some l =>
      (do_query_name k env fuel { s1 with cache := c1 } (some l) name none).map
        (fun r => (r.1, none))

/-- The slot `adr` of `proc_answer` when it starts: the first slot of the
address array that is zero. -/
def firstFree (l : List InAddr) : Nat := (l.takeWhile WHOSTENTP).length

/-- The assignment `adr->s_addr = dr.s_addr` for the slot `i`. -/
def setAddr (l : List InAddr) (i : Nat) (a : InAddr) : List InAddr :=
  if i < l.length then l.set i a else l ++ List.replicate (i - l.length) InAddr.zero ++ [a]

/-- The name in `hostbuf` after the owner name has been expanded: with
`RES_DEFNAMES`, a name without a dot gets the default domain. -/
def ownerName (k : ResConf) (s : Resolver) (owner : Str) : Str :=
  if '.' ∉ owner ∧ s.RES_DEFNAMES then
    owner ++ '.' :: s.defdname.take (k.hostbufSize - 1 - (owner.length + 1))
  else owner

/-- The scan of the answer section by `proc_answer`: `adr` is the slot of the
address array to write next and `ans` the local of that name; returns the
state and the return value. -/
def answer_loop (k : ResConf) (rptr : Nat) : List RR → Resolver → Nat → Int → Resolver × Int
  | [], s, _, ans => (s, ans)
  | rr :: rest, s, adr, ans =>
    match rr.owner with
    | none => (s, ans)
    | some owner =>
      let r0 := { s.rq rptr with ttl := rr.ttl, type := rr.type }
      let hostbuf := ownerName k s owner
      if rr.type = T_A then
        if rr.dlen ≠ 4 then
          ((s.setRq rptr r0).post SChanId.SCH_ERROR
            (vsprintf "Bad IP length (%d) returned for %s".toList
              [Arg.int rr.dlen, Arg.str hostbuf]), -2)
        else
          let fam := if ans = 1 then (if rr.cls = C_IN then AFINET else AF_UNSPEC)
            else r0.he.h_addrtype
          let nm := if r0.he.h_name.isNone then some hostbuf else r0.he.h_name
          let he1 := { r0.he with h_length := rr.dlen, h_addrtype := fam,
                                  h_addr_list := setAddr r0.he.h_addr_list adr rr.addr,
                                  h_name := nm }
          answer_loop k rptr rest (s.setRq rptr { r0 with he := he1 }) (adr + 1) (ans + 1)
      else if rr.type = T_PTR then
        match rr.target with
        | none => (s.setRq rptr r0, ans)
        | some host =>
          if bad_hostname host host.length ≠ 0 then (s.setRq rptr r0, -1)
          else
            let nm := if r0.he.h_name.isNone then some host else r0.he.h_name
            answer_loop k rptr rest (s.setRq rptr { r0 with he := { r0.he with h_name := nm } })
              adr (ans + 1)
      else if rr.type = T_CNAME then
        if bad_hostname hostbuf hostbuf.length ≠ 0 then (s.setRq rptr r0, -1)
        else if r0.he.h_aliases.length ≥ k.MAXALIASES - 1 then
          answer_loop k rptr rest (s.setRq rptr r0) adr ans
        else
          let he1 := { r0.he with h_aliases := r0.he.h_aliases ++ [hostbuf] }
          answer_loop k rptr rest (s.setRq rptr { r0 with he := he1 }) adr (ans + 1)
      else answer_loop k rptr rest (s.setRq rptr r0) adr ans

/-- Function `proc_answer` on the records of a datagram: at most `ancount` of them
are looked at. -/
def proc_answer (k : ResConf) (s : Resolver) (rptr : Nat) (d : Datagram) : Resolver × Int :=
  answer_loop k rptr (d.answers.take d.ancount.toNat) s
    (firstFree (s.rq rptr).he.h_addr_list) 0

/-- The test of `get_res` against fake replies: the loop over the first `max`
name servers ends early at one whose address is zero or is the source of the
datagram; the value is whether `a` differs from `max` after the loop. -/
def fromNameserver (s : Resolver) (rptr : Nat) (src : InAddr) : Bool :=
  let m0 := min s.nscount (s.rq rptr).sends
  let max := if m0 = 0 then 1 else m0
  decide (max < 0) || (List.range max.toNat).any
    (fun a => decide (s.nsaddr_list a = InAddr.zero) || decide (src = s.nsaddr_list a))

/-- The value `h_errno` gets for a reply with an error code or without
answers. -/
def errnoOf (rcode : Int) : Int :=
  if rcode = NXDOMAIN then TRY_AGAIN
  else if rcode = SERVFAIL then TRY_AGAIN
  else if rcode = NOERROR then NO_DATA
  else NO_RECOVERY

/-- The code of `get_res` at the label `getres_err`; returns the state and
what is copied to `lp`. -/
def getres_err (k : ResConf) (env : ResEnv) (fuel : Nat) (s : Resolver) (rptr : Option Nat)
    (lp : Bool) : Option (Resolver × Option Nat × Option Link) :=
  match rptr with
  | none => some (s, none, none)
  | some p =>
    if s.h_errno ≠ TRY_AGAIN then
      if s.RES_DEFNAMES then
        let s1 := s.setRq p { s.rq p with srch := (s.rq p).srch + 1 }
        if (s1.rq p).srch = 0 then
          let s2 := s1.setRq p { s1.rq p with retries := s1.retry, sends := 0, resend := 1 }
          (resend_query k env fuel s2 p).map (fun s3 => (s3, none, none))
        else (resend_query k env fuel s1 p).map (fun s3 => (s3, none, none))
      else (resend_query k env fuel s p).map (fun s3 => (s3, none, none))
    else some (s, none, if lp then some (s.rq p).cinfo else none)

/-- The part of `get_res` for a name that a PTR record has given: the forward
lookup of the name, the aliases of the request handed over to the request the
lookup has queued, and the removal of the request. -/
def get_res_ptr (k : ResConf) (env : ResEnv) (fuel : Nat) (s : Resolver) (p : Nat) (lp : Bool) :
    Option (Resolver × Option Nat × Option Link) :=
  match (s.rq p).he.h_name with
  | none => getres_err k env fuel s (some p) lp
  | some name =>
    if name = [] then getres_err k env fuel s (some p) lp
    else
      match gethost_byname k env fuel s name (some (s.rq p).cinfo) with
      | none => none
      | some (s1, some hp2) =>
        some (rem_request s1 p, some hp2, if lp then some (s1.rq p).cinfo else none)
      | some (s1, none) =>
        let s2 :=
          match s1.flight.getLast?, (s1.rq p).he.h_aliases with
          | some last, a :: as =>
            let n := (a :: as).length
            let rl := s1.rq last
            let hl := { rl.he with h_aliases := (a :: as) ++ rl.he.h_aliases.drop n }
            let s11 := s1.setRq last { rl with he := hl }
            s11.setRq p { s11.rq p with he := { (s11.rq p).he with h_aliases := [] } }
          | _, _ => s1
        some (rem_request s2 p, none, none)

/-- Function `get_res` for the datagram `d`; `lp` says whether the caller passes
a `Link` to fill in.  Returns the state, the cache entry whose `hostent` is
returned, and what has been copied to `lp`.  The first test compares the
`int` returned by `recvfrom` with a `sizeof`, that is as unsigned numbers, so
a negative value does not pass for a short datagram. -/
def get_res (k : ResConf) (env : ResEnv) (fuel : Nat) (s : Resolver) (d : Datagram)
    (lp : Bool) : Option (Resolver × Option Nat × Option Link) :=
  if 0 ≤ d.rc ∧ d.rc ≤ sizeofHEADER then getres_err k env fuel s none lp
  else
    let s1 := { s with reinfo := { s.reinfo with re_replies := s.reinfo.re_replies + 1 } }
    match find_id s1 d.id with
    | none => getres_err k env fuel s1 none lp
    | some p =>
      if !fromNameserver s1 p d.src then
        let s2 := { s1 with reinfo := { s1.reinfo with re_unkrep := s1.reinfo.re_unkrep + 1 } }
        getres_err k env fuel s2 (some p) lp
      else if d.rcode ≠ NOERROR ∨ d.ancount = 0 then
        let s2 := { s1 with h_errno := errnoOf d.rcode,
                            reinfo := { s1.reinfo with re_errors := s1.reinfo.re_errors + 1 } }
        let s3 :=
          if s2.h_errno ≠ TRY_AGAIN then s2.setRq p { s2.rq p with resend := 0, retries := 0 }
          else s2
        getres_err k env fuel s3 (some p) lp
      else
        let pa := proc_answer k s1 p d
        let s2 :=
          if pa.2 = -1 then
            pa.1.post SChanId.SCH_ERROR
              (vsprintf "Bad hostname returned from %s for %s".toList
                [Arg.str (inetntoa d.src),
                  Arg.str (inetntoa ((pa.1.rq p).he.h_addr_list.headD InAddr.zero))])
          else pa.1
        if pa.2 > 0 ∧ (s2.rq p).type = T_PTR then get_res_ptr k env fuel s2 p lp
        else if pa.2 > 0 then
          let m := make_cache k s2.cache (s2.rq p).he (s2.rq p).ttl
          let s3 := { s2 with cache := m.1 }
          let s4 := s3.setRq p { s3.rq p with he := m.2.2 }
          some (rem_request s4 p, m.2.1, if lp then some (s2.rq p).cinfo else none)
        else if (s2.rq p).sent = 0 then some (rem_request s2 p, none, none)
        else some (s2, none, none)

/-! ### Example states of the resolver -/

/-- An environment in which every query is built (29 bytes, id 1) and sent. -/
def exampleResEnv : ResEnv :=
  { mkquery := fun _ _ _ _ => (29, 1), usec := fun _ => 5, sendto_ok := fun _ _ => true }

/-- The request of the fourth scenario: the address of `host.example.` has
been asked for once, with id 77. -/
def hostRequest : ResRQ :=
  { freshRequest 1000 none with id := 77, type := T_A, name := some "host.example.".toList,
                                sends := 1, sent := 1 }

/-- The name server 192.0.2.53 is the only one configured; the request
`hostRequest` (at address 0) is the only one in flight, and the cache is
empty. -/
def lookupState : Resolver :=
  { cache := { emptyCache with brk := 1 }, rq := fun _ => hostRequest, flight := [0],
    reinfo := { re_errors := 0, re_nu_look := 0, re_na_look := 1, re_replies := 0,
                re_requests := 1, re_resends := 0, re_sent := 1, re_timeouts := 0,
                re_unkrep := 0 },
    nsaddr_list := fun _ => ⟨192, 0, 2, 53⟩, nscount := 1, RES_DEFNAMES := false,
    RES_PRIMARY := false, defdname := [], retry := 3, h_errno := TRY_AGAIN, notices := [] }

/-- An answer of type A for the name `owner`, with TTL 300 and the address
192.0.2.7. -/
def recordA (owner : String) : RR :=
  { owner := some owner.toList, type := T_A, cls := C_IN, ttl := 300, dlen := 4,
    addr := ⟨192, 0, 2, 7⟩, target := none }

/-- A reply with the id 77, without error, that carries the one record `rr`,
from the source `src`. -/
def replyWith (src : InAddr) (id : Int) (rr : RR) : Datagram :=
  { rc := 60, src := src, id := id, rcode := NOERROR, ancount := 1, answers := [rr] }

/-- What a reply that is dropped for the request `p` leaves as it was: the
cache, the list of the requests in flight, the two counters of replies, the
notices, and every request but `p`. -/
def Untouched (p : Nat) (s t : Resolver) : Prop :=
  t.cache = s.cache ∧ t.flight = s.flight ∧ t.reinfo.re_unkrep = s.reinfo.re_unkrep ∧
    t.reinfo.re_replies = s.reinfo.re_replies ∧ t.notices = s.notices ∧
    ∀ q, q ≠ p → t.rq q = s.rq q

/-- The state after `get_res` has counted a reply to a request in flight as one
from an unknown source. -/
def countUnknown (s : Resolver) : Resolver :=
  { s with reinfo := { s.reinfo with re_replies := s.reinfo.re_replies + 1,
                                     re_unkrep := s.reinfo.re_unkrep + 1 } }

/-- An answer of type CNAME for the name `owner`, with TTL 300. -/
def recordCNAME (owner : String) : RR :=
  { owner := some owner.toList, type := T_CNAME, cls := C_IN, ttl := 300, dlen := 14,
    addr := InAddr.zero, target := some "www.example.".toList }

/-- The state `lookupState` with the address 0.0.0.0 in the list of name
servers. -/
def wildcardState : Resolver :=
  { lookupState with nsaddr_list := fun _ => InAddr.zero }

/-- The state `lookupState` after an earlier reply has left `NO_DATA` in
`h_errno`. -/
def staleErrnoState : Resolver :=
  { lookupState with h_errno := NO_DATA }

/-! ### The ids `query_name` tries -/

/-- The sum 0 + 1 + ... + (j - 1): what the local `k` of `query_name` has added
to the id after `j` rounds of its loop. -/
def triangle : Nat → Int
  | 0 => 0
  | j + 1 => triangle j + j

/-- The id `query_name` tries in round `j` (from 1) of its loop, when the loop
starts from the id `id` with the local `k`. -/
def idCandidate (id k : Int) (usec : Nat) (j : Nat) : Int :=
  (id + j * (k + (usec % 65536 : Nat)) + triangle j) % 65536

/-! ### The timeouts of the requests

The build has `USE_IAUTH`. -/

/-- Modelled from the spec: the constant ASYNC_CLIENT of struct_def.h (not
under src/), the tag of a context that is a client. -/
def ASYNC_CLIENT : Int := 0

/-- Modelled from the spec: the constant ASYNC_CONNECT of struct_def.h (not
under src/), the tag of a context that is a connection to a server. -/
def ASYNC_CONNECT : Int := 1

/-- What `timeout_query_list` reads and writes of a client record: its
descriptor and three bits of its flags. -/
structure DnsClient where
  fd : Int
  /-- `FLAGS_DOINGDNS` -/
  doingDNS : Bool
  /-- `FLAGS_AUTH` -/
  doingAuth : Bool
  /-- `FLAGS_CHKACCESS` -/
  chkAccess : Bool
  deriving DecidableEq, Repr

/-- Modelled from the spec: the macro ClearDNS of struct_def.h (not under
src/), which clears the DNS flag of the client. -/
def ClearDNS (c : DnsClient) : DnsClient := { c with doingDNS := false }

/-- Modelled from the spec: the macro DoingAuth of struct_def.h (not under
src/), the test of the flag of a pending ident query. -/
def DoingAuth (c : DnsClient) : Bool := c.doingAuth

/-- Modelled from the spec: the macro SetAccess of struct_def.h (not under
src/), which sets the flag that asks for the access check. -/
def SetAccess (c : DnsClient) : DnsClient := { c with chkAccess := true }

/-- The resolver together with the client records its requests stand for,
by address, and the calls of `sendto_iauth`, each with its arguments, the
latest last. -/
structure ResWorld where
  res : Resolver
  client : Nat → DnsClient
  iauth : List (Str × List Arg)

/-- The branch of `timeout_query_list` for a request that has no retries
left: the timeout is counted, the context is told according to its tag, and
the request is removed.  The name of the request is taken to be set where the
notice prints it. -/
def timeout_expired (w : ResWorld) (rptr : Nat) : ResWorld :=
  let s1 := { w.res with
    reinfo := { w.res.reinfo with re_timeouts := w.res.reinfo.re_timeouts + 1 } }
  let r := s1.rq rptr
  let cptr := r.cinfo.value
  let w1 : ResWorld :=
    if r.cinfo.flags = ASYNC_CLIENT then
      let c1 := ClearDNS (w.client cptr)
      let c2 := if !DoingAuth c1 then SetAccess c1 else c1
      { res := s1, client := Function.update w.client cptr c2,
        iauth := w.iauth ++ [("%d d".toList, [Arg.int (w.client cptr).fd])] }
    else if r.cinfo.flags = ASYNC_CONNECT then
      { w with res := s1.post SChanId.SCH_ERROR
                 (vsprintf "Host %s unknown".toList [Arg.str (r.name.getD [])]) }
    else { w with res := s1 }
  { w1 with res := rem_request w1.res rptr }

/-- The next value of the local `next` of `timeout_query_list` for a request
that stays, with the deadline `tout`. -/
def nextDeadline (next tout : Int) : Int :=
  if next = 0 ∨ tout < next then tout else next

/-- The request after `--rptr->retries`. -/
def countDown (r : ResRQ) : ResRQ := { r with retries := r.retries - 1 }

/-- The request after its clock has been started again at `now` with twice
the timeout. -/
def restart (now : Int) (r : ResRQ) : ResRQ :=
  { r with sentat := now, timeout := r.timeout + r.timeout }

/-- The loop of `timeout_query_list` over the requests of the list as it was
at the start (each successor is read before the request is looked at); `next`
is the local of that name. -/
def timeout_loop (k : ResConf) (env : ResEnv) (fuel : Nat) (now : Int) :
    List Nat → ResWorld → Int → Option (ResWorld × Int)
  | [], w, next => some (w, next)
  | rptr :: rest, w, next =>
    let r := w.res.rq rptr
    let tout := r.sentat + r.timeout
    if now ≥ tout then
      let r1 := countDown r
      if r1.retries ≤ 0 then
        timeout_loop k env fuel now rest
          (timeout_expired { w with res := w.res.setRq rptr r1 } rptr) next
      else
        match resend_query k env fuel (w.res.setRq rptr (restart now r1)) rptr with
        | none => none
        | some s3 =>
          timeout_loop k env fuel now rest { w with res := s3 }
            (nextDeadline next (now + (s3.rq rptr).timeout))
    else timeout_loop k env fuel now rest w (nextDeadline next tout)

/-- Function `timeout_query_list`: the state after the pass and the time of the
next call. -/
def timeout_query_list (k : ResConf) (env : ResEnv) (fuel : Nat) (w : ResWorld) (now : Int) :
    Option (ResWorld × Int) :=
  (timeout_loop k env fuel now w.res.flight w 0).map
    (fun r => (r.1, if r.2 > now then r.2 else now + k.AR_TTL))

/-- The deadline of a request: `sentat + timeout`. -/
def deadline (s : Resolver) (p : Nat) : Int := (s.rq p).sentat + (s.rq p).timeout

/-- What a pass over the requests never undoes: requests only leave the list,
the counters of timeouts and of resends only grow, notices and calls of
`sendto_iauth` are only added, no descriptor changes and no DNS flag is
set. -/
structure Later (w w1 : ResWorld) : Prop where
  flight : w1.res.flight.Sublist w.res.flight
  timeouts : w.res.reinfo.re_timeouts ≤ w1.res.reinfo.re_timeouts
  resends : w.res.reinfo.re_resends ≤ w1.res.reinfo.re_resends
  notices : ∃ l, w1.res.notices = w.res.notices ++ l
  iauth : ∃ l, w1.iauth = w.iauth ++ l
  fd : ∀ c, (w1.client c).fd = (w.client c).fd
  dns : ∀ c, (w.client c).doingDNS = false → (w1.client c).doingDNS = false

/-- What a query that is sent again leaves of the record of its request:
every field but the id and the counts of sends. -/
def SameClock (r r1 : ResRQ) : Prop :=
  r1.sentat = r.sentat ∧ r1.timeout = r.timeout ∧ r1.retries = r.retries ∧
    r1.cinfo = r.cinfo ∧ r1.name = r.name ∧ r1.resend = r.resend ∧ r1.type = r.type ∧
    r.sends ≤ r1.sends ∧ r1.sends ≤ r.sends + 1

/-- The context of the request `r` has been told of the timeout between the
states `w` and `w1`: a client has its DNS flag cleared and `sendto_iauth` has
been called for its descriptor; for a connection to a server the notice has
gone to `&ERRORS`. -/
def Notified (w w1 : ResWorld) (r : ResRQ) : Prop :=
  (r.cinfo.flags = ASYNC_CLIENT →
    (w1.client r.cinfo.value).doingDNS = false ∧
    ∃ a b, w1.iauth
      = w.iauth ++ a ++ [("%d d".toList, [Arg.int (w.client r.cinfo.value).fd])] ++ b) ∧
  (r.cinfo.flags = ASYNC_CONNECT →
    ∃ a b, w1.res.notices
      = w.res.notices ++ a
          ++ [(SChanId.SCH_ERROR, vsprintf "Host %s unknown".toList [Arg.str (r.name.getD [])])]
          ++ b)

/-- The local `next` of `timeout_query_list` when the requests `R` are those it
has looked at and kept: every deadline of `R` lies after `now`, and `next` is
0 when `R` is empty, else the least deadline of `R`. -/
def NextOK (now : Int) (s : Resolver) (R : List Nat) (next : Int) : Prop :=
  (∀ p ∈ R, now < deadline s p) ∧
    ((R = [] ∧ next = 0) ∨
      (R ≠ [] ∧ (∃ p ∈ R, next = deadline s p) ∧ ∀ p ∈ R, next ≤ deadline s p))

/-- The state `lookupState`, whose request 0 was made at time 1000 for the
client at address 0, with that client on descriptor 7 and waiting for its
name. -/
def timeoutWorld : ResWorld :=
  { res := lookupState,
    client := fun _ => { fd := 7, doingDNS := true, doingAuth := false, chkAccess := false },
    iauth := [] }

/-- The request of a reverse lookup: the name of 192.0.2.7 has been asked for
once, with id 77, for the client at address 0. -/
def reverseRequest : ResRQ :=
  { freshRequest 1000 (some { flags := 0, value := 0 }) with
    id := 77, type := T_PTR, addr := ⟨192, 0, 2, 7⟩, sends := 1, sent := 1,
    he := { h_name := none, h_aliases := [], h_addrtype := AFINET, h_length := 4,
            h_addr_list := [⟨192, 0, 2, 7⟩] } }

/-- The state `lookupState` with the request `reverseRequest` in flight instead. -/
def reverseState : Resolver :=
  { lookupState with rq := fun _ => reverseRequest }

/-- An answer of type PTR for 192.0.2.7 that names `target`, with TTL 3600. -/
def recordPTR (target : String) : RR :=
  { owner := some "7.2.0.192.in-addr.arpa.".toList, type := T_PTR, cls := C_IN, ttl := 3600,
    dlen := 14, addr := InAddr.zero, target := some target.toList }

/-- An answer of type A for the name `owner` with the address `addr`, with TTL
3600. -/
def recordAt (owner : String) (addr : InAddr) : RR :=
  { owner := some owner.toList, type := T_A, cls := C_IN, ttl := 3600, dlen := 4,
    addr := addr, target := none }

/-- Two replies in a row: `get_res` for `d1`, then for `d2`; the result of the
second call. -/
def get_res_twice (k : ResConf) (env : ResEnv) (fuel : Nat) (s : Resolver) (d1 d2 : Datagram) :
    Option (Resolver × Option Nat × Option Link) :=
  (get_res k env fuel s d1 false).bind (fun r => get_res k env fuel r.1 d2 false)

/-- The state after `get_res` has counted a reply. -/
def countReply (s : Resolver) : Resolver :=
  { s with reinfo := { s.reinfo with re_replies := s.reinfo.re_replies + 1 } }

/-- Every address of every entry of the cache `c1` is one the entry had in `c`
or one of the list `l`. -/
def AddrsFrom (c c1 : Cache) (l : List InAddr) : Prop :=
  ∀ e a, a ∈ (c1.ce e).he.h_addr_list → a ∈ (c.ce e).he.h_addr_list ∨ a ∈ l

/-- The request `p` as `proc_answer` leaves it for the datagram `d`, which
`get_res` has counted. -/
def requestAfter (k : ResConf) (s : Resolver) (p : Nat) (d : Datagram) : ResRQ :=
  (proc_answer k (countReply s) p d).1.rq p

/-! ### Example states for the lookups of the cache -/

/-- The record of a request that has been answered with the name
`www.example.`, the aliases `mail.example.` and `ftp.example.` and the address
192.0.2.7. -/
def aliasAnswer : hent :=
  { h_name := some "www.example.".toList,
    h_aliases := ["mail.example.".toList, "ftp.example.".toList], h_addrtype := 2,
    h_length := 4, h_addr_list := [⟨192, 0, 2, 7⟩] }

/-- The cache after `make_cache` has stored `aliasAnswer` in the empty cache. -/
def aliasCache : Cache := (make_cache stdConf emptyCache aliasAnswer 3600).1

/-- The record of a request that has been answered with the name
`host.example.` and the addresses 192.0.2.7, 192.0.2.8 and 192.0.2.9. -/
def threeAddrAnswer : hent :=
  { h_name := some "host.example.".toList, h_aliases := [], h_addrtype := 2, h_length := 4,
    h_addr_list := [⟨192, 0, 2, 7⟩, ⟨192, 0, 2, 8⟩, ⟨192, 0, 2, 9⟩] }

/-- The cache after `make_cache` has stored `host.example.` with the address
192.0.2.7 in the empty cache. -/
def oneAddrCache : Cache := (make_cache stdConf emptyCache (answered "host.example." 7) 3600).1

/-- The cache `oneAddrCache` after `make_cache` for a later answer with three
addresses, which finds the entry and merges into it. -/
def mergedCache : Cache := (make_cache stdConf oneAddrCache threeAddrAnswer 3600).1

/-- The invariant of the hash chains as the specification states it: every
entry of the list is once in the name chain of the bucket of its name and
once in the address chain of the bucket of its first address, and no chain
holds an entry that is not in the list. -/
def chainsOK (k : ResConf) (c : Cache) : Bool :=
  c.cachetop.all (fun e =>
    decide ((c.name_list (hash_name k (c.ce e).he.h_name)).count e = 1) &&
    decide ((c.num_list (hash_number k (c.ce e).he.h_addr)).count e = 1)) &&
  (List.range k.ARES_CACSIZE).all (fun i =>
    (c.name_list i).all (fun e => decide (e ∈ c.cachetop)) &&
    (c.num_list i).all (fun e => decide (e ∈ c.cachetop)))

/-! ## The log of connections (`sendto_flog` of send.c)

The build embedded here has neither `LOG_OLDFORMAT`, nor `USE_SYSLOG`, nor
`USE_SERVICES`. -/

/-- Modelled from the spec: the constant EXITC_REG of struct_def.h (not
under src/), the exit code '0' of a registered client that quits. -/
def EXITC_REG : Char := '0'

/-- The fields of `aClient` that `sendto_flog` reads. -/
structure LoggedClient where
  exitc : Char
  firsttime : Int
  /-- `auth`, `none` for a NULL pointer -/
  auth : Option Str
  /-- `user->sip`, `none` when `user` is NULL -/
  sip : Option Str
  ip : InAddr
  port : Int
  /-- `acpt->sockhost`, `none` when `acpt` is NULL -/
  acptSockhost : Option Str
  sendM : Nat
  sendB : Nat
  receiveM : Nat
  receiveB : Nat
  deriving DecidableEq, Repr

/-- The descriptors of the two log files (-1 for a file that is not open), the
clock, and the calls of `write` on them: the descriptor and the bytes, the
latest last. -/
structure LogFiles where
  userlog : Int
  connlog : Int
  timeofday : Int
  written : List (Int × List Char)
  deriving DecidableEq, Repr

/-- What `%d` prints for `(u_int) t`: the low 32 bits of the time, read as an
`int`. -/
def asUInt (t : Int) : Int :=
  if t % 2 ^ 32 < 2 ^ 31 then t % 2 ^ 32 else t % 2 ^ 32 - 2 ^ 32

/-- The thirteen arguments `sendto_flog` hands to `sprintf`. -/
def flogArgs (t : LogFiles) (cptr : LoggedClient) (username hostname : Str) : List Arg :=
  [Arg.chr cptr.exitc, Arg.int (asUInt cptr.firsttime), Arg.int (asUInt t.timeofday),
    Arg.str username, Arg.str hostname, Arg.str (cptr.auth.getD "?".toList),
    Arg.str (cptr.sip.getD (inetntoa cptr.ip)), Arg.int cptr.port,
    Arg.str (cptr.acptSockhost.getD "?".toList), Arg.int cptr.sendM, Arg.int cptr.sendB,
    Arg.int cptr.receiveM, Arg.int cptr.receiveB]

/-- Function `sendto_flog`: the line is formatted into `linebuf`, its last byte is
overwritten with a newline, and `linebuflen` bytes are written to the log
file that `msg` selects, if that is open.  The 1500 bytes of `linebuf` are
taken to suffice. -/
def sendto_flog (t : LogFiles) (cptr : LoggedClient) (msg : Char) (username hostname : Str) :
    LogFiles :=
  let logfile := if msg = EXITC_REG then t.userlog else t.connlog
  if logfile = -1 then t
  else
    let linebuf := vsprintf "%c %d %d %s %s %s %s %d %s %lu %llu %lu %llu ".toList
      (flogArgs t cptr username hostname)
    let linebuflen := linebuf.length
    let linebuf1 := bufSet linebuf (linebuflen - 1) '\n'
    { t with written := t.written ++ [(logfile, linebuf1.take linebuflen)] }

/-- The thirteen fields of a log line, as text. -/
def flogFields (t : LogFiles) (cptr : LoggedClient) (username hostname : Str) : List Str :=
  [[cptr.exitc], fmtInt (asUInt cptr.firsttime), fmtInt (asUInt t.timeofday), username, hostname,
    cptr.auth.getD "?".toList, cptr.sip.getD (inetntoa cptr.ip), fmtInt cptr.port,
    cptr.acptSockhost.getD "?".toList, fmtInt cptr.sendM, fmtInt cptr.sendB,
    fmtInt cptr.receiveM, fmtInt cptr.receiveB]

/-- The client of the audit scenario: alice, who signed on at 1000 from
192.0.2.7, port 56789, and quits as a registered client. -/
def aliceLogged : LoggedClient :=
  { exitc := '0', firsttime := 1000, auth := some "~alice".toList, sip := some "192.0.2.7".toList,
    ip := ⟨192, 0, 2, 7⟩, port := 56789, acptSockhost := some "irc.example.:6667".toList,
    sendM := 42, sendB := 12345, receiveM := 17, receiveB := 4321 }

/-- Both log files are open, the user log on descriptor 5 and the connection
log on descriptor 6; the time is 2000. -/
def openLogs : LogFiles :=
  { userlog := 5, connlog := 6, timeofday := 2000, written := [] }

/-- The first scenario with `alice` alone on `#dev`. -/
def loneWorld : World :=
  { scenarioWorld with
    ch := fun _ => { chname := "#dev".toList, clist := [1], quiet := false,
                      anonymous := false } }

/-! ## Ident and the helper process (ircd/s_auth.c)

The build embedded here has `USE_IAUTH` and neither `NO_IDENT` nor `DEBUG`.
A notice handed to `sendto_flag` is recorded with its channel and its text. -/

/-- The constants of the headers (not under src/) that s_auth.c uses. -/
structure AuthConf where
  USERLEN : Nat
  /-- `sizeof(cptr->buffer)` -/
  bufferSize : Nat
  /-- `sizeof(cptr->auth)`, the size of a pointer -/
  sizeofPtr : Int
  EXITC_AREF : Char

/-- The pointer `cptr->auth`: NULL, the array `cptr->username` itself, or
memory of its own that holds a string. -/
inductive AuthPtr where
  | null
  | username
  | own (s : Str)
  deriving DecidableEq, Repr

/-- The fields of `aClient` that s_auth.c reads or writes: `username` is the
string in the array of that name, `buffer` the bytes of the array of that
name, and the bits of `flags` are separate booleans. -/
structure AuthClient where
  fd : Int
  authfd : Int
  ip : InAddr
  port : Int
  username : Str
  auth : AuthPtr
  buffer : List Char
  count : Nat
  exitc : Char
  /-- `FLAGS_GOTID` -/
  gotid : Bool
  /-- `FLAGS_AUTH` -/
  doingAuth : Bool
  /-- `FLAGS_WRAUTH` -/
  wrauth : Bool
  /-- `FLAGS_XAUTH` -/
  xauth : Bool
  /-- `FLAGS_DOINGDNS` -/
  doingDNS : Bool
  /-- `FLAGS_CHKACCESS` -/
  chkAccess : Bool
  /-- `FLAGS_DEADSOCKET` -/
  dead : Bool
  deriving DecidableEq, Repr

/-- The state s_auth.c works on: the client records by address, `local[]`,
`highest_fd`, the counters `ircstp->is_abad`, `ircstp->is_asuc`,
`istat.is_authmem` and `istat.is_auth`, and the notices. -/
structure AuthWorld where
  cl : Nat → AuthClient
  «local» : Int → Option Nat
  highest_fd : Int
  is_abad : Nat
  is_asuc : Nat
  is_authmem : Int
  is_auth : Int
  notices : List (SChanId × Str)

/-- Replace one client record. -/
def AuthWorld.setCl (w : AuthWorld) (p : Nat) (c : AuthClient) : AuthWorld :=
  { w with cl := Function.update w.cl p c }

/-- Hand a notice to `sendto_flag`. -/
def AuthWorld.post (w : AuthWorld) (chan : SChanId) (text : Str) : AuthWorld :=
  { w with notices := w.notices ++ [(chan, text)] }

/-- The C string that starts at offset `off` of the bytes `buf`. -/
def cstrAt (buf : List Char) (off : Nat) : Str := (buf.drop off).takeWhile (· ≠ NUL)

/-- The C library's `rindex(s, c)` as an offset: the last place of `c` in the
string, `none` for NULL. -/
def rindex (s : Str) (c : Char) : Option Nat :=
  if c ∈ s then some (s.length - 1 - s.reverse.indexOf c) else none

/-- The loop `while (!local[highest_fd]) highest_fd--;`; the first argument
bounds the iterations, and the loop is taken to stop below descriptor 0. -/
def lowerFd (loc : Int → Option Nat) : Nat → Int → Int
  | 0, h => h
  | n + 1, h => if (loc h).isNone then lowerFd loc n (h - 1) else h

/-- The fields `read_authports` takes from a reply that `sscanf` has accepted:
the string is cut at its last ':' (the offset returned), the system tag is
what follows the last ':' before that, without leading white space and cut to
7 characters, and the remote user is what followed the cut, without white
space, ':' and '@'.  `none` when a ':' is missing, where the C code
dereferences NULL. -/
def identFields (text : Str) : Option (Nat × Str × Str) :=
  match rindex text ':' with
  | none => none
  | some i =>
    match rindex (text.take i) ':' with
    | none => none
    | some j =>
      let system := (((text.take i).drop (j + 1)).dropWhile isspace).take 7
      let ruser :=
        ((text.drop (i + 1)).filter (fun ch => !isspace ch && ch != ':' && ch != '@')).take 513
      some (i, system, ruser)

/-- The test `!strncmp(system, "OTHER", 5)`. -/
def isOther (system : Str) : Bool := decide (system.take 5 = "OTHER".toList)

/-- The end of `read_authports`: the ident socket is closed and the pending
flags are dropped; then, for ports that are not zero and a remote user that
is not empty, the user name is stored and `FLAGS_GOTID` set.  The macros
`ClearAuth`, `DoingDNS` and `SetAccess` of struct_def.h (not under src/) are
read as clearing `FLAGS_AUTH`, testing `FLAGS_DOINGDNS` and setting
`FLAGS_CHKACCESS`. -/
def finish_authports (k : AuthConf) (w : AuthWorld) (cptr : Nat) (remp locp : Nat)
    (system ruser : Str) : AuthWorld :=
  let c := w.cl cptr
  let hfd :=
    if c.authfd = w.highest_fd then lowerFd w.«local» (w.highest_fd + 1).toNat w.highest_fd
    else w.highest_fd
  let c1 := { c with count := 0, authfd := -1, doingAuth := false,
                     chkAccess := if !c.doingDNS then true else c.chkAccess }
  let w1 := { w with highest_fd := hfd }
  if locp = 0 ∨ remp = 0 ∨ ruser = [] then
    { w1.setCl cptr c1 with is_abad := w1.is_abad + 1 }
  else
    let w2 := { w1 with is_asuc := w1.is_asuc + 1 }
    if !isOther system then
      w2.setCl cptr { c1 with username := ruser.take k.USERLEN, gotid := true }
    else
      let name := ('-' :: ruser.take (k.USERLEN - 1)).take k.USERLEN
      if ruser.length > k.USERLEN then
        let w3 :=
          if c1.auth ≠ AuthPtr.username then
            { w2 with is_authmem := w2.is_authmem - k.sizeofPtr, is_auth := w2.is_auth - 1 }
          else w2
        let w4 := { w3 with is_authmem := w3.is_authmem + k.sizeofPtr,
                            is_auth := w3.is_auth + 1 }
        w4.setCl cptr { c1 with username := name, auth := AuthPtr.own ('-' :: ruser),
                                gotid := true }
      else
        w2.setCl cptr { c1 with username := name, auth := AuthPtr.username, gotid := true }

/-- The client record after the `read` of `read_authports`: the bytes read
are stored behind the `count` bytes of `buffer`, as far as there is room, and
a NUL behind them; nothing changes after an error. -/
def afterRead (k : AuthConf) (c : AuthClient) (rd : Option Str) : AuthClient :=
  match rd with
  | none => c
  | some d =>
    { c with buffer := c.buffer.take c.count ++ d.take (k.bufferSize - 1 - c.count) ++ [NUL],
             count := c.count + (d.take (k.bufferSize - 1 - c.count)).length }

/-- The return value of that `read`. -/
def readLen (k : AuthConf) (c : AuthClient) (rd : Option Str) : Int :=
  match rd with
  | none => -1
  | some d => ((d.take (k.bufferSize - 1 - c.count)).length : Int)

/-- The branch of `read_authports` for a reply that `sscanf` does not accept:
without an end of line in the buffer the function returns and waits for
more. -/
def badReply (k : AuthConf) (w1 : AuthWorld) (cptr : Nat) (text : Str) : AuthWorld :=
  if '\n' ∉ text ∧ '\r' ∉ text then w1 else finish_authports k w1 cptr 0 0 [] []

/-- Function `read_authports`.  `rd` is what `read` gives: `none` for an error, else
the bytes read; `sscanf` is the C library's function for the format of the
reply: the two ports it has stored when it returns 3.  `none` is a NULL
pointer dereferenced. -/
def read_authports (k : AuthConf) (sscanf : Str → Option (Nat × Nat)) (w : AuthWorld)
    (cptr : Nat) (rd : Option Str) : Option AuthWorld :=
  let c1 := afterRead k (w.cl cptr) rd
  let w1 := w.setCl cptr c1
  let text := cstrAt c1.buffer 0
  let len := readLen k (w.cl cptr) rd
  if len > 0 ∧ c1.count ≠ k.bufferSize - 1 then
    match sscanf text with
    | some (remp, locp) =>
      match identFields text with
      | some (i, system, ruser) =>
        some (finish_authports k (w1.setCl cptr { c1 with buffer := c1.buffer.set i NUL })
          cptr remp locp system ruser)
      | none => none
    | none => some (badReply k w1 cptr text)
  else if len ≠ 0 then some (badReply k w1 cptr text)
  else some (finish_authports k w1 cptr 0 0 [] [])

/-- The reply as `read_authports` hands it to `sscanf`: the string in `buffer`
after the bytes `d` have been read. -/
def replyText (k : AuthConf) (w : AuthWorld) (cptr : Nat) (rd : Option Str) : Str :=
  cstrAt (afterRead k (w.cl cptr) rd).buffer 0

/-! ### A reading of the reply as `sscanf` does it -/

/-- The conversion `%hd` stored through a pointer to `u_short`: white space, an
optional sign, digits; the value modulo 65536 and the rest of the input. -/
def scanShort (s : Str) : Option (Nat × Str) :=
  let s1 := s.dropWhile isspace
  let neg := decide (s1.head? = some '-')
  let s2 := if s1.head? = some '-' ∨ s1.head? = some '+' then s1.drop 1 else s1
  let digits := s2.takeWhile Char.isDigit
  if digits = [] then none
  else
    let v : Int := digits.foldl (fun a ch => 10 * a + ((ch.toNat : Int) - 48)) 0
    some (((if neg then -v else v) % 65536).toNat, s2.drop digits.length)

/-- A directive of white space followed by the literal text `lit`. -/
def scanLit (lit : Str) (s : Str) : Option Str :=
  let s1 := s.dropWhile isspace
  if s1.take lit.length = lit then some (s1.drop lit.length) else none

/-- Modelled on the C standard: `sscanf` with the format
`"%hd , %hd : USERID : %*[^:]: %512s"`; the two ports when it returns 3. -/
def scanIdent (s : Str) : Option (Nat × Nat) :=
  match scanShort s with
  | none => none
  | some (remp, s1) =>
    match scanLit [','] s1 with
    | none => none
    | some s2 =>
      match scanShort s2 with
      | none => none
      | some (locp, s3) =>
        match scanLit [':'] s3 with
        | none => none
        | some s4 =>
          match scanLit "USERID".toList s4 with
          | none => none
          | some s5 =>
            match scanLit [':'] s5 with
            | none => none
            | some s6 =>
              let s7 := s6.dropWhile isspace
              let tag := s7.takeWhile (· ≠ ':')
              let rest := s7.drop tag.length
              if tag = [] ∨ rest.head? ≠ some ':' then none
              else if ((rest.drop 1).dropWhile isspace).takeWhile (fun c => !isspace c) = [] then
                none
              else some (remp, locp)

/-! ### Example states of the ident query -/

/-- The constants as they are in the distribution of the server; the exit
code of a refusal by the helper is taken to be `'U'`. -/
def stdAuthConf : AuthConf :=
  { USERLEN := 10, bufferSize := 512, sizeofPtr := 8, EXITC_AREF := 'U' }

/-- A client record that waits for its ident reply. -/
def pendingClient (fd authfd : Int) (ip : InAddr) (port : Int) : AuthClient :=
  { fd := fd, authfd := authfd, ip := ip, port := port, username := [],
    auth := AuthPtr.username, buffer := [], count := 0, exitc := '-', gotid := false,
    doingAuth := true, wrauth := false, xauth := false, doingDNS := false, chkAccess := false,
    dead := false }

/-- The connection of the second scenario: `alice` (record 1) has connected
from 192.0.2.7, port 56789, on descriptor 4, and the ident query runs on
descriptor 9; a second client (record 2) from 192.0.2.8, port 40000, is on
descriptor 5. -/
def authWorld : AuthWorld :=
  { cl := fun p =>
      if p = 2 then pendingClient 5 10 ⟨192, 0, 2, 8⟩ 40000
      else pendingClient 4 9 ⟨192, 0, 2, 7⟩ 56789,
    «local» := fun fd => if fd = 4 then some 1 else if fd = 5 then some 2 else none,
    highest_fd := 9, is_abad := 0, is_asuc := 0, is_authmem := 0, is_auth := 0, notices := [] }

/-! ### The lines of the helper process (`read_iauth`) -/

/-- The C library's `atoi`: white space, an optional sign, digits. -/
def atoi (s : Str) : Int :=
  let s1 := s.dropWhile isspace
  let s2 := if s1.head? = some '-' ∨ s1.head? = some '+' then s1.drop 1 else s1
  let v : Int := (s2.takeWhile Char.isDigit).foldl (fun a ch => 10 * a + ((ch.toNat : Int) - 48)) 0
  if s1.head? = some '-' then -v else v

/-- The statements of `read_iauth` that give up the memory of `cptr->auth`
when it is not the array `username`. -/
def dropAuth (k : AuthConf) (w : AuthWorld) (c : AuthClient) : AuthWorld :=
  if c.auth ≠ AuthPtr.username then
    { w with is_authmem := w.is_authmem - k.sizeofPtr, is_auth := w.is_auth - 1 }
  else w

/-- What `read_iauth` does for a line whose tuple has been found to match: `verb`
is `buf[0]` and `arg` the string at `start + strlen(tbuf)`.  The macro
`ClearXAuth` of struct_def.h (not under src/) is read as clearing
`FLAGS_XAUTH`. -/
def iauth_verb (k : AuthConf) (w : AuthWorld) (cptr : Nat) (verb : Char) (arg : Str) :
    AuthWorld :=
  let c := w.cl cptr
  if verb = 'U' then
    (dropAuth k w c).setCl cptr
      { c with auth := AuthPtr.username, username := arg.take k.USERLEN, gotid := true }
  else if verb = 'u' then
    let w1 := dropAuth k w c
    let w2 := { w1 with is_authmem := w1.is_authmem + k.sizeofPtr, is_auth := w1.is_auth + 1 }
    w2.setCl cptr
      { c with username := ('-' :: arg.take (k.USERLEN - 1)).take k.USERLEN,
               auth := AuthPtr.own ('-' :: arg), gotid := true }
  else if verb = 'D' then w.setCl cptr { c with xauth := false }
  else w.setCl cptr { c with exitc := k.EXITC_AREF }

/-- The inner loop of `read_iauth` over the lines of `buf`, from the offset
`start`; the first argument bounds the iterations.  The verb, the descriptor
and the tuple to compare are read at `buf`, the start of the buffer; the text
of a `>` line and the user name are read at `start`.  The conversion of the
notice for garbage is undefined in C, and is printed as the model of
`vsprintf` prints it.  Returns the state and the offset of the first byte
that has not been dealt with. -/
def iauth_loop (k : AuthConf) : Nat → AuthWorld → List Char → Nat → AuthWorld × Nat
  | 0, w, _, start => (w, start)
  | n + 1, w, buf, start =>
    if '\n' ∉ cstrAt buf start then (w, start)
    else
      let e := start + (cstrAt buf start).indexOf '\n'
      let buf1 := buf.set e NUL
      let verb := buf1.headD NUL
      let w1 :=
        if verb = '>' then
          w.post SChanId.SCH_AUTH (vsprintf "%s".toList [Arg.str (cstrAt buf1 (start + 1))])
        else w
      if verb ≠ '>' ∧ verb ≠ 'U' ∧ verb ≠ 'u' ∧ verb ≠ 'K' ∧ verb ≠ 'D' then
        iauth_loop k n
          (w1.post SChanId.SCH_AUTH
            (vsprintf "Garbage from iauth [%.*]".toList [Arg.str (cstrAt buf1 start)]))
          buf1 (e + 1)
      else
        let i := atoi (cstrAt buf1 2)
        match w1.«local» i with
        | none => iauth_loop k n (w1.post SChanId.SCH_DEBUG "client gone".toList) buf1 (e + 1)
        | some cptr =>
          let tbuf := vsprintf "%c %d %s %u ".toList
            [Arg.chr verb, Arg.int i, Arg.str (inetntoa (w1.cl cptr).ip),
              Arg.int (w1.cl cptr).port]
          if (cstrAt buf1 0).take tbuf.length ≠ tbuf then
            iauth_loop k n (w1.post SChanId.SCH_DEBUG "mismatch".toList) buf1 (e + 1)
          else
            iauth_loop k n (iauth_verb k w1 cptr verb (cstrAt buf1 (start + tbuf.length)))
              buf1 (e + 1)

/-- Function `read_iauth` for one `recv` that delivers the bytes `data` while
nothing is left over from the call before (`olen` is 0), followed by a
`recv` that would block: the state and what is kept in `obuf` for the next
call. -/
def read_iauth (k : AuthConf) (w : AuthWorld) (data : Str) : AuthWorld × Str :=
  let r := iauth_loop k (data.length + 1) w (data ++ [NUL]) 0
  (r.1, data.drop r.2)

/-- Each line of `lines` handed to `read_iauth` on its own, in order, each
with its end of line. -/
def read_iauth_each (k : AuthConf) (w : AuthWorld) (lines : List Str) : AuthWorld :=
  lines.foldl (fun w1 l => (read_iauth k w1 (l ++ ['\n'])).1) w

/-- The state `authWorld` with both clients handed to the helper process. -/
def helperWorld : AuthWorld :=
  { authWorld with
    cl := fun p => { authWorld.cl p with xauth := true, doingAuth := false, authfd := -1 } }

/-! ## Theorems -/

/-! ### In-place buffer writes -/

theorem take_bufSet_of_le (buf : List Char) (i j : Nat) (c : Char) (hj : j ≤ i)
    (hi : i ≤ buf.length) : (bufSet buf i c).take j = buf.take j := by
  unfold bufSet bufWrite
  rw [List.append_assoc, List.take_append_of_le_length (by simp; omega)]
  rw [List.take_take]; simp [hj]

theorem take_bufSet_succ (buf : List Char) (i : Nat) (c : Char) (hi : i ≤ buf.length) :
    (bufSet buf i c).take (i + 1) = buf.take i ++ [c] := by
  unfold bufSet bufWrite
  have hl : (buf.take i ++ [c]).length = i + 1 := by simp [hi]
  rw [List.take_append_of_le_length (by omega)]
  exact List.take_of_length_le (by omega)

theorem length_bufSet (buf : List Char) (i : Nat) (c : Char) (hi : i ≤ buf.length) :
    i + 1 ≤ (bufSet buf i c).length := by
  unfold bufSet bufWrite
  simp [hi]

/-- Cutting and terminating a rendering `r` that has just been written at the
start of a buffer leaves `min |r| 510` bytes of it followed by CR LF. -/
theorem terminate_spec (buf r : List Char) :
    (terminate (bufWrite buf 0 (r ++ [NUL])) r.length).2 = min r.length 510 + 2 ∧
    (terminate (bufWrite buf 0 (r ++ [NUL])) r.length).1.take (min r.length 510 + 2)
      = r.take (min r.length 510) ++ ['\r', '\n'] := by
  have hlen : (if r.length > 510 then 510 else r.length) = min r.length 510 := by
    split <;> omega
  have hb0 : bufWrite buf 0 (r ++ [NUL]) = r ++ (NUL :: buf.drop (r.length + 1)) := by
    simp [bufWrite]
  simp only [terminate, hlen, true_and]
  generalize hn : min r.length 510 = n
  have hn_le : n ≤ r.length := by omega
  set b0 := bufWrite buf 0 (r ++ [NUL]) with hb0def
  have h0 : n ≤ b0.length := by rw [hb0]; simp; omega
  have h1 : n + 1 ≤ (bufSet b0 n '\r').length := length_bufSet _ _ _ h0
  have h2 : n + 2 ≤ (bufSet (bufSet b0 n '\r') (n + 1) '\n').length :=
    length_bufSet _ _ _ h1
  rw [take_bufSet_of_le _ _ _ _ (le_refl _) h2]
  rw [take_bufSet_succ _ _ _ h1, take_bufSet_succ _ _ _ h0]
  rw [hb0, List.take_append_of_le_length hn_le]
  simp

/-- What `vsendprep` returns and leaves in `sendbuf`. -/
theorem vsendprep_spec (w : World) (pattern : Str) (va : List Arg) :
    (vsendprep w pattern va).2 = min (vsprintf pattern va).length 510 + 2 ∧
    (vsendprep w pattern va).1.sendbuf.take (vsendprep w pattern va).2
      = (vsprintf pattern va).take (min (vsprintf pattern va).length 510) ++ ['\r', '\n'] := by
  have h1 := terminate_spec w.sendbuf (vsprintf pattern va)
  refine ⟨h1.1, ?_⟩
  simp only [vsendprep]
  rw [h1.1]; exact h1.2

/-- What `vsendpreprep` returns and leaves in `psendbuf`. -/
theorem vsendpreprep_spec (w : World) (to_ : Nat) (from_ : CPtr) (pattern : Str)
    (va : List Arg) :
    (vsendpreprep w to_ from_ pattern va).2
      = min (preprepRender w to_ from_ pattern va).length 510 + 2 ∧
    (vsendpreprep w to_ from_ pattern va).1.psendbuf.take (vsendpreprep w to_ from_ pattern va).2
      = (preprepRender w to_ from_ pattern va).take
          (min (preprepRender w to_ from_ pattern va).length 510) ++ ['\r', '\n'] := by
  have h2 := terminate_spec w.psendbuf (preprepRender w to_ from_ pattern va)
  refine ⟨h2.1, ?_⟩
  simp only [vsendpreprep]
  rw [h2.1]; exact h2.2

theorem take_min_length (r : List Char) (k : Nat) : r.take (min r.length k) = r.take k := by
  rcases Nat.le_total r.length k with h | h
  · rw [Nat.min_eq_left h, List.take_of_length_le h, List.take_of_length_le (le_refl _)]
  · rw [Nat.min_eq_right h]

/-- The line `vsendpreprep` hands on: its rendering cut at 510 bytes, then CR LF. -/
theorem vsendpreprep_line (w : World) (to_ : Nat) (from_ : CPtr) (pattern : Str)
    (va : List Arg) :
    (vsendpreprep w to_ from_ pattern va).1.readBuf Buf.psendbuf
        (vsendpreprep w to_ from_ pattern va).2
      = (preprepRender w to_ from_ pattern va).take 510 ++ ['\r', '\n'] := by
  have h := (vsendpreprep_spec w to_ from_ pattern va).2
  rw [take_min_length] at h
  exact h

/-- The line `vsendprep` hands on: its rendering cut at 510 bytes, then CR LF. -/
theorem vsendprep_line (w : World) (pattern : Str) (va : List Arg) :
    (vsendprep w pattern va).1.readBuf Buf.sendbuf (vsendprep w pattern va).2
      = (vsprintf pattern va).take 510 ++ ['\r', '\n'] := by
  have h := (vsendprep_spec w pattern va).2
  rw [take_min_length] at h
  exact h

/-! ### Frame lemmas -/

theorem Frame.refl (w : World) : Frame w w :=
  ⟨fun _ => rfl, fun _ h => h, rfl, rfl, rfl, rfl, rfl, rfl, rfl⟩

theorem Frame.trans {w1 w2 w3 : World} (h12 : Frame w1 w2) (h23 : Frame w2 w3) :
    Frame w1 w3 :=
  ⟨fun p => (h23.static p).trans (h12.static p), fun p h => h23.dead p (h12.dead p h),
    h23.ch.trans h12.ch, h23.loc.trans h12.loc, h23.highest_fd.trans h12.highest_fd,
    h23.fdas_fd.trans h12.fdas_fd, h23.fdas_highest.trans h12.fdas_highest,
    h23.me.trans h12.me, h23.svchans.trans h12.svchans⟩

theorem frame_setCl (w : World) (p : Nat) (c : aClient)
    (hs : c.static = (w.cl p).static) (hd : (w.cl p).dead = true → c.dead = true) :
    Frame w (w.setCl p c) := by
  refine ⟨fun q => ?_, fun q h => ?_, rfl, rfl, rfl, rfl, rfl, rfl, rfl⟩
  · by_cases hq : q = p
    · subst hq; simp [World.setCl, hs]
    · simp [World.setCl, Function.update_noteq hq]
  · by_cases hq : q = p
    · subst hq; simp [World.setCl, hd h]
    · simpa [World.setCl, Function.update_noteq hq] using h

theorem frame_vsendprep (w : World) (pattern : Str) (va : List Arg) :
    Frame w (vsendprep w pattern va).1 := by
  unfold vsendprep
  exact ⟨fun _ => rfl, fun _ h => h, rfl, rfl, rfl, rfl, rfl, rfl, rfl⟩

theorem frame_vsendpreprep (w : World) (to_ : Nat) (from_ : CPtr) (pattern : Str)
    (va : List Arg) : Frame w (vsendpreprep w to_ from_ pattern va).1 := by
  unfold vsendpreprep
  exact ⟨fun _ => rfl, fun _ h => h, rfl, rfl, rfl, rfl, rfl, rfl, rfl⟩

theorem frame_raise_sendq (w : World) (to_ : Nat) : Frame w (raise_sendq w to_) := by
  unfold raise_sendq IncSendq
  exact ⟨fun _ => rfl, fun _ h => h, rfl, rfl, rfl, rfl, rfl, rfl, rfl⟩

theorem frame_prep_or_keep (w : World) (to_ : Nat) (from_ : CPtr) (pattern : Str)
    (va : List Arg) (len : Nat) :
    Frame w (preprepOnce w to_ from_ pattern va len).1 := by
  unfold preprepOnce
  split
  · exact frame_vsendpreprep _ _ _ _ _
  · exact Frame.refl _

theorem frame_prep_or_keep_sendbuf (w : World) (pattern : Str) (va : List Arg) (len : Nat) :
    Frame w (prepOnce w pattern va len).1 := by
  unfold prepOnce
  split
  · exact frame_vsendprep _ _ _
  · exact Frame.refl _

theorem butserv_loop_frame (sm : SM) (hsm : SMFrame sm) (from_ : Nat) (lfrm : CPtr)
    (pattern : Str) (va : List Arg) :
    ∀ (l : List Nat) (w : World) (len : Nat) (r : World × List Call),
      butserv_loop sm from_ lfrm pattern va l w len = some r → Frame w r.1 := by
  intro l
  induction l with
  | nil =>
    intro w len r h
    simp only [butserv_loop, Option.some.injEq] at h
    subst h; exact Frame.refl _
  | cons a lp ih =>
    intro w len r h
    rw [butserv_loop] at h
    split at h
    · cases hs : sm (preprepOnce w a lfrm pattern va len).1 a
          Buf.psendbuf (preprepOnce w a lfrm pattern va len).2 with
      | none => simp [hs] at h
      | some r1 =>
        simp only [hs] at h
        cases hl : butserv_loop sm from_ lfrm pattern va lp r1.1
            (preprepOnce w a lfrm pattern va len).2 with
        | none => simp [hl] at h
        | some r2 =>
          simp only [hl, Option.some.injEq] at h
          subst h
          exact ((frame_prep_or_keep w a lfrm pattern va len).trans (hsm _ _ _ _ _ hs)).trans
            (ih _ _ r2 hl)
    · exact ih _ _ _ h

theorem sendto_channel_butserv_g_frame (sm : SM) (hsm : SMFrame sm) (w : World)
    (chptr from_ : Nat) (pattern : Str) (va : List Arg) (r : Run)
    (h : sendto_channel_butserv_g sm w chptr from_ pattern va = some r) : Frame w r.w := by
  unfold sendto_channel_butserv_g at h
  simp only at h
  split at h
  · cases hs : sm (vsendpreprep w from_ (CPtr.reg from_) pattern va).1 from_ Buf.psendbuf
        (vsendpreprep w from_ (CPtr.reg from_) pattern va).2 with
    | none => simp [hs] at h
    | some r1 =>
      simp only [hs] at h
      have f1 : Frame w r1.1 := (frame_vsendpreprep _ _ _ _ _).trans (hsm _ _ _ _ _ hs)
      split at h
      · simp only [Option.some.injEq] at h
        subst h; exact f1
      · obtain ⟨a, ha, rfl⟩ := Option.map_eq_some'.mp h
        exact f1.trans (butserv_loop_frame sm hsm _ _ _ _ _ _ _ a ha)
  · obtain ⟨a, ha, rfl⟩ := Option.map_eq_some'.mp h
    exact butserv_loop_frame sm hsm _ _ _ _ _ _ _ a ha

theorem sendto_flag_g_frame (sm : SM) (hsm : SMFrame sm) (w : World) (chan : SChanId)
    (pattern : Str) (va : List Arg) (w1 : World)
    (h : sendto_flag_g sm w chan pattern va = some w1) : Frame w w1 := by
  unfold sendto_flag_g at h
  split at h
  · simp only [Option.some.injEq] at h
    subst h; exact Frame.refl _
  · obtain ⟨a, ha, rfl⟩ := Option.map_eq_some'.mp h
    exact sendto_channel_butserv_g_frame sm hsm _ _ _ _ _ a ha

theorem sendto_one_g_frame (sm : SM) (hsm : SMFrame sm) (w : World) (to_ : Nat)
    (pattern : Str) (va : List Arg) (r : World × Int)
    (h : sendto_one_g sm w to_ pattern va = some r) : Frame w r.1 := by
  unfold sendto_one_g at h
  obtain ⟨a, ha, rfl⟩ := Option.map_eq_some'.mp h
  exact (frame_vsendprep _ _ _).trans (hsm _ _ _ _ a ha)

theorem frame_setDeadAndClear (w : World) (to_ : Nat) : Frame w (setDeadAndClear w to_) :=
  frame_setCl _ _ _ rfl (fun _ => rfl)

theorem frame_setExitc (w : World) (to_ : Nat) (e : ExitCode) : Frame w (setExitc w to_ e) :=
  frame_setCl _ _ _ rfl (fun h => h)

theorem frame_enqueue (w : World) (to_ : Nat) (b : List Char) : Frame w (enqueue w to_ b) :=
  frame_setCl _ _ _ rfl (fun h => h)

theorem frame_dequeue (w : World) (to_ : Nat) (n : Nat) : Frame w (dequeue w to_ n) :=
  frame_setCl _ _ _ rfl (fun h => h)

theorem frame_incSendM (w : World) (p : Nat) : Frame w (incSendM w p) :=
  frame_setCl _ _ _ rfl (fun h => h)

theorem frame_countSent (w : World) (to_ : Nat) : Frame w (countSent w to_) := by
  unfold countSent
  simp only
  split
  · exact ((frame_incSendM _ _).trans (frame_incSendM _ _)).trans (frame_incSendM _ _)
  · exact (frame_incSendM _ _).trans (frame_incSendM _ _)

/-- Function `dead_link` leaves the link dead, and returns -1. -/
theorem dead_link_g_spec (env : Env) (sm : SM) (hsm : SMFrame sm) (w : World) (to_ : Nat)
    (notice : Str) (r : World × Int) (h : dead_link_g env sm w to_ notice = some r) :
    Frame w r.1 ∧ (r.1.cl to_).dead = true ∧ r.2 = -1 := by
  unfold dead_link_g at h
  simp only at h
  have fk := frame_setDeadAndClear w to_
  have hd : ((setDeadAndClear w to_).cl to_).dead = true := by
    simp [setDeadAndClear, World.setCl]
  split at h
  · obtain ⟨a, ha, rfl⟩ := Option.map_eq_some'.mp h
    have f2 := sendto_flag_g_frame sm hsm _ _ _ _ _ ha
    exact ⟨fk.trans f2, f2.dead _ hd, rfl⟩
  · simp only [Option.some.injEq] at h
    subst h
    exact ⟨fk, hd, rfl⟩

theorem write_error_notice_frame (env : Env) (sm : SM) (hsm : SMFrame sm) (w : World)
    (to_ : Nat) (w1 : World) (h : write_error_notice env sm w to_ = some w1) : Frame w w1 := by
  unfold write_error_notice at h
  split at h
  · split at h
    · split at h
      · split at h
        · obtain ⟨a, ha, rfl⟩ := Option.map_eq_some'.mp h
          exact sendto_one_g_frame sm hsm _ _ _ _ a ha
        · simp only [Option.some.injEq] at h
          subst h; exact Frame.refl _
      · simp only [Option.some.injEq] at h
        subst h; exact Frame.refl _
    · simp only [Option.some.injEq] at h
      subst h; exact Frame.refl _
  · simp only [Option.some.injEq] at h
    subst h; exact Frame.refl _

theorem send_queued_loop_frame (env : Env) (sm : SM) (hsm : SMFrame sm) (to_ : Nat) :
    ∀ (n : Nat) (w : World) (r : World × Int),
      send_queued_loop env sm to_ n w = some r → Frame w r.1 := by
  intro n
  induction n with
  | zero => intro w r h; simp [send_queued_loop] at h
  | succ n ih =>
    intro w r h
    rw [send_queued_loop] at h
    simp only at h
    split at h
    · split at h
      · cases hn : write_error_notice env sm w to_ with
        | none => simp [hn] at h
        | some w1 =>
          simp only [hn] at h
          exact (write_error_notice_frame env sm hsm _ _ _ hn).trans
            (dead_link_g_spec env sm hsm _ _ _ _ h).1
      · split at h
        · simp only [Option.some.injEq] at h
          subst h; exact frame_dequeue _ _ _
        · exact (frame_dequeue _ _ _).trans (ih _ _ h)
    · simp only [Option.some.injEq] at h
      subst h; exact Frame.refl _

theorem send_queued_g_frame (env : Env) (sm : SM) (hsm : SMFrame sm) (fuel : Nat) (w : World)
    (to_ : Nat) (r : World × Int) (h : send_queued_g env sm fuel w to_ = some r) :
    Frame w r.1 := by
  unfold send_queued_g at h
  split at h
  · simp only [Option.some.injEq] at h
    subst h; exact Frame.refl _
  · exact send_queued_loop_frame env sm hsm _ _ _ _ h

theorem send_message_tail_frame (env : Env) (sm : SM) (hsm : SMFrame sm) (fuel : Nat)
    (w : World) (to_ : Nat) (r : World × Int)
    (h : send_message_tail env sm fuel w to_ = some r) : Frame w r.1 := by
  unfold send_message_tail at h
  simp only at h
  split at h
  · obtain ⟨a, ha, rfl⟩ := Option.map_eq_some'.mp h
    exact (frame_countSent _ _).trans (send_queued_g_frame env sm hsm _ _ _ a ha)
  · simp only [Option.some.injEq] at h
    subst h; exact frame_countSent _ _

theorem frame_dbufmore (w : World) : Frame w { w with is_dbufmore := w.is_dbufmore + 1 } :=
  ⟨fun _ => rfl, fun _ h => h, rfl, rfl, rfl, rfl, rfl, rfl, rfl⟩

theorem send_message_put_frame (env : Env) (sm : SM) (hsm : SMFrame sm) (fuel : Nat)
    (to_ : Nat) (msg : Buf) (len : Nat) :
    ∀ (n : Nat) (w : World) (r : World × Int),
      send_message_put env sm fuel to_ msg len n w = some r → Frame w r.1 := by
  intro n
  induction n with
  | zero => intro w r h; simp [send_message_put] at h
  | succ n ih =>
    intro w r h
    rw [send_message_put] at h
    simp only at h
    split at h
    · split at h
      · split at h
        · simp at h
        · rename_i w2 hw2
          exact ((frame_raise_sendq _ _).trans (sendto_flag_g_frame sm hsm _ _ _ _ _ hw2)).trans
            ((frame_dbufmore _).trans (ih _ _ h))
      · exact (frame_setExitc _ _ _).trans (dead_link_g_spec env sm hsm _ _ _ _ h).1
    · exact (frame_enqueue _ _ _).trans (send_message_tail_frame env sm hsm _ _ _ _ h)

theorem send_message_body_frame (env : Env) (sm : SM) (hsm : SMFrame sm) (fuel : Nat) :
    SMFrame (send_message_body env sm fuel) := by
  intro w to0 msg len r h
  unfold send_message_body at h
  simp only at h
  split at h
  · obtain ⟨a, ha, rfl⟩ := Option.map_eq_some'.mp h
    exact sendto_flag_g_frame sm hsm _ _ _ _ _ ha
  · split at h
    · simp only [Option.some.injEq] at h
      subst h; exact Frame.refl _
    · split at h
      · split at h
        · split at h
          · simp at h
          · rename_i w2 hw2
            exact ((frame_raise_sendq _ _).trans
              (sendto_flag_g_frame sm hsm _ _ _ _ _ hw2)).trans
              ((frame_dbufmore _).trans (send_message_put_frame env sm hsm _ _ _ _ _ _ _ h))
        · exact (frame_setExitc _ _ _).trans (dead_link_g_spec env sm hsm _ _ _ _ h).1
      · exact send_message_put_frame env sm hsm _ _ _ _ _ _ _ h

/-- Function `send_message` never changes what `Frame` protects, at any depth. -/
theorem send_message_frame (env : Env) : ∀ fuel, SMFrame (send_message env fuel) := by
  intro fuel
  induction fuel with
  | zero => intro w to_ msg len r h; simp [send_message] at h
  | succ n ih => exact send_message_body_frame env _ ih _

/-! ### Queue length after `send_message` -/

theorem incSendM_sendQ (w : World) (p q : Nat) :
    ((incSendM w p).cl q).sendQ = (w.cl q).sendQ ∧ ((incSendM w p).cl q).dead = (w.cl q).dead ∧
      ((incSendM w p).cl q).lastsq = (w.cl q).lastsq := by
  by_cases hq : q = p
  · subst hq; simp [incSendM, World.setCl]
  · simp [incSendM, World.setCl, Function.update_noteq hq]

theorem countSent_sendQ (w : World) (to_ q : Nat) :
    ((countSent w to_).cl q).sendQ = (w.cl q).sendQ ∧
      ((countSent w to_).cl q).dead = (w.cl q).dead ∧
      ((countSent w to_).cl q).lastsq = (w.cl q).lastsq := by
  unfold countSent
  simp only
  split
  · refine ⟨?_, ?_, ?_⟩
    · rw [(incSendM_sendQ _ _ _).1, (incSendM_sendQ _ _ _).1, (incSendM_sendQ _ _ _).1]
    · rw [(incSendM_sendQ _ _ _).2.1, (incSendM_sendQ _ _ _).2.1, (incSendM_sendQ _ _ _).2.1]
    · rw [(incSendM_sendQ _ _ _).2.2, (incSendM_sendQ _ _ _).2.2, (incSendM_sendQ _ _ _).2.2]
  · refine ⟨?_, ?_, ?_⟩
    · rw [(incSendM_sendQ _ _ _).1, (incSendM_sendQ _ _ _).1]
    · rw [(incSendM_sendQ _ _ _).2.1, (incSendM_sendQ _ _ _).2.1]
    · rw [(incSendM_sendQ _ _ _).2.2, (incSendM_sendQ _ _ _).2.2]

theorem countSent_MaxSendq (w : World) (to_ : Nat) : (countSent w to_).MaxSendq = w.MaxSendq := by
  unfold countSent
  simp only
  split <;> rfl

/-- A flush never lengthens the queue of a link it leaves alive. -/
theorem send_queued_loop_bound (env : Env) (sm : SM) (hsm : SMFrame sm) (to_ : Nat) :
    ∀ (n : Nat) (w : World) (r : World × Int),
      send_queued_loop env sm to_ n w = some r →
        (r.1.cl to_).dead = true ∨
          ((r.1.cl to_).sendQ.length ≤ (w.cl to_).sendQ.length ∧ r.1.MaxSendq = w.MaxSendq) := by
  intro n
  induction n with
  | zero => intro w r h; simp [send_queued_loop] at h
  | succ n ih =>
    intro w r h
    rw [send_queued_loop] at h
    simp only at h
    have hdq : ∀ k, ((dequeue w to_ k).cl to_).sendQ.length ≤ (w.cl to_).sendQ.length := by
      intro k; simp [dequeue, World.setCl]
    split at h
    · split at h
      · cases hn : write_error_notice env sm w to_ with
        | none => simp [hn] at h
        | some w1 =>
          simp only [hn] at h
          exact Or.inl (dead_link_g_spec env sm hsm _ _ _ _ h).2.1
      · split at h
        · simp only [Option.some.injEq] at h
          subst h; exact Or.inr ⟨hdq _, rfl⟩
        · rcases ih _ _ h with hd | ⟨hl, hm⟩
          · exact Or.inl hd
          · exact Or.inr ⟨le_trans hl (hdq _), hm⟩
    · simp only [Option.some.injEq] at h
      subst h; exact Or.inr ⟨le_refl _, rfl⟩

theorem send_message_tail_bound (env : Env) (sm : SM) (hsm : SMFrame sm) (fuel : Nat)
    (w : World) (to_ : Nat) (r : World × Int)
    (h : send_message_tail env sm fuel w to_ = some r) :
    (r.1.cl to_).dead = true ∨
      ((r.1.cl to_).sendQ.length ≤ (w.cl to_).sendQ.length ∧ r.1.MaxSendq = w.MaxSendq) := by
  unfold send_message_tail at h
  simp only at h
  have hq := (countSent_sendQ w to_ to_).1
  have hm := countSent_MaxSendq w to_
  split at h
  · obtain ⟨a, ha, rfl⟩ := Option.map_eq_some'.mp h
    unfold send_queued_g at ha
    split at ha
    · rename_i hdead
      simp only [Option.some.injEq] at ha
      subst ha; exact Or.inl hdead
    · rcases send_queued_loop_bound env sm hsm _ _ _ _ ha with hd | ⟨hl, hm2⟩
      · exact Or.inl hd
      · exact Or.inr ⟨by rw [hq] at hl; exact hl, hm2.trans hm⟩
  · simp only [Option.some.injEq] at h
    subst h; exact Or.inr ⟨by rw [hq], hm⟩

theorem send_message_put_bound (env : Env) (sm : SM) (hsm : SMFrame sm) (fuel : Nat)
    (to_ : Nat) (msg : Buf) (len : Nat) (n : Nat) (w : World) (r : World × Int)
    (hb : (w.cl to_).cburst = false)
    (h : send_message_put env sm fuel to_ msg len n w = some r) :
    (r.1.cl to_).dead = true ∨
      ((r.1.cl to_).sendQ.length ≤ (w.cl to_).sendQ.length + len ∧
        r.1.MaxSendq = w.MaxSendq) := by
  cases n with
  | zero => simp [send_message_put] at h
  | succ n =>
    rw [send_message_put] at h
    simp only at h
    split at h
    · rw [if_neg (by simp [hb])] at h
      exact Or.inl (dead_link_g_spec env sm hsm _ _ _ _ h).2.1
    · rcases send_message_tail_bound env sm hsm _ _ _ _ h with hd | ⟨hl, hm⟩
      · exact Or.inl hd
      · refine Or.inr ⟨le_trans hl ?_, hm⟩
        have : (w.readBuf msg len).length ≤ len := by
          cases msg <;> simp [World.readBuf]
        simp [enqueue, World.setCl]
        exact this

theorem readBuf_length_le (w : World) (msg : Buf) (len : Nat) :
    (w.readBuf msg len).length ≤ len := by
  cases msg <;> simp [World.readBuf]

theorem static_eq_iff (c d : aClient) :
    c.static = d.static ↔
      c.user = d.user ∧ c.serv = d.serv ∧ c.closing = d.closing ∧ c.cburst = d.cburst ∧
        c.«from» = d.«from» ∧ c.fd = d.fd ∧ c.status = d.status ∧ c.name = d.name ∧
        c.sockhost = d.sockhost ∧ c.acpt = d.acpt ∧ c.cls = d.cls := by
  simp [aClient.static]

theorem Frame.cls {w w1 : World} (h : Frame w w1) (p : Nat) : (w1.cl p).cls = (w.cl p).cls :=
  ((static_eq_iff _ _).mp (h.static p)).2.2.2.2.2.2.2.2.2.2

theorem Frame.user {w w1 : World} (h : Frame w w1) (p : Nat) :
    (w1.cl p).user = (w.cl p).user :=
  ((static_eq_iff _ _).mp (h.static p)).1

theorem Frame.from_eq {w w1 : World} (h : Frame w w1) (p : Nat) :
    (w1.cl p).«from» = (w.cl p).«from» :=
  ((static_eq_iff _ _).mp (h.static p)).2.2.2.2.1

theorem Frame.fd {w w1 : World} (h : Frame w w1) (p : Nat) : (w1.cl p).fd = (w.cl p).fd :=
  ((static_eq_iff _ _).mp (h.static p)).2.2.2.2.2.1

theorem Frame.status {w w1 : World} (h : Frame w w1) (p : Nat) :
    (w1.cl p).status = (w.cl p).status :=
  ((static_eq_iff _ _).mp (h.static p)).2.2.2.2.2.2.1

/-- For a link that is not in connect burst, `send_message` leaves the link
dead or with at most `len` bytes more than its cap in the queue. -/
theorem send_message_body_bound (env : Env) (sm : SM) (hsm : SMFrame sm) (fuel : Nat)
    (w : World) (to0 : Nat) (msg : Buf) (len : Nat) (r : World × Int)
    (hme : IsMe (w.cl (effective w to0)) = false)
    (hb : (w.cl (effective w to0)).cburst = false)
    (h : send_message_body env sm fuel w to0 msg len = some r) :
    (r.1.cl (effective w to0)).dead = true ∨
      ((r.1.cl (effective w to0)).sendQ.length : Int)
        ≤ get_sendq r.1 (effective w to0) + len := by
  have hf := send_message_body_frame env sm hsm fuel w to0 msg len r h
  unfold send_message_body at h
  simp only at h
  rw [if_neg (by simp [hme])] at h
  split at h
  · rename_i hdead
    simp only [Option.some.injEq] at h
    subst h; exact Or.inl hdead
  · split at h
    · rw [if_neg (by simp [hb])] at h
      exact Or.inl (dead_link_g_spec env sm hsm _ _ _ _ h).2.1
    · rename_i hcap
      rcases send_message_put_bound env sm hsm _ _ _ _ _ _ _ hb h with hd | ⟨hl, hm⟩
      · exact Or.inl hd
      · refine Or.inr ?_
        have hcap2 : ((w.cl (effective w to0)).sendQ.length : Int) ≤ get_sendq w (effective w to0) :=
          not_lt.mp hcap
        have hg : get_sendq r.1 (effective w to0) = get_sendq w (effective w to0) := by
          simp [get_sendq, hm, hf.cls]
        rw [hg]
        have : ((r.1.cl (effective w to0)).sendQ.length : Int)
            ≤ ((w.cl (effective w to0)).sendQ.length : Int) + len := by exact_mod_cast hl
        omega

/-! ### Whom the recipient loops select -/

theorem frame_MyClient {w w1 : World} (h : Frame w w1) (p : Nat) :
    MyClient (w1.cl p) = MyClient (w.cl p) := by
  simp [MyClient, MyConnect, IsClient, h.fd, h.status]

theorem frame_MyConnect {w w1 : World} (h : Frame w w1) (p : Nat) :
    MyConnect (w1.cl p) = MyConnect (w.cl p) := by
  simp [MyConnect, h.fd]

theorem frame_IsMe {w w1 : World} (h : Frame w w1) (p : Nat) :
    IsMe (w1.cl p) = IsMe (w.cl p) := by
  simp [IsMe, h.status]

theorem frame_IsServer {w w1 : World} (h : Frame w w1) (p : Nat) :
    IsServer (w1.cl p) = IsServer (w.cl p) := by
  simp [IsServer, h.status]

theorem frame_IsRegisteredUser {w w1 : World} (h : Frame w w1) (p : Nat) :
    IsRegisteredUser (w1.cl p) = IsRegisteredUser (w.cl p) := by
  simp [IsRegisteredUser, IsClient, h.status, h.user]

theorem frame_IsMember {w w1 : World} (h : Frame w w1) (p c : Nat) :
    IsMember (w1.cl p) c = IsMember (w.cl p) c := by
  simp [IsMember, h.user]

/-- The links the loop of `sendto_channel_butserv` passes to `send_message`:
the local clients on the list other than the source, in list order. -/
theorem butserv_loop_targets (sm : SM) (hsm : SMFrame sm) (from_ : Nat) (lfrm : CPtr)
    (pattern : Str) (va : List Arg) (w0 : World) :
    ∀ (l : List Nat) (w : World) (len : Nat) (r : World × List Call), Frame w0 w →
      butserv_loop sm from_ lfrm pattern va l w len = some r →
        r.2.map Prod.fst = l.filter (fun a => MyClient (w0.cl a) && decide (a ≠ from_)) := by
  intro l
  induction l with
  | nil =>
    intro w len r _ h
    simp only [butserv_loop, Option.some.injEq] at h
    subst h; rfl
  | cons a lp ih =>
    intro w len r hf h
    rw [butserv_loop] at h
    rw [frame_MyClient hf] at h
    split at h
    · rename_i hc
      cases hs : sm (preprepOnce w a lfrm pattern va len).1 a
          Buf.psendbuf (preprepOnce w a lfrm pattern va len).2 with
      | none => simp [hs] at h
      | some r1 =>
        simp only [hs] at h
        cases hl : butserv_loop sm from_ lfrm pattern va lp r1.1
            (preprepOnce w a lfrm pattern va len).2 with
        | none => simp [hl] at h
        | some r2 =>
          simp only [hl, Option.some.injEq] at h
          subst h
          have hf2 : Frame w0 r1.1 :=
            (hf.trans (frame_prep_or_keep w a lfrm pattern va len)).trans (hsm _ _ _ _ _ hs)
          have := ih _ _ r2 hf2 hl
          simp [List.filter_cons, hc.1, hc.2, this]
    · rename_i hc
      have := ih _ _ r hf h
      rw [this, List.filter_cons]
      have : (MyClient (w0.cl a) && decide (a ≠ from_)) = false := by
        by_cases h1 : MyClient (w0.cl a) = true
        · by_cases h2 : a = from_
          · simp [h2]
          · exact absurd ⟨h1, h2⟩ hc
        · simp [h1]
      rw [this]; simp

/-- The links the loop of `sendto_channel_butone` passes to `send_message`:
the links of the list that `butoneSelects` accepts, in list order. -/
theorem butone_loop_targets (sm : SM) (hsm : SMFrame sm) (one : Option Nat) (from_ : Nat)
    (lfrm : CPtr) (pattern : Str) (va : List Arg) (len1 : Nat) (w0 : World) :
    ∀ (l : List Nat) (w : World) (len2 : Nat) (r : World × List Call), Frame w0 w →
      butone_loop sm one from_ lfrm pattern va len1 l w len2 = some r →
        r.2.map Prod.fst = l.filter (butoneSelects w0 one from_) := by
  intro l
  induction l with
  | nil =>
    intro w len r _ h
    simp only [butone_loop, Option.some.injEq] at h
    subst h; rfl
  | cons a lp ih =>
    intro w len2 r hf h
    rw [butone_loop] at h
    rw [frame_MyConnect hf, frame_IsMe hf, frame_IsRegisteredUser hf, hf.from_eq] at h
    split at h
    · rename_i hc
      have hsel : butoneSelects w0 one from_ a = false := by
        rcases hc with hc | hc <;> simp [butoneSelects, hc]
      rw [ih _ _ r hf h, List.filter_cons, hsel]; simp
    · rename_i hc
      have hc1 : ¬ (w0.cl a).«from» = one := fun x => hc (Or.inl x)
      have hc2 : IsMe (w0.cl a) = false := by
        cases hm : IsMe (w0.cl a) with
        | false => rfl
        | true => exact absurd (Or.inr hm) hc
      split at h
      · rename_i hlocal
        split at h
        · rename_i hne
          cases hs : sm (preprepOnce w a lfrm pattern va len2).1 a
              Buf.psendbuf
              (preprepOnce w a lfrm pattern va len2).2 with
          | none => simp [hs] at h
          | some r1 =>
            simp only [hs] at h
            cases hl : butone_loop sm one from_ lfrm pattern va len1 lp r1.1
                (preprepOnce w a lfrm pattern va len2).2 with
            | none => simp [hl] at h
            | some r2 =>
              simp only [hl, Option.some.injEq] at h
              subst h
              have hf2 : Frame w0 r1.1 :=
                (hf.trans (frame_prep_or_keep w a lfrm pattern va len2)).trans
                  (hsm _ _ _ _ _ hs)
              have hsel : butoneSelects w0 one from_ a = true := by
                simp [butoneSelects, hc1, hc2, hne]
              simp [List.filter_cons, hsel, ih _ _ r2 hf2 hl]
        · rename_i heq
          have hsel : butoneSelects w0 one from_ a = false := by
            have hd : decide (a = from_) = true := decide_eq_true (not_not.mp heq)
            simp only [butoneSelects, hlocal.1, hlocal.2, hd]
            simp
          have hf2 : Frame w0 (preprepOnce w a lfrm pattern va len2).1 :=
            hf.trans (frame_prep_or_keep w a lfrm pattern va len2)
          rw [ih _ _ r hf2 h, List.filter_cons, hsel]; simp
      · rename_i hnl
        cases hs : sm w a Buf.sendbuf len1 with
        | none => simp [hs] at h
        | some r1 =>
          simp only [hs] at h
          cases hl : butone_loop sm one from_ lfrm pattern va len1 lp r1.1 len2 with
          | none => simp [hl] at h
          | some r2 =>
            simp only [hl, Option.some.injEq] at h
            subst h
            have hf2 : Frame w0 r1.1 := hf.trans (hsm _ _ _ _ _ hs)
            have hsel : butoneSelects w0 one from_ a = true := by
              have : (MyConnect (w0.cl a) && IsRegisteredUser (w0.cl a)) = false := by
                cases h1 : MyConnect (w0.cl a) <;> cases h2 : IsRegisteredUser (w0.cl a) <;>
                  simp_all
              simp [butoneSelects, hc1, hc2, this]
            simp [List.filter_cons, hsel, ih _ _ r2 hf2 hl]

/-- Function `sendto_channel_butone`: the echo is made exactly under its guard, and
the loop passes the selected links of `clist`. -/
theorem sendto_channel_butone_g_targets (sm : SM) (hsm : SMFrame sm) (w : World)
    (one : Option Nat) (from_ chptr : Nat) (pattern : Str) (va : List Arg) (r : Run)
    (h : sendto_channel_butone_g sm w one from_ chptr pattern va = some r) :
    r.fan.map Prod.fst = (w.ch chptr).clist.filter (butoneSelects w one from_) ∧
    r.echo.map Prod.fst =
      (if one ≠ some from_ ∧ MyConnect (w.cl from_) = true ∧
          IsRegisteredUser (w.cl from_) = true then [from_] else []) := by
  unfold sendto_channel_butone_g at h
  simp only at h
  split at h
  · simp at h
  · rename_i w1 e he
    obtain ⟨a, ha, rfl⟩ := Option.map_eq_some'.mp h
    split at he
    · rename_i hecho
      obtain ⟨r1, hr1, hr1e⟩ := Option.map_eq_some'.mp he
      simp only [Prod.mk.injEq] at hr1e
      obtain ⟨rfl, rfl⟩ := hr1e
      have hf1 : Frame w r1.1 := (frame_vsendpreprep _ _ _ _ _).trans (hsm _ _ _ _ _ hr1)
      have hf2 : Frame w (vsendprep r1.1 pattern va).1 := hf1.trans (frame_vsendprep _ _ _)
      refine ⟨?_, ?_⟩
      · rw [butone_loop_targets sm hsm one from_ _ pattern va _ w _ _ _ a hf2 ha, hf2.ch]
      · simp only [Bool.and_eq_true, decide_eq_true_eq] at hecho
        simp [hecho.1.1, hecho.1.2, hecho.2]
    · rename_i hecho
      simp only [Option.some.injEq, Prod.mk.injEq] at he
      obtain ⟨rfl, rfl⟩ := he
      have hf2 : Frame w (vsendprep w pattern va).1 := frame_vsendprep _ _ _
      refine ⟨?_, ?_⟩
      · rw [butone_loop_targets sm hsm one from_ _ pattern va _ w _ _ _ a hf2 ha, hf2.ch]
      · simp only [Bool.and_eq_true, decide_eq_true_eq] at hecho
        rw [if_neg]
        · rfl
        · rintro ⟨h1, h2, h3⟩
          exact hecho ⟨⟨h1, h2⟩, h3⟩

/-- What `sendto_channel_butserv` does, by whether the source is a local
client and whether the channel is quiet. -/
theorem sendto_channel_butserv_g_targets (sm : SM) (hsm : SMFrame sm) (w : World)
    (chptr from_ : Nat) (pattern : Str) (va : List Arg) (r : Run)
    (h : sendto_channel_butserv_g sm w chptr from_ pattern va = some r) :
    r.echo = (if MyClient (w.cl from_) = true then
        [(from_, (vsendpreprep w from_ (CPtr.reg from_) pattern va).1.readBuf Buf.psendbuf
          (vsendpreprep w from_ (CPtr.reg from_) pattern va).2)] else []) ∧
    r.fan.map Prod.fst = (if MyClient (w.cl from_) = true ∧ (w.ch chptr).quiet = true then []
      else (w.ch chptr).clist.filter (fun a => MyClient (w.cl a) && decide (a ≠ from_))) := by
  unfold sendto_channel_butserv_g at h
  simp only at h
  split at h
  · rename_i hmc
    cases hs : sm (vsendpreprep w from_ (CPtr.reg from_) pattern va).1 from_ Buf.psendbuf
        (vsendpreprep w from_ (CPtr.reg from_) pattern va).2 with
    | none => simp [hs] at h
    | some r1 =>
      simp only [hs] at h
      have f1 : Frame w r1.1 := (frame_vsendpreprep _ _ _ _ _).trans (hsm _ _ _ _ _ hs)
      rw [f1.ch] at h
      split at h
      · rename_i hq
        simp only [Option.some.injEq] at h
        subst h
        simp [hmc, hq]
      · rename_i hq
        obtain ⟨a, ha, rfl⟩ := Option.map_eq_some'.mp h
        refine ⟨by simp [hmc], ?_⟩
        rw [if_neg (fun x => hq x.2)]
        exact butserv_loop_targets sm hsm _ _ _ _ w _ _ _ a f1 ha
  · rename_i hmc
    obtain ⟨a, ha, rfl⟩ := Option.map_eq_some'.mp h
    refine ⟨by simp [hmc], ?_⟩
    rw [if_neg (fun x => hmc x.1)]
    exact butserv_loop_targets sm hsm _ _ _ _ w _ _ _ a (Frame.refl w) ha

/-- The loop of `sendto_match_servs` never passes the source to `send_message`. -/
theorem match_servs_loop_not_from (env : Env) (sm : SM) (from_ : Nat) (mask : Option Str)
    (format : Str) (va : List Arg) :
    ∀ (l : List Nat) (w : World) (len : Nat) (r : World × List Call),
      match_servs_loop env sm from_ mask format va l w len = some r →
        ∀ c ∈ r.2, c.1 ≠ from_ := by
  intro l
  induction l with
  | nil =>
    intro w len r h
    simp only [match_servs_loop, Option.some.injEq] at h
    subst h; simp
  | cons i is ih =>
    intro w len r h
    rw [match_servs_loop] at h
    split at h
    · exact ih _ _ _ h
    · rename_i cptr hcp
      split at h
      · exact ih _ _ _ h
      · rename_i hne
        simp only at h
        split at h
        · exact ih _ _ _ h
        · cases hs : sm (prepOnce w format va len).1 cptr Buf.sendbuf
              (prepOnce w format va len).2 with
          | none => simp [hs] at h
          | some r1 =>
            simp only [hs] at h
            cases hl : match_servs_loop env sm from_ mask format va is r1.1
                (prepOnce w format va len).2 with
            | none => simp [hl] at h
            | some r2 =>
              simp only [hl, Option.some.injEq] at h
              subst h
              intro c hc
              rcases List.mem_cons.mp hc with rfl | hc
              · exact fun x => hne (Or.inl x)
              · exact ih _ _ r2 hl c hc

theorem sendto_match_servs_g_not_from (env : Env) (sm : SM) (w : World) (chptr : Option Nat)
    (from_ : Nat) (format : Str) (va : List Arg) (r : Run)
    (h : sendto_match_servs_g env sm w chptr from_ format va = some r) :
    r.echo = [] ∧ ∀ c ∈ r.fan, c.1 ≠ from_ := by
  unfold sendto_match_servs_g at h
  simp only at h
  split at h
  · split at h
    · simp only [Option.some.injEq] at h
      subst h; simp
    · obtain ⟨a, ha, rfl⟩ := Option.map_eq_some'.mp h
      exact ⟨rfl, match_servs_loop_not_from env sm from_ _ format va _ _ _ a ha⟩
  · obtain ⟨a, ha, rfl⟩ := Option.map_eq_some'.mp h
    exact ⟨rfl, match_servs_loop_not_from env sm from_ _ format va _ _ _ a ha⟩

/-! ### Sending to an ordinary local client touches no scratch state -/

theorem dead_link_g_person (env : Env) (sm : SM) (w : World) (to_ : Nat) (notice : Str)
    (hp : IsPerson (w.cl to_) = true) :
    dead_link_g env sm w to_ notice = some (setDeadAndClear w to_, -1) := by
  have : IsPerson ((setDeadAndClear w to_).cl to_) = true := by
    simpa [setDeadAndClear, World.setCl, IsPerson, IsClient] using hp
  simp [dead_link_g, this]

theorem person_status {c : aClient} (hp : IsPerson c = true) : c.status = Status.CLIENT := by
  simp only [IsPerson, IsClient, Bool.and_eq_true, decide_eq_true_eq] at hp
  exact hp.2

theorem write_error_notice_person (env : Env) (sm : SM) (w : World) (to_ : Nat)
    (hp : IsPerson (w.cl to_) = true) : write_error_notice env sm w to_ = some w := by
  have hs := person_status hp
  unfold write_error_notice
  split
  · rw [if_neg]
    simp [IsConnecting, IsHandshake, hs]
  · rfl

theorem dequeue_person (w : World) (to_ : Nat) (n : Nat) (hp : IsPerson (w.cl to_) = true) :
    IsPerson ((dequeue w to_ n).cl to_) = true := by
  simpa [dequeue, World.setCl, IsPerson, IsClient] using hp

theorem send_queued_loop_person (env : Env) (sm : SM) (to_ : Nat) :
    ∀ (n : Nat) (w : World) (r : World × Int), IsPerson (w.cl to_) = true →
      send_queued_loop env sm to_ n w = some r →
        r.1.psendbuf = w.psendbuf ∧ r.1.sentalong = w.sentalong := by
  intro n
  induction n with
  | zero => intro w r _ h; simp [send_queued_loop] at h
  | succ n ih =>
    intro w r hp h
    rw [send_queued_loop] at h
    simp only at h
    split at h
    · split at h
      · rw [write_error_notice_person env sm w to_ hp] at h
        simp only at h
        rw [dead_link_g_person env sm w to_ _ hp] at h
        simp only [Option.some.injEq] at h
        subst h; exact ⟨rfl, rfl⟩
      · split at h
        · simp only [Option.some.injEq] at h
          subst h; exact ⟨rfl, rfl⟩
        · have := ih _ _ (dequeue_person w to_ _ hp) h
          exact this
    · simp only [Option.some.injEq] at h
      subst h; exact ⟨rfl, rfl⟩

theorem countSent_scratch (w : World) (to_ : Nat) :
    (countSent w to_).psendbuf = w.psendbuf ∧ (countSent w to_).sentalong = w.sentalong := by
  unfold countSent
  simp only
  split <;> exact ⟨rfl, rfl⟩

theorem countSent_person (w : World) (to_ : Nat) (hp : IsPerson (w.cl to_) = true) :
    IsPerson ((countSent w to_).cl to_) = true := by
  have hf := frame_countSent w to_
  simpa [IsPerson, IsClient, hf.user, hf.status] using hp

/-- The real `send_message` keeps the scratch state when it is called for an
ordinary local client: no diagnostic is posted on that path. -/
theorem send_message_keeps (env : Env) (fuel : Nat) : SMKeeps (send_message env fuel) := by
  intro w c msg len r hpl h
  obtain ⟨hmc, hp, heff, hb⟩ := hpl
  cases fuel with
  | zero => simp [send_message] at h
  | succ n =>
    have hs := person_status hp
    simp only [send_message, send_message_body, heff] at h
    rw [if_neg (by simp [IsMe, hs])] at h
    split at h
    · simp only [Option.some.injEq] at h
      subst h; exact ⟨rfl, rfl⟩
    · have hput : ∀ r, send_message_put env (send_message env n) (n + 1) c msg len (n + 1) w
          = some r → r.1.psendbuf = w.psendbuf ∧ r.1.sentalong = w.sentalong := by
        intro r h
        rw [send_message_put] at h
        simp only at h
        split at h
        · rw [if_neg (by simp [hb])] at h
          have hp2 : IsPerson ((setExitc w c ExitCode.MBUF).cl c) = true := by
            simpa [setExitc, World.setCl, IsPerson, IsClient] using hp
          rw [dead_link_g_person env _ _ c _ hp2] at h
          simp only [Option.some.injEq] at h
          subst h; exact ⟨rfl, rfl⟩
        · have hp2 : IsPerson ((enqueue w c (w.readBuf msg len)).cl c) = true := by
            simpa [enqueue, World.setCl, IsPerson, IsClient] using hp
          unfold send_message_tail at h
          simp only at h
          have hcs := countSent_scratch (enqueue w c (w.readBuf msg len)) c
          split at h
          · obtain ⟨a, ha, rfl⟩ := Option.map_eq_some'.mp h
            unfold send_queued_g at ha
            split at ha
            · simp only [Option.some.injEq] at ha
              subst ha; exact hcs
            · have := send_queued_loop_person env _ c _ _ a (countSent_person _ c hp2) ha
              exact ⟨this.1.trans hcs.1, this.2.trans hcs.2⟩
          · simp only [Option.some.injEq] at h
            subst h; exact hcs
      split at h
      · rw [if_neg (by simp [hb])] at h
        have hp2 : IsPerson ((setExitc w c ExitCode.SENDQ).cl c) = true := by
          simpa [setExitc, World.setCl, IsPerson, IsClient] using hp
        rw [dead_link_g_person env _ _ c _ hp2] at h
        simp only [Option.some.injEq] at h
        subst h; exact ⟨rfl, rfl⟩
      · exact hput r h

/-! ### `sendto_common_channels`, first part -/

theorem Frame.name {w w1 : World} (h : Frame w w1) (p : Nat) : (w1.cl p).name = (w.cl p).name :=
  ((static_eq_iff _ _).mp (h.static p)).2.2.2.2.2.2.2.1

theorem Frame.sockhost {w w1 : World} (h : Frame w w1) (p : Nat) :
    (w1.cl p).sockhost = (w.cl p).sockhost :=
  ((static_eq_iff _ _).mp (h.static p)).2.2.2.2.2.2.2.2.1

theorem Frame.cburst {w w1 : World} (h : Frame w w1) (p : Nat) :
    (w1.cl p).cburst = (w.cl p).cburst :=
  ((static_eq_iff _ _).mp (h.static p)).2.2.2.1

theorem frame_IsPerson {w w1 : World} (h : Frame w w1) (p : Nat) :
    IsPerson (w1.cl p) = IsPerson (w.cl p) := by
  simp [IsPerson, IsClient, h.status, h.user]

theorem frame_effective {w w1 : World} (h : Frame w w1) (p : Nat) :
    effective w1 p = effective w p := by
  simp [effective, h.from_eq]

theorem frame_Plain {w w1 : World} (h : Frame w w1) (c : Nat) (hp : Plain w c) : Plain w1 c := by
  obtain ⟨h1, h2, h3, h4⟩ := hp
  exact ⟨by rw [frame_MyClient h]; exact h1, by rw [frame_IsPerson h]; exact h2,
    by rw [frame_effective h]; exact h3, by rw [h.cburst]; exact h4⟩

theorem frame_preprepRender {w w1 : World} (h : Frame w w1) (to_ user : Nat) (pattern : Str)
    (va : List Arg) :
    preprepRender w1 to_ (CPtr.reg user) pattern va
      = preprepRender w to_ (CPtr.reg user) pattern va := by
  simp only [preprepRender, World.deref, frame_MyClient h, frame_IsPerson h, mkPrefix,
    h.name, h.user, h.sockhost, frame_MyConnect h]

theorem frame_commonLine {w w1 : World} (h : Frame w w1) (to_ user : Nat) (pattern : Str)
    (va : List Arg) :
    commonLine w1 to_ user pattern va = commonLine w to_ user pattern va := by
  simp only [commonLine, frame_preprepRender h]

theorem commonLine_congr (w : World) (c d user : Nat) (pattern : Str) (va : List Arg)
    (h : MyClient (w.cl c) = MyClient (w.cl d)) :
    commonLine w c user pattern va = commonLine w d user pattern va := by
  simp only [commonLine, preprepRender, h]

theorem frame_common_scan {w w1 : World} (h : Frame w w1) (c : Nat) (l : List Nat) :
    common_scan w1 c l = common_scan w c l := by
  induction l with
  | nil => rfl
  | cons a l ih => simp only [common_scan, frame_IsMember h, h.ch, ih]

theorem frame_fdPeer {w w1 : World} (h : Frame w w1) (user i : Nat) :
    fdPeer w1 user i = fdPeer w user i := by
  unfold fdPeer
  rw [h.loc, h.user]
  split
  · simp only [frame_IsServer h, frame_common_scan h]
  · rfl

/-- One pass through `if (!len) len = vsendpreprep(...)` leaves the line in
`psendbuf` and a length that is not zero. -/
theorem preprepOnce_spec (w : World) (c user : Nat) (pattern : Str) (va : List Arg)
    (len : Nat) (B : List Char) (hinv : len = 0 ∨ w.psendbuf.take len = B)
    (hB : commonLine w c user pattern va = B) :
    (preprepOnce w c (CPtr.reg user) pattern va len).2 ≠ 0 ∧
    (preprepOnce w c (CPtr.reg user) pattern va len).1.psendbuf.take
      (preprepOnce w c (CPtr.reg user) pattern va len).2 = B ∧
    (preprepOnce w c (CPtr.reg user) pattern va len).1.sentalong = w.sentalong := by
  unfold preprepOnce
  split
  · refine ⟨?_, ?_, ?_⟩
    · rw [(vsendpreprep_spec _ _ _ _ _).1]; omega
    · have := vsendpreprep_line w c (CPtr.reg user) pattern va
      simp only [World.readBuf] at this
      rw [this]; exact hB
    · simp [vsendpreprep]
  · rename_i hne
    rcases hinv with h | h
    · exact absurd h hne
    · exact ⟨hne, h, rfl⟩

/-- The loop over descriptors: each descriptor that `fdPeer` selects gets one
call, with the prepared line. -/
theorem common_fd_loop_spec (sm : SM) (hsm : SMFrame sm) (hk : SMKeeps sm) (user : Nat)
    (pattern : Str) (va : List Arg) (w0 : World) (B : List Char) :
    ∀ (l : List Nat) (w : World) (len : Nat) (r : World × List Call), Frame w0 w →
      (len = 0 ∨ w.psendbuf.take len = B) →
      (∀ i ∈ l, ∀ c, fdPeer w0 user i = some c →
        Plain w0 c ∧ commonLine w0 c user pattern va = B) →
      common_fd_loop sm user pattern va l w len = some r →
        r.2 = (l.filterMap (fdPeer w0 user)).map (fun c => (c, B)) := by
  intro l
  induction l with
  | nil =>
    intro w len r _ _ _ h
    simp only [common_fd_loop, Option.some.injEq] at h
    subst h; rfl
  | cons i is ih =>
    intro w len r hf hinv hall h
    have hall' : ∀ j ∈ is, ∀ c, fdPeer w0 user j = some c →
        Plain w0 c ∧ commonLine w0 c user pattern va = B :=
      fun j hj => hall j (List.mem_cons_of_mem _ hj)
    have hpeer : fdPeer w user i = fdPeer w0 user i := frame_fdPeer hf user i
    rw [common_fd_loop] at h
    cases hloc : w.«local» (i : Int) with
    | none =>
      have hnone : fdPeer w0 user i = none := by
        rw [← hpeer]; simp [fdPeer, hloc]
      simp only [hloc] at h
      rw [List.filterMap_cons_none hnone]
      exact ih _ _ _ hf hinv hall' h
    | some cptr =>
      cases hu : (w.cl user).user with
      | none =>
        have hnone : fdPeer w0 user i = none := by
          rw [← hpeer]; simp [fdPeer, hloc, hu]
        simp only [hloc, hu] at h
        rw [List.filterMap_cons_none hnone]
        exact ih _ _ _ hf hinv hall' h
      | some u =>
        simp only [hloc, hu] at h
        split at h
        · rename_i hskip
          have hnone : fdPeer w0 user i = none := by
            rw [← hpeer]
            rcases hskip with h1 | h1
            · simp [fdPeer, hloc, hu, h1]
            · subst h1
              simp [fdPeer, hloc, hu]
          rw [List.filterMap_cons_none hnone]
          exact ih _ _ _ hf hinv hall' h
        · rename_i hskip
          have h1 : IsServer (w.cl cptr) = false := by
            cases hx : IsServer (w.cl cptr) with
            | false => rfl
            | true => exact absurd (Or.inl hx) hskip
          have h2 : user ≠ cptr := fun x => hskip (Or.inr x)
          split at h
          · rename_i hscan
            have hsome : fdPeer w0 user i = some cptr := by
              rw [← hpeer]; simp [fdPeer, hloc, hu, h1, h2, hscan]
            obtain ⟨hplain, hline⟩ := hall i (List.mem_cons_self _ _) cptr hsome
            have hline' : commonLine w cptr user pattern va = B := by
              rw [frame_commonLine hf]; exact hline
            obtain ⟨hp1, hp2, hp3⟩ := preprepOnce_spec w cptr user pattern va len B hinv hline'
            have hfp : Frame w (preprepOnce w cptr (CPtr.reg user) pattern va len).1 :=
              frame_prep_or_keep _ _ _ _ _ _
            cases hs : sm (preprepOnce w cptr (CPtr.reg user) pattern va len).1 cptr
                Buf.psendbuf (preprepOnce w cptr (CPtr.reg user) pattern va len).2 with
            | none => simp [hs] at h
            | some r1 =>
              simp only [hs] at h
              cases hl : common_fd_loop sm user pattern va is r1.1
                  (preprepOnce w cptr (CPtr.reg user) pattern va len).2 with
              | none => simp [hl] at h
              | some r2 =>
                simp only [hl, Option.some.injEq] at h
                subst h
                have hf2 : Frame w0 r1.1 := (hf.trans hfp).trans (hsm _ _ _ _ _ hs)
                have hkeep := hk _ _ _ _ _ (frame_Plain (hf.trans hfp) cptr hplain) hs
                have hinv2 : (preprepOnce w cptr (CPtr.reg user) pattern va len).2 = 0 ∨
                    r1.1.psendbuf.take (preprepOnce w cptr (CPtr.reg user) pattern va len).2
                      = B := Or.inr (by rw [hkeep.1]; exact hp2)
                rw [List.filterMap_cons_some hsome, List.map_cons, ih _ _ r2 hf2 hinv2 hall' hl]
                simp only [World.readBuf, hp2]
          · rename_i hscan
            have hnone : fdPeer w0 user i = none := by
              rw [← hpeer]; simp [fdPeer, hloc, hu, h1, h2, hscan]
            rw [List.filterMap_cons_none hnone]
            exact ih _ _ _ hf hinv hall' h

theorem common_scan_iff (w : World) (c : Nat) (l : List Nat) :
    common_scan w c l = true ↔
      ∃ ch ∈ l, IsMember (w.cl c) ch = true ∧ (w.ch ch).quiet = false ∧
        (w.ch ch).anonymous = false := by
  induction l with
  | nil => simp [common_scan]
  | cons a l ih =>
    rw [common_scan]
    cases hm : IsMember (w.cl c) a <;> cases ha : (w.ch a).anonymous <;>
      cases hq : (w.ch a).quiet <;> simp [ih, hm, ha, hq]

theorem isMember_user {c : aClient} {ch : Nat} (h : IsMember c ch = true) :
    c.user.isSome = true := by
  unfold IsMember at h
  split at h
  · rename_i u hu; simp [hu]
  · exact Bool.noConfusion h

/-- Under the registry invariants, whoever `fdPeer` selects is an ordinary
local client other than `user`, in slot `i`, on an open channel of `user`. -/
theorem fdPeer_sound (w : World) (user : Nat) (hok : RegistryOK w user) (i c : Nat)
    (hi : i ∈ List.range (w.highest_fd + 1).toNat) (h : fdPeer w user i = some c) :
    Plain w c ∧ c ≠ user ∧ SharesOpenChannel w user c ∧ (w.cl c).fd = (i : Int) ∧
      w.«local» (i : Int) = some c := by
  unfold fdPeer at h
  split at h
  · rename_i cptr u hloc hu
    split at h
    · rename_i hcond
      simp only [Option.some.injEq] at h
      subst h
      simp only [Bool.and_eq_true, Bool.not_eq_true', decide_eq_true_eq] at hcond
      obtain ⟨⟨_, hne⟩, hscan⟩ := hcond
      obtain ⟨ch, hch, hmem, hq, ha⟩ := (common_scan_iff w cptr u.channel).mp hscan
      have hile : (i : Int) ≤ w.highest_fd := by
        have := List.mem_range.mp hi
        omega
      have hfd := hok.slot_fd i cptr hile hloc
      have hmc : MyConnect (w.cl cptr) = true := by simp [MyConnect, hfd]
      have hus := isMember_user hmem
      obtain ⟨_, _, hcl, heff, hb⟩ := hok.fd_slot cptr hmc hus (Or.inr ⟨u, hu, ch, hch, hmem⟩)
      exact ⟨⟨by simp [MyClient, hmc, hcl], by simp [IsPerson, hus, hcl], heff, hb⟩,
        fun x => hne x.symm, ⟨u, hu, ch, hch, hmem, hq, ha⟩, hfd, hloc⟩
    · exact Option.noConfusion h
  · exact Option.noConfusion h

theorem fdPeer_no_user (w : World) (user : Nat) (hu : (w.cl user).user = none) (i : Nat) :
    fdPeer w user i = none := by
  unfold fdPeer
  rw [hu]
  cases w.«local» (i : Int) <;> rfl

/-- The first part of `sendto_common_channels`, under the registry
invariants: the echo when `user` is local, then one call for each descriptor
that `fdPeer` selects, each with the line prepared for its recipient. -/
theorem sendto_common_channels_fds_spec (sm : SM) (hsm : SMFrame sm) (hk : SMKeeps sm)
    (w : World) (user : Nat) (pattern : Str) (va : List Arg) (hok : RegistryOK w user)
    (r : Run) (h : sendto_common_channels_fds sm w user pattern va = some r) :
    r.echo = (if MyConnect (w.cl user) = true then
        [(user, commonLine w user user pattern va)] else []) ∧
    r.fan = ((List.range (w.highest_fd + 1).toNat).filterMap (fdPeer w user)).map
      (fun c => (c, commonLine w c user pattern va)) := by
  have hrec : ∀ i ∈ List.range (w.highest_fd + 1).toNat, ∀ c, fdPeer w user i = some c →
      Plain w c := fun i hi c hc => (fdPeer_sound w user hok i c hi hc).1
  have hlines : ∀ B, (∀ i ∈ List.range (w.highest_fd + 1).toNat, ∀ c,
      fdPeer w user i = some c → commonLine w c user pattern va = B) →
      ((List.range (w.highest_fd + 1).toNat).filterMap (fdPeer w user)).map (fun c => (c, B))
        = ((List.range (w.highest_fd + 1).toNat).filterMap (fdPeer w user)).map
          (fun c => (c, commonLine w c user pattern va)) := by
    intro B hB
    apply List.map_congr_left
    intro c hc
    obtain ⟨i, hi, hic⟩ := List.mem_filterMap.mp hc
    rw [hB i hi c hic]
  unfold sendto_common_channels_fds at h
  simp only at h
  split at h
  · simp at h
  · rename_i w1 len e he
    obtain ⟨a, ha, rfl⟩ := Option.map_eq_some'.mp h
    simp only
    split at he
    · rename_i hmc
      obtain ⟨r1, hr1, hr1e⟩ := Option.map_eq_some'.mp he
      simp only [Prod.mk.injEq] at hr1e
      obtain ⟨rfl, rfl, rfl⟩ := hr1e
      have hline := vsendpreprep_line w user (CPtr.reg user) pattern va
      have hf1 : Frame w r1.1 := (frame_vsendpreprep _ _ _ _ _).trans (hsm _ _ _ _ _ hr1)
      have hlen : (vsendpreprep w user (CPtr.reg user) pattern va).2 ≠ 0 := by
        rw [(vsendpreprep_spec _ _ _ _ _).1]; omega
      refine ⟨by rw [if_pos hmc, hline]; rfl, ?_⟩
      rw [hf1.highest_fd] at ha
      cases hu : (w.cl user).user with
      | none =>
        have hnone : ∀ i, fdPeer w user i = none := fdPeer_no_user w user hu
        have := common_fd_loop_spec sm hsm hk user pattern va w
          (r1.1.psendbuf.take (vsendpreprep w user (CPtr.reg user) pattern va).2) _ _ _ a hf1
          (Or.inr rfl) (fun i _ c hc => by rw [hnone i] at hc; exact Option.noConfusion hc) ha
        rw [this]
        apply hlines
        intro i _ c hc
        rw [hnone i] at hc; exact Option.noConfusion hc
      | some u =>
        have hus : (w.cl user).user.isSome = true := by simp [hu]
        obtain ⟨_, _, hcl, heff, hb⟩ := hok.fd_slot user hmc hus (Or.inl rfl)
        have hplain : Plain w user :=
          ⟨by simp [MyClient, hmc, hcl], by simp [IsPerson, hus, hcl], heff, hb⟩
        have hkeep := hk _ _ _ _ _ (frame_Plain (frame_vsendpreprep w user (CPtr.reg user)
          pattern va) user hplain) hr1
        have hB : ∀ i ∈ List.range (w.highest_fd + 1).toNat, ∀ c, fdPeer w user i = some c →
            commonLine w c user pattern va = commonLine w user user pattern va := by
          intro i hi c hc
          apply commonLine_congr
          rw [(hrec i hi c hc).1, hplain.1]
        have := common_fd_loop_spec sm hsm hk user pattern va w
          (commonLine w user user pattern va) _ _ _ a hf1
          (Or.inr (by
            rw [hkeep.1]
            have := hline
            simp only [World.readBuf] at this
            exact this))
          (fun i hi c hc => ⟨hrec i hi c hc, hB i hi c hc⟩) ha
        rw [this]
        exact hlines _ hB
    · rename_i hmc
      simp only [Option.some.injEq, Prod.mk.injEq] at he
      obtain ⟨rfl, rfl, rfl⟩ := he
      refine ⟨by rw [if_neg hmc], ?_⟩
      cases hlist : (List.range (w.highest_fd + 1).toNat).filterMap (fdPeer w user) with
      | nil =>
        have hno : ∀ i ∈ List.range (w.highest_fd + 1).toNat, ∀ c,
            fdPeer w user i = some c → False := by
          intro i hi c hc
          have : c ∈ (List.range (w.highest_fd + 1).toNat).filterMap (fdPeer w user) :=
            List.mem_filterMap.mpr ⟨i, hi, hc⟩
          rw [hlist] at this
          exact absurd this (List.not_mem_nil _)
        have := common_fd_loop_spec sm hsm hk user pattern va w [] _ _ _ a (Frame.refl w)
          (Or.inl rfl) (fun i hi c hc => (hno i hi c hc).elim) ha
        rw [this, hlist]; rfl
      | cons c0 rest =>
        have hc0 : c0 ∈ (List.range (w.highest_fd + 1).toNat).filterMap (fdPeer w user) := by
          rw [hlist]; exact List.mem_cons_self _ _
        obtain ⟨i0, hi0, hic0⟩ := List.mem_filterMap.mp hc0
        have hB : ∀ i ∈ List.range (w.highest_fd + 1).toNat, ∀ c, fdPeer w user i = some c →
            commonLine w c user pattern va = commonLine w c0 user pattern va := by
          intro i hi c hc
          apply commonLine_congr
          rw [(hrec i hi c hc).1, (hrec i0 hi0 c0 hic0).1]
        have := common_fd_loop_spec sm hsm hk user pattern va w
          (commonLine w c0 user pattern va) _ _ _ a (Frame.refl w) (Or.inl rfl)
          (fun i hi c hc => ⟨hrec i hi c hc, hB i hi c hc⟩) ha
        rw [this, ← hlist]
        exact hlines _ hB

/-! ### `sendto_common_channels`, second part -/

theorem frame_markSent (w : World) (fd : Int) : Frame w (markSent w fd) :=
  ⟨fun _ => rfl, fun _ h => h, rfl, rfl, rfl, rfl, rfl, rfl, rfl⟩

theorem frame_setSent (w : World) (fd : Int) : Frame w (setSent w fd) :=
  ⟨fun _ => rfl, fun _ h => h, rfl, rfl, rfl, rfl, rfl, rfl, rfl⟩

/-- The loop over the members of one channel: the links `T` it calls
`send_message` for, in terms of `sentalong` before and after. -/
theorem common_member_loop_spec (sm : SM) (hsm : SMFrame sm) (hk : SMKeeps sm) (user : Nat)
    (pattern : Str) (va : List Arg) (w0 : World) (B : List Char) :
    ∀ (l : List Nat) (w : World) (len : Nat) (r : World × Nat × List Call), Frame w0 w →
      (len = 0 ∨ w.psendbuf.take len = B) →
      (∀ c ∈ l, c ≠ user → (w0.cl c).user.isSome = true →
        Plain w0 c ∧ commonLine w0 c user pattern va = B) →
      common_member_loop sm user pattern va l w len = some r →
        ∃ T : List Nat, r.2.2 = T.map (fun c => (c, B)) ∧ Frame w0 r.1 ∧
          (r.2.1 = 0 ∨ r.1.psendbuf.take r.2.1 = B) ∧
          (∀ c ∈ T, c ∈ l ∧ c ≠ user ∧ (w0.cl c).user.isSome = true ∧
            w.sentalong (w0.cl c).fd = 0) ∧
          (T.map (fun c => (w0.cl c).fd)).Nodup ∧
          (∀ x, r.1.sentalong x ≠ 0 ↔
            (w.sentalong x ≠ 0 ∨ x ∈ T.map (fun c => (w0.cl c).fd))) ∧
          (∀ c ∈ l, c ≠ user → (w0.cl c).user.isSome = true →
            r.1.sentalong (w0.cl c).fd ≠ 0) := by
  intro l
  induction l with
  | nil =>
    intro w len r hf hinv _ h
    simp only [common_member_loop, Option.some.injEq] at h
    subst h
    exact ⟨[], rfl, hf, hinv, by simp, by simp, by simp, by simp⟩
  | cons c lp ih =>
    intro w len r hf hinv hall h
    have hall' : ∀ c' ∈ lp, c' ≠ user → (w0.cl c').user.isSome = true →
        Plain w0 c' ∧ commonLine w0 c' user pattern va = B :=
      fun c' hc' => hall c' (List.mem_cons_of_mem _ hc')
    rw [common_member_loop] at h
    rw [hf.user, hf.fd] at h
    split at h
    · rename_i huc
      obtain ⟨T, h1, h2, h3, h4, h5, h6, h7⟩ := ih _ _ _ hf hinv hall' h
      refine ⟨T, h1, h2, h3, ?_, h5, h6, ?_⟩
      · intro c' hc'
        obtain ⟨a, b, d, e⟩ := h4 c' hc'
        exact ⟨List.mem_cons_of_mem _ a, b, d, e⟩
      · intro c' hc' hne hus
        rcases List.mem_cons.mp hc' with rfl | hc'
        · exact absurd huc.symm hne
        · exact h7 c' hc' hne hus
    · rename_i huc
      split at h
      · rename_i hskip
        obtain ⟨T, h1, h2, h3, h4, h5, h6, h7⟩ := ih _ _ _ hf hinv hall' h
        refine ⟨T, h1, h2, h3, ?_, h5, h6, ?_⟩
        · intro c' hc'
          obtain ⟨a, b, d, e⟩ := h4 c' hc'
          exact ⟨List.mem_cons_of_mem _ a, b, d, e⟩
        · intro c' hc' hne hus
          rcases List.mem_cons.mp hc' with rfl | hc'
          · rcases hskip with hn | hn
            · rw [Option.isNone_iff_eq_none] at hn
              rw [hn] at hus; exact Bool.noConfusion hus
            · exact (h6 _).mpr (Or.inl hn)
          · exact h7 c' hc' hne hus
      · rename_i hsend
        have hus : (w0.cl c).user.isSome = true := by
          cases hx : (w0.cl c).user with
          | none => exact absurd (Or.inl (by simp [hx])) hsend
          | some _ => rfl
        have hzero : w.sentalong (w0.cl c).fd = 0 := by
          by_contra hx
          exact hsend (Or.inr hx)
        have hne : c ≠ user := fun x => huc x.symm
        obtain ⟨hplain, hline⟩ := hall c (List.mem_cons_self _ _) hne hus
        simp only at h
        generalize hw1 : markSent w (w0.cl c).fd = w1 at h
        have hfw1 : Frame w w1 := by rw [← hw1]; exact frame_markSent _ _
        have hs1 : w1.sentalong = Function.update w.sentalong (w0.cl c).fd
            (w.sentalong (w0.cl c).fd + 1) := by rw [← hw1]; rfl
        have hb1 : w1.psendbuf = w.psendbuf := by rw [← hw1]; rfl
        have hinv1 : len = 0 ∨ w1.psendbuf.take len = B := by rw [hb1]; exact hinv
        have hline' : commonLine w1 c user pattern va = B := by
          rw [frame_commonLine (hf.trans hfw1)]; exact hline
        obtain ⟨hp1, hp2, hp3⟩ := preprepOnce_spec w1 c user pattern va len B hinv1 hline'
        have hfp : Frame w1 (preprepOnce w1 c (CPtr.reg user) pattern va len).1 :=
          frame_prep_or_keep _ _ _ _ _ _
        cases hs : sm (preprepOnce w1 c (CPtr.reg user) pattern va len).1 c
            Buf.psendbuf (preprepOnce w1 c (CPtr.reg user) pattern va len).2 with
        | none => simp [hs] at h
        | some r1 =>
          simp only [hs] at h
          cases hl : common_member_loop sm user pattern va lp r1.1
              (preprepOnce w1 c (CPtr.reg user) pattern va len).2 with
          | none => simp [hl] at h
          | some r2 =>
            simp only [hl, Option.some.injEq] at h
            subst h
            have hf2 : Frame w0 r1.1 :=
              ((hf.trans hfw1).trans hfp).trans (hsm _ _ _ _ _ hs)
            have hkeep := hk _ _ _ _ _ (frame_Plain ((hf.trans hfw1).trans hfp) c hplain) hs
            have hinv2 : (preprepOnce w1 c (CPtr.reg user) pattern va len).2 = 0 ∨
                r1.1.psendbuf.take (preprepOnce w1 c (CPtr.reg user) pattern va len).2 = B :=
              Or.inr (by rw [hkeep.1]; exact hp2)
            obtain ⟨T, h1, h2, h3, h4, h5, h6, h7⟩ := ih _ _ r2 hf2 hinv2 hall' hl
            have hsr1 : r1.1.sentalong = Function.update w.sentalong (w0.cl c).fd
                (w.sentalong (w0.cl c).fd + 1) := by rw [hkeep.2, hp3, hs1]
            have hmark : r1.1.sentalong (w0.cl c).fd ≠ 0 := by
              rw [hsr1, Function.update_same, hzero]; decide
            have hother : ∀ x, r1.1.sentalong x = 0 → x ≠ (w0.cl c).fd ∧ w.sentalong x = 0 := by
              intro x hx
              have hxne : x ≠ (w0.cl c).fd := fun e => hmark (e ▸ hx)
              rw [hsr1, Function.update_noteq hxne] at hx
              exact ⟨hxne, hx⟩
            refine ⟨c :: T, ?_, h2, h3, ?_, ?_, ?_, ?_⟩
            · simp only [List.map_cons, h1, World.readBuf, hp2]
            · intro c' hc'
              rcases List.mem_cons.mp hc' with rfl | hc'
              · exact ⟨List.mem_cons_self _ _, hne, hus, hzero⟩
              · obtain ⟨a, b, d, e⟩ := h4 c' hc'
                exact ⟨List.mem_cons_of_mem _ a, b, d, (hother _ e).2⟩
            · rw [List.map_cons, List.nodup_cons]
              refine ⟨?_, h5⟩
              intro hin
              obtain ⟨c', hc', hfd⟩ := List.mem_map.mp hin
              have := (h4 c' hc').2.2.2
              rw [hfd] at this
              exact hmark this
            · intro x
              rw [h6 x, List.map_cons, List.mem_cons]
              constructor
              · rintro (hx | hx)
                · by_cases hxe : x = (w0.cl c).fd
                  · exact Or.inr (Or.inl hxe)
                  · rw [hsr1, Function.update_noteq hxe] at hx
                    exact Or.inl hx
                · exact Or.inr (Or.inr hx)
              · rintro (hx | hx | hx)
                · by_cases hxe : x = (w0.cl c).fd
                  · rw [hxe]; exact Or.inl hmark
                  · rw [hsr1, Function.update_noteq hxe]; exact Or.inl hx
                · rw [hx]; exact Or.inl hmark
                · exact Or.inr hx
            · intro c' hc' hne' hus'
              rcases List.mem_cons.mp hc' with rfl | hc'
              · exact (h6 _).mpr (Or.inl hmark)
              · exact h7 c' hc' hne' hus'

/-- The loop over the channels of `user`: the links `T` it calls
`send_message` for, in terms of `sentalong` before and after. -/
theorem common_chan_loop_spec (sm : SM) (hsm : SMFrame sm) (hk : SMKeeps sm) (user : Nat)
    (pattern : Str) (va : List Arg) (w0 : World) (B : List Char) :
    ∀ (chans : List Nat) (w : World) (len : Nat) (r : World × List Call), Frame w0 w →
      (len = 0 ∨ w.psendbuf.take len = B) →
      (∀ ch ∈ chans, ∀ c ∈ (w0.ch ch).clist, c ≠ user → (w0.cl c).user.isSome = true →
        Plain w0 c ∧ commonLine w0 c user pattern va = B) →
      common_chan_loop sm user pattern va chans w len = some r →
        ∃ T : List Nat, r.2 = T.map (fun c => (c, B)) ∧
          (∀ c ∈ T, (∃ ch ∈ chans, (w0.ch ch).quiet = false ∧ (w0.ch ch).anonymous = false ∧
              c ∈ (w0.ch ch).clist) ∧
            c ≠ user ∧ (w0.cl c).user.isSome = true ∧ w.sentalong (w0.cl c).fd = 0) ∧
          (T.map (fun c => (w0.cl c).fd)).Nodup ∧
          (∀ x, r.1.sentalong x ≠ 0 ↔
            (w.sentalong x ≠ 0 ∨ x ∈ T.map (fun c => (w0.cl c).fd))) ∧
          (∀ ch ∈ chans, (w0.ch ch).quiet = false → (w0.ch ch).anonymous = false →
            ∀ c ∈ (w0.ch ch).clist, c ≠ user → (w0.cl c).user.isSome = true →
              r.1.sentalong (w0.cl c).fd ≠ 0) := by
  intro chans
  induction chans with
  | nil =>
    intro w len r _ _ _ h
    simp only [common_chan_loop, Option.some.injEq] at h
    subst h
    exact ⟨[], rfl, by simp, by simp, by simp, by simp⟩
  | cons ch chans ih =>
    intro w len r hf hinv hall h
    have hall' : ∀ ch' ∈ chans, ∀ c ∈ (w0.ch ch').clist, c ≠ user →
        (w0.cl c).user.isSome = true → Plain w0 c ∧ commonLine w0 c user pattern va = B :=
      fun ch' hch' => hall ch' (List.mem_cons_of_mem _ hch')
    rw [common_chan_loop] at h
    rw [hf.ch] at h
    split at h
    · rename_i hq
      obtain ⟨T, h1, h4, h5, h6, h7⟩ := ih _ _ _ hf hinv hall' h
      refine ⟨T, h1, ?_, h5, h6, ?_⟩
      · intro c hc
        obtain ⟨⟨ch', hch', hrest⟩, hw⟩ := h4 c hc
        exact ⟨⟨ch', List.mem_cons_of_mem _ hch', hrest⟩, hw⟩
      · intro ch' hch' hq' ha' c hc hne hus
        rcases List.mem_cons.mp hch' with rfl | hch'
        · rw [hq] at hq'; exact Bool.noConfusion hq'
        · exact h7 ch' hch' hq' ha' c hc hne hus
    · rename_i hq
      split at h
      · rename_i ha
        obtain ⟨T, h1, h4, h5, h6, h7⟩ := ih _ _ _ hf hinv hall' h
        refine ⟨T, h1, ?_, h5, h6, ?_⟩
        · intro c hc
          obtain ⟨⟨ch', hch', hrest⟩, hw⟩ := h4 c hc
          exact ⟨⟨ch', List.mem_cons_of_mem _ hch', hrest⟩, hw⟩
        · intro ch' hch' hq' ha' c hc hne hus
          rcases List.mem_cons.mp hch' with rfl | hch'
          · rw [ha] at ha'; exact Bool.noConfusion ha'
          · exact h7 ch' hch' hq' ha' c hc hne hus
      · rename_i ha
        have hq0 : (w0.ch ch).quiet = false := by
          cases hx : (w0.ch ch).quiet with
          | false => rfl
          | true => exact absurd hx hq
        have ha0 : (w0.ch ch).anonymous = false := by
          cases hx : (w0.ch ch).anonymous with
          | false => rfl
          | true => exact absurd hx ha
        cases hm : common_member_loop sm user pattern va (w0.ch ch).clist w len with
        | none => simp [hm] at h
        | some r1 =>
          simp only [hm] at h
          cases hl : common_chan_loop sm user pattern va chans r1.1 r1.2.1 with
          | none => simp [hl] at h
          | some r2 =>
            simp only [hl, Option.some.injEq] at h
            subst h
            obtain ⟨T1, m1, mf, minv, m4, m5, m6, m7⟩ :=
              common_member_loop_spec sm hsm hk user pattern va w0 B _ _ _ r1 hf hinv
                (hall ch (List.mem_cons_self _ _)) hm
            obtain ⟨T2, c1, c4, c5, c6, c7⟩ := ih _ _ r2 mf minv hall' hl
            have hzero2 : ∀ c ∈ T2, r1.1.sentalong (w0.cl c).fd = 0 := fun c hc =>
              (c4 c hc).2.2.2
            refine ⟨T1 ++ T2, ?_, ?_, ?_, ?_, ?_⟩
            · simp only [List.map_append, m1, c1]
            · intro c hc
              rcases List.mem_append.mp hc with hc | hc
              · obtain ⟨a, b, d, e⟩ := m4 c hc
                exact ⟨⟨ch, List.mem_cons_self _ _, hq0, ha0, a⟩, b, d, e⟩
              · obtain ⟨⟨ch', hch', hrest⟩, b, d, e⟩ := c4 c hc
                refine ⟨⟨ch', List.mem_cons_of_mem _ hch', hrest⟩, b, d, ?_⟩
                by_contra hx
                exact (m6 _).mpr (Or.inl hx) e
            · rw [List.map_append, List.nodup_append]
              refine ⟨m5, c5, ?_⟩
              intro x hx1 hx2
              obtain ⟨c, hc, hfd⟩ := List.mem_map.mp hx2
              have := hzero2 c hc
              rw [hfd] at this
              exact (m6 x).mpr (Or.inr hx1) this
            · intro x
              rw [c6 x, m6 x, List.map_append, List.mem_append]
              constructor
              · rintro ((hx | hx) | hx)
                · exact Or.inl hx
                · exact Or.inr (Or.inl hx)
                · exact Or.inr (Or.inr hx)
              · rintro (hx | hx | hx)
                · exact Or.inl (Or.inl hx)
                · exact Or.inl (Or.inr hx)
                · exact Or.inr hx
            · intro ch' hch' hq' ha' c hc hne hus
              rcases List.mem_cons.mp hch' with rfl | hch'
              · exact (c6 _).mpr (Or.inl (m7 c hc hne hus))
              · exact c7 ch' hch' hq' ha' c hc hne hus

theorem frame_clearSent (w : World) : Frame w (clearSent w) :=
  ⟨fun _ => rfl, fun _ h => h, rfl, rfl, rfl, rfl, rfl, rfl, rfl⟩

/-- Under the registry invariants a link with a user record on `clist` of a
channel of `user` is an ordinary local client on that channel. -/
theorem clist_entry_plain (w : World) (user : Nat) (hok : RegistryOK w user) (u : anUser)
    (hu : (w.cl user).user = some u) (ch : Nat) (hch : ch ∈ u.channel) (c : Nat)
    (hc : c ∈ (w.ch ch).clist) (hus : (w.cl c).user.isSome = true) :
    Plain w c ∧ MyConnect (w.cl c) = true ∧ IsMember (w.cl c) ch = true ∧
      w.«local» (w.cl c).fd = some c := by
  obtain ⟨hmc, hmem⟩ := hok.clist_member u hu ch hch c hc hus
  obtain ⟨_, hloc, hcl, heff, hb⟩ := hok.fd_slot c hmc hus (Or.inr ⟨u, hu, ch, hch, hmem⟩)
  exact ⟨⟨by simp [MyClient, hmc, hcl], by simp [IsPerson, hus, hcl], heff, hb⟩, hmc, hmem, hloc⟩

/-- The channel loop of the second part, under the registry invariants and
started with `sentalong` marking at most the descriptor of a local `user`:
one call for each common peer. -/
theorem common_chan_loop_peers (sm : SM) (hsm : SMFrame sm) (hk : SMKeeps sm) (w : World)
    (user : Nat) (pattern : Str) (va : List Arg) (hok : RegistryOK w user) (u : anUser)
    (hu : (w.cl user).user = some u) (B : List Char) (w1 : World) (len : Nat)
    (r : World × List Call) (hf : Frame w w1) (hinv : len = 0 ∨ w1.psendbuf.take len = B)
    (hB : ∀ ch ∈ u.channel, ∀ c ∈ (w.ch ch).clist, c ≠ user → (w.cl c).user.isSome = true →
      commonLine w c user pattern va = B)
    (hinit : ∀ x, w1.sentalong x ≠ 0 → MyConnect (w.cl user) = true ∧ x = (w.cl user).fd)
    (h : common_chan_loop sm user pattern va u.channel w1 len = some r) :
    ∃ T : List Nat, r.2 = T.map (fun c => (c, commonLine w c user pattern va)) ∧ T.Nodup ∧
      ∀ c, c ∈ T ↔ CommonPeer w user c := by
  have hall : ∀ ch ∈ u.channel, ∀ c ∈ (w.ch ch).clist, c ≠ user →
      (w.cl c).user.isSome = true → Plain w c ∧ commonLine w c user pattern va = B :=
    fun ch hch c hc hne hus =>
      ⟨(clist_entry_plain w user hok u hu ch hch c hc hus).1, hB ch hch c hc hne hus⟩
  obtain ⟨T, h1, h4, h5, h6, h7⟩ :=
    common_chan_loop_spec sm hsm hk user pattern va w B _ _ _ r hf hinv hall h
  refine ⟨T, ?_, List.Nodup.of_map _ h5, ?_⟩
  · rw [h1]
    apply List.map_congr_left
    intro c hc
    obtain ⟨⟨ch, hch, _, _, hcl⟩, hne, hus, _⟩ := h4 c hc
    rw [hB ch hch c hcl hne hus]
  · intro c
    constructor
    · intro hc
      obtain ⟨⟨ch, hch, hq, ha, hcl⟩, hne, hus, _⟩ := h4 c hc
      obtain ⟨_, hmc, hmem, _⟩ := clist_entry_plain w user hok u hu ch hch c hcl hus
      exact ⟨hne, hmc, u, hu, ch, hch, hmem, hq, ha⟩
    · rintro ⟨hne, hmc, u', hu', ch, hch, hmem, hq, ha⟩
      have hu'' : u' = u := by rw [hu] at hu'; exact (Option.some.inj hu').symm
      subst hu''
      have hcl := hok.member_clist u' hu ch hch c hmc hmem
      have hus := isMember_user hmem
      have hlocc := (hok.fd_slot c hmc hus (Or.inr ⟨u', hu, ch, hch, hmem⟩)).2.1
      rcases (h6 _).mp (h7 ch hch hq ha c hcl hne hus) with hx | hx
      · obtain ⟨hmu, hfd⟩ := hinit _ hx
        have hlocu := (hok.fd_slot user hmu (by simp [hu]) (Or.inl rfl)).2.1
        rw [hfd, hlocu] at hlocc
        exact absurd (Option.some.inj hlocc).symm hne
      · obtain ⟨c', hc', hfd⟩ := List.mem_map.mp hx
        obtain ⟨⟨ch', hch', _, _, hcl'⟩, _, hus', _⟩ := h4 c' hc'
        have hlocc' := (clist_entry_plain w user hok u' hu ch' hch' c' hcl' hus').2.2.2
        rw [hfd, hlocc] at hlocc'
        rw [Option.some.inj hlocc']
        exact hc'

theorem not_commonPeer_of_no_user (w : World) (user c : Nat)
    (hu : (w.cl user).user = none) : ¬ CommonPeer w user c := by
  rintro ⟨_, _, u, hu', _⟩
  rw [hu] at hu'
  exact Option.noConfusion hu'

/-- The second part of `sendto_common_channels`, under the registry
invariants: the echo when `user` is local, then one call for each common
peer, each with the line prepared for its recipient. -/
theorem sendto_common_channels_chans_spec (sm : SM) (hsm : SMFrame sm) (hk : SMKeeps sm)
    (w : World) (user : Nat) (pattern : Str) (va : List Arg) (hok : RegistryOK w user)
    (r : Run) (h : sendto_common_channels_chans sm w user pattern va = some r) :
    r.echo = (if MyConnect (w.cl user) = true then
        [(user, commonLine w user user pattern va)] else []) ∧
    ∃ T : List Nat, r.fan = T.map (fun c => (c, commonLine w c user pattern va)) ∧ T.Nodup ∧
      ∀ c, c ∈ T ↔ CommonPeer w user c := by
  have hempty : (w.cl user).user = none →
      ∃ T : List Nat, ([] : List Call) = T.map (fun c => (c, commonLine w c user pattern va)) ∧
        T.Nodup ∧ ∀ c, c ∈ T ↔ CommonPeer w user c := fun hu =>
    ⟨[], rfl, List.nodup_nil, fun c =>
      ⟨fun hc => absurd hc (List.not_mem_nil _), fun hc =>
        absurd hc (not_commonPeer_of_no_user w user c hu)⟩⟩
  have hfc : Frame w (clearSent w) := frame_clearSent w
  have hline0 : (vsendpreprep (clearSent w) user (CPtr.reg user) pattern va).1.psendbuf.take
      (vsendpreprep (clearSent w) user (CPtr.reg user) pattern va).2
        = commonLine w user user pattern va := by
    have := vsendpreprep_line (clearSent w) user (CPtr.reg user) pattern va
    simp only [World.readBuf] at this
    rw [this, ← frame_commonLine hfc]
    rfl
  unfold sendto_common_channels_chans at h
  simp only at h
  split at h
  · simp at h
  · rename_i w1 len e he
    split at he
    · rename_i hmc
      have hmc' : MyConnect (w.cl user) = true := hmc
      obtain ⟨r1, hr1, hr1e⟩ := Option.map_eq_some'.mp he
      simp only [Prod.mk.injEq] at hr1e
      obtain ⟨rfl, rfl, rfl⟩ := hr1e
      have hf1 : Frame w r1.1 :=
        (hfc.trans (frame_vsendpreprep _ _ _ _ _)).trans (hsm _ _ _ _ _ hr1)
      have hfw1 : Frame w (setSent r1.1 (r1.1.cl user).fd) := hf1.trans (frame_setSent _ _)
      rw [hfw1.user] at h
      have hecho : [(user, (vsendpreprep (clearSent w) user (CPtr.reg user) pattern va).1.readBuf
          Buf.psendbuf (vsendpreprep (clearSent w) user (CPtr.reg user) pattern va).2)]
          = (if MyConnect (w.cl user) = true then
              [(user, commonLine w user user pattern va)] else []) := by
        rw [if_pos hmc']; simp only [World.readBuf, hline0]
      cases hu : (w.cl user).user with
      | none =>
        simp only [hu, Option.some.injEq] at h
        subst h
        exact ⟨hecho, hempty hu⟩
      | some u =>
        simp only [hu] at h
        obtain ⟨a, ha, rfl⟩ := Option.map_eq_some'.mp h
        refine ⟨hecho, ?_⟩
        have hus : (w.cl user).user.isSome = true := by simp [hu]
        obtain ⟨_, _, hcl, heff, hb⟩ := hok.fd_slot user hmc' hus (Or.inl rfl)
        have hplain : Plain w user :=
          ⟨by simp [MyClient, hmc', hcl], by simp [IsPerson, hus, hcl], heff, hb⟩
        have hkeep := hk _ _ _ _ _
          (frame_Plain (hfc.trans (frame_vsendpreprep _ user (CPtr.reg user) pattern va))
            user hplain) hr1
        have hsent0 : r1.1.sentalong = fun _ => 0 := by
          rw [hkeep.2]; simp [vsendpreprep, clearSent]
        refine common_chan_loop_peers sm hsm hk w user pattern va hok u hu
          (commonLine w user user pattern va) _ _ a hfw1 (Or.inr ?_) ?_ ?_ ha
        · show (r1.1.psendbuf).take _ = _
          rw [hkeep.1]; exact hline0
        · intro ch hch c hc _ hus'
          apply commonLine_congr
          rw [(clist_entry_plain w user hok u hu ch hch c hc hus').1.1, hplain.1]
        · intro x hx
          refine ⟨hmc', ?_⟩
          by_contra hne
          apply hx
          show Function.update r1.1.sentalong (r1.1.cl user).fd 1 x = 0
          rw [hf1.fd, Function.update_noteq hne, hsent0]
    · rename_i hmc
      have hmc' : ¬ MyConnect (w.cl user) = true := hmc
      simp only [Option.some.injEq, Prod.mk.injEq] at he
      obtain ⟨rfl, rfl, rfl⟩ := he
      rw [hfc.user] at h
      have hecho : ([] : List Call) = (if MyConnect (w.cl user) = true then
          [(user, commonLine w user user pattern va)] else []) := by
        rw [if_neg hmc']
      cases hu : (w.cl user).user with
      | none =>
        simp only [hu, Option.some.injEq] at h
        subst h
        exact ⟨hecho, hempty hu⟩
      | some u =>
        simp only [hu] at h
        obtain ⟨a, ha, rfl⟩ := Option.map_eq_some'.mp h
        refine ⟨hecho, ?_⟩
        have hinit : ∀ x, (clearSent w).sentalong x ≠ 0 →
            MyConnect (w.cl user) = true ∧ x = (w.cl user).fd :=
          fun x hx => absurd rfl hx
        by_cases hex : ∃ ch ∈ u.channel, ∃ c ∈ (w.ch ch).clist,
            c ≠ user ∧ (w.cl c).user.isSome = true
        · obtain ⟨ch0, hch0, c0, hc0, _, hus0⟩ := hex
          refine common_chan_loop_peers sm hsm hk w user pattern va hok u hu
            (commonLine w c0 user pattern va) _ _ a hfc (Or.inl rfl) ?_ hinit ha
          intro ch hch c hc _ hus'
          apply commonLine_congr
          rw [(clist_entry_plain w user hok u hu ch hch c hc hus').1.1,
            (clist_entry_plain w user hok u hu ch0 hch0 c0 hc0 hus0).1.1]
        · refine common_chan_loop_peers sm hsm hk w user pattern va hok u hu
            [] _ _ a hfc (Or.inl rfl) ?_ hinit ha
          intro ch hch c hc hne hus'
          exact absurd ⟨ch, hch, c, hc, hne, hus'⟩ hex

/-- The descriptors the first part selects, under the registry invariants:
each common peer once. -/
theorem fdPeer_peers (w : World) (user : Nat) (hok : RegistryOK w user) :
    ((List.range (w.highest_fd + 1).toNat).filterMap (fdPeer w user)).Nodup ∧
    ∀ c, c ∈ (List.range (w.highest_fd + 1).toNat).filterMap (fdPeer w user)
      ↔ CommonPeer w user c := by
  constructor
  · have hinj : ∀ (l : List Nat), (∀ i ∈ l, i ∈ List.range (w.highest_fd + 1).toNat) →
        l.Nodup → (l.filterMap (fdPeer w user)).Nodup := by
      intro l
      induction l with
      | nil => intro _ _; exact List.nodup_nil
      | cons i is ih =>
        intro hsub hnd
        have hsub' : ∀ j ∈ is, j ∈ List.range (w.highest_fd + 1).toNat :=
          fun j hj => hsub j (List.mem_cons_of_mem _ hj)
        have hnd' := (List.nodup_cons.mp hnd)
        cases hp : fdPeer w user i with
        | none =>
          rw [List.filterMap_cons_none hp]
          exact ih hsub' hnd'.2
        | some c =>
          rw [List.filterMap_cons_some hp, List.nodup_cons]
          refine ⟨?_, ih hsub' hnd'.2⟩
          intro hin
          obtain ⟨j, hj, hjc⟩ := List.mem_filterMap.mp hin
          have h1 := (fdPeer_sound w user hok i c (hsub i (List.mem_cons_self _ _)) hp).2.2.2.1
          have h2 := (fdPeer_sound w user hok j c (hsub' j hj) hjc).2.2.2.1
          rw [h1] at h2
          have : i = j := by exact_mod_cast h2
          rw [this] at hnd'
          exact hnd'.1 hj
    exact hinj _ (fun _ hi => hi) (List.nodup_range _)
  · intro c
    constructor
    · intro hc
      obtain ⟨i, hi, hic⟩ := List.mem_filterMap.mp hc
      obtain ⟨hplain, hne, hsh, _, _⟩ := fdPeer_sound w user hok i c hi hic
      have hmc : MyConnect (w.cl c) = true := by
        have := hplain.1
        simp only [MyClient, Bool.and_eq_true] at this
        exact this.1
      exact ⟨hne, hmc, hsh⟩
    · rintro ⟨hne, hmc, u, hu, ch, hch, hmem, hq, ha⟩
      have hus := isMember_user hmem
      obtain ⟨hle, hloc, hcl, _, _⟩ := hok.fd_slot c hmc hus (Or.inr ⟨u, hu, ch, hch, hmem⟩)
      have hfd0 : 0 ≤ (w.cl c).fd := by simpa [MyConnect] using hmc
      have hcast : (((w.cl c).fd.toNat : Nat) : Int) = (w.cl c).fd := Int.toNat_of_nonneg hfd0
      refine List.mem_filterMap.mpr ⟨(w.cl c).fd.toNat, ?_, ?_⟩
      · rw [List.mem_range]; omega
      · have hscan : common_scan w c u.channel = true :=
          (common_scan_iff w c u.channel).mpr ⟨ch, hch, hmem, hq, ha⟩
        have hns : IsServer (w.cl c) = false := by
          simp only [IsClient, decide_eq_true_eq] at hcl
          simp [IsServer, hcl]
        unfold fdPeer
        rw [hcast, hloc, hu]
        simp [hns, hscan, Ne.symm hne]

/-- The scenario satisfies the registry invariants, for `alice`. -/
theorem scenario_registry_ok : RegistryOK scenarioWorld 1 := by
  refine ⟨?_, ?_, ?_, ?_⟩
  · intro i c _ h
    simp only [scenarioWorld] at h ⊢
    split_ifs at h with h4 h5 h6
    · simp only [Option.some.injEq] at h; subst h; rw [h4]; rfl
    · simp only [Option.some.injEq] at h; subst h; rw [h5]; rfl
    · simp only [Option.some.injEq] at h; subst h; rw [h6]; rfl
  · intro c hmc hus _
    rcases c with _ | _ | _ | _ | _ | c
    · exact absurd hmc (by decide)
    · decide
    · decide
    · exact absurd hmc (by decide)
    · exact absurd hus (by decide)
    · exact absurd hmc (by simp [scenarioWorld, scenarioClients, mkClient, MyConnect])
  · intro u hu ch hch c hc hus
    have hu' : u = mkUser "~alice" "host.local" "irc.example." := by
      have : (scenarioWorld.cl 1).user = some (mkUser "~alice" "host.local" "irc.example.") :=
        rfl
      rw [this] at hu
      exact (Option.some.inj hu).symm
    subst hu'
    have hch0 : ch = 0 := by simpa [mkUser] using hch
    subst hch0
    have hc' : c = 1 ∨ c = 2 ∨ c = 4 := by simpa [scenarioWorld] using hc
    rcases hc' with rfl | rfl | rfl
    · decide
    · decide
    · exact absurd hus (by decide)
  · intro u hu ch hch c hmc hmem
    have hu' : u = mkUser "~alice" "host.local" "irc.example." := by
      have : (scenarioWorld.cl 1).user = some (mkUser "~alice" "host.local" "irc.example.") :=
        rfl
      rw [this] at hu
      exact (Option.some.inj hu).symm
    subst hu'
    have hch0 : ch = 0 := by simpa [mkUser] using hch
    subst hch0
    rcases c with _ | _ | _ | _ | _ | c
    · exact absurd hmc (by decide)
    · decide
    · decide
    · exact absurd hmc (by decide)
    · decide
    · exact absurd hmc (by simp [scenarioWorld, scenarioClients, mkClient, MyConnect])

/-! ### The recipient loops return when `send_message` does -/

theorem butone_loop_returns (sm : SM) (hsm : SMFrame sm) (one : Option Nat) (from_ : Nat)
    (lfrm : CPtr) (pattern : Str) (va : List Arg) (len1 : Nat) (w0 : World)
    (hret : SMReturns sm w0) :
    ∀ (l : List Nat) (w : World) (len2 : Nat), Frame w0 w →
      (butone_loop sm one from_ lfrm pattern va len1 l w len2).isSome = true := by
  intro l
  induction l with
  | nil => intro w len2 _; rfl
  | cons a lp ih =>
    intro w len2 hf
    rw [butone_loop]
    split
    · exact ih _ _ hf
    · split
      · have hfp : Frame w0 (preprepOnce w a lfrm pattern va len2).1 :=
          hf.trans (frame_prep_or_keep _ _ _ _ _ _)
        simp only
        split
        · obtain ⟨r1, hr1⟩ := Option.isSome_iff_exists.mp (hret _ a Buf.psendbuf
            (preprepOnce w a lfrm pattern va len2).2 hfp)
          have h2 := ih r1.1 (preprepOnce w a lfrm pattern va len2).2
            (hfp.trans (hsm _ _ _ _ _ hr1))
          obtain ⟨r2, hr2⟩ := Option.isSome_iff_exists.mp h2
          simp [hr1, hr2]
        · exact ih _ _ hfp
      · obtain ⟨r1, hr1⟩ := Option.isSome_iff_exists.mp (hret _ a Buf.sendbuf len1 hf)
        have h2 := ih r1.1 len2 (hf.trans (hsm _ _ _ _ _ hr1))
        obtain ⟨r2, hr2⟩ := Option.isSome_iff_exists.mp h2
        simp [hr1, hr2]

theorem sendto_channel_butone_g_returns (sm : SM) (hsm : SMFrame sm) (w : World)
    (one : Option Nat) (from_ chptr : Nat) (pattern : Str) (va : List Arg)
    (hret : SMReturns sm w) :
    (sendto_channel_butone_g sm w one from_ chptr pattern va).isSome = true := by
  unfold sendto_channel_butone_g
  simp only
  split
  · rename_i he
    split at he
    · obtain ⟨r1, hr1⟩ := Option.isSome_iff_exists.mp
        (hret (vsendpreprep w from_ (CPtr.reg from_) pattern va).1 from_ Buf.psendbuf
          (vsendpreprep w from_ (CPtr.reg from_) pattern va).2 (frame_vsendpreprep _ _ _ _ _))
      simp [hr1] at he
    · exact Option.noConfusion he
  · rename_i w1 e he
    have hf1 : Frame w w1 := by
      split at he
      · obtain ⟨r1, hr1, hr1e⟩ := Option.map_eq_some'.mp he
        simp only [Prod.mk.injEq] at hr1e
        rw [← hr1e.1]
        exact (frame_vsendpreprep _ _ _ _ _).trans (hsm _ _ _ _ _ hr1)
      · simp only [Option.some.injEq, Prod.mk.injEq] at he
        rw [← he.1]; exact Frame.refl _
    rw [Option.isSome_map']
    exact butone_loop_returns sm hsm one from_ _ pattern va _ w hret _ _ _
      (hf1.trans (frame_vsendprep _ _ _))

theorem common_fd_loop_returns (sm : SM) (hsm : SMFrame sm) (user : Nat) (pattern : Str)
    (va : List Arg) (w0 : World) (hret : SMReturns sm w0) :
    ∀ (l : List Nat) (w : World) (len : Nat), Frame w0 w →
      (common_fd_loop sm user pattern va l w len).isSome = true := by
  intro l
  induction l with
  | nil => intro w len _; rfl
  | cons i is ih =>
    intro w len hf
    rw [common_fd_loop]
    split
    · rename_i cptr u _ _
      split
      · exact ih _ _ hf
      · split
        · have hfp : Frame w0 (preprepOnce w cptr (CPtr.reg user) pattern va len).1 :=
            hf.trans (frame_prep_or_keep _ _ _ _ _ _)
          obtain ⟨r1, hr1⟩ := Option.isSome_iff_exists.mp (hret _ cptr Buf.psendbuf
            (preprepOnce w cptr (CPtr.reg user) pattern va len).2 hfp)
          have h2 := ih r1.1 (preprepOnce w cptr (CPtr.reg user) pattern va len).2
            (hfp.trans (hsm _ _ _ _ _ hr1))
          obtain ⟨r2, hr2⟩ := Option.isSome_iff_exists.mp h2
          simp [hr1, hr2]
        · exact ih _ _ hf
    · exact ih _ _ hf

theorem common_member_loop_returns (sm : SM) (hsm : SMFrame sm) (user : Nat) (pattern : Str)
    (va : List Arg) (w0 : World) (hret : SMReturns sm w0) :
    ∀ (l : List Nat) (w : World) (len : Nat), Frame w0 w →
      ∃ r, common_member_loop sm user pattern va l w len = some r ∧ Frame w0 r.1 := by
  intro l
  induction l with
  | nil => intro w len hf; exact ⟨_, rfl, hf⟩
  | cons c lp ih =>
    intro w len hf
    rw [common_member_loop]
    split
    · exact ih _ _ hf
    · split
      · exact ih _ _ hf
      · have hfp : Frame w0
            (preprepOnce (markSent w (w.cl c).fd) c (CPtr.reg user) pattern va len).1 :=
          (hf.trans (frame_markSent _ _)).trans (frame_prep_or_keep _ _ _ _ _ _)
        obtain ⟨r1, hr1⟩ := Option.isSome_iff_exists.mp (hret _ c Buf.psendbuf
          (preprepOnce (markSent w (w.cl c).fd) c (CPtr.reg user) pattern va len).2 hfp)
        obtain ⟨r2, hr2, hf2⟩ := ih r1.1
          (preprepOnce (markSent w (w.cl c).fd) c (CPtr.reg user) pattern va len).2
          (hfp.trans (hsm _ _ _ _ _ hr1))
        simp only [hr1, hr2]
        exact ⟨_, rfl, hf2⟩

theorem common_chan_loop_returns (sm : SM) (hsm : SMFrame sm) (user : Nat) (pattern : Str)
    (va : List Arg) (w0 : World) (hret : SMReturns sm w0) :
    ∀ (chans : List Nat) (w : World) (len : Nat), Frame w0 w →
      (common_chan_loop sm user pattern va chans w len).isSome = true := by
  intro chans
  induction chans with
  | nil => intro w len _; rfl
  | cons ch chans ih =>
    intro w len hf
    rw [common_chan_loop]
    split
    · exact ih _ _ hf
    · split
      · exact ih _ _ hf
      · obtain ⟨r1, hr1, hf1⟩ :=
          common_member_loop_returns sm hsm user pattern va w0 hret (w.ch ch).clist w len hf
        obtain ⟨r2, hr2⟩ := Option.isSome_iff_exists.mp (ih r1.1 r1.2.1 hf1)
        simp [hr1, hr2]

theorem sendto_common_channels_fds_returns (sm : SM) (hsm : SMFrame sm) (w : World)
    (user : Nat) (pattern : Str) (va : List Arg) (hret : SMReturns sm w) :
    (sendto_common_channels_fds sm w user pattern va).isSome = true := by
  unfold sendto_common_channels_fds
  simp only
  split
  · rename_i he
    split at he
    · obtain ⟨r1, hr1⟩ := Option.isSome_iff_exists.mp
        (hret (vsendpreprep w user (CPtr.reg user) pattern va).1 user Buf.psendbuf
          (vsendpreprep w user (CPtr.reg user) pattern va).2 (frame_vsendpreprep _ _ _ _ _))
      simp [hr1] at he
    · exact Option.noConfusion he
  · rename_i w1 len e he
    have hf1 : Frame w w1 := by
      split at he
      · obtain ⟨r1, hr1, hr1e⟩ := Option.map_eq_some'.mp he
        simp only [Prod.mk.injEq] at hr1e
        rw [← hr1e.1]
        exact (frame_vsendpreprep _ _ _ _ _).trans (hsm _ _ _ _ _ hr1)
      · simp only [Option.some.injEq, Prod.mk.injEq] at he
        rw [← he.1]; exact Frame.refl _
    rw [Option.isSome_map']
    exact common_fd_loop_returns sm hsm user pattern va w hret _ _ _ hf1

theorem sendto_common_channels_chans_returns (sm : SM) (hsm : SMFrame sm) (w : World)
    (user : Nat) (pattern : Str) (va : List Arg) (hret : SMReturns sm w) :
    (sendto_common_channels_chans sm w user pattern va).isSome = true := by
  unfold sendto_common_channels_chans
  simp only
  split
  · rename_i he
    split at he
    · obtain ⟨r1, hr1⟩ := Option.isSome_iff_exists.mp
        (hret (vsendpreprep (clearSent w) user (CPtr.reg user) pattern va).1 user
          Buf.psendbuf (vsendpreprep (clearSent w) user (CPtr.reg user) pattern va).2
          ((frame_clearSent w).trans (frame_vsendpreprep _ _ _ _ _)))
      simp [hr1] at he
    · exact Option.noConfusion he
  · rename_i w1 len e he
    have hf1 : Frame w w1 := by
      split at he
      · obtain ⟨r1, hr1, hr1e⟩ := Option.map_eq_some'.mp he
        simp only [Prod.mk.injEq] at hr1e
        rw [← hr1e.1]
        exact (((frame_clearSent w).trans (frame_vsendpreprep _ _ _ _ _)).trans
          (hsm _ _ _ _ _ hr1)).trans (frame_setSent _ _)
      · simp only [Option.some.injEq, Prod.mk.injEq] at he
        rw [← he.1]; exact frame_clearSent w
    split
    · rfl
    · rw [Option.isSome_map']
      exact common_chan_loop_returns sm hsm user pattern va w hret _ _ _ hf1

theorem sendto_common_channels_g_returns (sm : SM) (hsm : SMFrame sm) (w : World)
    (user : Nat) (pattern : Str) (va : List Arg) (hret : SMReturns sm w) :
    (sendto_common_channels_g sm w user pattern va).isSome = true := by
  unfold sendto_common_channels_g
  split
  · exact sendto_common_channels_fds_returns sm hsm w user pattern va hret
  · exact sendto_common_channels_chans_returns sm hsm w user pattern va hret

theorem sendto_flag_g_no_channel (sm : SM) (w : World) (chan : SChanId) (pattern : Str)
    (va : List Arg) (h : w.svchans chan = none) :
    sendto_flag_g sm w chan pattern va = some w := by
  simp [sendto_flag_g, h]

theorem dead_link_g_no_channel (env : Env) (sm : SM) (w : World) (to_ : Nat) (notice : Str)
    (h : w.svchans SChanId.SCH_ERROR = none) :
    (dead_link_g env sm w to_ notice).isSome = true := by
  unfold dead_link_g
  simp only
  split
  · rw [sendto_flag_g_no_channel sm _ _ _ _ (by simpa [setDeadAndClear, World.setCl] using h)]
    rfl
  · rfl

/-- In the scenario, and in every state `Frame` relates to it, `send_message`
returns at depth 1: no server channel is set up, no link is in connect burst,
the pool never runs out and a flush stops at the first short write. -/
theorem scenario_send_message_returns : SMReturns (send_message scenarioEnv 1) scenarioWorld := by
  intro w1 c msg len hf
  have hsv : ∀ i, w1.svchans i = none := by
    intro i; rw [hf.svchans]; rfl
  have hb : ∀ p, (w1.cl p).cburst = false := by
    intro p
    rw [hf.cburst]
    rcases p with _ | _ | _ | _ | _ | p <;> rfl
  simp only [send_message, send_message_body]
  split
  · rw [sendto_flag_g_no_channel _ _ _ _ _ (hsv _)]; rfl
  · split
    · rfl
    · split
      · rw [if_neg (by simp [hb])]
        exact dead_link_g_no_channel _ _ _ _ _ (by simpa [setExitc, World.setCl] using hsv _)
      · rw [send_message_put]
        simp only [scenarioEnv, lt_self_iff_false, if_false]
        unfold send_message_tail
        simp only
        split
        · rw [Option.isSome_map']
          unfold send_queued_g
          split
          · rfl
          · rw [send_queued_loop]
            split
            · rename_i hq
              simp only [lt_self_iff_false, if_false]
              rw [if_pos (by exact_mod_cast hq)]
              rfl
            · rfl
        · rfl

/-! ### Relations handed on by the routing functions -/

theorem passes_vsendprep (R : World → World → Prop) (hS : PassesSendbuf R) (w : World)
    (pattern : Str) (va : List Arg) : R w (vsendprep w pattern va).1 := by
  unfold vsendprep
  exact hS _ _

theorem passes_vsendpreprep (R : World → World → Prop) (hR : Passes R) (w : World) (to_ : Nat)
    (from_ : CPtr) (pattern : Str) (va : List Arg) :
    R w (vsendpreprep w to_ from_ pattern va).1 := by
  unfold vsendpreprep
  exact hR.psendbuf _ _

theorem passes_preprepOnce (R : World → World → Prop) (hR : Passes R) (w : World) (to_ : Nat)
    (from_ : CPtr) (pattern : Str) (va : List Arg) (len : Nat) :
    R w (preprepOnce w to_ from_ pattern va len).1 := by
  unfold preprepOnce
  split
  · exact passes_vsendpreprep R hR _ _ _ _ _
  · exact hR.refl _

theorem butserv_loop_passes (R : World → World → Prop) (hR : Passes R) (sm : SM)
    (hsm : ∀ w t msg len r, MyClient (w.cl t) = true → sm w t msg len = some r → R w r.1)
    (from_ : Nat) (lfrm : CPtr) (pattern : Str) (va : List Arg) :
    ∀ (l : List Nat) (w : World) (len : Nat) (r : World × List Call),
      butserv_loop sm from_ lfrm pattern va l w len = some r → R w r.1 := by
  intro l
  induction l with
  | nil =>
    intro w len r h
    simp only [butserv_loop, Option.some.injEq] at h
    subst h; exact hR.refl _
  | cons a lp ih =>
    intro w len r h
    rw [butserv_loop] at h
    split at h
    · rename_i hc
      cases hs : sm (preprepOnce w a lfrm pattern va len).1 a
          Buf.psendbuf (preprepOnce w a lfrm pattern va len).2 with
      | none => simp [hs] at h
      | some r1 =>
        simp only [hs] at h
        cases hl : butserv_loop sm from_ lfrm pattern va lp r1.1
            (preprepOnce w a lfrm pattern va len).2 with
        | none => simp [hl] at h
        | some r2 =>
          simp only [hl, Option.some.injEq] at h
          subst h
          have hm : MyClient ((preprepOnce w a lfrm pattern va len).1.cl a) = true := by
            rw [frame_MyClient (frame_prep_or_keep w a lfrm pattern va len)]; exact hc.1
          exact hR.trans _ _ _ (hR.trans _ _ _ (passes_preprepOnce R hR w a lfrm pattern va len)
            (hsm _ _ _ _ _ hm hs)) (ih _ _ r2 hl)
    · exact ih _ _ _ h

theorem sendto_channel_butserv_g_passes (R : World → World → Prop) (hR : Passes R) (sm : SM)
    (hsm : ∀ w t msg len r, MyClient (w.cl t) = true → sm w t msg len = some r → R w r.1)
    (w : World) (chptr from_ : Nat) (pattern : Str) (va : List Arg) (r : Run)
    (h : sendto_channel_butserv_g sm w chptr from_ pattern va = some r) : R w r.w := by
  unfold sendto_channel_butserv_g at h
  simp only at h
  split at h
  · rename_i hc
    cases hs : sm (vsendpreprep w from_ (CPtr.reg from_) pattern va).1 from_ Buf.psendbuf
        (vsendpreprep w from_ (CPtr.reg from_) pattern va).2 with
    | none => simp [hs] at h
    | some r1 =>
      simp only [hs] at h
      have hm : MyClient ((vsendpreprep w from_ (CPtr.reg from_) pattern va).1.cl from_)
          = true := by
        rw [frame_MyClient (frame_vsendpreprep _ _ _ _ _)]; exact hc
      have f1 : R w r1.1 :=
        hR.trans _ _ _ (passes_vsendpreprep R hR _ _ _ _ _) (hsm _ _ _ _ _ hm hs)
      split at h
      · simp only [Option.some.injEq] at h
        subst h; exact f1
      · obtain ⟨a, ha, rfl⟩ := Option.map_eq_some'.mp h
        exact hR.trans _ _ _ f1 (butserv_loop_passes R hR sm hsm _ _ _ _ _ _ _ a ha)
  · obtain ⟨a, ha, rfl⟩ := Option.map_eq_some'.mp h
    exact butserv_loop_passes R hR sm hsm _ _ _ _ _ _ _ a ha

theorem sendto_flag_g_passes (R : World → World → Prop) (hR : Passes R) (sm : SM)
    (hsm : ∀ w t msg len r, MyClient (w.cl t) = true → sm w t msg len = some r → R w r.1)
    (w : World) (chan : SChanId) (pattern : Str) (va : List Arg) (w1 : World)
    (h : sendto_flag_g sm w chan pattern va = some w1) : R w w1 := by
  unfold sendto_flag_g at h
  split at h
  · simp only [Option.some.injEq] at h
    subst h; exact hR.refl _
  · obtain ⟨a, ha, rfl⟩ := Option.map_eq_some'.mp h
    exact sendto_channel_butserv_g_passes R hR sm hsm _ _ _ _ _ a ha

theorem sendto_one_g_passes (R : World → World → Prop) (hR : Passes R) (hS : PassesSendbuf R)
    (sm : SM) (w : World) (to_ : Nat) (pattern : Str) (va : List Arg) (r : World × Int)
    (hsm : ∀ r1, sm (vsendprep w pattern va).1 to_ Buf.sendbuf (vsendprep w pattern va).2
      = some r1 → R (vsendprep w pattern va).1 r1.1)
    (h : sendto_one_g sm w to_ pattern va = some r) : R w r.1 := by
  unfold sendto_one_g at h
  obtain ⟨a, ha, rfl⟩ := Option.map_eq_some'.mp h
  exact hR.trans _ _ _ (passes_vsendprep R hS _ _ _) (hsm a ha)

theorem gone_passes (p : Nat) : Passes (Gone p) :=
  ⟨fun _ _ => rfl, fun w1 w2 w3 h12 h23 hd => by
      have e12 := h12 hd
      have hd2 : (w2.cl p).dead = true := by
        have := congrArg aClient.dead e12
        simpa [aClient.noCount, hd] using this
      exact (h23 hd2).trans e12,
    fun _ _ _ => rfl⟩

theorem gone_sendbuf (p : Nat) : PassesSendbuf (Gone p) := fun _ _ _ => rfl

/-! ### Dead links are left alone -/

theorem gone_of_cl (p : Nat) (w w1 : World) (h : w1.cl = w.cl) : Gone p w w1 := by
  intro _; rw [h]

theorem gone_setCl_ne (p t : Nat) (w : World) (c : aClient) (h : t ≠ p) :
    Gone p w (w.setCl t c) := by
  intro _
  simp [World.setCl, Function.update_noteq (Ne.symm h)]

theorem gone_incSendM (p q : Nat) (w : World) : Gone p w (incSendM w q) := by
  intro _
  by_cases hq : p = q
  · subst hq; simp [incSendM, World.setCl, aClient.noCount]
  · simp [incSendM, World.setCl, Function.update_noteq hq]

theorem gone_countSent (p t : Nat) (w : World) : Gone p w (countSent w t) := by
  have hR := gone_passes p
  unfold countSent
  simp only
  split
  · exact hR.trans _ _ _ (hR.trans _ _ _ (gone_incSendM _ _ _) (gone_incSendM _ _ _))
      (gone_incSendM _ _ _)
  · exact hR.trans _ _ _ (gone_incSendM _ _ _) (gone_incSendM _ _ _)

theorem dead_link_g_gone (env : Env) (sm : SM) (p : Nat)
    (hsm : ∀ w t msg len r, sm w t msg len = some r → Gone p w r.1)
    (w : World) (t : Nat) (notice : Str) (r : World × Int) (ht : t ≠ p)
    (h : dead_link_g env sm w t notice = some r) : Gone p w r.1 := by
  have hR := gone_passes p
  unfold dead_link_g at h
  simp only at h
  split at h
  · obtain ⟨a, ha, rfl⟩ := Option.map_eq_some'.mp h
    exact hR.trans _ _ _ (gone_setCl_ne p t w _ ht)
      (sendto_flag_g_passes _ hR sm (fun w t m l r _ h => hsm w t m l r h) _ _ _ _ _ ha)
  · simp only [Option.some.injEq] at h
    subst h
    exact gone_setCl_ne p t w _ ht

theorem write_error_notice_gone (env : Env) (sm : SM) (p : Nat)
    (hsm : ∀ w t msg len r, sm w t msg len = some r → Gone p w r.1)
    (w : World) (t : Nat) (w1 : World)
    (h : write_error_notice env sm w t = some w1) : Gone p w w1 := by
  have hR := gone_passes p
  unfold write_error_notice at h
  split at h
  · split at h
    · split at h
      · split at h
        · obtain ⟨a, ha, rfl⟩ := Option.map_eq_some'.mp h
          exact sendto_one_g_passes _ hR (gone_sendbuf p) sm _ _ _ _ a (fun r1 h1 => hsm _ _ _ _ _ h1) ha
        · simp only [Option.some.injEq] at h
          subst h; exact hR.refl _
      · simp only [Option.some.injEq] at h
        subst h; exact hR.refl _
    · simp only [Option.some.injEq] at h
      subst h; exact hR.refl _
  · simp only [Option.some.injEq] at h
    subst h; exact hR.refl _

theorem send_queued_loop_gone (env : Env) (sm : SM) (p : Nat)
    (hsm : ∀ w t msg len r, sm w t msg len = some r → Gone p w r.1) (t : Nat) (ht : t ≠ p) :
    ∀ (n : Nat) (w : World) (r : World × Int),
      send_queued_loop env sm t n w = some r → Gone p w r.1 := by
  have hR := gone_passes p
  intro n
  induction n with
  | zero => intro w r h; simp [send_queued_loop] at h
  | succ n ih =>
    intro w r h
    rw [send_queued_loop] at h
    simp only at h
    split at h
    · split at h
      · cases hn : write_error_notice env sm w t with
        | none => simp [hn] at h
        | some w1 =>
          simp only [hn] at h
          exact hR.trans _ _ _ (write_error_notice_gone env sm p hsm _ _ _ hn)
            (dead_link_g_gone env sm p hsm _ _ _ _ ht h)
      · split at h
        · simp only [Option.some.injEq] at h
          subst h; exact gone_setCl_ne p t w _ ht
        · exact hR.trans _ _ _ (gone_setCl_ne p t w _ ht) (ih _ _ h)
    · simp only [Option.some.injEq] at h
      subst h; exact hR.refl _

theorem send_message_tail_gone (env : Env) (sm : SM) (p : Nat)
    (hsm : ∀ w t msg len r, sm w t msg len = some r → Gone p w r.1) (fuel : Nat)
    (w : World) (t : Nat) (ht : t ≠ p) (r : World × Int)
    (h : send_message_tail env sm fuel w t = some r) : Gone p w r.1 := by
  have hR := gone_passes p
  unfold send_message_tail at h
  simp only at h
  split at h
  · obtain ⟨a, ha, rfl⟩ := Option.map_eq_some'.mp h
    refine hR.trans _ _ _ (gone_countSent p t w) ?_
    unfold send_queued_g at ha
    split at ha
    · simp only [Option.some.injEq] at ha
      subst ha; exact hR.refl _
    · exact send_queued_loop_gone env sm p hsm t ht _ _ a ha
  · simp only [Option.some.injEq] at h
    subst h; exact gone_countSent _ _ _

theorem send_message_put_gone (env : Env) (sm : SM) (p : Nat)
    (hsm : ∀ w t msg len r, sm w t msg len = some r → Gone p w r.1) (fuel : Nat)
    (t : Nat) (ht : t ≠ p) (msg : Buf) (len : Nat) :
    ∀ (n : Nat) (w : World) (r : World × Int),
      send_message_put env sm fuel t msg len n w = some r → Gone p w r.1 := by
  have hR := gone_passes p
  intro n
  induction n with
  | zero => intro w r h; simp [send_message_put] at h
  | succ n ih =>
    intro w r h
    rw [send_message_put] at h
    simp only at h
    split at h
    · split at h
      · split at h
        · simp at h
        · rename_i w2 hw2
          refine hR.trans _ _ _ (hR.trans _ _ _ (gone_of_cl p _ _ ?_)
            (sendto_flag_g_passes _ hR sm (fun w t m l r _ h => hsm w t m l r h) _ _ _ _ _ hw2))
            (hR.trans _ _ _ (gone_of_cl p w2 { w2 with is_dbufmore := w2.is_dbufmore + 1 } rfl)
              (ih _ _ h))
          unfold raise_sendq IncSendq; rfl
      · exact hR.trans _ _ _ (gone_setCl_ne p t w _ ht)
          (dead_link_g_gone env sm p hsm _ _ _ _ ht h)
    · exact hR.trans _ _ _ (gone_setCl_ne p t w _ ht)
        (send_message_tail_gone env sm p hsm _ _ _ ht _ h)

theorem send_message_body_gone (env : Env) (sm : SM) (p : Nat)
    (hsm : ∀ w t msg len r, sm w t msg len = some r → Gone p w r.1) (fuel : Nat)
    (w : World) (to0 : Nat) (msg : Buf) (len : Nat) (r : World × Int)
    (h : send_message_body env sm fuel w to0 msg len = some r) : Gone p w r.1 := by
  have hR := gone_passes p
  intro hd
  unfold send_message_body at h
  simp only at h
  split at h
  · obtain ⟨a, ha, rfl⟩ := Option.map_eq_some'.mp h
    exact sendto_flag_g_passes _ hR sm (fun w t m l r _ h => hsm w t m l r h) _ _ _ _ _ ha hd
  · split at h
    · simp only [Option.some.injEq] at h
      subst h; rfl
    · rename_i hnd
      have ht : effective w to0 ≠ p := by
        intro e; rw [e] at hnd; exact hnd hd
      split at h
      · split at h
        · split at h
          · simp at h
          · rename_i w2 hw2
            refine (hR.trans _ _ _ (hR.trans _ _ _ (gone_of_cl p _ _ ?_)
              (sendto_flag_g_passes _ hR sm (fun w t m l r _ h => hsm w t m l r h) _ _ _ _ _
                hw2))
              (hR.trans _ _ _ (gone_of_cl p w2 { w2 with is_dbufmore := w2.is_dbufmore + 1 } rfl)
                (send_message_put_gone env sm p hsm _ _ ht _ _ _ _ _ h))) hd
            unfold raise_sendq IncSendq; rfl
        · exact (hR.trans _ _ _ (gone_setCl_ne p _ w _ ht)
            (dead_link_g_gone env sm p hsm _ _ _ _ ht h)) hd
      · exact send_message_put_gone env sm p hsm _ _ ht _ _ _ _ _ h hd

/-- A link that is marked dead is left alone by `send_message`, at any depth:
its queues stay as they are, and so do its flags and its exit code. -/
theorem send_message_gone (env : Env) (p : Nat) :
    ∀ fuel w t msg len r, send_message env fuel w t msg len = some r → Gone p w r.1 := by
  intro fuel
  induction fuel with
  | zero => intro w t msg len r h; simp [send_message] at h
  | succ n ih => exact fun w t msg len r h => send_message_body_gone env _ p ih _ w t msg len r h

theorem setDeadAndClear_cl (w : World) (t : Nat) :
    ((setDeadAndClear w t).cl t).dead = true ∧ ((setDeadAndClear w t).cl t).recvQ = [] ∧
      ((setDeadAndClear w t).cl t).sendQ = [] ∧
      ((setDeadAndClear w t).cl t).exitc = (w.cl t).exitc ∧
      IsPerson ((setDeadAndClear w t).cl t) = IsPerson (w.cl t) ∧
      IsUnknown ((setDeadAndClear w t).cl t) = IsUnknown (w.cl t) ∧
      ((setDeadAndClear w t).cl t).closing = (w.cl t).closing := by
  simp [setDeadAndClear, World.setCl, IsPerson, IsUnknown, IsClient]

theorem gone_fields {p : Nat} {w w1 : World} (h : Gone p w w1) (hd : (w.cl p).dead = true) :
    (w1.cl p).dead = true ∧ (w1.cl p).recvQ = (w.cl p).recvQ ∧
      (w1.cl p).sendQ = (w.cl p).sendQ ∧ (w1.cl p).exitc = (w.cl p).exitc := by
  have e := h hd
  refine ⟨?_, ?_, ?_, ?_⟩
  · have := congrArg aClient.dead e
    simpa [aClient.noCount, hd] using this
  · simpa [aClient.noCount] using congrArg aClient.recvQ e
  · simpa [aClient.noCount] using congrArg aClient.sendQ e
  · simpa [aClient.noCount] using congrArg aClient.exitc e

/-- What `dead_link` does, over any `send_message` that leaves dead links alone. -/
theorem dead_link_g_contract (env : Env) (sm : SM) (w : World) (t : Nat) (notice : Str)
    (hsm : ∀ w t1 msg len r, sm w t1 msg len = some r → Gone t w r.1) :
    ((sendto_flag_g sm (setDeadAndClear w t) SChanId.SCH_ERROR notice
        [Arg.str (env.get_client_name (setDeadAndClear w t) t)]).isSome = true →
      (dead_link_g env sm w t notice).isSome = true) ∧
    ∀ r, dead_link_g env sm w t notice = some r →
      r.2 = -1 ∧ (r.1.cl t).dead = true ∧ (r.1.cl t).recvQ = [] ∧ (r.1.cl t).sendQ = [] ∧
      (r.1.cl t).exitc = (w.cl t).exitc ∧
      (if IsPerson (w.cl t) = false ∧ IsUnknown (w.cl t) = false ∧ (w.cl t).closing = false then
        sendto_flag_g sm (setDeadAndClear w t) SChanId.SCH_ERROR notice
          [Arg.str (env.get_client_name (setDeadAndClear w t) t)] = some r.1
      else r.1 = setDeadAndClear w t) := by
  obtain ⟨c1, c2, c3, c4, c5, c6, c7⟩ := setDeadAndClear_cl w t
  by_cases hc : IsPerson (w.cl t) = false ∧ IsUnknown (w.cl t) = false ∧ (w.cl t).closing = false
  · have hc3 : (!IsPerson ((setDeadAndClear w t).cl t)) = true ∧
        (!IsUnknown ((setDeadAndClear w t).cl t)) = true ∧
        (!((setDeadAndClear w t).cl t).closing) = true := by
      rw [c5, c6, c7, hc.1, hc.2.1, hc.2.2]; simp
    refine ⟨fun hs => ?_, fun r h => ?_⟩
    · obtain ⟨w4, hw4⟩ := Option.isSome_iff_exists.mp hs
      simp [dead_link_g, hc3, hw4]
    · simp only [dead_link_g, if_pos hc3] at h
      obtain ⟨a, ha, rfl⟩ := Option.map_eq_some'.mp h
      have hg := gone_fields (sendto_flag_g_passes _ (gone_passes t) sm
        (fun w t1 m l r _ h => hsm w t1 m l r h) _ _ _ _ _ ha) c1
      rw [if_pos hc]
      exact ⟨rfl, hg.1, hg.2.1.trans c2, hg.2.2.1.trans c3, hg.2.2.2.trans c4, ha⟩
  · have hc3 : ¬ ((!IsPerson ((setDeadAndClear w t).cl t)) = true ∧
        (!IsUnknown ((setDeadAndClear w t).cl t)) = true ∧
        (!((setDeadAndClear w t).cl t).closing) = true) := by
      rw [c5, c6, c7]
      intro h
      apply hc
      simpa using h
    refine ⟨fun _ => by simp only [dead_link_g, if_neg hc3]; rfl, fun r h => ?_⟩
    simp only [dead_link_g, if_neg hc3, Option.some.injEq] at h
    subst h
    rw [if_neg hc]
    exact ⟨rfl, c1, c2, c3, c4, rfl⟩

/-! ### The diagnostic for a link over its cap -/

theorem vsprintfAux_plain (s : Str) (va : List Arg) (h : '%' ∉ s) :
    vsprintfAux false s va = s := by
  induction s with
  | nil => rfl
  | cons c cs ih =>
    have hc : c ≠ '%' := fun e => h (by simp [e])
    have hcs : '%' ∉ cs := fun e => h (List.mem_cons_of_mem _ e)
    simp [vsprintfAux, hc, ih hcs]

theorem digitChar_ne_percent (d : Nat) (hd : d < 10) : Nat.digitChar d ≠ '%' := by
  interval_cases d <;> decide

theorem toDigitsCore_no_percent : ∀ (fuel n : Nat) (acc : List Char), '%' ∉ acc →
    '%' ∉ Nat.toDigitsCore 10 fuel n acc := by
  intro fuel
  induction fuel with
  | zero => intro n acc h; simpa [Nat.toDigitsCore] using h
  | succ f ih =>
    intro n acc h
    have hacc : '%' ∉ Nat.digitChar (n % 10) :: acc := by
      intro hm
      rcases List.mem_cons.mp hm with e | e
      · exact digitChar_ne_percent _ (Nat.mod_lt _ (by decide)) e.symm
      · exact h e
    simp only [Nat.toDigitsCore]
    split
    · exact hacc
    · exact ih _ _ hacc

theorem fmtInt_no_percent (n : Int) : '%' ∉ fmtInt n := by
  unfold fmtInt Nat.toDigits
  split
  · intro hm
    rcases List.mem_cons.mp hm with e | e
    · exact absurd e (by decide)
    · exact toDigitsCore_no_percent _ _ [] (by simp) e
  · exact toDigitsCore_no_percent _ _ [] (by simp)

theorem maxSendqText_render (n : Str) (a b : Int) :
    vsprintf "Max SendQ limit exceeded for %s: %d > %d".toList
      [Arg.str n, Arg.int a, Arg.int b] = maxSendqText n a b := by
  simp [vsprintf, vsprintfAux, renderArg, maxSendqText]

theorem maxSendqText_plain (n : Str) (a b : Int) (va : List Arg) (h : '%' ∉ n) :
    vsprintf (maxSendqText n a b) va = maxSendqText n a b := by
  apply vsprintfAux_plain
  unfold maxSendqText
  intro hm
  simp only [List.mem_append] at hm
  rcases hm with ((((e | e) | e) | e) | e) | e
  · exact absurd e (by decide)
  · exact h e
  · exact absurd e (by decide)
  · exact fmtInt_no_percent a e
  · exact absurd e (by decide)
  · exact fmtInt_no_percent b e

theorem maxSendqText_ne_nil (n : Str) (a b : Int) : maxSendqText n a b ≠ [] := by
  simp [maxSendqText]

theorem setExitc_cl (w : World) (t : Nat) (e : ExitCode) :
    ((setExitc w t e).cl t).exitc = e ∧
      IsPerson ((setExitc w t e).cl t) = IsPerson (w.cl t) ∧
      IsUnknown ((setExitc w t e).cl t) = IsUnknown (w.cl t) ∧
      ((setExitc w t e).cl t).closing = (w.cl t).closing := by
  simp [setExitc, World.setCl, IsPerson, IsUnknown, IsClient]

/-- Over its cap and not in connect burst, `send_message` is the assignment of
the exit code followed by `dead_link`. -/
theorem send_message_over_cap (env : Env) (fuel : Nat) (w : World) (to0 : Nat) (msg : Buf)
    (len : Nat) (hme : IsMe (w.cl (effective w to0)) = false)
    (hdead : (w.cl (effective w to0)).dead = false)
    (hb : (w.cl (effective w to0)).cburst = false)
    (hover : ((w.cl (effective w to0)).sendQ.length : Int) > get_sendq w (effective w to0)) :
    send_message env (fuel + 1) w to0 msg len
      = dead_link env fuel (setExitc w (effective w to0) ExitCode.SENDQ) (effective w to0)
          (if IsService (w.cl (effective w to0)) = true ∨ IsServer (w.cl (effective w to0)) = true
            then maxSendqText (env.get_client_name w (effective w to0))
              (w.cl (effective w to0)).sendQ.length (get_sendq w (effective w to0))
            else "Max Sendq exceeded".toList) := by
  simp only [send_message, send_message_body, dead_link, hme, hdead, hb, hover,
    Bool.false_eq_true, if_false, if_true, maxSendqText_render]
  by_cases hs : IsService (w.cl (effective w to0)) = true ∨
      IsServer (w.cl (effective w to0)) = true
  · simp only [if_pos hs, if_pos (maxSendqText_ne_nil _ _ _)]
  · simp only [if_neg hs, ne_eq, not_true_eq_false, if_false]

/-! ### `send_queued` on a socket that reports no error -/

theorem dequeue_cl (w : World) (t : Nat) (k : Nat) :
    ((dequeue w t k).cl t).sendQ = (w.cl t).sendQ.drop k ∧
      ((dequeue w t k).cl t).lastsq = ((w.cl t).sendQ.drop k).length / 1024 ∧
      ((dequeue w t k).cl t).dead = (w.cl t).dead ∧
      ((dequeue w t k).cl t).recvQ = (w.cl t).recvQ ∧
      ((dequeue w t k).cl t).exitc = (w.cl t).exitc := by
  simp [dequeue, World.setCl]

theorem stopsAtShort_cons (x : List Char × Nat) (l : List (List Char × Nat))
    (hx : x.2 = x.1.length) (hl : stopsAtShort l = true) : stopsAtShort (x :: l) = true := by
  cases l with
  | nil => rfl
  | cons y l => simp [stopsAtShort, hx, hl]

/-- The loop of `send_queued` on a live link whose socket reports no error:
with enough iterations allowed it returns 0, and what went out on the socket
followed by what is left in the queue is the queue it started from. -/
theorem send_queued_loop_wire (env : Env) (sm : SM) (to_ : Nat)
    (hmap : ∀ w : World, (w.cl to_).sendQ ≠ [] →
      0 < env.dbuf_map w to_ ∧ env.dbuf_map w to_ ≤ (w.cl to_).sendQ.length)
    (hdel : ∀ (w : World) (m : List Char),
      0 ≤ env.deliver_it w to_ m ∧ env.deliver_it w to_ m ≤ (m.length : Int)) :
    ∀ (n : Nat) (w : World), (w.cl to_).dead = false → (w.cl to_).sendQ.length < n →
      ∃ w1, send_queued_loop env sm to_ n w = some (w1, 0) ∧
        wireBytes (send_queued_writes env to_ n w) ++ (w1.cl to_).sendQ = (w.cl to_).sendQ ∧
        stopsAtShort (send_queued_writes env to_ n w) = true ∧
        (w1.cl to_).dead = false ∧
        ((w.cl to_).sendQ ≠ [] ∨ (w.cl to_).lastsq = (w.cl to_).sendQ.length / 1024 →
          (w1.cl to_).lastsq = (w1.cl to_).sendQ.length / 1024) := by
  intro n
  induction n with
  | zero => intro w _ h; omega
  | succ n ih =>
    intro w hd hn
    by_cases hq : (w.cl to_).sendQ.length > 0
    · have hne : (w.cl to_).sendQ ≠ [] := by
        intro e; rw [e] at hq; simp at hq
      obtain ⟨m1, m2⟩ := hmap w hne
      obtain ⟨d1, d2⟩ := hdel w ((w.cl to_).sendQ.take (env.dbuf_map w to_))
      have hlen : ((w.cl to_).sendQ.take (env.dbuf_map w to_)).length = env.dbuf_map w to_ := by
        rw [List.length_take]; omega
      rw [hlen] at d2
      obtain ⟨q1, q2, q3, _, _⟩ := dequeue_cl w to_
        (env.deliver_it w to_ ((w.cl to_).sendQ.take (env.dbuf_map w to_))).toNat
      have hnot : ¬ env.deliver_it w to_ ((w.cl to_).sendQ.take (env.dbuf_map w to_)) < 0 := by
        omega
      by_cases hs : env.deliver_it w to_ ((w.cl to_).sendQ.take (env.dbuf_map w to_))
          < (env.dbuf_map w to_ : Int)
      · refine ⟨dequeue w to_
          (env.deliver_it w to_ ((w.cl to_).sendQ.take (env.dbuf_map w to_))).toNat, ?_, ?_, ?_,
          ?_, ?_⟩
        · simp only [send_queued_loop, hq, if_true, hnot, if_false, hs, q3, hd]
          rfl
        · simp only [send_queued_writes, hq, if_true, hnot, if_false, hs, wireBytes,
            List.flatMap_cons, List.flatMap_nil, List.append_nil, q1]
          rw [List.take_take, min_eq_left (by omega)]
          exact List.take_append_drop _ _
        · simp only [send_queued_writes, hq, if_true, hnot, if_false, hs]
          rfl
        · rw [q3]; exact hd
        · intro _; rw [q2, q1]
      · have heq : (env.deliver_it w to_ ((w.cl to_).sendQ.take (env.dbuf_map w to_))).toNat
            = env.dbuf_map w to_ := by omega
        have hd2 : ((dequeue w to_ (env.dbuf_map w to_)).cl to_).dead = false := by
          rw [(dequeue_cl w to_ _).2.2.1]; exact hd
        have hn2 : ((dequeue w to_ (env.dbuf_map w to_)).cl to_).sendQ.length < n := by
          rw [(dequeue_cl w to_ _).1, List.length_drop]; omega
        obtain ⟨w1, r1, r2, r3, r4, r5⟩ := ih (dequeue w to_ (env.dbuf_map w to_)) hd2 hn2
        refine ⟨w1, ?_, ?_, ?_, r4, ?_⟩
        · simp only [send_queued_loop, hq, if_true, hnot, if_false, hs, heq]
          exact r1
        · simp only [send_queued_writes, hq, if_true, hnot, if_false, hs, heq, wireBytes,
            List.flatMap_cons]
          simp only [wireBytes] at r2
          rw [List.append_assoc, r2, (dequeue_cl w to_ _).1, List.take_take, min_self]
          exact List.take_append_drop _ _
        · simp only [send_queued_writes, hq, if_true, hnot, if_false, hs, heq]
          exact stopsAtShort_cons _ _ (by simp only [hlen]) r3
        · intro _
          exact r5 (Or.inr (by rw [(dequeue_cl w to_ _).2.1, (dequeue_cl w to_ _).1]))
    · have he : (w.cl to_).sendQ = [] := by
        cases hc : (w.cl to_).sendQ with
        | nil => rfl
        | cons a l => rw [hc] at hq; simp at hq
      refine ⟨w, ?_, ?_, ?_, hd, ?_⟩
      · simp only [send_queued_loop, hq, if_false, hd]
        rfl
      · simp only [send_queued_writes, hq, if_false, wireBytes, List.flatMap_nil,
          List.nil_append]
      · simp only [send_queued_writes, hq, if_false]
        rfl
      · intro h
        rcases h with h | h
        · exact absurd he h
        · exact h

theorem slowSocket_map (w : World) (h : (w.cl 4).sendQ ≠ []) :
    0 < slowSocketEnv.dbuf_map w 4 ∧ slowSocketEnv.dbuf_map w 4 ≤ (w.cl 4).sendQ.length := by
  have : 0 < (w.cl 4).sendQ.length := List.length_pos.mpr h
  simp only [slowSocketEnv]
  omega

theorem slowSocket_deliver (w : World) (m : List Char) :
    0 ≤ slowSocketEnv.deliver_it w 4 m ∧ slowSocketEnv.deliver_it w 4 m ≤ (m.length : Int) := by
  simp only [slowSocketEnv]
  split <;> omega

/-! ### Whatever every update keeps, `send_message` keeps -/

theorem dead_link_g_updates (R : World → World → Prop) (hR : Passes R) (hU : Updates R)
    (env : Env) (sm : SM) (hsm : ∀ w t msg len r, sm w t msg len = some r → R w r.1)
    (w : World) (t : Nat) (notice : Str) (r : World × Int)
    (h : dead_link_g env sm w t notice = some r) : R w r.1 := by
  unfold dead_link_g at h
  simp only at h
  split at h
  · obtain ⟨a, ha, rfl⟩ := Option.map_eq_some'.mp h
    exact hR.trans _ _ _ (hU.dead w t)
      (sendto_flag_g_passes _ hR sm (fun w t m l r _ h => hsm w t m l r h) _ _ _ _ _ ha)
  · simp only [Option.some.injEq] at h
    subst h
    exact hU.dead w t

theorem write_error_notice_updates (R : World → World → Prop) (hR : Passes R)
    (hU : Updates R) (env : Env) (sm : SM) (hsm : ∀ w t msg len r, sm w t msg len = some r → R w r.1)
    (w : World) (t : Nat) (w1 : World)
    (h : write_error_notice env sm w t = some w1) : R w w1 := by
  unfold write_error_notice at h
  split at h
  · split at h
    · split at h
      · split at h
        · obtain ⟨a, ha, rfl⟩ := Option.map_eq_some'.mp h
          exact sendto_one_g_passes _ hR hU.sendbuf sm _ _ _ _ a (fun r1 h1 => hsm _ _ _ _ _ h1) ha
        · simp only [Option.some.injEq] at h
          subst h; exact hR.refl _
      · simp only [Option.some.injEq] at h
        subst h; exact hR.refl _
    · simp only [Option.some.injEq] at h
      subst h; exact hR.refl _
  · simp only [Option.some.injEq] at h
    subst h; exact hR.refl _

theorem send_queued_loop_updates (R : World → World → Prop) (hR : Passes R) (hU : Updates R)
    (env : Env) (sm : SM) (hsm : ∀ w t msg len r, sm w t msg len = some r → R w r.1)
    (t : Nat) :
    ∀ (n : Nat) (w : World) (r : World × Int),
      send_queued_loop env sm t n w = some r → R w r.1 := by
  intro n
  induction n with
  | zero => intro w r h; simp [send_queued_loop] at h
  | succ n ih =>
    intro w r h
    rw [send_queued_loop] at h
    simp only at h
    split at h
    · split at h
      · cases hn : write_error_notice env sm w t with
        | none => simp [hn] at h
        | some w1 =>
          simp only [hn] at h
          exact hR.trans _ _ _ (write_error_notice_updates R hR hU env sm hsm _ _ _ hn)
            (dead_link_g_updates R hR hU env sm hsm _ _ _ _ h)
      · split at h
        · simp only [Option.some.injEq] at h
          subst h; exact hU.deq w t _
        · exact hR.trans _ _ _ (hU.deq w t _) (ih _ _ h)
    · simp only [Option.some.injEq] at h
      subst h; exact hR.refl _

theorem countSent_updates (R : World → World → Prop) (hR : Passes R) (hU : Updates R)
    (w : World) (t : Nat) : R w (countSent w t) := by
  unfold countSent
  simp only
  split
  · exact hR.trans _ _ _ (hR.trans _ _ _ (hU.count _ _) (hU.count _ _)) (hU.count _ _)
  · exact hR.trans _ _ _ (hU.count _ _) (hU.count _ _)

theorem send_message_tail_updates (R : World → World → Prop) (hR : Passes R) (hU : Updates R)
    (env : Env) (sm : SM) (hsm : ∀ w t msg len r, sm w t msg len = some r → R w r.1)
    (fuel : Nat) (w : World) (t : Nat) (r : World × Int)
    (h : send_message_tail env sm fuel w t = some r) : R w r.1 := by
  unfold send_message_tail at h
  simp only at h
  split at h
  · obtain ⟨a, ha, rfl⟩ := Option.map_eq_some'.mp h
    refine hR.trans _ _ _ (countSent_updates R hR hU w t) ?_
    unfold send_queued_g at ha
    split at ha
    · simp only [Option.some.injEq] at ha
      subst ha; exact hR.refl _
    · exact send_queued_loop_updates R hR hU env sm hsm t _ _ a ha
  · simp only [Option.some.injEq] at h
    subst h; exact countSent_updates R hR hU w t

theorem send_message_put_updates (R : World → World → Prop) (hR : Passes R) (hU : Updates R)
    (env : Env) (sm : SM) (hsm : ∀ w t msg len r, sm w t msg len = some r → R w r.1)
    (fuel : Nat) (t : Nat) (msg : Buf) (len : Nat) :
    ∀ (n : Nat) (w : World) (r : World × Int),
      send_message_put env sm fuel t msg len n w = some r → R w r.1 := by
  intro n
  induction n with
  | zero => intro w r h; simp [send_message_put] at h
  | succ n ih =>
    intro w r h
    rw [send_message_put] at h
    simp only at h
    split at h
    · split at h
      · split at h
        · simp at h
        · rename_i w2 hw2
          exact hR.trans _ _ _ (hR.trans _ _ _ (hU.raise w t)
            (sendto_flag_g_passes _ hR sm (fun w t m l r _ h => hsm w t m l r h) _ _ _ _ _ hw2))
            (hR.trans _ _ _ (hU.more w2) (ih _ _ h))
      · exact hR.trans _ _ _ (hU.mbuf w t) (dead_link_g_updates R hR hU env sm hsm _ _ _ _ h)
    · exact hR.trans _ _ _ (hU.enq w t _)
        (send_message_tail_updates R hR hU env sm hsm _ _ _ _ h)

theorem send_message_body_updates (R : World → World → Prop) (hR : Passes R) (hU : Updates R)
    (env : Env) (sm : SM) (hsm : ∀ w t msg len r, sm w t msg len = some r → R w r.1)
    (fuel : Nat) (w : World) (to0 : Nat) (msg : Buf) (len : Nat) (r : World × Int)
    (h : send_message_body env sm fuel w to0 msg len = some r) : R w r.1 := by
  unfold send_message_body at h
  simp only at h
  split at h
  · obtain ⟨a, ha, rfl⟩ := Option.map_eq_some'.mp h
    exact sendto_flag_g_passes _ hR sm (fun w t m l r _ h => hsm w t m l r h) _ _ _ _ _ ha
  · split at h
    · simp only [Option.some.injEq] at h
      subst h; exact hR.refl _
    · split at h
      · split at h
        · split at h
          · simp at h
          · rename_i w2 hw2
            exact hR.trans _ _ _ (hR.trans _ _ _ (hU.raise w _)
              (sendto_flag_g_passes _ hR sm (fun w t m l r _ h => hsm w t m l r h) _ _ _ _ _
                hw2))
              (hR.trans _ _ _ (hU.more w2)
                (send_message_put_updates R hR hU env sm hsm _ _ _ _ _ _ _ h))
        · exact hR.trans _ _ _ (hU.sendq w _)
            (dead_link_g_updates R hR hU env sm hsm _ _ _ _ h)
      · exact send_message_put_updates R hR hU env sm hsm _ _ _ _ _ _ _ h

/-- Whatever holds across every update of send.c holds across `send_message`. -/
theorem send_message_updates (R : World → World → Prop) (hR : Passes R) (hU : Updates R)
    (env : Env) :
    ∀ fuel w t msg len r, send_message env fuel w t msg len = some r → R w r.1 := by
  intro fuel
  induction fuel with
  | zero => intro w t msg len r h; simp [send_message] at h
  | succ n ih =>
    exact fun w t msg len r h => send_message_body_updates R hR hU env _ ih _ w t msg len r h

theorem exitKept_passes : Passes ExitKept :=
  ⟨fun _ _ => Or.inl rfl, fun w1 w2 w3 h12 h23 p => by
      rcases h23 p with h | h | h
      · rw [h]; exact h12 p
      · exact Or.inr (Or.inl h)
      · exact Or.inr (Or.inr h),
    fun _ _ _ => Or.inl rfl⟩

theorem exitKept_setCl (w : World) (t : Nat) (c : aClient)
    (h : c.exitc = (w.cl t).exitc ∨ c.exitc = ExitCode.SENDQ ∨ c.exitc = ExitCode.MBUF) :
    ExitKept w (w.setCl t c) := by
  intro p
  by_cases hp : p = t
  · subst hp; simpa [World.setCl] using h
  · simp [World.setCl, Function.update_noteq hp]

theorem exitKept_updates : Updates ExitKept :=
  ⟨fun w t => exitKept_setCl w t _ (Or.inl rfl),
    fun w t => exitKept_setCl w t _ (Or.inr (Or.inl rfl)),
    fun w t => exitKept_setCl w t _ (Or.inr (Or.inr rfl)),
    fun w t _ => exitKept_setCl w t _ (Or.inl rfl),
    fun w t _ => exitKept_setCl w t _ (Or.inl rfl),
    fun w t => exitKept_setCl w t _ (Or.inl rfl),
    fun w t p => by unfold raise_sendq IncSendq; exact Or.inl rfl,
    fun _ _ => Or.inl rfl, fun _ _ _ => Or.inl rfl⟩

/-! ### `send_queued`: termination and outcome -/

theorem butserv_loop_returns (sm : SM) (hsm : SMFrame sm) (from_ : Nat) (lfrm : CPtr)
    (pattern : Str) (va : List Arg) (w0 : World) (hret : SMReturns sm w0) :
    ∀ (l : List Nat) (w : World) (len : Nat), Frame w0 w →
      (butserv_loop sm from_ lfrm pattern va l w len).isSome = true := by
  intro l
  induction l with
  | nil => intro w len _; rfl
  | cons a lp ih =>
    intro w len hf
    rw [butserv_loop]
    split
    · have hfp : Frame w0 (preprepOnce w a lfrm pattern va len).1 :=
        hf.trans (frame_prep_or_keep _ _ _ _ _ _)
      obtain ⟨r1, hr1⟩ := Option.isSome_iff_exists.mp (hret _ a Buf.psendbuf
        (preprepOnce w a lfrm pattern va len).2 hfp)
      have h2 := ih r1.1 (preprepOnce w a lfrm pattern va len).2 (hfp.trans (hsm _ _ _ _ _ hr1))
      obtain ⟨r2, hr2⟩ := Option.isSome_iff_exists.mp h2
      simp [hr1, hr2]
    · exact ih _ _ hf

theorem sendto_channel_butserv_g_returns (sm : SM) (hsm : SMFrame sm) (w0 w : World)
    (chptr from_ : Nat) (pattern : Str) (va : List Arg) (hret : SMReturns sm w0)
    (hf : Frame w0 w) :
    (sendto_channel_butserv_g sm w chptr from_ pattern va).isSome = true := by
  unfold sendto_channel_butserv_g
  simp only
  split
  · have hfp : Frame w0 (vsendpreprep w from_ (CPtr.reg from_) pattern va).1 :=
      hf.trans (frame_vsendpreprep _ _ _ _ _)
    obtain ⟨r1, hr1⟩ := Option.isSome_iff_exists.mp (hret _ from_ Buf.psendbuf
      (vsendpreprep w from_ (CPtr.reg from_) pattern va).2 hfp)
    have hf1 : Frame w0 r1.1 := hfp.trans (hsm _ _ _ _ _ hr1)
    simp only [hr1]
    split
    · rfl
    · rw [Option.isSome_map']
      exact butserv_loop_returns sm hsm _ _ _ _ w0 hret _ _ _ hf1
  · rw [Option.isSome_map']
    exact butserv_loop_returns sm hsm _ _ _ _ w0 hret _ _ _ hf

theorem sendto_flag_g_returns (sm : SM) (hsm : SMFrame sm) (w0 w : World) (chan : SChanId)
    (pattern : Str) (va : List Arg) (hret : SMReturns sm w0) (hf : Frame w0 w) :
    (sendto_flag_g sm w chan pattern va).isSome = true := by
  unfold sendto_flag_g
  split
  · rfl
  · rw [Option.isSome_map']
    exact sendto_channel_butserv_g_returns sm hsm w0 w _ _ _ _ hret hf

theorem dead_link_g_returns (env : Env) (sm : SM) (hsm : SMFrame sm) (w0 w : World) (t : Nat)
    (notice : Str) (hret : SMReturns sm w0) (hf : Frame w0 w) :
    (dead_link_g env sm w t notice).isSome = true := by
  unfold dead_link_g
  simp only
  split
  · rw [Option.isSome_map']
    exact sendto_flag_g_returns sm hsm w0 _ _ _ _ hret (hf.trans (frame_setDeadAndClear w t))
  · rfl

theorem write_error_notice_returns (env : Env) (sm : SM) (w0 w : World) (t : Nat)
    (hret : SMReturns sm w0) (hf : Frame w0 w) :
    (write_error_notice env sm w t).isSome = true := by
  unfold write_error_notice
  split
  · split
    · split
      · split
        · unfold sendto_one_g
          rw [Option.isSome_map', Option.isSome_map']
          exact hret _ _ _ _ (hf.trans (frame_vsendprep _ _ _))
        · rfl
      · rfl
    · rfl
  · rfl

/-- The loop of `send_queued` returns within as many iterations as the queue
has bytes, when `dbuf_map` offers a non-empty head of the queue, the socket never
takes more than it is offered, and the calls of `send_message` made for the
notices return. -/
theorem send_queued_loop_returns (env : Env) (sm : SM) (hsm : SMFrame sm) (to_ : Nat)
    (w0 : World) (hret : SMReturns sm w0)
    (hmap : ∀ w : World, (w.cl to_).sendQ ≠ [] →
      0 < env.dbuf_map w to_ ∧ env.dbuf_map w to_ ≤ (w.cl to_).sendQ.length)
    (hdel : ∀ (w : World) (m : List Char), env.deliver_it w to_ m ≤ (m.length : Int)) :
    ∀ (n : Nat) (w : World), Frame w0 w → (w.cl to_).sendQ.length < n →
      (send_queued_loop env sm to_ n w).isSome = true := by
  intro n
  induction n with
  | zero => intro w _ h; omega
  | succ n ih =>
    intro w hf hn
    rw [send_queued_loop]
    simp only
    split
    · rename_i hq
      have hne : (w.cl to_).sendQ ≠ [] := by
        intro e; rw [e] at hq; simp at hq
      obtain ⟨m1, m2⟩ := hmap w hne
      have d2 := hdel w ((w.cl to_).sendQ.take (env.dbuf_map w to_))
      have hlen : ((w.cl to_).sendQ.take (env.dbuf_map w to_)).length = env.dbuf_map w to_ := by
        rw [List.length_take]; omega
      rw [hlen] at d2
      split
      · obtain ⟨w1, hw1⟩ := Option.isSome_iff_exists.mp
          (write_error_notice_returns env sm w0 w to_ hret hf)
        simp only [hw1]
        exact dead_link_g_returns env sm hsm w0 w1 to_ _ hret
          (hf.trans (write_error_notice_frame env sm hsm _ _ _ hw1))
      · split
        · rfl
        · refine ih _ (hf.trans (frame_dequeue _ _ _)) ?_
          rw [(dequeue_cl w to_ _).1, List.length_drop]
          omega
    · rfl

/-- The loop of `send_queued` on a live link returns -1, with the link dead
and both queues empty, when a write reports an error, and returns 0 with the
link alive otherwise. -/
theorem send_queued_loop_outcome (env : Env) (sm : SM) (t : Nat)
    (hsm : ∀ w t1 msg len r, sm w t1 msg len = some r → Gone t w r.1) :
    ∀ (n : Nat) (w : World) (r : World × Int), (w.cl t).dead = false →
      send_queued_loop env sm t n w = some r →
        (send_queued_errs env t n w = true →
          r.2 = -1 ∧ (r.1.cl t).dead = true ∧ (r.1.cl t).recvQ = [] ∧ (r.1.cl t).sendQ = []) ∧
        (send_queued_errs env t n w = false → r.2 = 0 ∧ (r.1.cl t).dead = false) := by
  intro n
  induction n with
  | zero => intro w r _ h; simp [send_queued_loop] at h
  | succ n ih =>
    intro w r hd h
    rw [send_queued_loop] at h
    rw [send_queued_errs]
    simp only at h ⊢
    split at h
    · rename_i hq
      rw [if_pos hq]
      split at h
      · rename_i he
        rw [if_pos he]
        cases hn : write_error_notice env sm w t with
        | none => simp [hn] at h
        | some w1 =>
          simp only [hn] at h
          obtain ⟨h1, h2, h3, h4, _⟩ := (dead_link_g_contract env sm w1 t _ hsm).2 r h
          exact ⟨fun _ => ⟨h1, h2, h3, h4⟩, fun hf => absurd hf (by simp)⟩
      · rename_i he
        rw [if_neg he]
        split at h
        · rename_i hs
          rw [if_pos hs]
          simp only [Option.some.injEq] at h
          subst h
          have hd2 := (dequeue_cl w t
            (env.deliver_it w t ((w.cl t).sendQ.take (env.dbuf_map w t))).toNat).2.2.1
          simp only [hd2, hd]
          exact ⟨fun hf => absurd hf (by simp), fun _ => by simp⟩
        · rename_i hs
          rw [if_neg hs]
          exact ih _ _ (by rw [(dequeue_cl w t _).2.2.1]; exact hd) h
    · rename_i hq
      rw [if_neg hq]
      simp only [Option.some.injEq] at h
      subst h
      simp only [hd]
      exact ⟨fun hf => absurd hf (by simp), fun _ => by simp⟩

/-! ### The server fan-outs -/

theorem frame_fdasClient {w w1 : World} (h : Frame w w1) (i : Nat) :
    fdasClient w1 i = fdasClient w i := by
  simp [fdasClient, h.loc, h.fdas_fd]

theorem frame_servEligible {w w1 : World} (h : Frame w w1) (one : Option Nat) (c : Nat) :
    servEligible w1 one c = servEligible w one c := by
  unfold servEligible
  rw [frame_IsMe h]
  cases one with
  | none => rfl
  | some o => simp only [h.from_eq]

theorem frame_servVersion {w w1 : World} (h : Frame w w1) (c : Nat) :
    servVersion (w1.cl c) = servVersion (w.cl c) := by
  have : (w1.cl c).serv = (w.cl c).serv := ((static_eq_iff _ _).mp (h.static c)).2.1
  simp [servVersion, this]

theorem frame_servLinks {w w1 : World} (h : Frame w w1) (one : Option Nat) :
    servLinks w1 one = servLinks w one := by
  have h1 : fdasClient w1 = fdasClient w := funext (frame_fdasClient h)
  have h2 : servEligible w1 one = servEligible w one := funext (frame_servEligible h one)
  simp [servLinks, fdasIndices, h.fdas_highest, h1, h2]

theorem servEligible_iff (w : World) (one : Option Nat) (c : Nat) :
    servEligible w one c = true ↔
      ((match one with
        | none => true
        | some o => decide (some c ≠ (w.cl o).«from»)) = true ∧ (!IsMe (w.cl c)) = true) := by
  unfold servEligible
  rw [Bool.and_eq_true]

/-- The loop of the server fan-outs: it passes the message to the eligible
links that `pick` accepts, in the order of the list, and the return code is
set when an eligible link fails `pick`. -/
theorem serv_loop_spec (sm : SM) (hsm : SMFrame sm) (one : Option Nat) (f : Nat → Bool)
    (pattern : Str) (va : List Arg) (w0 : World) :
    ∀ (l : List Nat) (w : World) (len : Nat) (rc : Int) (r : World × List Call × Int),
      Frame w0 w →
      serv_loop sm one (fun c => f (servVersion c)) pattern va l w len rc = some r →
        Frame w0 r.1 ∧
        r.2.1.map Prod.fst = ((l.filterMap (fdasClient w0)).filter (servEligible w0 one)).filter
          (fun c => f (servVersion (w0.cl c))) ∧
        r.2.2 = (if (((l.filterMap (fdasClient w0)).filter (servEligible w0 one)).filter
          (fun c => !f (servVersion (w0.cl c)))) = [] then rc else 1) := by
  intro l
  induction l with
  | nil =>
    intro w len rc r hf h
    simp only [serv_loop, Option.some.injEq] at h
    subst h
    exact ⟨hf, rfl, rfl⟩
  | cons i is ih =>
    intro w len rc r hf h
    rw [serv_loop] at h
    rw [frame_fdasClient hf] at h
    cases hc : fdasClient w0 i with
    | none =>
      simp only [hc] at h
      have hcons : (i :: is).filterMap (fdasClient w0) = is.filterMap (fdasClient w0) := by
        simp [List.filterMap_cons, hc]
      rw [hcons]
      exact ih _ _ _ _ hf h
    | some cptr =>
      simp only [hc] at h
      have hcons : (i :: is).filterMap (fdasClient w0)
          = cptr :: is.filterMap (fdasClient w0) := by
        simp [List.filterMap_cons, hc]
      rw [hcons]
      split at h
      · rename_i hx
        have hel : servEligible w0 one cptr = true := by
          rw [← frame_servEligible hf]
          unfold servEligible
          rw [Bool.and_eq_true]
          exact hx
        rw [frame_servVersion hf] at h
        by_cases hp : f (servVersion (w0.cl cptr)) = true
        · rw [if_pos hp] at h
          cases hs : sm (prepOnce w pattern va len).1 cptr Buf.sendbuf
              (prepOnce w pattern va len).2 with
          | none => simp [hs] at h
          | some r1 =>
            simp only [hs] at h
            cases hl : serv_loop sm one (fun c => f (servVersion c)) pattern va is r1.1
                (prepOnce w pattern va len).2 rc with
            | none => simp [hl] at h
            | some r2 =>
              simp only [hl, Option.some.injEq] at h
              subst h
              have hf2 : Frame w0 r1.1 :=
                (hf.trans (frame_prep_or_keep_sendbuf w pattern va len)).trans
                  (hsm _ _ _ _ _ hs)
              obtain ⟨g1, g2, g3⟩ := ih _ _ _ r2 hf2 hl
              rw [List.filter_cons_of_pos hel,
                @List.filter_cons_of_pos _ (fun c => f (servVersion (w0.cl c))) cptr _ hp,
                @List.filter_cons_of_neg _ (fun c => !f (servVersion (w0.cl c))) cptr _
                  (by simp [hp])]
              exact ⟨g1, by rw [List.map_cons, g2], g3⟩
        · rw [if_neg hp] at h
          obtain ⟨g1, g2, g3⟩ := ih _ _ _ r hf h
          rw [List.filter_cons_of_pos hel,
            @List.filter_cons_of_neg _ (fun c => f (servVersion (w0.cl c))) cptr _ hp,
            @List.filter_cons_of_pos _ (fun c => !f (servVersion (w0.cl c))) cptr _
              (by simp [hp])]
          refine ⟨g1, g2, ?_⟩
          rw [g3]
          split <;> simp
      · rename_i hx
        have hel : ¬ servEligible w0 one cptr = true := by
          rw [← frame_servEligible hf]
          unfold servEligible
          rw [Bool.and_eq_true]
          exact hx
        obtain ⟨g1, g2, g3⟩ := ih _ _ _ r hf h
        rw [List.filter_cons_of_neg hel]
        exact ⟨g1, g2, g3⟩

theorem serv_loop_returns (sm : SM) (hsm : SMFrame sm) (one : Option Nat)
    (pick : aClient → Bool) (pattern : Str) (va : List Arg) (w0 : World)
    (hret : SMReturns sm w0) :
    ∀ (l : List Nat) (w : World) (len : Nat) (rc : Int), Frame w0 w →
      (serv_loop sm one pick pattern va l w len rc).isSome = true := by
  intro l
  induction l with
  | nil => intro w len rc _; rfl
  | cons i is ih =>
    intro w len rc hf
    rw [serv_loop]
    split
    · exact ih _ _ _ hf
    · simp only
      split
      · split
        · have hfp : Frame w0 (prepOnce w pattern va len).1 :=
            hf.trans (frame_prep_or_keep_sendbuf _ _ _ _)
          rename_i cptr _ _ _
          obtain ⟨r1, hr1⟩ := Option.isSome_iff_exists.mp (hret _ cptr Buf.sendbuf
            (prepOnce w pattern va len).2 hfp)
          have h2 := ih r1.1 (prepOnce w pattern va len).2 rc (hfp.trans (hsm _ _ _ _ _ hr1))
          obtain ⟨r2, hr2⟩ := Option.isSome_iff_exists.mp h2
          simp [hr1, hr2]
        · exact ih _ _ _ hf
      · exact ih _ _ _ hf

/-! ### The burst path: what the notice leaves alone -/

theorem calm_refl (t : Nat) (w : World) : Calm t w w := ⟨rfl, rfl, rfl, rfl, rfl⟩

theorem calm_trans {t : Nat} {w1 w2 w3 : World} (h12 : Calm t w1 w2) (h23 : Calm t w2 w3) :
    Calm t w1 w3 :=
  ⟨h23.1.trans h12.1, h23.2.1.trans h12.2.1, h23.2.2.1.trans h12.2.2.1,
    h23.2.2.2.1.trans h12.2.2.2.1, h23.2.2.2.2.trans h12.2.2.2.2⟩

theorem calm_setCl_ne (t c : Nat) (w : World) (x : aClient) (h : c ≠ t) :
    Calm t w (w.setCl c x) := by
  refine ⟨rfl, rfl, rfl, rfl, ?_⟩
  simp [World.setCl, Function.update_noteq (Ne.symm h)]

theorem calm_incSendM (t q : Nat) (w : World) : Calm t w (incSendM w q) := by
  refine ⟨rfl, rfl, rfl, rfl, ?_⟩
  by_cases hq : t = q
  · subst hq; simp [incSendM, World.setCl, aClient.noCount]
  · simp [incSendM, World.setCl, Function.update_noteq hq]

theorem calm_countSent (t c : Nat) (w : World) : Calm t w (countSent w c) := by
  unfold countSent
  simp only
  split
  · exact calm_trans (calm_trans (calm_incSendM _ _ _) (calm_incSendM _ _ _))
      (calm_incSendM _ _ _)
  · exact calm_trans (calm_incSendM _ _ _) (calm_incSendM _ _ _)

theorem frame_localsPlain {w w1 : World} (h : Frame w w1) (hp : LocalsPlain w) :
    LocalsPlain w1 := by
  intro c hc
  rw [frame_MyClient h] at hc
  exact frame_Plain h c (hp c hc)

theorem calmFanout_passes (t : Nat) : Passes (CalmFanout t) :=
  ⟨fun w => ⟨Frame.refl w, fun _ _ => calm_refl t w⟩,
    fun w1 w2 w3 h12 h23 => ⟨h12.1.trans h23.1, fun hp ht =>
      calm_trans (h12.2 hp ht) (h23.2 (frame_localsPlain h12.1 hp)
        (by rw [frame_MyClient h12.1]; exact ht))⟩,
    fun w b => ⟨⟨fun _ => rfl, fun _ h => h, rfl, rfl, rfl, rfl, rfl, rfl, rfl⟩,
      fun _ _ => ⟨rfl, rfl, rfl, rfl, rfl⟩⟩⟩

theorem send_queued_loop_person_calm (env : Env) (sm : SM) (t c : Nat) (hc : c ≠ t) :
    ∀ (n : Nat) (w : World) (r : World × Int), IsPerson (w.cl c) = true →
      send_queued_loop env sm c n w = some r → Calm t w r.1 := by
  intro n
  induction n with
  | zero => intro w r _ h; simp [send_queued_loop] at h
  | succ n ih =>
    intro w r hp h
    rw [send_queued_loop] at h
    simp only at h
    split at h
    · split at h
      · rw [write_error_notice_person env sm w c hp] at h
        simp only at h
        rw [dead_link_g_person env sm w c _ hp] at h
        simp only [Option.some.injEq] at h
        subst h; exact calm_setCl_ne t c w _ hc
      · split at h
        · simp only [Option.some.injEq] at h
          subst h; exact calm_setCl_ne t c w _ hc
        · exact calm_trans (calm_setCl_ne t c w _ hc) (ih _ _ (dequeue_person w c _ hp) h)
    · simp only [Option.some.injEq] at h
      subst h; exact calm_refl t w

/-- Called for an ordinary local client, `send_message` leaves the class
caps, the pool size and every other link alone, the message counters apart. -/
theorem send_message_plain_calm (env : Env) (fuel : Nat) (t : Nat) (w : World) (c : Nat)
    (msg : Buf) (len : Nat) (r : World × Int) (hpl : Plain w c) (hc : c ≠ t)
    (h : send_message env fuel w c msg len = some r) : Calm t w r.1 := by
  obtain ⟨hmc, hp, heff, hb⟩ := hpl
  cases fuel with
  | zero => simp [send_message] at h
  | succ n =>
    have hs := person_status hp
    simp only [send_message, send_message_body, heff] at h
    rw [if_neg (by simp [IsMe, hs])] at h
    split at h
    · simp only [Option.some.injEq] at h
      subst h; exact calm_refl t w
    · have hput : ∀ r, send_message_put env (send_message env n) (n + 1) c msg len (n + 1) w
          = some r → Calm t w r.1 := by
        intro r h
        rw [send_message_put] at h
        simp only at h
        split at h
        · rw [if_neg (by simp [hb])] at h
          have hp2 : IsPerson ((setExitc w c ExitCode.MBUF).cl c) = true := by
            simpa [setExitc, World.setCl, IsPerson, IsClient] using hp
          rw [dead_link_g_person env _ _ c _ hp2] at h
          simp only [Option.some.injEq] at h
          subst h
          exact calm_trans (calm_setCl_ne t c w _ hc) (calm_setCl_ne t c _ _ hc)
        · have hp2 : IsPerson ((enqueue w c (w.readBuf msg len)).cl c) = true := by
            simpa [enqueue, World.setCl, IsPerson, IsClient] using hp
          unfold send_message_tail at h
          simp only at h
          have hcs : Calm t w (countSent (enqueue w c (w.readBuf msg len)) c) :=
            calm_trans (calm_setCl_ne t c w _ hc) (calm_countSent t c _)
          split at h
          · obtain ⟨a, ha, rfl⟩ := Option.map_eq_some'.mp h
            unfold send_queued_g at ha
            split at ha
            · simp only [Option.some.injEq] at ha
              subst ha; exact hcs
            · exact calm_trans hcs
                (send_queued_loop_person_calm env _ t c hc _ _ a (countSent_person _ c hp2) ha)
          · simp only [Option.some.injEq] at h
            subst h; exact hcs
      split at h
      · rw [if_neg (by simp [hb])] at h
        have hp2 : IsPerson ((setExitc w c ExitCode.SENDQ).cl c) = true := by
          simpa [setExitc, World.setCl, IsPerson, IsClient] using hp
        rw [dead_link_g_person env _ _ c _ hp2] at h
        simp only [Option.some.injEq] at h
        subst h
        exact calm_trans (calm_setCl_ne t c w _ hc) (calm_setCl_ne t c _ _ hc)
      · exact hput r h

/-- A notice posted with `sendto_flag` in a state whose local clients are
ordinary ones leaves the class caps, the pool size and every link that is not
a local client alone, the message counters apart. -/
theorem sendto_flag_calm (env : Env) (fuel : Nat) (t : Nat) (w : World) (chan : SChanId)
    (pattern : Str) (va : List Arg) (w1 : World) (hp : LocalsPlain w)
    (ht : MyClient (w.cl t) = false) (h : sendto_flag env fuel w chan pattern va = some w1) :
    Frame w w1 ∧ Calm t w w1 := by
  have := sendto_flag_g_passes (CalmFanout t) (calmFanout_passes t) (send_message env fuel)
    (fun w c msg len r hc hr => ⟨send_message_frame env fuel w c msg len r hr,
      fun hpl htc => send_message_plain_calm env fuel t w c msg len r (hpl c hc)
        (fun e => by rw [e, htc] at hc; exact Bool.noConfusion hc) hr⟩)
    w chan pattern va w1 h
  exact ⟨this.1, this.2 hp ht⟩

theorem send_queued_loop_globals (env : Env) (sm : SM) (t : Nat)
    (hdel : ∀ (w : World) (m : List Char), 0 ≤ env.deliver_it w t m) :
    ∀ (n : Nat) (w : World) (r : World × Int), send_queued_loop env sm t n w = some r →
      r.1.MaxSendq = w.MaxSendq ∧ r.1.poolsize = w.poolsize ∧
        r.1.is_dbufmore = w.is_dbufmore := by
  intro n
  induction n with
  | zero => intro w r h; simp [send_queued_loop] at h
  | succ n ih =>
    intro w r h
    rw [send_queued_loop] at h
    simp only at h
    split at h
    · rw [if_neg (by have := hdel w ((w.cl t).sendQ.take (env.dbuf_map w t)); omega)] at h
      split at h
      · simp only [Option.some.injEq] at h
        subst h; exact ⟨rfl, rfl, rfl⟩
      · have := ih (dequeue w t
          (env.deliver_it w t ((w.cl t).sendQ.take (env.dbuf_map w t))).toNat) r h
        exact this
    · simp only [Option.some.injEq] at h
      subst h; exact ⟨rfl, rfl, rfl⟩

theorem countSent_globals (w : World) (t : Nat) :
    (countSent w t).MaxSendq = w.MaxSendq ∧ (countSent w t).poolsize = w.poolsize ∧
      (countSent w t).is_dbufmore = w.is_dbufmore := by
  unfold countSent
  simp only
  split <;> exact ⟨rfl, rfl, rfl⟩

theorem raise_sendq_spec (w : World) (t : Nat) :
    (raise_sendq w t).MaxSendq (w.cl t).cls = 2 * get_sendq w t ∧
      (raise_sendq w t).poolsize = w.poolsize - get_sendq w t / 2 + get_sendq w t ∧
      (raise_sendq w t).cl = w.cl ∧ (raise_sendq w t).is_dbufmore = w.is_dbufmore ∧
      (raise_sendq w t).sendbuf = w.sendbuf := by
  unfold raise_sendq IncSendq get_sendq
  simp

theorem noCount_fields {c d : aClient} (h : c.noCount = d.noCount) :
    c.sendQ = d.sendQ ∧ c.dead = d.dead ∧ c.cls = d.cls ∧ c.lastsq = d.lastsq := by
  refine ⟨?_, ?_, ?_, ?_⟩
  · simpa [aClient.noCount] using congrArg aClient.sendQ h
  · simpa [aClient.noCount] using congrArg aClient.dead h
  · simpa [aClient.noCount] using congrArg aClient.cls h
  · simpa [aClient.noCount] using congrArg aClient.lastsq h

/-- The end of `send_message` on a live link whose socket reports no error:
the message counters are updated and a flush may take bytes from the head of
the queue; the call returns 0 with the link alive. -/
theorem send_message_tail_live (env : Env) (sm : SM) (fuel : Nat) (w : World) (t : Nat)
    (hmap : ∀ w : World, (w.cl t).sendQ ≠ [] →
      0 < env.dbuf_map w t ∧ env.dbuf_map w t ≤ (w.cl t).sendQ.length)
    (hdel : ∀ (w : World) (m : List Char),
      0 ≤ env.deliver_it w t m ∧ env.deliver_it w t m ≤ (m.length : Int))
    (hlive : (w.cl t).dead = false) (hfuel : (w.cl t).sendQ.length < fuel) :
    ∃ r, send_message_tail env sm fuel w t = some r ∧ r.2 = 0 ∧
      r.1.MaxSendq = w.MaxSendq ∧ r.1.poolsize = w.poolsize ∧
      r.1.is_dbufmore = w.is_dbufmore ∧ (r.1.cl t).dead = false ∧
      ∃ sent, sent ++ (r.1.cl t).sendQ = (w.cl t).sendQ := by
  obtain ⟨q1, q2, _⟩ := countSent_sendQ w t t
  obtain ⟨g1, g2, g3⟩ := countSent_globals w t
  unfold send_message_tail
  simp only
  split
  · have hl : ((countSent w t).cl t).dead = false := by rw [q2]; exact hlive
    obtain ⟨w1, h1, h2, _, h4, _⟩ := send_queued_loop_wire env sm t hmap hdel fuel
      (countSent w t) hl (by rw [q1]; exact hfuel)
    obtain ⟨e1, e2, e3⟩ := send_queued_loop_globals env sm t (fun w m => (hdel w m).1) fuel
      (countSent w t) _ h1
    refine ⟨(w1, 0), ?_, rfl, e1.trans g1, e2.trans g2, e3.trans g3, h4, _, h2.trans q1⟩
    simp only [send_queued_g, hl, Bool.false_eq_true, if_false, h1, Option.map_some']
  · exact ⟨_, rfl, rfl, g1, g2, g3, by rw [q2]; exact hlive, [], by rw [q1]; rfl⟩

theorem readBuf_of_sendbuf (w w1 : World) (msg : Buf) (len : Nat) (hmsg : msg ≠ Buf.psendbuf)
    (h : w1.sendbuf = w.sendbuf) : w1.readBuf msg len = w.readBuf msg len := by
  cases msg with
  | sendbuf => simp [World.readBuf, h]
  | psendbuf => exact absurd rfl hmsg
  | mem s => rfl

/-- The burst path of `send_message`, for a message that is not held in
`psendbuf`: the cap of the class is raised, the notice is posted, and the
message goes to the tail of the queue. -/
theorem send_message_burst_raise (env : Env) (fuel : Nat) (w : World) (to_ : Nat) (msg : Buf)
    (len : Nat) (hsrv : IsServer (w.cl (effective w to_)) = true)
    (hb : (w.cl (effective w to_)).cburst = true)
    (hlive : (w.cl (effective w to_)).dead = false)
    (hover : ((w.cl (effective w to_)).sendQ.length : Int) > get_sendq w (effective w to_))
    (hmsg : msg ≠ Buf.psendbuf) (hloc : LocalsPlain w)
    (hput : ∀ (w1 : World) (b : List Char), 0 ≤ env.dbuf_put w1 (effective w to_) b)
    (hmap : ∀ w1 : World, (w1.cl (effective w to_)).sendQ ≠ [] →
      0 < env.dbuf_map w1 (effective w to_) ∧
        env.dbuf_map w1 (effective w to_) ≤ (w1.cl (effective w to_)).sendQ.length)
    (hdel : ∀ (w1 : World) (m : List Char),
      0 ≤ env.deliver_it w1 (effective w to_) m ∧
        env.deliver_it w1 (effective w to_) m ≤ (m.length : Int))
    (hfuel : (w.cl (effective w to_)).sendQ.length + (w.readBuf msg len).length < fuel + 1)
    (hnote : (sendto_flag env fuel (raise_sendq w (effective w to_)) SChanId.SCH_NOTICE
      "New poolsize %d. (sendq adjusted)".toList
      [Arg.int (raise_sendq w (effective w to_)).poolsize]).isSome = true) :
    ∃ r, send_message env (fuel + 1) w to_ msg len = some r ∧ r.2 = 0 ∧
      r.1.MaxSendq (w.cl (effective w to_)).cls = 2 * get_sendq w (effective w to_) ∧
      r.1.poolsize = w.poolsize - get_sendq w (effective w to_) / 2
        + get_sendq w (effective w to_) ∧
      r.1.is_dbufmore = w.is_dbufmore + 1 ∧
      (r.1.cl (effective w to_)).dead = false ∧
      ∃ sent, sent ++ (r.1.cl (effective w to_)).sendQ
        = (w.cl (effective w to_)).sendQ ++ w.readBuf msg len := by
  obtain ⟨w2, hw2⟩ := Option.isSome_iff_exists.mp hnote
  obtain ⟨r1, r2, r3, r4, r5⟩ := raise_sendq_spec w (effective w to_)
  have hst : (w.cl (effective w to_)).status = Status.SERVER := by
    simpa [IsServer] using hsrv
  have hnl : MyClient ((raise_sendq w (effective w to_)).cl (effective w to_)) = false := by
    rw [r3]; simp [MyClient, IsClient, hst]
  obtain ⟨_, c1, c2, c3, c4, c5⟩ := sendto_flag_calm env fuel (effective w to_) _ _ _ _ w2
    (frame_localsPlain (frame_raise_sendq w _) hloc) hnl hw2
  rw [r3] at c5
  obtain ⟨f1, f2, f3, _⟩ := noCount_fields c5
  have hme : IsMe (w.cl (effective w to_)) = false := by simp [IsMe, hst]
  have hbytes : World.readBuf { w2 with is_dbufmore := w2.is_dbufmore + 1 } msg len
      = w.readBuf msg len :=
    readBuf_of_sendbuf w _ msg len hmsg (c4.trans r5)
  have hnn : ¬ env.dbuf_put { w2 with is_dbufmore := w2.is_dbufmore + 1 } (effective w to_)
      (w.readBuf msg len) < 0 := by
    have := hput { w2 with is_dbufmore := w2.is_dbufmore + 1 } (w.readBuf msg len)
    omega
  have hq : ((enqueue { w2 with is_dbufmore := w2.is_dbufmore + 1 } (effective w to_)
      (w.readBuf msg len)).cl (effective w to_)).sendQ
        = (w.cl (effective w to_)).sendQ ++ w.readBuf msg len := by
    simp [enqueue, World.setCl, f1]
  have hd : ((enqueue { w2 with is_dbufmore := w2.is_dbufmore + 1 } (effective w to_)
      (w.readBuf msg len)).cl (effective w to_)).dead = false := by
    simp [enqueue, World.setCl, f2, hlive]
  obtain ⟨r, t1, t2, t3, t4, t5, t6, sent, t7⟩ := send_message_tail_live env
    (send_message env fuel) (fuel + 1)
    (enqueue { w2 with is_dbufmore := w2.is_dbufmore + 1 } (effective w to_)
      (w.readBuf msg len)) (effective w to_) hmap hdel hd
    (by rw [hq, List.length_append]; exact hfuel)
  refine ⟨r, ?_, t2, ?_, ?_, ?_, t6, sent, t7.trans hq⟩
  · have hw2' : sendto_flag_g (send_message env fuel) (raise_sendq w (effective w to_))
        SChanId.SCH_NOTICE "New poolsize %d. (sendq adjusted)".toList
        [Arg.int (raise_sendq w (effective w to_)).poolsize] = some w2 := hw2
    simp only [send_message, send_message_body, hme, hlive, hover, hb, hw2',
      Bool.false_eq_true, if_false, if_true]
    rw [send_message_put]
    simp only [hbytes, if_neg hnn]
    exact t1
  · rw [t3]
    show w2.MaxSendq _ = _
    rw [c1, r1]
  · rw [t4]
    show w2.poolsize = _
    rw [c2, r2]
  · rw [t5]
    show w2.is_dbufmore + 1 = _
    rw [c3, r4]

theorem burstPeerWorld_localsPlain : LocalsPlain burstPeerWorld := by
  intro c hc
  rcases c with _ | _ | _ | _ | _ | _ | _ | c
  · exact absurd hc (by decide)
  · exact ⟨by decide, by decide, by decide, by decide⟩
  · exact ⟨by decide, by decide, by decide, by decide⟩
  · exact absurd hc (by decide)
  · exact absurd hc (by decide)
  · exact ⟨by decide, by decide, by decide, by decide⟩
  · exact ⟨by decide, by decide, by decide, by decide⟩
  · have : MyClient (burstPeerWorld.cl (c + 7)) = false := rfl
    rw [this] at hc
    exact Bool.noConfusion hc

theorem scenarioEnv_put (w : World) (t : Nat) (b : List Char) : 0 ≤ scenarioEnv.dbuf_put w t b :=
  le_refl _

theorem scenarioEnv_map (t : Nat) (w : World) (h : (w.cl t).sendQ ≠ []) :
    0 < scenarioEnv.dbuf_map w t ∧ scenarioEnv.dbuf_map w t ≤ (w.cl t).sendQ.length :=
  ⟨List.length_pos.mpr h, le_refl _⟩

theorem scenarioEnv_deliver (t : Nat) (w : World) (m : List Char) :
    0 ≤ scenarioEnv.deliver_it w t m ∧ scenarioEnv.deliver_it w t m ≤ (m.length : Int) :=
  ⟨le_refl _, Int.ofNat_nonneg _⟩

/-! ### The cache: what the operations keep -/

theorem sameTimes_refl (c : Cache) : SameTimes c c := ⟨rfl, rfl, rfl, fun _ => ⟨rfl, rfl⟩⟩

theorem sameTimes_trans {c1 c2 c3 : Cache} (h12 : SameTimes c1 c2) (h23 : SameTimes c2 c3) :
    SameTimes c1 c3 :=
  ⟨h23.1.trans h12.1, h23.2.1.trans h12.2.1, h23.2.2.1.trans h12.2.2.1,
    fun p => ⟨(h23.2.2.2 p).1.trans (h12.2.2.2 p).1, (h23.2.2.2 p).2.trans (h12.2.2.2 p).2⟩⟩

theorem update_list_sameTimes (k : ResConf) (c : Cache) (rptr : Option hent) (cp : Nat) :
    SameTimes c (update_list k c rptr cp) := by
  unfold update_list
  simp only
  split
  · cases rptr with
    | none => exact ⟨rfl, rfl, rfl, fun _ => ⟨rfl, rfl⟩⟩
    | some r =>
      refine ⟨rfl, rfl, rfl, fun p => ?_⟩
      by_cases hp : p = cp
      · subst hp; simp
      · simp [Function.update_noteq hp]
  · exact ⟨rfl, rfl, rfl, fun _ => ⟨rfl, rfl⟩⟩

theorem cacheHit_sameTimes (k : ResConf) (c : Cache) (b : Bool) (rptr : Option hent) (cp : Nat) :
    SameTimes c (cacheHit k c b rptr cp).1 := by
  unfold cacheHit
  exact sameTimes_trans ⟨rfl, rfl, rfl, fun _ => ⟨rfl, rfl⟩⟩ (update_list_sameTimes k _ rptr cp)

theorem find_cache_number_sameTimes (k : ResConf) (c : Cache) (rptr : Option hent)
    (numb : InAddr) : SameTimes c (find_cache_number k c rptr numb).1 := by
  unfold find_cache_number
  simp only
  split
  · exact cacheHit_sameTimes k c _ _ _
  · split
    · exact cacheHit_sameTimes k c _ _ _
    · exact sameTimes_refl c

theorem find_cache_name_sameTimes (k : ResConf) (c : Cache) (name : Str) :
    SameTimes c (find_cache_name k c name).1 := by
  unfold find_cache_name
  simp only
  split
  · exact cacheHit_sameTimes k c _ _ _
  · split
    · exact cacheHit_sameTimes k c _ _ _
    · exact sameTimes_refl c

theorem make_cache_find_sameTimes (k : ResConf) (rhe : hent) :
    ∀ (l : List InAddr) (c : Cache), SameTimes c (make_cache_find k rhe l c).1 := by
  intro l
  induction l with
  | nil => intro c; exact sameTimes_refl c
  | cons a rest ih =>
    intro c
    rw [make_cache_find]
    have h1 := find_cache_number_sameTimes k c (some rhe) a
    split
    · rename_i c1 cp heq
      rw [heq] at h1; exact h1
    · rename_i c1 heq
      rw [heq] at h1
      exact sameTimes_trans h1 (ih c1)

theorem rem_cache_sameTimes (k : ResConf) (c : Cache) (cp : Nat) :
    SameTimes c (rem_cache k c cp) := ⟨rfl, rfl, rfl, fun _ => ⟨rfl, rfl⟩⟩

theorem add_to_cache_sameTimes (k : ResConf) (c : Cache) (cp : Nat) :
    SameTimes c (add_to_cache k c cp) := by
  unfold add_to_cache evictLast
  simp only
  split
  · split
    · exact ⟨rfl, rfl, rfl, fun _ => ⟨rfl, rfl⟩⟩
    · exact ⟨rfl, rfl, rfl, fun _ => ⟨rfl, rfl⟩⟩
  · exact ⟨rfl, rfl, rfl, fun _ => ⟨rfl, rfl⟩⟩

theorem update_list_cachetop (k : ResConf) (c : Cache) (rptr : Option hent) (cp : Nat) :
    (update_list k c rptr cp).cachetop
        = (if cp ∈ c.cachetop then cp :: c.cachetop.erase cp else c.cachetop) ∧
      (update_list k c rptr cp).incache = c.incache := by
  unfold update_list
  simp only
  split
  · cases rptr with
    | none => exact ⟨rfl, rfl⟩
    | some r => exact ⟨rfl, rfl⟩
  · exact ⟨rfl, rfl⟩

theorem perm_move_front {l : List Nat} {p : Nat} (h : p ∈ l) : List.Perm (p :: l.erase p) l :=
  (List.perm_cons_erase h).symm

theorem update_list_ok (k : ResConf) (c : Cache) (rptr : Option hent) (cp : Nat)
    (h : CacheOK k c) : CacheOK k (update_list k c rptr cp) := by
  obtain ⟨e1, e2⟩ := update_list_cachetop k c rptr cp
  have st := update_list_sameTimes k c rptr cp
  have hperm : List.Perm (update_list k c rptr cp).cachetop c.cachetop := by
    rw [e1]
    split
    · rename_i hm; exact perm_move_front hm
    · exact List.Perm.refl _
  refine ⟨?_, ?_, ?_, ?_, ?_⟩
  · rw [e2, h.count, hperm.length_eq]
  · exact hperm.nodup_iff.mpr h.nodup
  · intro p hp
    rw [st.1]
    exact h.fresh p (hperm.mem_iff.mp hp)
  · intro p hp
    rw [(st.2.2.2 p).1]
    exact h.ttl p (hperm.mem_iff.mp hp)
  · rw [hperm.length_eq]; exact h.bound

theorem cacheHit_ok (k : ResConf) (c : Cache) (b : Bool) (rptr : Option hent) (cp : Nat)
    (h : CacheOK k c) : CacheOK k (cacheHit k c b rptr cp).1 := by
  unfold cacheHit
  apply update_list_ok
  exact ⟨h.count, h.nodup, h.fresh, h.ttl, h.bound⟩

theorem find_cache_number_ok (k : ResConf) (c : Cache) (rptr : Option hent) (numb : InAddr)
    (h : CacheOK k c) : CacheOK k (find_cache_number k c rptr numb).1 := by
  unfold find_cache_number
  simp only
  split
  · exact cacheHit_ok k c _ _ _ h
  · split
    · exact cacheHit_ok k c _ _ _ h
    · exact h

theorem find_cache_name_ok (k : ResConf) (c : Cache) (name : Str) (h : CacheOK k c) :
    CacheOK k (find_cache_name k c name).1 := by
  unfold find_cache_name
  simp only
  split
  · exact cacheHit_ok k c _ _ _ h
  · split
    · exact cacheHit_ok k c _ _ _ h
    · exact h

theorem make_cache_find_ok (k : ResConf) (rhe : hent) :
    ∀ (l : List InAddr) (c : Cache), CacheOK k c → CacheOK k (make_cache_find k rhe l c).1 := by
  intro l
  induction l with
  | nil => intro c h; exact h
  | cons a rest ih =>
    intro c h
    rw [make_cache_find]
    have h1 := find_cache_number_ok k c (some rhe) a h
    split
    · rename_i c1 cp heq
      rw [heq] at h1; exact h1
    · rename_i c1 heq
      rw [heq] at h1
      exact ih c1 h1

theorem rem_cache_ok (k : ResConf) (c : Cache) (cp : Nat) (h : CacheOK k c)
    (hm : cp ∈ c.cachetop) : CacheOK k (rem_cache k c cp) := by
  have hl : (c.cachetop.erase cp).length = c.cachetop.length - 1 := List.length_erase_of_mem hm
  have hpos : 0 < c.cachetop.length := List.length_pos_of_mem hm
  refine ⟨?_, ?_, ?_, ?_, ?_⟩
  · show c.incache - 1 = ((c.cachetop.erase cp).length : Int)
    rw [hl, h.count]; omega
  · exact h.nodup.erase cp
  · intro p hp
    exact h.fresh p (List.mem_of_mem_erase hp)
  · intro p hp
    exact h.ttl p (List.mem_of_mem_erase hp)
  · show ((c.cachetop.erase cp).length : Int) ≤ k.MAXCACHED
    have := h.bound
    rw [hl]; omega

theorem erase_getLast_nodup : ∀ (l : List Nat) (h : l ≠ []), l.Nodup →
    l.erase (l.getLast h) = l.dropLast := by
  intro l
  induction l with
  | nil => intro h; exact absurd rfl h
  | cons a rest ih =>
    intro h hn
    cases rest with
    | nil => simp
    | cons b r =>
      have hne : (b :: r) ≠ [] := by simp
      have hlast : (a :: b :: r).getLast h = (b :: r).getLast hne := List.getLast_cons hne
      have hmem : (b :: r).getLast hne ∈ b :: r := List.getLast_mem hne
      have ha : a ≠ (b :: r).getLast hne := by
        intro e
        exact (List.nodup_cons.mp hn).1 (e ▸ hmem)
      rw [hlast, List.erase_cons_tail (by simpa using ha), ih hne (List.nodup_cons.mp hn).2]
      rfl

theorem add_to_cache_fields (k : ResConf) (c : Cache) (cp : Nat) :
    (add_to_cache k c cp).cachetop
        = (if c.incache + 1 > k.MAXCACHED then
            (cp :: c.cachetop).erase ((cp :: c.cachetop).getLast (List.cons_ne_nil _ _))
          else cp :: c.cachetop) ∧
      (add_to_cache k c cp).incache
        = (if c.incache + 1 > k.MAXCACHED then c.incache else c.incache + 1) ∧
      (add_to_cache k c cp).ce = c.ce ∧ (add_to_cache k c cp).brk = c.brk := by
  unfold add_to_cache evictLast
  simp only
  split
  · rw [List.getLast?_eq_getLast _ (List.cons_ne_nil _ _)]
    exact ⟨rfl, by show c.incache + 1 - 1 = c.incache; omega, rfl, rfl⟩
  · exact ⟨rfl, rfl, rfl, rfl⟩

/-- The entry that `add_to_cache` removes when there is one entry too many is
the last one of the list, not the one it has just linked in front. -/
theorem add_to_cache_evicts_last (k : ResConf) (c : Cache) (cp : Nat) (h : CacheOK k c)
    (hcp : cp ∉ c.cachetop) (hk : 0 < k.MAXCACHED) (hfull : c.incache + 1 > k.MAXCACHED) :
    c.cachetop ≠ [] ∧ (add_to_cache k c cp).cachetop = cp :: c.cachetop.dropLast := by
  have hne : c.cachetop ≠ [] := by
    intro e
    have := h.count
    rw [e] at this
    simp at this
    omega
  refine ⟨hne, ?_⟩
  rw [(add_to_cache_fields k c cp).1, if_pos hfull,
    erase_getLast_nodup _ _ (List.nodup_cons.mpr ⟨hcp, h.nodup⟩)]
  exact List.dropLast_cons_of_ne_nil hne

theorem add_to_cache_ok (k : ResConf) (c : Cache) (cp : Nat)
    (hc : c.incache = c.cachetop.length) (hn : c.cachetop.Nodup)
    (hf : ∀ p ∈ c.cachetop, p < c.brk) (ht : ∀ p ∈ c.cachetop, 600 ≤ (c.ce p).ttl)
    (hb : (c.cachetop.length : Int) ≤ k.MAXCACHED)
    (hcp : cp ∉ c.cachetop) (hcf : cp < c.brk) (hct : 600 ≤ (c.ce cp).ttl) :
    CacheOK k (add_to_cache k c cp) := by
  obtain ⟨e1, e2, e3, e4⟩ := add_to_cache_fields k c cp
  have hnd : (cp :: c.cachetop).Nodup := List.nodup_cons.mpr ⟨hcp, hn⟩
  have hmem : ∀ p ∈ (add_to_cache k c cp).cachetop, p ∈ cp :: c.cachetop := by
    intro p hp
    rw [e1] at hp
    split at hp
    · exact List.mem_of_mem_erase hp
    · exact hp
  refine ⟨?_, ?_, ?_, ?_, ?_⟩
  · rw [e1, e2]
    split
    · rw [List.length_erase_of_mem (List.getLast_mem _), hc]
      simp
    · rw [hc]; simp
  · rw [e1]
    split
    · exact hnd.erase _
    · exact hnd
  · intro p hp
    rw [e4]
    rcases List.mem_cons.mp (hmem p hp) with e | e
    · rw [e]; exact hcf
    · exact hf p e
  · intro p hp
    rw [e3]
    rcases List.mem_cons.mp (hmem p hp) with e | e
    · rw [e]; exact hct
    · exact ht p e
  · rw [e1]
    split
    · rw [List.length_erase_of_mem (List.getLast_mem _)]
      simp only [List.length_cons, Nat.add_sub_cancel]
      exact hb
    · rename_i hnot
      rw [hc] at hnot
      simp only [List.length_cons]
      push_cast
      omega

/-- What `make_cache` does to the times of the cache: either it allocates
nothing and keeps them all, or it allocates the entry `c.brk`, returns it, and
gives it the TTL of the request, raised to 600 when it is less, counting the
short TTL. -/
theorem make_cache_times (k : ResConf) (c : Cache) (rhe : hent) (t : Int) :
    ((make_cache k c rhe t).1.brk = c.brk ∧ SameTimes c (make_cache k c rhe t).1) ∨
    ((make_cache k c rhe t).1.brk = c.brk + 1 ∧ (make_cache k c rhe t).2.1 = some c.brk ∧
      ((make_cache k c rhe t).1.ce c.brk).ttl = max t 600 ∧
      ((make_cache k c rhe t).1.ce c.brk).expireat = c.timeofday + max t 600 ∧
      (make_cache k c rhe t).1.re_shortttl
        = (if t < 600 then c.re_shortttl + 1 else c.re_shortttl) ∧
      (make_cache k c rhe t).1.timeofday = c.timeofday ∧
      ∀ p, p ≠ c.brk → ((make_cache k c rhe t).1.ce p).ttl = (c.ce p).ttl ∧
        ((make_cache k c rhe t).1.ce p).expireat = (c.ce p).expireat) := by
  unfold make_cache
  cases hn : rhe.h_name with
  | none => exact Or.inl ⟨rfl, sameTimes_refl c⟩
  | some name =>
    simp only
    split
    · exact Or.inl ⟨rfl, sameTimes_refl c⟩
    · have hst := make_cache_find_sameTimes k rhe (rhe.h_addr_list.takeWhile WHOSTENTP) c
      split
      · rename_i c1 cp heq
        rw [heq] at hst
        exact Or.inl ⟨hst.1, hst⟩
      · rename_i c1 heq
        rw [heq] at hst
        obtain ⟨s1, s2, s3, s4⟩ := hst
        simp only at s1 s2 s3 s4
        refine Or.inr ?_
        obtain ⟨_, _, e3, e4⟩ := add_to_cache_fields k
          (storeEntry c1 (newHostent k name rhe) t) c1.brk
        have sa := add_to_cache_sameTimes k (storeEntry c1 (newHostent k name rhe) t) c1.brk
        have hmax : cacheTtl t = max t 600 := by
          unfold cacheTtl
          split
          · rw [max_eq_right (by omega)]
          · rw [max_eq_left (by omega)]
        refine ⟨by rw [e4]; show c1.brk + 1 = _; rw [s1], by rw [s1], ?_, ?_, ?_, ?_, ?_⟩
        · rw [e3, ← s1]; simp [storeEntry, hmax]
        · rw [e3, ← s1]; simp [storeEntry, hmax, s2]
        · rw [sa.2.2.1]; show (if t < 600 then c1.re_shortttl + 1 else c1.re_shortttl) = _
          rw [s3]
        · rw [sa.2.1]; exact s2
        · intro p hp
          rw [e3]
          have hce : (storeEntry c1 (newHostent k name rhe) t).ce p = c1.ce p := by
            show Function.update c1.ce c1.brk _ p = _
            rw [Function.update_noteq (by rw [s1]; exact hp)]
          rw [hce]
          exact s4 p

theorem make_cache_ok (k : ResConf) (c : Cache) (rhe : hent) (t : Int) (h : CacheOK k c) :
    CacheOK k (make_cache k c rhe t).1 := by
  unfold make_cache
  cases hn : rhe.h_name with
  | none => exact h
  | some name =>
    simp only
    split
    · exact h
    · have hok := make_cache_find_ok k rhe (rhe.h_addr_list.takeWhile WHOSTENTP) c h
      split
      · rename_i c1 cp heq
        rw [heq] at hok; exact hok
      · rename_i c1 heq
        rw [heq] at hok
        simp only at hok
        have hnot : c1.brk ∉ c1.cachetop := fun hm => Nat.lt_irrefl _ (hok.fresh _ hm)
        have hce : ∀ p ∈ c1.cachetop,
            (storeEntry c1 (newHostent k name rhe) t).ce p = c1.ce p := by
          intro p hp
          show Function.update c1.ce c1.brk _ p = _
          have hne : p ≠ c1.brk := fun e => hnot (by rw [← e]; exact hp)
          rw [Function.update_noteq hne]
        apply add_to_cache_ok
        · exact hok.count
        · exact hok.nodup
        · intro p hp
          show p < c1.brk + 1
          exact Nat.lt_succ_of_lt (hok.fresh p hp)
        · intro p hp
          rw [hce p hp]; exact hok.ttl p hp
        · exact hok.bound
        · exact hnot
        · show c1.brk < c1.brk + 1
          exact Nat.lt_succ_self _
        · show 600 ≤ (Function.update c1.ce c1.brk _ c1.brk).ttl
          rw [Function.update_same]
          show 600 ≤ cacheTtl t
          unfold cacheTtl
          split <;> omega

theorem expire_loop_ok (k : ResConf) (now : Int) :
    ∀ (l : List Nat) (c : Cache) (next : Int), CacheOK k c → l.Nodup →
      (∀ p ∈ l, p ∈ c.cachetop) → CacheOK k (expire_loop k now l c next).1 := by
  intro l
  induction l with
  | nil => intro c next h _ _; exact h
  | cons cp rest ih =>
    intro c next h hn hm
    rw [expire_loop]
    have hcp : cp ∈ c.cachetop := hm cp (List.mem_cons_self _ _)
    have hrest : ∀ p ∈ rest, p ∈ c.cachetop := fun p hp => hm p (List.mem_cons_of_mem _ hp)
    split
    · apply ih _ _ _ (List.nodup_cons.mp hn).2
      · intro p hp
        show p ∈ c.cachetop.erase cp
        have hne : p ≠ cp := fun e => (List.nodup_cons.mp hn).1 (e ▸ hp)
        exact (List.mem_erase_of_ne hne).mpr (hrest p hp)
      · exact rem_cache_ok k _ cp ⟨h.count, h.nodup, h.fresh, h.ttl, h.bound⟩ hcp
    · split
      · exact ih _ _ h (List.nodup_cons.mp hn).2 hrest
      · exact ih _ _ h (List.nodup_cons.mp hn).2 hrest

theorem flush_loop_ok (k : ResConf) :
    ∀ (n : Nat) (c : Cache), CacheOK k c → CacheOK k (flush_loop k n c) := by
  intro n
  induction n with
  | zero => intro c h; exact h
  | succ n ih =>
    intro c h
    rw [flush_loop]
    split
    · rename_i cp rest heq
      exact ih _ (rem_cache_ok k c cp h (by rw [heq]; exact List.mem_cons_self _ _))
    · exact h

/-- Every operation of the cache keeps the invariant of the list. -/
theorem apply_ok (k : ResConf) (c : Cache) (op : CacheOp) (h : CacheOK k c) :
    CacheOK k (op.apply k c) := by
  cases op with
  | make rhe ttl => exact make_cache_ok k c rhe ttl h
  | byName name => exact find_cache_name_ok k c name h
  | byNumber rptr numb => exact find_cache_number_ok k c rptr numb h
  | expire now => exact expire_loop_ok k now c.cachetop c 0 h h.nodup (fun _ hp => hp)
  | remove cp =>
    show CacheOK k (if cp ∈ c.cachetop then rem_cache k c cp else c)
    split
    · rename_i hm; exact rem_cache_ok k c cp h hm
    · exact h
  | flush => exact flush_loop_ok k _ c h
  | clock t => exact ⟨h.count, h.nodup, h.fresh, h.ttl, h.bound⟩

theorem run_ok (k : ResConf) (ops : List CacheOp) :
    ∀ c : Cache, CacheOK k c → CacheOK k (ops.foldl (fun c op => op.apply k c) c) := by
  induction ops with
  | nil => intro c h; exact h
  | cons op rest ih => intro c h; exact ih _ (apply_ok k c op h)

theorem empty_ok (k : ResConf) (c : Cache) (hk : 0 ≤ k.MAXCACHED) (he : c.cachetop = [])
    (hi : c.incache = 0) : CacheOK k c :=
  ⟨by rw [he, hi]; rfl, by rw [he]; exact List.nodup_nil, by rw [he]; simp, by rw [he]; simp,
    by rw [he]; exact hk⟩

/-! ### The resolver: what a resent query leaves alone -/

theorem untouched_refl (p : Nat) (s : Resolver) : Untouched p s s :=
  ⟨rfl, rfl, rfl, rfl, rfl, fun _ _ => rfl⟩

theorem untouched_trans {p : Nat} {s t u : Resolver} (h1 : Untouched p s t)
    (h2 : Untouched p t u) : Untouched p s u :=
  ⟨h2.1.trans h1.1, h2.2.1.trans h1.2.1, h2.2.2.1.trans h1.2.2.1,
    h2.2.2.2.1.trans h1.2.2.2.1, h2.2.2.2.2.1.trans h1.2.2.2.2.1,
    fun q hq => (h2.2.2.2.2.2 q hq).trans (h1.2.2.2.2.2 q hq)⟩

theorem untouched_setRq (p : Nat) (s : Resolver) (r : ResRQ) : Untouched p s (s.setRq p r) :=
  ⟨rfl, rfl, rfl, rfl, rfl, fun q hq => by simp [Resolver.setRq, Function.update, hq]⟩

theorem send_loop_untouched (env : ResEnv) (s0 : Resolver) (p : Nat) :
    ∀ (l : List Nat) (s : Resolver) (sent : Int), Untouched p s (send_loop env s0 l s sent).1
  | [], s, _ => untouched_refl p s
  | i :: is, s, sent => by
    unfold send_loop
    split
    · exact untouched_trans ⟨rfl, rfl, rfl, rfl, rfl, fun _ _ => rfl⟩
        (send_loop_untouched env s0 p is _ _)
    · exact send_loop_untouched env s0 p is s sent

theorem send_res_msg_untouched (env : ResEnv) (s : Resolver) (rcount : Int) (p : Nat) :
    Untouched p s (send_res_msg env s rcount).1 := by
  unfold send_res_msg
  exact send_loop_untouched env s p _ s 0

theorem query_name_untouched (env : ResEnv) (fuel : Nat) (s : Resolver) (name : Str)
    (cls type : Int) (p : Nat) (r : Resolver × Int)
    (h : query_name env fuel s name cls type p = some r) : Untouched p s r.1 := by
  unfold query_name at h
  simp only at h
  split at h
  · cases h; exact ⟨rfl, rfl, rfl, rfl, rfl, fun _ _ => rfl⟩
  · split at h
    · cases h
    · rename_i id hid
      have h1 := untouched_setRq p s { s.rq p with id := id, sends := (s.rq p).sends + 1 }
      have h2 := send_res_msg_untouched env
        (s.setRq p { s.rq p with id := id, sends := (s.rq p).sends + 1 })
        ((s.rq p).sends + 1) p
      split at h
      · cases h
        exact untouched_trans (untouched_trans h1 h2) ⟨rfl, rfl, rfl, rfl, rfl, fun _ _ => rfl⟩
      · cases h
        exact untouched_trans (untouched_trans h1 h2) (untouched_setRq p _ _)

theorem resend_query_untouched (k : ResConf) (env : ResEnv) (fuel : Nat) (s : Resolver)
    (p : Nat) (t : Resolver) (h : resend_query k env fuel s p = some t) : Untouched p s t := by
  unfold resend_query at h
  split at h
  · cases h; exact untouched_refl p s
  · have h0 : Untouched p s
        { s with reinfo := { s.reinfo with re_resends := s.reinfo.re_resends + 1 } } :=
      ⟨rfl, rfl, rfl, rfl, rfl, fun _ _ => rfl⟩
    simp only at h
    split at h
    · simp only [do_query_number, Option.map_eq_some'] at h
      obtain ⟨r, hr, rfl⟩ := h
      exact untouched_trans h0 (query_name_untouched _ _ _ _ _ _ _ _ hr)
    · split at h
      · simp only [do_query_name, Option.map_eq_some'] at h
        obtain ⟨r, hr, rfl⟩ := h
        exact untouched_trans h0 (query_name_untouched _ _ _ _ _ _ _ _ hr)
      · cases h; exact h0

theorem getres_err_untouched (k : ResConf) (env : ResEnv) (fuel : Nat) (s : Resolver)
    (p : Nat) (lp : Bool) (r : Resolver × Option Nat × Option Link)
    (h : getres_err k env fuel s (some p) lp = some r) : Untouched p s r.1 ∧ r.2.1 = none := by
  unfold getres_err at h
  simp only at h
  split at h
  · split at h
    · split at h
      · simp only [Option.map_eq_some'] at h
        obtain ⟨t, ht, rfl⟩ := h
        exact ⟨untouched_trans (untouched_trans (untouched_setRq p s _) (untouched_setRq p _ _))
          (resend_query_untouched _ _ _ _ _ _ ht), rfl⟩
      · simp only [Option.map_eq_some'] at h
        obtain ⟨t, ht, rfl⟩ := h
        exact ⟨untouched_trans (untouched_setRq p s _) (resend_query_untouched _ _ _ _ _ _ ht),
          rfl⟩
    · simp only [Option.map_eq_some'] at h
      obtain ⟨t, ht, rfl⟩ := h
      exact ⟨resend_query_untouched _ _ _ _ _ _ ht, rfl⟩
  · cases h; exact ⟨untouched_refl p s, rfl⟩

theorem fromNameserver_unknown (s : Resolver) (p : Nat) (src : InAddr)
    (hcount : 0 < s.nscount) (hsends : 0 ≤ (s.rq p).sends)
    (hns : ∀ a : Nat, (a : Int) < s.nscount →
      s.nsaddr_list a ≠ InAddr.zero ∧ src ≠ s.nsaddr_list a) :
    fromNameserver s p src = false := by
  unfold fromNameserver
  simp only [Bool.or_eq_false_iff, decide_eq_false_iff_not, List.any_eq_false, List.mem_range,
    Bool.or_eq_true, decide_eq_true_eq, not_or]
  constructor
  · split <;> omega
  · intro a ha
    apply hns a
    split at ha <;> omega

/-! ### The search for a free query id ends -/

theorem triangle_double : ∀ j : Nat, 2 * triangle j + j = (j : Int) * j := by
  intro j
  induction j with
  | zero => simp [triangle]
  | succ j ih => rw [triangle]; push_cast; linarith

theorem two_pow_dvd_of_odd_mul {n : Nat} {d s : Int} (hd : Odd d) (h : (2 : Int) ^ n ∣ d * s) :
    (2 : Int) ^ n ∣ s := by
  obtain ⟨t, ht⟩ := hd
  have hc : IsCoprime ((2 : Int) ^ n) d := by
    apply IsCoprime.pow_left
    exact ⟨-t, 1, by rw [ht]; ring⟩
  exact hc.dvd_of_dvd_mul_left h

theorem small_of_two_pow_dvd {d : Int} (h : (2 : Int) ^ 17 ∣ d) (h1 : -(131072 : Int) < d)
    (h2 : d < 131072) : d = 0 := by
  obtain ⟨t, ht⟩ := h
  norm_num at ht
  omega

/-- Two rounds that try the same id: their numbers add up to a fixed value
modulo 2 ^ 17. -/
theorem idCandidate_collision (id k : Int) (usec : Nat) (x y : Nat) (hx : x ≤ 131072)
    (hy : y ≤ 131072) (hx0 : 1 ≤ x) (hy0 : 1 ≤ y) (hxy : x ≠ y)
    (h : idCandidate id k usec x = idCandidate id k usec y) :
    (2 : Int) ^ 17 ∣ (x : Int) + y + 2 * (k + (usec % 65536 : Nat)) - 1 := by
  unfold idCandidate at h
  generalize (k + ((usec % 65536 : Nat) : Int)) = w at h ⊢
  have h1 : (65536 : Int) ∣ (id + x * w + triangle x) - (id + y * w + triangle y) :=
    Int.ModEq.dvd (Int.ModEq.symm h)
  have hxx := triangle_double x
  have hyy := triangle_double y
  have h2 : (2 : Int) ^ 17 ∣ ((x : Int) - y) * ((x : Int) + y + 2 * w - 1) := by
    obtain ⟨t, ht⟩ := h1
    refine ⟨t, ?_⟩
    have e : ((x : Int) - y) * ((x : Int) + y + 2 * w - 1)
        = 2 * ((id + x * w + triangle x) - (id + y * w + triangle y)) := by
      have e1 : 2 * triangle x = (x : Int) * x - x := by linarith
      have e2 : 2 * triangle y = (y : Int) * y - y := by linarith
      linear_combination (-1 : Int) * e1 + e2
    rw [e, ht]; norm_num; ring
  rcases Int.even_or_odd ((x : Int) - y) with he | ho
  · exfalso
    have hs : Odd ((x : Int) + y + 2 * w - 1) := by
      obtain ⟨t, ht⟩ := he
      refine ⟨y + w + t - 1, ?_⟩
      have : (x : Int) = y + (t + t) := by linarith
      rw [this]; ring
    rw [mul_comm] at h2
    have h3 := two_pow_dvd_of_odd_mul hs h2
    have h4 := small_of_two_pow_dvd h3 (by omega) (by omega)
    omega
  · exact two_pow_dvd_of_odd_mul ho h2

/-- No id is tried in three of the first 2 ^ 17 rounds. -/
theorem idCandidate_fibre (id k : Int) (usec N : Nat) (hN : N ≤ 131072) (a : Int) :
    ((Finset.Icc 1 N).filter (fun j => idCandidate id k usec j = a)).card ≤ 2 := by
  by_contra hc
  rw [not_le, Finset.two_lt_card] at hc
  obtain ⟨x, hx, y, hy, z, hz, hxy, hxz, hyz⟩ := hc
  simp only [Finset.mem_filter, Finset.mem_Icc] at hx hy hz
  have h1 := idCandidate_collision id k usec x y (by omega) (by omega) hx.1.1 hy.1.1 hxy
    (hx.2.trans hy.2.symm)
  have h2 := idCandidate_collision id k usec x z (by omega) (by omega) hx.1.1 hz.1.1 hxz
    (hx.2.trans hz.2.symm)
  have h3 : (2 : Int) ^ 17 ∣ (y : Int) - z := by
    have := dvd_sub h1 h2
    have e : (x : Int) + y + 2 * (k + ((usec % 65536 : Nat) : Int)) - 1
        - ((x : Int) + z + 2 * (k + ((usec % 65536 : Nat) : Int)) - 1) = (y : Int) - z := by ring
    rw [e] at this; exact this
  have h4 := small_of_two_pow_dvd h3 (by omega) (by omega)
  omega

/-- A search that gives up has found the id of each of its rounds taken. -/
theorem pick_id_none (s : Resolver) (usec : Nat) :
    ∀ (n : Nat) (id k : Int), pick_id s usec n id k = none →
      ∀ j, 1 ≤ j → j ≤ n → (find_id s (idCandidate id k usec j)).isSome
  | 0, _, _, _, j, h1, h2 => by omega
  | n + 1, id, k, h, j, h1, h2 => by
    rw [pick_id] at h
    split at h
    · rename_i hb
      rcases Nat.lt_or_ge 1 j with hj | hj
      · obtain ⟨i, rfl⟩ : ∃ i, j = i + 1 := ⟨j - 1, by omega⟩
        have ih := pick_id_none s usec n _ _ h i (by omega) (by omega)
        have e : idCandidate ((id + k + ((usec % 65536 : Nat) : Int)) % 65536) (k + 1) usec i
            = idCandidate id k usec (i + 1) := by
          unfold idCandidate
          rw [triangle, add_assoc, Int.emod_add_emod]
          congr 1
          push_cast
          ring
        rw [e] at ih; exact ih
      · have e1 : j = 1 := by omega
        subst e1
        have e : idCandidate id k usec 1 = (id + k + ((usec % 65536 : Nat) : Int)) % 65536 := by
          unfold idCandidate
          simp only [triangle, Nat.cast_one, one_mul, add_zero, Nat.cast_zero, add_assoc]
        rw [e]; exact hb
    · cases h

/-- The loop of `query_name` finds a free id within `fuel` rounds when fewer
than 65536 requests are in flight and `fuel` is more than twice their
number. -/
theorem pick_id_returns (s : Resolver) (usec fuel : Nat) (id k : Int)
    (hlen : s.flight.length < 65536) (hfuel : 2 * s.flight.length < fuel) :
    (pick_id s usec fuel id k).isSome := by
  by_contra hc
  rw [Option.not_isSome_iff_eq_none] at hc
  have hb := pick_id_none s usec fuel id k hc
  let N := 2 * s.flight.length + 1
  have hN : N ≤ 131072 := by omega
  have h1 := Finset.card_le_mul_card_image (Finset.Icc 1 N) 2
    (fun a _ => idCandidate_fibre id k usec N hN a)
  have h2 : ((Finset.Icc 1 N).image (idCandidate id k usec)) ⊆
      (s.flight.map (fun p => (s.rq p).id)).toFinset := by
    intro a ha
    simp only [Finset.mem_image, Finset.mem_Icc] at ha
    obtain ⟨j, hj, rfl⟩ := ha
    have := hb j hj.1 (by omega)
    rw [Option.isSome_iff_exists] at this
    obtain ⟨p, hp⟩ := this
    unfold find_id at hp
    have hm := List.mem_of_find?_eq_some hp
    have hq := List.find?_some hp
    simp only [List.mem_toFinset, List.mem_map]
    exact ⟨p, hm, by simpa using hq⟩
  have h3 := Finset.card_le_card h2
  have h4 : (s.flight.map (fun p => (s.rq p).id)).toFinset.card ≤ s.flight.length := by
    calc _ ≤ (s.flight.map (fun p => (s.rq p).id)).length := List.toFinset_card_le _
      _ = s.flight.length := List.length_map _ _
  have hN1 : N = 2 * s.flight.length + 1 := rfl
  simp only [Nat.card_Icc] at h1
  omega

/-! ### The pass of `timeout_query_list` -/

theorem sameClock_refl (r : ResRQ) : SameClock r r :=
  ⟨rfl, rfl, rfl, rfl, rfl, rfl, rfl, le_refl _, by omega⟩

theorem send_loop_counts (env : ResEnv) (s0 : Resolver) :
    ∀ (l : List Nat) (s : Resolver) (sent : Int),
      (send_loop env s0 l s sent).1.rq = s.rq ∧
      (send_loop env s0 l s sent).1.reinfo.re_timeouts = s.reinfo.re_timeouts ∧
      (send_loop env s0 l s sent).1.reinfo.re_resends = s.reinfo.re_resends
  | [], s, _ => ⟨rfl, rfl, rfl⟩
  | i :: is, s, sent => by
    unfold send_loop
    split
    · exact send_loop_counts env s0 is _ _
    · exact send_loop_counts env s0 is s sent

theorem send_res_msg_counts (env : ResEnv) (s : Resolver) (rcount : Int) :
    (send_res_msg env s rcount).1.rq = s.rq ∧
      (send_res_msg env s rcount).1.reinfo.re_timeouts = s.reinfo.re_timeouts ∧
      (send_res_msg env s rcount).1.reinfo.re_resends = s.reinfo.re_resends := by
  unfold send_res_msg
  exact send_loop_counts env s _ s 0

theorem sameClock_sends (r : ResRQ) (id sent : Int) :
    SameClock r { r with id := id, sends := r.sends + 1, sent := sent } :=
  ⟨rfl, rfl, rfl, rfl, rfl, rfl, rfl, by simp, by simp⟩

theorem query_name_fields (env : ResEnv) (fuel : Nat) (s : Resolver) (name : Str)
    (cls type : Int) (p : Nat) (r : Resolver × Int)
    (h : query_name env fuel s name cls type p = some r) :
    SameClock (s.rq p) (r.1.rq p) ∧ r.1.reinfo.re_timeouts = s.reinfo.re_timeouts ∧
      r.1.reinfo.re_resends = s.reinfo.re_resends := by
  unfold query_name at h
  simp only at h
  split at h
  · cases h; exact ⟨sameClock_refl _, rfl, rfl⟩
  · split at h
    · cases h
    · rename_i id hid
      obtain ⟨h1, h2, h3⟩ := send_res_msg_counts env
        (s.setRq p { s.rq p with id := id, sends := (s.rq p).sends + 1 }) ((s.rq p).sends + 1)
      have hp : (s.setRq p { s.rq p with id := id, sends := (s.rq p).sends + 1 }).rq p
          = { s.rq p with id := id, sends := (s.rq p).sends + 1 } := by
        simp [Resolver.setRq]
      split at h
      · cases h
        refine ⟨?_, h2, h3⟩
        show SameClock (s.rq p) ((send_res_msg env _ _).1.rq p)
        rw [h1, hp]
        exact sameClock_sends (s.rq p) id (s.rq p).sent
      · cases h
        refine ⟨?_, h2, h3⟩
        show SameClock (s.rq p) (Function.update (send_res_msg env _ _).1.rq p _ p)
        rw [Function.update_same, h1, hp]
        exact sameClock_sends (s.rq p) id _

theorem query_name_returns (env : ResEnv) (fuel : Nat) (s : Resolver) (name : Str)
    (cls type : Int) (p : Nat) (hlen : s.flight.length < 65536)
    (hfuel : 2 * s.flight.length < fuel) :
    (query_name env fuel s name cls type p).isSome := by
  unfold query_name
  simp only
  split
  · rfl
  · have := pick_id_returns s (env.usec s) fuel (env.mkquery s name cls type).2 0 hlen hfuel
    rw [Option.isSome_iff_exists] at this
    obtain ⟨id, hid⟩ := this
    rw [hid]
    simp only
    split <;> rfl

theorem resend_query_fields (k : ResConf) (env : ResEnv) (fuel : Nat) (s : Resolver)
    (p : Nat) (t : Resolver) (h : resend_query k env fuel s p = some t) :
    SameClock (s.rq p) (t.rq p) ∧ t.reinfo.re_timeouts = s.reinfo.re_timeouts ∧
      s.reinfo.re_resends ≤ t.reinfo.re_resends ∧
      ((s.rq p).resend ≠ 0 → t.reinfo.re_resends = s.reinfo.re_resends + 1) := by
  unfold resend_query at h
  split at h
  · rename_i h0
    cases h; exact ⟨sameClock_refl _, rfl, le_refl _, fun hn => absurd h0 hn⟩
  · simp only at h
    split at h
    · simp only [do_query_number, Option.map_eq_some'] at h
      obtain ⟨r, hr, rfl⟩ := h
      obtain ⟨h1, h2, h3⟩ := query_name_fields _ _ _ _ _ _ _ _ hr
      exact ⟨h1, h2, by rw [h3]; simp, fun _ => by rw [h3]⟩
    · split at h
      · simp only [do_query_name, Option.map_eq_some'] at h
        obtain ⟨r, hr, rfl⟩ := h
        obtain ⟨h1, h2, h3⟩ := query_name_fields _ _ _ _ _ _ _ _ hr
        exact ⟨h1, h2, by rw [h3]; simp, fun _ => by rw [h3]⟩
      · cases h; exact ⟨sameClock_refl _, rfl, by simp, fun _ => rfl⟩

theorem resend_query_returns (k : ResConf) (env : ResEnv) (fuel : Nat) (s : Resolver)
    (p : Nat) (hlen : s.flight.length < 65536) (hfuel : 2 * s.flight.length < fuel) :
    (resend_query k env fuel s p).isSome := by
  unfold resend_query
  split
  · rfl
  · simp only
    split
    · simp only [do_query_number, Option.isSome_map']
      exact query_name_returns _ _ _ _ _ _ _ hlen hfuel
    · split
      · simp only [do_query_name, Option.isSome_map']
        exact query_name_returns _ _ _ _ _ _ _ hlen hfuel
      · rfl

theorem later_refl (w : ResWorld) : Later w w :=
  ⟨List.Sublist.refl _, le_refl _, le_refl _, ⟨[], by simp⟩, ⟨[], by simp⟩, fun _ => rfl,
    fun _ h => h⟩

theorem later_trans {w w1 w2 : ResWorld} (h1 : Later w w1) (h2 : Later w1 w2) : Later w w2 := by
  obtain ⟨n1, hn1⟩ := h1.notices
  obtain ⟨n2, hn2⟩ := h2.notices
  obtain ⟨i1, hi1⟩ := h1.iauth
  obtain ⟨i2, hi2⟩ := h2.iauth
  exact ⟨h2.flight.trans h1.flight, le_trans h1.timeouts h2.timeouts,
    le_trans h1.resends h2.resends, ⟨n1 ++ n2, by rw [hn2, hn1, List.append_assoc]⟩,
    ⟨i1 ++ i2, by rw [hi2, hi1, List.append_assoc]⟩, fun c => (h2.fd c).trans (h1.fd c),
    fun c h => h2.dns c (h1.dns c h)⟩

/-- The branch for a request without retries left, seen from the state before
the retries were counted down. -/
theorem timeout_expired_spec (w : ResWorld) (rptr : Nat) (r1 : ResRQ) :
    Later w (timeout_expired { w with res := w.res.setRq rptr r1 } rptr) ∧
    (timeout_expired { w with res := w.res.setRq rptr r1 } rptr).res.flight
      = w.res.flight.erase rptr ∧
    (timeout_expired { w with res := w.res.setRq rptr r1 } rptr).res.reinfo.re_timeouts
      = w.res.reinfo.re_timeouts + 1 ∧
    (timeout_expired { w with res := w.res.setRq rptr r1 } rptr).res.rq
      = Function.update w.res.rq rptr r1 := by
  unfold timeout_expired
  simp only [Resolver.setRq, Function.update_same]
  split
  · refine ⟨⟨List.erase_sublist _ _, by simp [rem_request], le_refl _, ⟨[], by simp [rem_request]⟩,
      ⟨_, rfl⟩, ?_, ?_⟩, rfl, rfl, rfl⟩
    · intro c
      by_cases hc : c = r1.cinfo.value
      · subst hc
        simp only [Function.update_same, ClearDNS, SetAccess, DoingAuth]
        split <;> rfl
      · simp only [Function.update_noteq hc]
    · intro c h
      by_cases hc : c = r1.cinfo.value
      · subst hc
        simp only [Function.update_same, ClearDNS, SetAccess, DoingAuth]
        split <;> rfl
      · simp only [Function.update_noteq hc]; exact h
  · split
    · exact ⟨⟨List.erase_sublist _ _, by simp [rem_request, Resolver.post], le_refl _,
        ⟨_, rfl⟩, ⟨[], by simp⟩, fun _ => rfl, fun _ h => h⟩, rfl, rfl, rfl⟩
    · exact ⟨⟨List.erase_sublist _ _, by simp [rem_request], le_refl _,
        ⟨[], by simp [rem_request]⟩, ⟨[], by simp⟩, fun _ => rfl, fun _ h => h⟩, rfl, rfl, rfl⟩

/-- The branch for a request that is sent again. -/
theorem timeout_resend_spec (k : ResConf) (env : ResEnv) (fuel : Nat) (w : ResWorld)
    (rptr : Nat) (r2 : ResRQ) (s3 : Resolver)
    (h : resend_query k env fuel (w.res.setRq rptr r2) rptr = some s3) :
    Later w { w with res := s3 } ∧ s3.flight = w.res.flight ∧
      (∀ q, q ≠ rptr → s3.rq q = w.res.rq q) ∧ SameClock r2 (s3.rq rptr) ∧
      (r2.resend ≠ 0 → s3.reinfo.re_resends = w.res.reinfo.re_resends + 1) := by
  have hu := resend_query_untouched k env fuel _ rptr s3 h
  obtain ⟨hc, ht, hr, hr1⟩ := resend_query_fields k env fuel _ rptr s3 h
  have hp : (w.res.setRq rptr r2).rq rptr = r2 := by simp [Resolver.setRq]
  rw [hp] at hc hr1
  refine ⟨⟨?_, ?_, hr, ⟨[], ?_⟩, ⟨[], by simp⟩, fun _ => rfl, fun _ h => h⟩, hu.2.1, ?_, hc, hr1⟩
  · show s3.flight.Sublist w.res.flight
    rw [hu.2.1]; exact List.Sublist.refl _
  · show w.res.reinfo.re_timeouts ≤ s3.reinfo.re_timeouts
    rw [ht]; exact le_refl _
  · show s3.notices = w.res.notices ++ []
    rw [hu.2.2.2.2.1]; simp [Resolver.setRq]
  · intro q hq
    rw [hu.2.2.2.2.2 q hq]
    simp [Resolver.setRq, Function.update_noteq hq]

theorem timeout_loop_append (k : ResConf) (env : ResEnv) (fuel : Nat) (now : Int) :
    ∀ (l1 l2 : List Nat) (w : ResWorld) (next : Int),
      timeout_loop k env fuel now (l1 ++ l2) w next
        = (timeout_loop k env fuel now l1 w next).bind
            (fun r => timeout_loop k env fuel now l2 r.1 r.2)
  | [], l2, w, next => by simp [timeout_loop]
  | p :: l1, l2, w, next => by
    rw [List.cons_append, timeout_loop, timeout_loop]
    simp only
    split
    · split
      · exact timeout_loop_append k env fuel now l1 l2 _ _
      · split
        · rfl
        · exact timeout_loop_append k env fuel now l1 l2 _ _
    · exact timeout_loop_append k env fuel now l1 l2 _ _

/-- The pass returns, with enough fuel for the search of an id, and leaves
alone every request it does not come to. -/
theorem timeout_loop_spec (k : ResConf) (env : ResEnv) (fuel : Nat) (now : Int) :
    ∀ (l : List Nat) (w : ResWorld) (next : Int), w.res.flight.length < 65536 →
      2 * w.res.flight.length < fuel →
      ∃ r, timeout_loop k env fuel now l w next = some r ∧ Later w r.1 ∧
        ∀ q, q ∉ l → r.1.res.rq q = w.res.rq q ∧ (q ∈ r.1.res.flight ↔ q ∈ w.res.flight)
  | [], w, next, _, _ => ⟨(w, next), rfl, later_refl w, fun _ _ => ⟨rfl, Iff.rfl⟩⟩
  | p :: l, w, next, hlen, hfuel => by
    rw [timeout_loop]
    simp only
    split
    · split
      · obtain ⟨hl, hf, _, hrq⟩ := timeout_expired_spec w p (countDown (w.res.rq p))
        have hle := hl.flight.length_le
        obtain ⟨r, hr, hlr, hq⟩ := timeout_loop_spec k env fuel now l
          (timeout_expired { w with res := w.res.setRq p (countDown (w.res.rq p)) } p) next
          (by omega) (by omega)
        refine ⟨r, hr, later_trans hl hlr, fun q hq1 => ?_⟩
        have hq2 : q ≠ p := fun e => hq1 (by rw [e]; exact List.mem_cons_self _ _)
        have hq3 : q ∉ l := fun e => hq1 (List.mem_cons_of_mem _ e)
        obtain ⟨h1, h2⟩ := hq q hq3
        refine ⟨by rw [h1, hrq, Function.update_noteq hq2], ?_⟩
        rw [h2, hf]
        exact List.mem_erase_of_ne hq2
      · have hs := resend_query_returns k env fuel
          (w.res.setRq p (restart now (countDown (w.res.rq p)))) p hlen hfuel
        rw [Option.isSome_iff_exists] at hs
        obtain ⟨s3, hs3⟩ := hs
        rw [hs3]
        simp only
        obtain ⟨hl, hf, hrq, _, _⟩ := timeout_resend_spec k env fuel w p _ s3 hs3
        obtain ⟨r, hr, hlr, hq⟩ := timeout_loop_spec k env fuel now l { w with res := s3 }
          (nextDeadline next (now + (s3.rq p).timeout)) (by rw [hf]; exact hlen)
          (by rw [hf]; exact hfuel)
        refine ⟨r, hr, later_trans hl hlr, fun q hq1 => ?_⟩
        have hq2 : q ≠ p := fun e => hq1 (by rw [e]; exact List.mem_cons_self _ _)
        have hq3 : q ∉ l := fun e => hq1 (List.mem_cons_of_mem _ e)
        obtain ⟨h1, h2⟩ := hq q hq3
        exact ⟨by rw [h1]; exact hrq q hq2, by rw [h2]; show q ∈ s3.flight ↔ _; rw [hf]⟩
    · obtain ⟨r, hr, hlr, hq⟩ := timeout_loop_spec k env fuel now l w
        (nextDeadline next ((w.res.rq p).sentat + (w.res.rq p).timeout)) hlen hfuel
      exact ⟨r, hr, hlr, fun q hq1 => hq q (fun e => hq1 (List.mem_cons_of_mem _ e))⟩

/-- The branch for a request without retries left tells the context. -/
theorem timeout_expired_notified (w : ResWorld) (rptr : Nat) (r1 : ResRQ) :
    Notified w (timeout_expired { w with res := w.res.setRq rptr r1 } rptr) r1 := by
  unfold timeout_expired Notified
  simp only [Resolver.setRq, Function.update_same]
  constructor
  · intro hf
    rw [if_pos hf]
    refine ⟨?_, [], [], by simp⟩
    simp only [Function.update_same, ClearDNS, SetAccess, DoingAuth]
    split <;> rfl
  · intro hf
    have hne : ¬ r1.cinfo.flags = ASYNC_CLIENT := by rw [hf]; decide
    rw [if_neg hne, if_pos hf]
    exact ⟨[], [], by simp [rem_request, Resolver.post]⟩

theorem notified_later {w wa wb wc : ResWorld} {r : ResRQ} (h1 : Later w wa)
    (h2 : Notified wa wb r) (h3 : Later wb wc) : Notified w wc r := by
  obtain ⟨n1, hn1⟩ := h1.notices
  obtain ⟨n3, hn3⟩ := h3.notices
  obtain ⟨i1, hi1⟩ := h1.iauth
  obtain ⟨i3, hi3⟩ := h3.iauth
  constructor
  · intro hf
    obtain ⟨hd, a, b, hab⟩ := h2.1 hf
    refine ⟨h3.dns _ hd, i1 ++ a, b ++ i3, ?_⟩
    rw [hi3, hab, hi1, h1.fd]
    simp only [List.append_assoc]
  · intro hf
    obtain ⟨a, b, hab⟩ := h2.2 hf
    refine ⟨n1 ++ a, b ++ n3, ?_⟩
    rw [hn3, hab, hn1]
    simp only [List.append_assoc]

/-- One pass of `timeout_query_list`, seen from a request in flight. -/
theorem timeout_pass_spec (k : ResConf) (env : ResEnv) (fuel : Nat) (w : ResWorld) (now : Int)
    (p : Nat) (hnd : w.res.flight.Nodup) (hp : p ∈ w.res.flight)
    (hlen : w.res.flight.length < 65536) (hfuel : 2 * w.res.flight.length < fuel) :
    ∃ r, timeout_query_list k env fuel w now = some r ∧ Later w r.1 ∧
      (now < deadline w.res p → r.1.res.rq p = w.res.rq p ∧ p ∈ r.1.res.flight) ∧
      (deadline w.res p ≤ now → 1 < (w.res.rq p).retries →
        p ∈ r.1.res.flight ∧ SameClock (restart now (countDown (w.res.rq p))) (r.1.res.rq p) ∧
        ((w.res.rq p).resend ≠ 0 →
          w.res.reinfo.re_resends + 1 ≤ r.1.res.reinfo.re_resends)) ∧
      (deadline w.res p ≤ now → (w.res.rq p).retries ≤ 1 →
        p ∉ r.1.res.flight ∧ r.1.res.rq p = countDown (w.res.rq p) ∧
        w.res.reinfo.re_timeouts + 1 ≤ r.1.res.reinfo.re_timeouts ∧
        Notified w r.1 (w.res.rq p)) := by
  obtain ⟨l1, l2, hl⟩ := List.append_of_mem hp
  have hnd1 := hnd
  rw [hl] at hnd1
  have hp1 : p ∉ l1 := fun h => (List.nodup_append.mp hnd1).2.2 h (List.mem_cons_self _ _)
  have hp2 : p ∉ l2 := (List.nodup_cons.mp (List.nodup_append.mp hnd1).2.1).1
  obtain ⟨ra, hra, hla, hqa⟩ := timeout_loop_spec k env fuel now l1 w 0 hlen hfuel
  obtain ⟨hrqa, hfa⟩ := hqa p hp1
  have hlena := hla.flight.length_le
  have hnda : ra.1.res.flight.Nodup := hnd.sublist hla.flight
  have hpa : p ∈ ra.1.res.flight := hfa.mpr hp
  unfold timeout_query_list
  rw [hl, timeout_loop_append, hra, Option.some_bind, timeout_loop]
  unfold deadline
  rw [← hrqa]
  simp only
  by_cases hexp : now ≥ (ra.1.res.rq p).sentat + (ra.1.res.rq p).timeout
  · rw [if_pos hexp]
    by_cases hret : (countDown (ra.1.res.rq p)).retries ≤ 0
    · rw [if_pos hret]
      obtain ⟨hle, hfe, hte, hrqe⟩ := timeout_expired_spec ra.1 p (countDown (ra.1.res.rq p))
      have hlene := hle.flight.length_le
      obtain ⟨r, hr, hlr, hq⟩ := timeout_loop_spec k env fuel now l2
        (timeout_expired { ra.1 with res := ra.1.res.setRq p (countDown (ra.1.res.rq p)) } p)
        ra.2 (lt_of_le_of_lt hlene (by omega))
        (lt_of_le_of_lt (Nat.mul_le_mul_left 2 hlene) (by omega))
      obtain ⟨hrq2, hf2⟩ := hq p hp2
      rw [hr]
      refine ⟨_, rfl, later_trans hla (later_trans hle hlr), fun h => absurd hexp (by omega),
        fun _ h => absurd hret (by simp only [countDown]; omega), fun _ _ => ⟨?_, ?_, ?_, ?_⟩⟩
      · show p ∉ r.1.res.flight
        rw [hf2, hfe]
        exact fun h => (List.Nodup.mem_erase_iff hnda).mp h |>.1 rfl
      · show r.1.res.rq p = _
        rw [hrq2, hrqe, Function.update_same]
      · show w.res.reinfo.re_timeouts + 1 ≤ r.1.res.reinfo.re_timeouts
        have a1 := hla.timeouts
        have a2 : ra.1.res.reinfo.re_timeouts + 1 ≤ r.1.res.reinfo.re_timeouts :=
          le_trans (le_of_eq hte.symm) hlr.timeouts
        omega
      · show Notified w r.1 (ra.1.res.rq p)
        have hn := timeout_expired_notified ra.1 p (countDown (ra.1.res.rq p))
        exact notified_later hla hn hlr
    · rw [if_neg hret]
      have hs := resend_query_returns k env fuel
        (ra.1.res.setRq p (restart now (countDown (ra.1.res.rq p)))) p
        (by show ra.1.res.flight.length < 65536; omega)
        (by show 2 * ra.1.res.flight.length < fuel; omega)
      rw [Option.isSome_iff_exists] at hs
      obtain ⟨s3, hs3⟩ := hs
      rw [hs3]
      simp only
      obtain ⟨hl3, hf3, hrq3, hc3, hr3⟩ := timeout_resend_spec k env fuel ra.1 p _ s3 hs3
      obtain ⟨r, hr, hlr, hq⟩ := timeout_loop_spec k env fuel now l2 { ra.1 with res := s3 }
        (nextDeadline ra.2 (now + (s3.rq p).timeout)) (by rw [hf3]; omega)
        (by rw [hf3]; omega)
      obtain ⟨hrq2, hf2⟩ := hq p hp2
      rw [hr]
      refine ⟨_, rfl, later_trans hla (later_trans hl3 hlr), fun h => absurd hexp (by omega),
        fun _ _ => ⟨?_, ?_, ?_⟩, fun _ h => absurd hret (by simp only [countDown]; omega)⟩
      · show p ∈ r.1.res.flight
        rw [hf2]; show p ∈ s3.flight; rw [hf3]; exact hpa
      · show SameClock _ (r.1.res.rq p)
        rw [hrq2]; exact hc3
      · intro hne
        show w.res.reinfo.re_resends + 1 ≤ r.1.res.reinfo.re_resends
        have h1 := hla.resends
        have h2 := hlr.resends
        have h3 := hr3 hne
        have h4 : r.1.res.reinfo.re_resends ≥ s3.reinfo.re_resends := h2
        omega
  · rw [if_neg hexp]
    obtain ⟨r, hr, hlr, hq⟩ := timeout_loop_spec k env fuel now l2 ra.1
      (nextDeadline ra.2 ((ra.1.res.rq p).sentat + (ra.1.res.rq p).timeout)) (by omega)
      (by omega)
    obtain ⟨hrq2, hf2⟩ := hq p hp2
    rw [hr]
    refine ⟨_, rfl, later_trans hla hlr, fun _ => ⟨hrq2, hf2.mpr hpa⟩,
      fun h => absurd h (by omega), fun h => absurd h (by omega)⟩

/-! ### The time `timeout_query_list` returns -/

theorem nextOK_congr {now : Int} {s s1 : Resolver} {R : List Nat} {next : Int}
    (h : ∀ q ∈ R, s1.rq q = s.rq q) (hn : NextOK now s R next) : NextOK now s1 R next := by
  have hd : ∀ q ∈ R, deadline s1 q = deadline s q := fun q hq => by
    unfold deadline; rw [h q hq]
  obtain ⟨h1, h2⟩ := hn
  refine ⟨fun p hp => by rw [hd p hp]; exact h1 p hp, ?_⟩
  rcases h2 with ⟨e1, e2⟩ | ⟨e1, ⟨p, hp, e2⟩, e3⟩
  · exact Or.inl ⟨e1, e2⟩
  · exact Or.inr ⟨e1, ⟨p, hp, by rw [hd p hp]; exact e2⟩, fun q hq => by
      rw [hd q hq]; exact e3 q hq⟩

theorem nextOK_snoc {now : Int} {s : Resolver} {R : List Nat} {next : Int} (p : Nat)
    (h0 : 0 ≤ now) (hp : now < deadline s p) (hn : NextOK now s R next) :
    NextOK now s (R ++ [p]) (nextDeadline next (deadline s p)) := by
  obtain ⟨h1, h2⟩ := hn
  refine ⟨fun q hq => ?_, Or.inr ⟨by simp, ?_, ?_⟩⟩
  · rcases List.mem_append.mp hq with hq | hq
    · exact h1 q hq
    · rw [List.mem_singleton.mp hq]; exact hp
  · rcases h2 with ⟨e1, e2⟩ | ⟨e1, ⟨q, hq, e2⟩, e3⟩
    · exact ⟨p, by simp, by simp [nextDeadline, e2]⟩
    · unfold nextDeadline
      split
      · exact ⟨p, by simp, rfl⟩
      · exact ⟨q, List.mem_append_left _ hq, e2⟩
  · intro q hq
    unfold nextDeadline
    rcases h2 with ⟨e1, e2⟩ | ⟨e1, ⟨q1, hq1, e2⟩, e3⟩
    · subst e1
      simp only [List.nil_append, List.mem_singleton] at hq
      subst hq
      simp [e2]
    · have hpos : next ≠ 0 := by
        have := h1 q1 hq1
        omega
      rcases List.mem_append.mp hq with hq | hq
      · have := e3 q hq
        split <;> omega
      · rw [List.mem_singleton.mp hq]
        split <;> omega

/-- The invariant of the pass: the list is the requests kept so far followed
by those still to look at, and `next` is the least deadline of those kept. -/
theorem timeout_loop_next (k : ResConf) (env : ResEnv) (fuel : Nat) (now : Int) (h0 : 0 ≤ now) :
    ∀ (l : List Nat) (w : ResWorld) (next : Int) (R : List Nat) (r : ResWorld × Int),
      timeout_loop k env fuel now l w next = some r → w.res.flight = R ++ l →
      (R ++ l).Nodup → (∀ p ∈ l, 0 < (w.res.rq p).timeout) → NextOK now w.res R next →
      NextOK now r.1.res r.1.res.flight r.2
  | [], w, next, R, r, h, hf, _, _, hn => by
    rw [timeout_loop] at h
    cases h
    rw [hf, List.append_nil]
    exact hn
  | p :: l, w, next, R, r, h, hf, hnd, hpos, hn => by
    rw [timeout_loop] at h
    simp only at h
    have hpR : p ∉ R := fun hm => (List.nodup_append.mp hnd).2.2 hm (List.mem_cons_self _ _)
    have hpl : p ∉ l := (List.nodup_cons.mp (List.nodup_append.mp hnd).2.1).1
    have hnd1 : ((R ++ [p]) ++ l).Nodup := by rw [List.append_assoc]; exact hnd
    have hnd2 : (R ++ l).Nodup := by
      refine hnd.sublist ?_
      exact List.Sublist.append_left (List.sublist_cons_self p l) R
    split at h
    · split at h
      · obtain ⟨_, hfe, _, hrqe⟩ := timeout_expired_spec w p (countDown (w.res.rq p))
        refine timeout_loop_next k env fuel now h0 l _ next R r h ?_ hnd2 ?_ ?_
        · rw [hfe, hf]
          rw [List.erase_append_right _ hpR, List.erase_cons_head]
        · intro q hq
          have hqp : q ≠ p := fun e => hpl (e ▸ hq)
          rw [hrqe, Function.update_noteq hqp]
          exact hpos q (List.mem_cons_of_mem _ hq)
        · refine nextOK_congr (fun q hq => ?_) hn
          have hqp : q ≠ p := fun e => hpR (e ▸ hq)
          rw [hrqe, Function.update_noteq hqp]
      · split at h
        · cases h
        · rename_i s3 hs3
          obtain ⟨_, hf3, hrq3, hc3, _⟩ := timeout_resend_spec k env fuel w p _ s3 hs3
          have ht : (s3.rq p).timeout = (w.res.rq p).timeout + (w.res.rq p).timeout := hc3.2.1
          have hsa : (s3.rq p).sentat = now := hc3.1
          have htp := hpos p (List.mem_cons_self _ _)
          have hd : now + (s3.rq p).timeout = deadline s3 p := by unfold deadline; rw [hsa]
          rw [hd] at h
          refine timeout_loop_next k env fuel now h0 l _ _ (R ++ [p]) r h ?_ hnd1 ?_ ?_
          · show s3.flight = _
            rw [hf3, hf]; simp
          · intro q hq
            have hqp : q ≠ p := fun e => hpl (e ▸ hq)
            show 0 < (s3.rq q).timeout
            rw [hrq3 q hqp]
            exact hpos q (List.mem_cons_of_mem _ hq)
          · refine nextOK_snoc p h0
              (by show now < (s3.rq p).sentat + (s3.rq p).timeout; omega)
              (nextOK_congr (fun q hq => ?_) hn)
            have hqp : q ≠ p := fun e => hpR (e ▸ hq)
            exact hrq3 q hqp
    · rename_i hne
      have hd : (w.res.rq p).sentat + (w.res.rq p).timeout = deadline w.res p := rfl
      rw [hd] at h
      refine timeout_loop_next k env fuel now h0 l w _ (R ++ [p]) r h ?_ hnd1 ?_ ?_
      · rw [hf]; simp
      · exact fun q hq => hpos q (List.mem_cons_of_mem _ hq)
      · exact nextOK_snoc p h0 (by unfold deadline; omega) hn

/-! ### Where the addresses of the cache come from -/

theorem addrsFrom_refl (c : Cache) (l : List InAddr) : AddrsFrom c c l :=
  fun _ _ h => Or.inl h

theorem addrsFrom_trans {c c1 c2 : Cache} {l : List InAddr} (h1 : AddrsFrom c c1 l)
    (h2 : AddrsFrom c1 c2 l) : AddrsFrom c c2 l := fun e a h =>
  match h2 e a h with
  | Or.inl h3 => h1 e a h3
  | Or.inr h3 => Or.inr h3

theorem addrsFrom_of_ce {c c1 : Cache} (l : List InAddr) (h : c1.ce = c.ce) : AddrsFrom c c1 l :=
  fun e a hm => Or.inl (by rw [← h]; exact hm)

theorem mergeAliases_addrs (k : ResConf) :
    ∀ (l : List Str) (h : hostent), (mergeAliases k l h).h_addr_list = h.h_addr_list
  | [], _ => rfl
  | s :: rest, h => by
    rw [mergeAliases]
    split
    · rw [mergeAliases_addrs k rest]
    · exact mergeAliases_addrs k rest h

theorem mergeAddrs_mem (k : ResConf) (a : InAddr) :
    ∀ (l : List InAddr) (h : hostent) (n : Nat), a ∈ (mergeAddrs k l h n).h_addr_list →
      a ∈ h.h_addr_list ∨ a ∈ l
  | [], _, _, hm => Or.inl hm
  | s :: rest, h, n, hm => by
    rw [mergeAddrs] at hm
    split at hm
    · exact Or.inl hm
    · split at hm
      · rcases mergeAddrs_mem k a rest h n hm with h1 | h1
        · exact Or.inl h1
        · exact Or.inr (List.mem_cons_of_mem _ h1)
      · rcases mergeAddrs_mem k a rest _ 0 hm with h1 | h1
        · simp only [List.mem_append, List.mem_singleton] at h1
          rcases h1 with h2 | h2
          · exact Or.inl (List.mem_of_mem_take h2)
          · exact Or.inr (by rw [h2]; exact List.mem_cons_self _ _)
        · exact Or.inr (List.mem_cons_of_mem _ h1)

theorem update_list_addrs (k : ResConf) (c : Cache) (rptr : Option hent) (cp : Nat)
    (l : List InAddr) (hl : ∀ r, rptr = some r → ∀ a ∈ r.h_addr_list, a ∈ l) :
    AddrsFrom c (update_list k c rptr cp) l := by
  unfold update_list
  simp only
  split
  · cases rptr with
    | none => exact fun _ _ h => Or.inl h
    | some r =>
      intro e a hm
      simp only at hm
      by_cases he : e = cp
      · subst he
        simp only [Function.update_same] at hm
        rcases mergeAddrs_mem k a _ _ _ hm with h1 | h1
        · rw [mergeAliases_addrs] at h1
          exact Or.inl h1
        · exact Or.inr (hl r rfl a ((List.takeWhile_prefix _).subset h1))
      · simp only [Function.update_noteq he] at hm
        exact Or.inl hm
  · exact fun _ _ h => Or.inl h

theorem find_cache_number_addrs (k : ResConf) (c : Cache) (rptr : Option hent) (numb : InAddr)
    (l : List InAddr) (hl : ∀ r, rptr = some r → ∀ a ∈ r.h_addr_list, a ∈ l) :
    AddrsFrom c (find_cache_number k c rptr numb).1 l := by
  unfold find_cache_number cacheHit
  simp only
  split
  · exact update_list_addrs k _ rptr _ l hl
  · split
    · exact update_list_addrs k _ rptr _ l hl
    · exact addrsFrom_refl c l

theorem make_cache_find_addrs (k : ResConf) (rhe : hent) :
    ∀ (l : List InAddr) (c : Cache), AddrsFrom c (make_cache_find k rhe l c).1 rhe.h_addr_list
  | [], c => addrsFrom_refl c _
  | a :: rest, c => by
    rw [make_cache_find]
    have h1 := find_cache_number_addrs k c (some rhe) a rhe.h_addr_list
      (fun r hr x hx => by cases hr; exact hx)
    split
    · rename_i c1 cp heq
      rw [heq] at h1; exact h1
    · rename_i c1 heq
      rw [heq] at h1
      exact addrsFrom_trans h1 (make_cache_find_addrs k rhe rest c1)

theorem make_cache_addrs (k : ResConf) (c : Cache) (rhe : hent) (t : Int) :
    AddrsFrom c (make_cache k c rhe t).1 rhe.h_addr_list := by
  unfold make_cache
  cases hn : rhe.h_name with
  | none => exact addrsFrom_refl c _
  | some name =>
    simp only
    split
    · exact addrsFrom_refl c _
    · have h1 := make_cache_find_addrs k rhe (rhe.h_addr_list.takeWhile WHOSTENTP) c
      split
      · rename_i c1 cp heq
        rw [heq] at h1; exact h1
      · rename_i c1 heq
        rw [heq] at h1
        refine addrsFrom_trans h1 ?_
        intro e a hm
        simp only at hm
        rw [(add_to_cache_fields k _ _).2.2.1] at hm
        unfold storeEntry at hm
        simp only at hm
        by_cases he : e = c1.brk
        · subst he
          simp only [Function.update_same, newHostent] at hm
          exact Or.inr ((List.takeWhile_prefix _).subset (List.mem_of_mem_take hm))
        · simp only [Function.update_noteq he] at hm
          exact Or.inl hm

theorem setAddr_mem (l : List InAddr) (i : Nat) (a x : InAddr) (h : x ∈ setAddr l i a) :
    x ∈ l ∨ x = InAddr.zero ∨ x = a := by
  unfold setAddr at h
  split at h
  · rcases List.mem_or_eq_of_mem_set h with h1 | h1
    · exact Or.inl h1
    · exact Or.inr (Or.inr h1)
  · simp only [List.mem_append, List.mem_replicate, List.mem_singleton] at h
    rcases h with (h1 | h1) | h1
    · exact Or.inl h1
    · exact Or.inr (Or.inl h1.2)
    · exact Or.inr (Or.inr h1)

/-- The scan of the answers touches the request only: the cache and the list of
requests stay, and the addresses of the request come from the A records. -/
theorem answer_loop_spec (k : ResConf) (p : Nat) :
    ∀ (l : List RR) (s : Resolver) (adr : Nat) (ans : Int),
      (answer_loop k p l s adr ans).1.cache = s.cache ∧
      (answer_loop k p l s adr ans).1.flight = s.flight ∧
      ∀ a ∈ ((answer_loop k p l s adr ans).1.rq p).he.h_addr_list,
        a ∈ (s.rq p).he.h_addr_list ∨ a = InAddr.zero ∨ ∃ rr ∈ l, rr.type = T_A ∧ rr.addr = a
  | [], s, _, _ => ⟨rfl, rfl, fun _ h => Or.inl h⟩
  | rr :: rest, s, adr, ans => by
    have hset : ∀ r : ResRQ, (s.setRq p r).rq p = r := fun r => by simp [Resolver.setRq]
    have lift : ∀ (s1 : Resolver) (adr1 : Nat) (ans1 : Int), s1.cache = s.cache →
        s1.flight = s.flight →
        (∀ a ∈ (s1.rq p).he.h_addr_list,
          a ∈ (s.rq p).he.h_addr_list ∨ a = InAddr.zero ∨ (rr.type = T_A ∧ rr.addr = a)) →
        (answer_loop k p rest s1 adr1 ans1).1.cache = s.cache ∧
        (answer_loop k p rest s1 adr1 ans1).1.flight = s.flight ∧
        ∀ a ∈ ((answer_loop k p rest s1 adr1 ans1).1.rq p).he.h_addr_list,
          a ∈ (s.rq p).he.h_addr_list ∨ a = InAddr.zero ∨
            ∃ r ∈ rr :: rest, r.type = T_A ∧ r.addr = a := by
      intro s1 adr1 ans1 hc hf ha
      obtain ⟨i1, i2, i3⟩ := answer_loop_spec k p rest s1 adr1 ans1
      refine ⟨i1.trans hc, i2.trans hf, fun a hm => ?_⟩
      rcases i3 a hm with h1 | h1 | ⟨r, hr, h1⟩
      · rcases ha a h1 with h2 | h2 | h2
        · exact Or.inl h2
        · exact Or.inr (Or.inl h2)
        · exact Or.inr (Or.inr ⟨rr, List.mem_cons_self _ _, h2⟩)
      · exact Or.inr (Or.inl h1)
      · exact Or.inr (Or.inr ⟨r, List.mem_cons_of_mem _ hr, h1⟩)
    rw [answer_loop]
    split
    · exact ⟨rfl, rfl, fun _ h => Or.inl h⟩
    · simp only
      split
      · rename_i hA
        split
        · refine ⟨rfl, rfl, fun a hm => Or.inl ?_⟩
          simp only [Resolver.post, hset] at hm
          exact hm
        · refine lift _ _ _ rfl rfl (fun a hm => ?_)
          rw [hset] at hm
          simp only at hm
          rcases setAddr_mem _ _ _ _ hm with h1 | h1 | h1
          · exact Or.inl h1
          · exact Or.inr (Or.inl h1)
          · exact Or.inr (Or.inr ⟨hA, h1.symm⟩)
      · split
        · split
          · refine ⟨rfl, rfl, fun a hm => Or.inl ?_⟩
            rw [hset] at hm; exact hm
          · split
            · refine ⟨rfl, rfl, fun a hm => Or.inl ?_⟩
              rw [hset] at hm; exact hm
            · refine lift _ _ _ rfl rfl (fun a hm => Or.inl ?_)
              rw [hset] at hm; exact hm
        · split
          · split
            · refine ⟨rfl, rfl, fun a hm => Or.inl ?_⟩
              rw [hset] at hm; exact hm
            · split
              · refine lift _ _ _ rfl rfl (fun a hm => Or.inl ?_)
                rw [hset] at hm; exact hm
              · refine lift _ _ _ rfl rfl (fun a hm => Or.inl ?_)
                rw [hset] at hm; exact hm
          · refine lift _ _ _ rfl rfl (fun a hm => Or.inl ?_)
            rw [hset] at hm; exact hm

theorem make_cache_some (k : ResConf) (c : Cache) (rhe : hent) (t : Int)
    (hn : rhe.h_name.isSome) (ha : WHOSTENTP (rhe.h_addr_list.headD InAddr.zero) = true) :
    (make_cache k c rhe t).2.1.isSome := by
  unfold make_cache
  cases hname : rhe.h_name with
  | none => rw [hname] at hn; cases hn
  | some name =>
    simp only [ha, Bool.not_true, Bool.false_eq_true, if_false]
    split <;> rfl

/-! ### The line of `sendto_flog` -/

theorem bufSet_last (l : List Char) (c x : Char) :
    (bufSet (l ++ [c]) ((l ++ [c]).length - 1) x).take (l ++ [c]).length = l ++ [x] := by
  simp [bufSet, bufWrite]

theorem flog_render (t : LogFiles) (cptr : LoggedClient) (username hostname : Str) :
    vsprintf "%c %d %d %s %s %s %s %d %s %lu %llu %lu %llu ".toList
        (flogArgs t cptr username hostname)
      = List.intercalate [' '] (flogFields t cptr username hostname) ++ [' '] := by
  simp [vsprintf, vsprintfAux, renderArg, flogArgs, flogFields, List.intercalate]

/-! ### A fan-out that selects no recipient -/

theorem butserv_loop_idle (sm : SM) (from_ : Nat) (lfrm : CPtr) (pattern : Str)
    (va : List Arg) :
    ∀ (l : List Nat) (w : World) (len : Nat) (r : World × List Call),
      butserv_loop sm from_ lfrm pattern va l w len = some r → r.2 = [] →
      r.1 = w ∧ ∀ sm1 : SM, butserv_loop sm1 from_ lfrm pattern va l w len = some r
  | [], w, len, r, h, _ => by
    rw [butserv_loop] at h
    cases h
    exact ⟨rfl, fun _ => by rw [butserv_loop]⟩
  | a :: l, w, len, r, h, hr => by
    rw [butserv_loop] at h
    split at h
    · rename_i hc
      simp only at h
      split at h
      · cases h
      · split at h
        · cases h
        · cases h; cases hr
    · rename_i hc
      obtain ⟨h1, h2⟩ := butserv_loop_idle sm from_ lfrm pattern va l w len r h hr
      exact ⟨h1, fun sm1 => by rw [butserv_loop, if_neg hc]; exact h2 sm1⟩

theorem serv_loop_idle (sm : SM) (one : Option Nat) (pick : aClient → Bool) (pattern : Str)
    (va : List Arg) :
    ∀ (l : List Nat) (w : World) (len : Nat) (rc : Int) (r : World × List Call × Int),
      serv_loop sm one pick pattern va l w len rc = some r → r.2.1 = [] →
      r.1 = w ∧ ∀ sm1 : SM, serv_loop sm1 one pick pattern va l w len rc = some r
  | [], w, len, rc, r, h, _ => by
    rw [serv_loop] at h
    cases h
    exact ⟨rfl, fun _ => by rw [serv_loop]⟩
  | i :: l, w, len, rc, r, h, hr => by
    rw [serv_loop] at h
    split at h
    · rename_i hc
      obtain ⟨h1, h2⟩ := serv_loop_idle sm one pick pattern va l w len rc r h hr
      exact ⟨h1, fun sm1 => by rw [serv_loop, hc]; exact h2 sm1⟩
    · rename_i cptr hc
      simp only at h
      split at h
      · rename_i hn
        split at h
        · split at h
          · cases h
          · split at h
            · cases h
            · cases h; cases hr
        · rename_i hp
          obtain ⟨h1, h2⟩ := serv_loop_idle sm one pick pattern va l w len 1 r h hr
          exact ⟨h1, fun sm1 => by
            rw [serv_loop, hc]; simp only; rw [if_pos hn, if_neg hp]; exact h2 sm1⟩
      · rename_i hn
        obtain ⟨h1, h2⟩ := serv_loop_idle sm one pick pattern va l w len rc r h hr
        exact ⟨h1, fun sm1 => by rw [serv_loop, hc]; simp only; rw [if_neg hn]; exact h2 sm1⟩

theorem match_servs_loop_idle (env : Env) (sm : SM) (from_ : Nat) (mask : Option Str)
    (format : Str) (va : List Arg) :
    ∀ (l : List Nat) (w : World) (len : Nat) (r : World × List Call),
      match_servs_loop env sm from_ mask format va l w len = some r → r.2 = [] →
      r.1 = w ∧ ∀ sm1 : SM, match_servs_loop env sm1 from_ mask format va l w len = some r
  | [], w, len, r, h, _ => by
    rw [match_servs_loop] at h
    cases h
    exact ⟨rfl, fun _ => by rw [match_servs_loop]⟩
  | i :: l, w, len, r, h, hr => by
    rw [match_servs_loop] at h
    split at h
    · rename_i hc
      obtain ⟨h1, h2⟩ := match_servs_loop_idle env sm from_ mask format va l w len r h hr
      exact ⟨h1, fun sm1 => by rw [match_servs_loop, hc]; exact h2 sm1⟩
    · rename_i cptr hc
      split at h
      · rename_i hn
        obtain ⟨h1, h2⟩ := match_servs_loop_idle env sm from_ mask format va l w len r h hr
        exact ⟨h1, fun sm1 => by
          rw [match_servs_loop, hc]; simp only; rw [if_pos hn]; exact h2 sm1⟩
      · rename_i hn
        simp only at h
        split at h
        · rename_i hb
          obtain ⟨h1, h2⟩ := match_servs_loop_idle env sm from_ mask format va l w len r h hr
          exact ⟨h1, fun sm1 => by
            rw [match_servs_loop, hc]; simp only; rw [if_neg hn, if_pos hb]; exact h2 sm1⟩
        · split at h
          · cases h
          · split at h
            · cases h
            · cases h; cases hr

theorem common_fd_loop_idle (sm : SM) (user : Nat) (pattern : Str) (va : List Arg) :
    ∀ (l : List Nat) (w : World) (len : Nat) (r : World × List Call),
      common_fd_loop sm user pattern va l w len = some r → r.2 = [] →
      r.1 = w ∧ ∀ sm1 : SM, common_fd_loop sm1 user pattern va l w len = some r
  | [], w, len, r, h, _ => by
    rw [common_fd_loop] at h
    cases h
    exact ⟨rfl, fun _ => by rw [common_fd_loop]⟩
  | i :: l, w, len, r, h, hr => by
    rw [common_fd_loop] at h
    split at h
    · rename_i cptr u hc hu
      split at h
      · rename_i hn
        obtain ⟨h1, h2⟩ := common_fd_loop_idle sm user pattern va l w len r h hr
        exact ⟨h1, fun sm1 => by
          rw [common_fd_loop, hc, hu]; simp only; rw [if_pos hn]; exact h2 sm1⟩
      · rename_i hn
        split at h
        · simp only at h
          split at h
          · cases h
          · split at h
            · cases h
            · cases h; cases hr
        · rename_i hs
          obtain ⟨h1, h2⟩ := common_fd_loop_idle sm user pattern va l w len r h hr
          exact ⟨h1, fun sm1 => by
            rw [common_fd_loop, hc, hu]; simp only; rw [if_neg hn, if_neg hs]; exact h2 sm1⟩
    · rename_i hc
      obtain ⟨h1, h2⟩ := common_fd_loop_idle sm user pattern va l w len r h hr
      refine ⟨h1, fun sm1 => ?_⟩
      rw [common_fd_loop]
      split
      · rename_i cptr u e1 e2
        exact absurd e2 (hc cptr u e1)
      · exact h2 sm1

theorem common_member_loop_idle (sm : SM) (user : Nat) (pattern : Str) (va : List Arg) :
    ∀ (l : List Nat) (w : World) (len : Nat) (r : World × Nat × List Call),
      common_member_loop sm user pattern va l w len = some r → r.2.2 = [] →
      r.1 = w ∧ r.2.1 = len ∧
        ∀ sm1 : SM, common_member_loop sm1 user pattern va l w len = some r
  | [], w, len, r, h, _ => by
    rw [common_member_loop] at h
    cases h
    exact ⟨rfl, rfl, fun _ => by rw [common_member_loop]⟩
  | c :: l, w, len, r, h, hr => by
    rw [common_member_loop] at h
    split at h
    · rename_i hn
      obtain ⟨h1, h2, h3⟩ := common_member_loop_idle sm user pattern va l w len r h hr
      exact ⟨h1, h2, fun sm1 => by rw [common_member_loop, if_pos hn]; exact h3 sm1⟩
    · rename_i hn
      split at h
      · rename_i hs
        obtain ⟨h1, h2, h3⟩ := common_member_loop_idle sm user pattern va l w len r h hr
        exact ⟨h1, h2, fun sm1 => by
          rw [common_member_loop, if_neg hn, if_pos hs]; exact h3 sm1⟩
      · simp only at h
        split at h
        · cases h
        · split at h
          · cases h
          · cases h; cases hr

theorem common_chan_loop_idle (sm : SM) (user : Nat) (pattern : Str) (va : List Arg) :
    ∀ (l : List Nat) (w : World) (len : Nat) (r : World × List Call),
      common_chan_loop sm user pattern va l w len = some r → r.2 = [] →
      r.1 = w ∧ ∀ sm1 : SM, common_chan_loop sm1 user pattern va l w len = some r
  | [], w, len, r, h, _ => by
    rw [common_chan_loop] at h
    cases h
    exact ⟨rfl, fun _ => by rw [common_chan_loop]⟩
  | c :: l, w, len, r, h, hr => by
    rw [common_chan_loop] at h
    split at h
    · rename_i hq
      obtain ⟨h1, h2⟩ := common_chan_loop_idle sm user pattern va l w len r h hr
      exact ⟨h1, fun sm1 => by rw [common_chan_loop, if_pos hq]; exact h2 sm1⟩
    · rename_i hq
      split at h
      · rename_i ha
        obtain ⟨h1, h2⟩ := common_chan_loop_idle sm user pattern va l w len r h hr
        exact ⟨h1, fun sm1 => by rw [common_chan_loop, if_neg hq, if_pos ha]; exact h2 sm1⟩
      · rename_i ha
        split at h
        · cases h
        · rename_i rm hm
          split at h
          · cases h
          · rename_i r2 hr2
            cases h
            simp only [List.append_eq_nil] at hr
            obtain ⟨m1, m2, m3⟩ := common_member_loop_idle sm user pattern va _ w len rm hm hr.1
            rw [m1, m2] at hr2
            obtain ⟨c1, c2⟩ := common_chan_loop_idle sm user pattern va l w len r2 hr2 hr.2
            refine ⟨c1, fun sm1 => ?_⟩
            rw [common_chan_loop, if_neg hq, if_neg ha, m3 sm1]
            simp only
            rw [m1, m2, c2 sm1]

theorem preprepOnce_sendbuf (w : World) (to_ : Nat) (from_ : CPtr) (pattern : Str)
    (va : List Arg) (len : Nat) :
    (preprepOnce w to_ from_ pattern va len).1.sendbuf = w.sendbuf := by
  unfold preprepOnce
  split <;> rfl

theorem butone_loop_idle (sm : SM) (one : Option Nat) (from_ : Nat) (lfrm : CPtr)
    (pattern : Str) (va : List Arg) (len1 : Nat) :
    ∀ (l : List Nat) (w : World) (len2 : Nat) (r : World × List Call),
      butone_loop sm one from_ lfrm pattern va len1 l w len2 = some r → r.2 = [] →
      r.1.sendbuf = w.sendbuf ∧
        ∀ sm1 : SM, butone_loop sm1 one from_ lfrm pattern va len1 l w len2 = some r
  | [], w, len2, r, h, _ => by
    rw [butone_loop] at h
    cases h
    exact ⟨rfl, fun _ => by rw [butone_loop]⟩
  | a :: l, w, len2, r, h, hr => by
    rw [butone_loop] at h
    split at h
    · rename_i hs
      obtain ⟨h1, h2⟩ := butone_loop_idle sm one from_ lfrm pattern va len1 l w len2 r h hr
      exact ⟨h1, fun sm1 => by rw [butone_loop, if_pos hs]; exact h2 sm1⟩
    · rename_i hs
      split at h
      · rename_i hu
        simp only at h
        split at h
        · split at h
          · cases h
          · split at h
            · cases h
            · cases h; cases hr
        · rename_i hf
          obtain ⟨h1, h2⟩ := butone_loop_idle sm one from_ lfrm pattern va len1 l _ _ r h hr
          refine ⟨by rw [h1]; exact preprepOnce_sendbuf _ _ _ _ _ _, fun sm1 => ?_⟩
          rw [butone_loop, if_neg hs, if_pos hu]
          simp only
          rw [if_neg hf]
          exact h2 sm1
      · split at h
        · cases h
        · split at h
          · cases h
          · cases h; cases hr

theorem butone_loop_idle_own (sm : SM) (one : Option Nat) (from_ : Nat) (lfrm : CPtr)
    (pattern : Str) (va : List Arg) (len1 : Nat) :
    ∀ (l : List Nat) (w : World) (len2 : Nat) (r : World × List Call),
      butone_loop sm one from_ lfrm pattern va len1 l w len2 = some r → r.2 = [] →
      ((w.cl from_).«from» = one ∨ IsMe (w.cl from_) = true ∨
        ¬ (MyConnect (w.cl from_) = true ∧ IsRegisteredUser (w.cl from_) = true)) →
      r.1 = w
  | [], w, len2, r, h, _, _ => by
    rw [butone_loop] at h
    cases h
    rfl
  | a :: l, w, len2, r, h, hr, hown => by
    rw [butone_loop] at h
    split at h
    · exact butone_loop_idle_own sm one from_ lfrm pattern va len1 l w len2 r h hr hown
    · rename_i hs
      split at h
      · rename_i hu
        simp only at h
        split at h
        · split at h
          · cases h
          · split at h
            · cases h
            · cases h; cases hr
        · rename_i hf
          exfalso
          have e : a = from_ := by
            by_contra hne
            exact hf hne
          subst e
          rcases hown with h1 | h1 | h1
          · exact hs (Or.inl h1)
          · exact hs (Or.inr h1)
          · exact h1 hu
      · split at h
        · cases h
        · split at h
          · cases h
          · cases h; cases hr

theorem sendto_channel_butserv_g_idle (sm sm1 : SM) (w : World) (chptr from_ : Nat)
    (pattern : Str) (va : List Arg) (r : Run)
    (h : sendto_channel_butserv_g sm w chptr from_ pattern va = some r) (he : r.echo = [])
    (hf : r.fan = []) :
    r.w = w ∧ sendto_channel_butserv_g sm1 w chptr from_ pattern va = some r := by
  unfold sendto_channel_butserv_g at h ⊢
  simp only at h ⊢
  split at h
  · exfalso
    split at h
    · cases h
    · split at h
      · cases h; cases he
      · simp only [Option.map_eq_some'] at h
        obtain ⟨r2, _, rfl⟩ := h
        cases he
  · rename_i hc
    rw [if_neg hc]
    simp only [Option.map_eq_some'] at h ⊢
    obtain ⟨r2, h2, rfl⟩ := h
    obtain ⟨h3, h4⟩ := butserv_loop_idle sm from_ _ pattern va _ w 0 r2 h2 hf
    exact ⟨h3, r2, h4 sm1, rfl⟩

theorem serv_run_idle (sm sm1 : SM) (one : Option Nat) (pick : aClient → Bool) (pattern : Str)
    (va : List Arg) (w : World) (f : World × List Call × Int → Run)
    (hfw : ∀ x, (f x).w = x.1) (hff : ∀ x, (f x).fan = x.2.1) (r : Run)
    (h : (serv_loop sm one pick pattern va (fdasIndices w) w 0 0).map f = some r)
    (hf : r.fan = []) :
    r.w = w ∧ (serv_loop sm1 one pick pattern va (fdasIndices w) w 0 0).map f = some r := by
  simp only [Option.map_eq_some'] at h ⊢
  obtain ⟨r2, h2, rfl⟩ := h
  rw [hff] at hf
  obtain ⟨h3, h4⟩ := serv_loop_idle sm one pick pattern va _ w 0 0 r2 h2 hf
  exact ⟨by rw [hfw]; exact h3, r2, h4 sm1, rfl⟩

theorem sendto_match_servs_g_idle (env : Env) (sm sm1 : SM) (w : World) (chptr : Option Nat)
    (from_ : Nat) (format : Str) (va : List Arg) (r : Run)
    (h : sendto_match_servs_g env sm w chptr from_ format va = some r) (hf : r.fan = []) :
    r.w = w ∧ sendto_match_servs_g env sm1 w chptr from_ format va = some r := by
  have key : ∀ mask : Option Str,
      (match_servs_loop env sm from_ mask format va (fdasIndices w) w 0).map
        (fun x => ({ w := x.1, echo := [], fan := x.2, rc := 0 } : Run)) = some r →
      r.w = w ∧ (match_servs_loop env sm1 from_ mask format va (fdasIndices w) w 0).map
        (fun x => ({ w := x.1, echo := [], fan := x.2, rc := 0 } : Run)) = some r := by
    intro mask hm
    simp only [Option.map_eq_some'] at hm ⊢
    obtain ⟨r2, h2, rfl⟩ := hm
    obtain ⟨h3, h4⟩ := match_servs_loop_idle env sm from_ mask format va _ w 0 r2 h2 hf
    exact ⟨h3, r2, h4 sm1, rfl⟩
  unfold sendto_match_servs_g at h ⊢
  simp only at h ⊢
  split at h
  · split at h
    · rename_i hc
      rw [if_pos hc]
      cases h
      exact ⟨rfl, rfl⟩
    · rename_i hc
      rw [if_neg hc]
      exact key _ h
  · exact key _ h

theorem sendto_common_channels_g_idle (sm sm1 : SM) (w : World) (user : Nat) (pattern : Str)
    (va : List Arg) (r : Run) (h : sendto_common_channels_g sm w user pattern va = some r)
    (he : r.echo = []) (hf : r.fan = []) :
    r.w.sendbuf = w.sendbuf ∧ r.w.psendbuf = w.psendbuf ∧
      sendto_common_channels_g sm1 w user pattern va = some r := by
  unfold sendto_common_channels_g at h ⊢
  split at h
  · rename_i hc
    rw [if_pos hc]
    unfold sendto_common_channels_fds at h ⊢
    simp only at h ⊢
    by_cases hm : MyConnect (w.cl user) = true
    · exfalso
      rw [if_pos hm] at h
      split at h
      · cases h
      · rename_i w1 len e heq
        simp only [Option.map_eq_some'] at heq h
        obtain ⟨x, _, hx⟩ := heq
        obtain ⟨r2, _, rfl⟩ := h
        cases hx
        cases he
    · rw [if_neg hm] at h ⊢
      simp only [Option.map_eq_some'] at h ⊢
      obtain ⟨r2, h2, rfl⟩ := h
      obtain ⟨h3, h4⟩ := common_fd_loop_idle sm user pattern va _ w 0 r2 h2 hf
      exact ⟨by rw [h3], by rw [h3], r2, h4 sm1, rfl⟩
  · rename_i hc
    rw [if_neg hc]
    unfold sendto_common_channels_chans at h ⊢
    simp only at h ⊢
    by_cases hm : MyConnect ((clearSent w).cl user) = true
    · exfalso
      rw [if_pos hm] at h
      split at h
      · cases h
      · rename_i w1 len e heq
        simp only [Option.map_eq_some'] at heq
        obtain ⟨x, _, hx⟩ := heq
        cases hx
        split at h
        · cases h; cases he
        · simp only [Option.map_eq_some'] at h
          obtain ⟨r2, _, rfl⟩ := h
          cases he
    · rw [if_neg hm] at h ⊢
      simp only at h ⊢
      split at h
      · rename_i hu
        cases h
        exact ⟨rfl, rfl, rfl⟩
      · rename_i u hu
        simp only [Option.map_eq_some'] at h ⊢
        obtain ⟨r2, h2, rfl⟩ := h
        obtain ⟨h3, h4⟩ := common_chan_loop_idle sm user pattern va _ _ 0 r2 h2 hf
        exact ⟨by rw [h3]; rfl, by rw [h3]; rfl, r2, h4 sm1, rfl⟩

theorem sendto_channel_butone_g_idle (sm sm1 : SM) (w : World) (one : Option Nat)
    (from_ chptr : Nat) (pattern : Str) (va : List Arg) (r : Run)
    (h : sendto_channel_butone_g sm w one from_ chptr pattern va = some r)
    (he : r.echo = []) (hf : r.fan = []) :
    r.w.sendbuf = (vsendprep w pattern va).1.sendbuf ∧
      sendto_channel_butone_g sm1 w one from_ chptr pattern va = some r ∧
      ((MyConnect (w.cl from_) = true → (w.cl from_).«from» = some from_) →
        r.w.psendbuf = w.psendbuf) := by
  unfold sendto_channel_butone_g at h ⊢
  simp only at h ⊢
  by_cases hd : (decide (one ≠ some from_) && MyConnect (w.cl from_) &&
      IsRegisteredUser (w.cl from_)) = true
  · exfalso
    rw [if_pos hd] at h
    split at h
    · cases h
    · rename_i w1 e heq
      simp only [Option.map_eq_some'] at heq h
      obtain ⟨x, _, hx⟩ := heq
      obtain ⟨r2, _, rfl⟩ := h
      cases hx
      cases he
  · rw [if_neg hd] at h ⊢
    simp only [Option.map_eq_some'] at h ⊢
    obtain ⟨r2, h2, rfl⟩ := h
    obtain ⟨h3, h4⟩ := butone_loop_idle sm one from_ _ pattern va _ _ _ 0 r2 h2 hf
    refine ⟨h3, ⟨r2, h4 sm1, rfl⟩, fun hown => ?_⟩
    have hw := butone_loop_idle_own sm one from_ _ pattern va _ _ _ 0 r2 h2 hf (by
      show ((vsendprep w pattern va).1.cl from_).«from» = one ∨
        IsMe ((vsendprep w pattern va).1.cl from_) = true ∨
        ¬ (MyConnect ((vsendprep w pattern va).1.cl from_) = true ∧
          IsRegisteredUser ((vsendprep w pattern va).1.cl from_) = true)
      have hcl : (vsendprep w pattern va).1.cl = w.cl := rfl
      rw [hcl]
      by_cases hm : MyConnect (w.cl from_) = true
      · by_cases hu : IsRegisteredUser (w.cl from_) = true
        · left
          have ho : one = some from_ := by
            by_contra hne
            exact hd (by simp [hne, hm, hu])
          rw [ho]; exact hown hm
        · exact Or.inr (Or.inr (fun hx => hu hx.2))
      · exact Or.inr (Or.inr (fun hx => hm hx.1)))
    show r2.1.psendbuf = w.psendbuf
    rw [hw]
    rfl

/-! ### The ident reply -/

theorem take_dash (r : Str) (n : Nat) : ('-' :: r.take (n - 1)).take n = ('-' :: r).take n := by
  cases n with
  | zero => rfl
  | succ m => simp [List.take_take]

theorem setCl_same (w : AuthWorld) (p : Nat) (c : AuthClient) : (w.setCl p c).cl p = c := by
  simp [AuthWorld.setCl]

theorem setCl_other (w : AuthWorld) (p q : Nat) (c : AuthClient) (h : q ≠ p) :
    (w.setCl p c).cl q = w.cl q := by
  simp [AuthWorld.setCl, Function.update_noteq h]

/-- The end of `read_authports` touches the record of its client only, and
never the flag of a dead socket. -/
theorem finish_authports_frame (k : AuthConf) (w : AuthWorld) (cptr remp locp : Nat)
    (system ruser : Str) :
    ((finish_authports k w cptr remp locp system ruser).cl cptr).dead = (w.cl cptr).dead ∧
    ∀ q, q ≠ cptr → (finish_authports k w cptr remp locp system ruser).cl q = w.cl q := by
  unfold finish_authports
  simp only
  split
  · exact ⟨by simp [AuthWorld.setCl], fun q hq => by simp [AuthWorld.setCl, Function.update_noteq hq]⟩
  · split
    · exact ⟨by simp [AuthWorld.setCl], fun q hq => by
        simp [AuthWorld.setCl, Function.update_noteq hq]⟩
    · split
      · split
        · exact ⟨by simp [AuthWorld.setCl], fun q hq => by
            simp [AuthWorld.setCl, Function.update_noteq hq]⟩
        · exact ⟨by simp [AuthWorld.setCl], fun q hq => by
            simp [AuthWorld.setCl, Function.update_noteq hq]⟩
      · exact ⟨by simp [AuthWorld.setCl], fun q hq => by
          simp [AuthWorld.setCl, Function.update_noteq hq]⟩

/-- The end of `read_authports` for a reply that is turned down. -/
theorem finish_authports_reject (k : AuthConf) (w : AuthWorld) (cptr remp locp : Nat)
    (system ruser : Str) (h : locp = 0 ∨ remp = 0 ∨ ruser = []) :
    ((finish_authports k w cptr remp locp system ruser).cl cptr).username
        = (w.cl cptr).username ∧
    ((finish_authports k w cptr remp locp system ruser).cl cptr).gotid = (w.cl cptr).gotid ∧
    ((finish_authports k w cptr remp locp system ruser).cl cptr).auth = (w.cl cptr).auth := by
  unfold finish_authports
  simp only [if_pos h]
  simp [AuthWorld.setCl]

/-- The end of `read_authports` for a reply that is taken. -/
theorem finish_authports_accept (k : AuthConf) (w : AuthWorld) (cptr remp locp : Nat)
    (system ruser : Str) (h1 : locp ≠ 0) (h2 : remp ≠ 0) (h3 : ruser ≠ []) :
    ((finish_authports k w cptr remp locp system ruser).cl cptr).username
        = (if isOther system then ('-' :: ruser).take k.USERLEN else ruser.take k.USERLEN) ∧
    ((finish_authports k w cptr remp locp system ruser).cl cptr).gotid = true := by
  unfold finish_authports
  have hn : ¬ (locp = 0 ∨ remp = 0 ∨ ruser = []) := by
    intro h; rcases h with h | h | h
    · exact h1 h
    · exact h2 h
    · exact h3 h
  simp only [if_neg hn]
  cases ho : isOther system
  · simp [AuthWorld.setCl]
  · simp only [Bool.not_true, Bool.false_eq_true, if_false, if_true, take_dash]
    split <;> simp [AuthWorld.setCl]

theorem afterRead_fields (k : AuthConf) (c : AuthClient) (rd : Option Str) :
    (afterRead k c rd).username = c.username ∧ (afterRead k c rd).gotid = c.gotid ∧
      (afterRead k c rd).dead = c.dead ∧ (afterRead k c rd).auth = c.auth := by
  cases rd <;> exact ⟨rfl, rfl, rfl, rfl⟩

/-- The ways `read_authports` ends: it waits for more, or it closes the query
with the fields of an accepted reply or with none. -/
theorem read_authports_cases (k : AuthConf) (sscanf : Str → Option (Nat × Nat)) (w : AuthWorld)
    (cptr : Nat) (rd : Option Str) (w1 : AuthWorld)
    (h : read_authports k sscanf w cptr rd = some w1) :
    ∃ c1 : AuthClient, c1.username = (w.cl cptr).username ∧ c1.gotid = (w.cl cptr).gotid ∧
      c1.dead = (w.cl cptr).dead ∧ c1.auth = (w.cl cptr).auth ∧
      (w1 = w.setCl cptr c1 ∨ w1 = finish_authports k (w.setCl cptr c1) cptr 0 0 [] [] ∨
        ∃ remp locp i system ruser,
          w1 = finish_authports k (w.setCl cptr c1) cptr remp locp system ruser ∧
          readLen k (w.cl cptr) rd > 0 ∧
          sscanf (replyText k w cptr rd) = some (remp, locp) ∧
          identFields (replyText k w cptr rd) = some (i, system, ruser)) := by
  obtain ⟨f1, f2, f3, f4⟩ := afterRead_fields k (w.cl cptr) rd
  unfold read_authports at h
  dsimp only at h
  split at h
  · rename_i hc
    split at h
    · rename_i remp locp e1
      split at h
      · rename_i i system ruser e2
        cases h
        refine ⟨{ afterRead k (w.cl cptr) rd with
            buffer := (afterRead k (w.cl cptr) rd).buffer.set i NUL }, f1, f2, f3, f4,
          Or.inr (Or.inr ⟨remp, locp, i, system, ruser, ?_, hc.1, e1, e2⟩)⟩
        congr 1
        simp [AuthWorld.setCl]
      · cases h
    · cases h
      unfold badReply
      split
      · exact ⟨_, f1, f2, f3, f4, Or.inl rfl⟩
      · exact ⟨_, f1, f2, f3, f4, Or.inr (Or.inl rfl)⟩
  · split at h
    · cases h
      unfold badReply
      split
      · exact ⟨_, f1, f2, f3, f4, Or.inl rfl⟩
      · exact ⟨_, f1, f2, f3, f4, Or.inr (Or.inl rfl)⟩
    · cases h
      exact ⟨_, f1, f2, f3, f4, Or.inr (Or.inl rfl)⟩

/-! ## The claims -/

/-- C1: whatever the pattern and the arguments, `vsendprep` and `vsendpreprep`
return `min n 510 + 2`, where `n` is the number of bytes of the rendering, and
leave at the start of their scratch buffer the first `min n 510` rendered
bytes followed by CR LF; so a prepared line never has more than 512 bytes, and
an over-long rendering is cut, not split.  For `vsendpreprep` the rendering is
the line it builds, a completed prefix included. -/
theorem prepared_line_is_truncated_rendering (w : World) (to_ : Nat) (from_ : CPtr)
    (pattern : Str) (va : List Arg) :
    ((vsendprep w pattern va).2 = min (vsprintf pattern va).length 510 + 2 ∧
      (vsendprep w pattern va).1.sendbuf.take (vsendprep w pattern va).2
        = (vsprintf pattern va).take (min (vsprintf pattern va).length 510) ++ ['\r', '\n'] ∧
      (vsendprep w pattern va).2 ≤ 512) ∧
    ((vsendpreprep w to_ from_ pattern va).2
        = min (preprepRender w to_ from_ pattern va).length 510 + 2 ∧
      (vsendpreprep w to_ from_ pattern va).1.psendbuf.take (vsendpreprep w to_ from_ pattern va).2
        = (preprepRender w to_ from_ pattern va).take
            (min (preprepRender w to_ from_ pattern va).length 510) ++ ['\r', '\n'] ∧
      (vsendpreprep w to_ from_ pattern va).2 ≤ 512) := by
  have h1 := vsendprep_spec w pattern va
  have h2 := vsendpreprep_spec w to_ from_ pattern va
  refine ⟨⟨h1.1, h1.2, ?_⟩, h2.1, h2.2, ?_⟩
  · rw [h1.1]; omega
  · rw [h2.1]; omega

/-- C2: for a local client `to`, a user `from` with non-empty username and
host, and a pattern that begins with ":%s": `sendto_prefix_one` hands to
`send_message` the line `vsendpreprep` has put in `psendbuf`, and that line is,
when the first argument equals the nickname of `from` under `mycmp`,
":nick!user@host" followed by the rendering of the rest of the pattern, cut at
510 bytes, and CR LF, the host being `sockhost` when `from` is locally
connected and the host of the user record otherwise; when the first argument
differs from the nickname, the prefix is ":" followed by that argument. -/
theorem sendto_prefix_one_line (env : Env) (fuel : Nat) (w : World)
    (to_ from_ : Nat) (rest par : Str) (va : List Arg) (u : anUser)
    (hto : MyClient (w.cl to_) = true) (hfrom : IsPerson (w.cl from_) = true)
    (hu : (w.cl from_).user = some u) (hname : u.username ≠ []) (hhost : u.host ≠ []) :
    sendto_prefix_one env fuel w to_ from_ (':' :: '%' :: 's' :: rest) (Arg.str par :: va)
      = (send_message env fuel
          (vsendpreprep w to_ (CPtr.reg from_) (':' :: '%' :: 's' :: rest) (Arg.str par :: va)).1
          to_ Buf.psendbuf
          (vsendpreprep w to_ (CPtr.reg from_) (':' :: '%' :: 's' :: rest)
            (Arg.str par :: va)).2).map (fun r => r.1) ∧
    (mycmp par (w.cl from_).name = 0 →
      (vsendpreprep w to_ (CPtr.reg from_) (':' :: '%' :: 's' :: rest) (Arg.str par :: va)).1.readBuf
          Buf.psendbuf
          (vsendpreprep w to_ (CPtr.reg from_) (':' :: '%' :: 's' :: rest) (Arg.str par :: va)).2
        = ((':' :: (w.cl from_).name) ++ ('!' :: u.username)
            ++ ('@' :: (if MyConnect (w.cl from_) then (w.cl from_).sockhost else u.host))
            ++ vsprintf rest va).take 510 ++ ['\r', '\n']) ∧
    (mycmp par (w.cl from_).name ≠ 0 →
      (vsendpreprep w to_ (CPtr.reg from_) (':' :: '%' :: 's' :: rest) (Arg.str par :: va)).1.readBuf
          Buf.psendbuf
          (vsendpreprep w to_ (CPtr.reg from_) (':' :: '%' :: 's' :: rest) (Arg.str par :: va)).2
        = ((':' :: par) ++ vsprintf rest va).take 510 ++ ['\r', '\n']) := by
  have hr : preprepRender w to_ (CPtr.reg from_) (':' :: '%' :: 's' :: rest) (Arg.str par :: va)
      = mkPrefix false (w.cl from_) par ++ vsprintf rest va := by
    simp [preprepRender, hto, hfrom, startsColonS, va_arg_str, World.deref]
  refine ⟨rfl, ?_, ?_⟩
  · intro hcmp
    rw [vsendpreprep_line, hr]
    congr 2
    by_cases hmc : MyConnect (w.cl from_) = true
    · simp [mkPrefix, hcmp, hu, hname, hhost, hmc]
    · simp [mkPrefix, hcmp, hu, hname, hhost, hmc]
  · intro hcmp
    rw [vsendpreprep_line, hr]
    simp [mkPrefix, hcmp]

/-- C2, on the scenario: `bob` is sent ":alice!~alice@host.local PRIVMSG #dev :hi". -/
theorem sendto_prefix_one_line_witness :
    MyClient (scenarioWorld.cl 2) = true ∧ IsPerson (scenarioWorld.cl 1) = true ∧
    (scenarioWorld.cl 1).user = some (mkUser "~alice" "host.local" "irc.example.") ∧
    (mkUser "~alice" "host.local" "irc.example.").username ≠ [] ∧
    (mkUser "~alice" "host.local" "irc.example.").host ≠ [] ∧
    (vsendpreprep scenarioWorld 2 (CPtr.reg 1) (':' :: '%' :: 's' :: " PRIVMSG %s :%s".toList)
        (Arg.str "alice".toList :: [Arg.str "#dev".toList, Arg.str "hi".toList])).1.readBuf
      Buf.psendbuf
      (vsendpreprep scenarioWorld 2 (CPtr.reg 1) (':' :: '%' :: 's' :: " PRIVMSG %s :%s".toList)
        (Arg.str "alice".toList :: [Arg.str "#dev".toList, Arg.str "hi".toList])).2
      = ":alice!~alice@host.local PRIVMSG #dev :hi\r\n".toList :=
  ⟨by decide, by decide, by decide, by decide, by decide,
    ((sendto_prefix_one_line scenarioEnv 1 scenarioWorld 2 1
      " PRIVMSG %s :%s".toList "alice".toList [Arg.str "#dev".toList, Arg.str "hi".toList]
      (mkUser "~alice" "host.local" "irc.example.") (by decide) (by decide) (by decide)
      (by decide) (by decide)).2.1 (by decide)).trans (by decide)⟩

/-- C9: when the effective link of the target (its `from` link if it has one,
else the target itself) is not the server's own record and is marked dead,
`send_message` returns 0 and leaves the whole state as it was: every queue,
`lastsq`, exit code and message counter, the class caps and `poolsize`. -/
theorem send_message_dead_link_is_noop (env : Env) (fuel : Nat) (w : World) (to_ : Nat)
    (msg : Buf) (len : Nat)
    (hme : IsMe (w.cl (effective w to_)) = false)
    (hdead : (w.cl (effective w to_)).dead = true) :
    send_message env (fuel + 1) w to_ msg len = some (w, 0) := by
  simp [send_message, send_message_body, hme, hdead]

/-- C9, on the scenario with `bob` dead. -/
theorem send_message_dead_link_is_noop_witness :
    IsMe (deadBobWorld.cl (effective deadBobWorld 2)) = false ∧
    (deadBobWorld.cl (effective deadBobWorld 2)).dead = true ∧
    send_message scenarioEnv 1 deadBobWorld 2 (Buf.mem "PING :x\r\n".toList) 9
      = some (deadBobWorld, 0) :=
  ⟨by decide, by decide,
    send_message_dead_link_is_noop scenarioEnv 0 deadBobWorld 2 _ 9 (by decide) (by decide)⟩

/-- C10 fails as stated: with a cap of 4 bytes and 4 bytes queued, a 9-byte
message is accepted; the call returns with the link alive (not in connect
burst) and 13 bytes in its queue, more than its cap. -/
theorem send_message_can_exceed_cap :
    ∃ r, send_message scenarioEnv 1 fullBobWorld 2 (Buf.mem "PING :x\r\n".toList) 9 = some r ∧
      ¬ ((r.1.cl 2).dead = true ∨ ((r.1.cl 2).sendQ.length : Int) ≤ get_sendq r.1 2) :=
  ⟨(send_message scenarioEnv 1 fullBobWorld 2 (Buf.mem "PING :x\r\n".toList) 9).getD
      (fullBobWorld, 0), rfl, by decide⟩

/-- C10, amended: for a link that is not in connect burst (and is not the
server's own record), when `send_message` returns the link is marked dead or
its send queue holds at most its SendQ cap plus `len` bytes: the cap is
compared with the queue before the message is appended. -/
theorem send_message_queue_within_cap_plus_len (env : Env) (fuel : Nat) (w : World)
    (to_ : Nat) (msg : Buf) (len : Nat) (r : World × Int)
    (hme : IsMe (w.cl (effective w to_)) = false)
    (hb : (w.cl (effective w to_)).cburst = false)
    (h : send_message env fuel w to_ msg len = some r) :
    (r.1.cl (effective w to_)).dead = true ∨
      ((r.1.cl (effective w to_)).sendQ.length : Int)
        ≤ get_sendq r.1 (effective w to_) + len := by
  cases fuel with
  | zero => simp [send_message] at h
  | succ n =>
    exact send_message_body_bound env _ (send_message_frame env n) _ w to_ msg len r hme hb h

/-- C10 amended, on the scenario with `bob` at his cap: the call returns, and
the queue is within the cap plus the 9 bytes of the message. -/
theorem send_message_queue_within_cap_plus_len_witness :
    IsMe (fullBobWorld.cl (effective fullBobWorld 2)) = false ∧
    (fullBobWorld.cl (effective fullBobWorld 2)).cburst = false ∧
    send_message scenarioEnv 1 fullBobWorld 2 (Buf.mem "PING :x\r\n".toList) 9
      = some ((send_message scenarioEnv 1 fullBobWorld 2 (Buf.mem "PING :x\r\n".toList) 9).getD
          (fullBobWorld, 0)) ∧
    ((((send_message scenarioEnv 1 fullBobWorld 2 (Buf.mem "PING :x\r\n".toList) 9).getD
          (fullBobWorld, 0)).1.cl (effective fullBobWorld 2)).dead = true ∨
      ((((send_message scenarioEnv 1 fullBobWorld 2 (Buf.mem "PING :x\r\n".toList) 9).getD
          (fullBobWorld, 0)).1.cl (effective fullBobWorld 2)).sendQ.length : Int)
        ≤ get_sendq ((send_message scenarioEnv 1 fullBobWorld 2
            (Buf.mem "PING :x\r\n".toList) 9).getD (fullBobWorld, 0)).1
            (effective fullBobWorld 2) + (9 : Nat)) :=
  ⟨by decide, by decide, rfl,
    send_message_queue_within_cap_plus_len scenarioEnv 1 fullBobWorld 2
      (Buf.mem "PING :x\r\n".toList) 9 _ (by decide) (by decide) (by rfl)⟩

/-- C5 fails as stated: with the remote client `carol` as origin, the link
`peer.example.` has the same introducing peer as the origin (itself), yet the
fan-out passes it the message. -/
theorem butone_remote_origin_side_not_skipped :
    ∃ r, sendto_channel_butone scenarioEnv 1 scenarioWorld (some 3) 3 0 privmsgPattern
        (privmsgArgs "carol") = some r ∧
      (scenarioWorld.cl 4).«from» = (scenarioWorld.cl 3).«from» ∧
      4 ∈ r.fan.map Prod.fst :=
  ⟨(sendto_channel_butone scenarioEnv 1 scenarioWorld (some 3) 3 0 privmsgPattern
      (privmsgArgs "carol")).getD (idleRun scenarioWorld), rfl, by decide, by decide⟩

/-- C5, amended: `sendto_channel_butone` returns whenever the calls of
`send_message` it makes do, and when it returns its fan-out has passed the
message, once for each occurrence on `clist` and in list order, to exactly
those links `m` that are not the server itself, whose `from` pointer differs
from `one`, and that are not the source as a locally connected registered
user; when `one` is a local link (its `from` pointer is itself) the test on
`m` is that its introducing peer differs from that of `one`. -/
theorem butone_fanout_selection (env : Env) (fuel : Nat) (w : World) (one : Option Nat)
    (from_ chptr : Nat) (pattern : Str) (va : List Arg) :
    (SMReturns (send_message env fuel) w →
      (sendto_channel_butone env fuel w one from_ chptr pattern va).isSome = true) ∧
    ∀ r, sendto_channel_butone env fuel w one from_ chptr pattern va = some r →
      r.fan.map Prod.fst = (w.ch chptr).clist.filter (fun m =>
        !(decide ((w.cl m).«from» = one) || IsMe (w.cl m)) &&
          !(MyConnect (w.cl m) && IsRegisteredUser (w.cl m) && decide (m = from_))) ∧
      (∀ o, one = some o → (w.cl o).«from» = some o →
        r.fan.map Prod.fst = (w.ch chptr).clist.filter (fun m =>
          !(decide ((w.cl m).«from» = (w.cl o).«from») || IsMe (w.cl m)) &&
            !(MyConnect (w.cl m) && IsRegisteredUser (w.cl m) && decide (m = from_)))) := by
  refine ⟨fun hret => sendto_channel_butone_g_returns _ (send_message_frame env fuel) w one
    from_ chptr pattern va hret, fun r h => ?_⟩
  have h1 := (sendto_channel_butone_g_targets _ (send_message_frame env fuel) w one from_
    chptr pattern va r h).1
  refine ⟨h1, ?_⟩
  intro o ho hoo
  rw [h1, hoo, ← ho]
  rfl

/-- C5 amended, on the scenario: a message of `alice` arriving on her own
link goes to `bob` and to `peer.example.`. -/
theorem butone_fanout_selection_witness :
    SMReturns (send_message scenarioEnv 1) scenarioWorld ∧
    (sendto_channel_butone scenarioEnv 1 scenarioWorld (some 1) 1 0 privmsgPattern
      (privmsgArgs "alice")).isSome = true ∧
    ∃ r, sendto_channel_butone scenarioEnv 1 scenarioWorld (some 1) 1 0 privmsgPattern
        (privmsgArgs "alice") = some r ∧ r.fan.map Prod.fst = [2, 4] :=
  ⟨scenario_send_message_returns,
    (butone_fanout_selection scenarioEnv 1 scenarioWorld (some 1) 1 0 privmsgPattern
      (privmsgArgs "alice")).1 scenario_send_message_returns,
    (sendto_channel_butone scenarioEnv 1 scenarioWorld (some 1) 1 0 privmsgPattern
      (privmsgArgs "alice")).getD (idleRun scenarioWorld), rfl,
    ((butone_fanout_selection scenarioEnv 1 scenarioWorld (some 1) 1 0 privmsgPattern
      (privmsgArgs "alice")).2 _ rfl).1.trans (by decide)⟩

/-- C6 fails as stated: for the remote source `carol`, reached through the
link `peer.example.`, both the fan-out of `sendto_channel_butone` called
without origin and the loop of `sendto_match_servs` pass the message to that
link. -/
theorem fanout_reaches_link_of_remote_source :
    (scenarioWorld.cl 3).«from» = some 4 ∧
    (∃ r, sendto_channel_butone scenarioEnv 1 scenarioWorld none 3 0 privmsgPattern
        (privmsgArgs "carol") = some r ∧ 4 ∈ r.fan.map Prod.fst) ∧
    (∃ r, sendto_match_servs scenarioEnv 1 scenarioWorld (some 0) 3 privmsgPattern
        (privmsgArgs "carol") = some r ∧ 4 ∈ r.fan.map Prod.fst) :=
  ⟨by decide,
    ⟨(sendto_channel_butone scenarioEnv 1 scenarioWorld none 3 0 privmsgPattern
      (privmsgArgs "carol")).getD (idleRun scenarioWorld), rfl, by decide⟩,
    ⟨(sendto_match_servs scenarioEnv 1 scenarioWorld (some 0) 3 privmsgPattern
      (privmsgArgs "carol")).getD (idleRun scenarioWorld), rfl, by decide⟩⟩

/-- C6, amended: when they return, the loops of `sendto_channel_butserv` and
`sendto_match_servs` have never passed `from` itself to `send_message`
(`sendto_channel_butserv` only passes local clients, and its only call for
`from` is the echo before the loop); the loop of `sendto_channel_butone` has
passed no link whose `from` pointer is `one`, and has not passed `from` when
`from` is a locally connected registered user or its `from` pointer is `one`. -/
theorem fanout_excludes_source (env : Env) (fuel : Nat) (w : World) (one : Option Nat)
    (from_ chptr : Nat) (mchptr : Option Nat) (pattern : Str) (va : List Arg) :
    (∀ r, sendto_channel_butserv env fuel w chptr from_ pattern va = some r →
      (∀ c ∈ r.fan, c.1 ≠ from_ ∧ MyClient (w.cl c.1) = true) ∧
      ∀ c ∈ r.echo, c.1 = from_) ∧
    (∀ r, sendto_match_servs env fuel w mchptr from_ pattern va = some r →
      r.echo = [] ∧ ∀ c ∈ r.fan, c.1 ≠ from_) ∧
    (∀ r, sendto_channel_butone env fuel w one from_ chptr pattern va = some r →
      (∀ c ∈ r.fan, (w.cl c.1).«from» ≠ one) ∧
      ((MyConnect (w.cl from_) = true ∧ IsRegisteredUser (w.cl from_) = true) ∨
          (w.cl from_).«from» = one → ∀ c ∈ r.fan, c.1 ≠ from_) ∧
      ∀ c ∈ r.echo, c.1 = from_) := by
  refine ⟨?_, ?_, ?_⟩
  · intro r h
    have ht := sendto_channel_butserv_g_targets _ (send_message_frame env fuel) w chptr from_
      pattern va r h
    refine ⟨?_, ?_⟩
    · intro c hc
      have hm : c.1 ∈ r.fan.map Prod.fst := List.mem_map_of_mem _ hc
      rw [ht.2] at hm
      split at hm
      · simp at hm
      · have := (List.mem_filter.mp hm).2
        simp only [Bool.and_eq_true, decide_eq_true_eq] at this
        exact ⟨this.2, this.1⟩
    · intro c hc
      rw [ht.1] at hc
      split at hc
      · simp only [List.mem_singleton] at hc
        rw [hc]
      · simp at hc
  · intro r h
    exact sendto_match_servs_g_not_from env _ w mchptr from_ pattern va r h
  · intro r h
    have ht := sendto_channel_butone_g_targets _ (send_message_frame env fuel) w one from_
      chptr pattern va r h
    have hsel : ∀ c ∈ r.fan, butoneSelects w one from_ c.1 = true := by
      intro c hc
      have hm : c.1 ∈ r.fan.map Prod.fst := List.mem_map_of_mem _ hc
      rw [ht.1] at hm
      exact (List.mem_filter.mp hm).2
    refine ⟨?_, ?_, ?_⟩
    · intro c hc
      have := hsel c hc
      simp only [butoneSelects, Bool.and_eq_true, Bool.not_eq_true', Bool.or_eq_false_iff,
        decide_eq_false_iff_not] at this
      exact this.1.1
    · intro hcase c hc hcf
      have := hsel c hc
      simp only [butoneSelects, Bool.and_eq_true, Bool.not_eq_true', Bool.or_eq_false_iff,
        decide_eq_false_iff_not, Bool.and_eq_false_iff] at this
      rcases hcase with ⟨h1, h2⟩ | h3
      · rw [hcf] at this
        rcases this.2 with (h | h) | h
        · rw [h1] at h; exact Bool.noConfusion h
        · rw [h2] at h; exact Bool.noConfusion h
        · exact h rfl
      · rw [hcf] at this
        exact this.1.1 h3
    · intro c hc
      have hm : c.1 ∈ r.echo.map Prod.fst := List.mem_map_of_mem _ hc
      rw [ht.2] at hm
      split at hm
      · simpa using hm
      · simp at hm

/-- C6 amended, on the scenario: the three calls for `alice` return, and
`alice` receives only the echo of `sendto_channel_butserv`. -/
theorem fanout_excludes_source_witness :
    (∃ r, sendto_channel_butserv scenarioEnv 1 scenarioWorld 0 1 privmsgPattern
        (privmsgArgs "alice") = some r ∧ (∀ c ∈ r.fan, c.1 ≠ 1 ∧
          MyClient (scenarioWorld.cl c.1) = true) ∧ r.echo.map Prod.fst = [1]) ∧
    (∃ r, sendto_match_servs scenarioEnv 1 scenarioWorld (some 0) 1 privmsgPattern
        (privmsgArgs "alice") = some r ∧ ∀ c ∈ r.fan, c.1 ≠ 1) ∧
    (∃ r, sendto_channel_butone scenarioEnv 1 scenarioWorld (some 1) 1 0 privmsgPattern
        (privmsgArgs "alice") = some r ∧ ∀ c ∈ r.fan, c.1 ≠ 1) :=
  ⟨⟨(sendto_channel_butserv scenarioEnv 1 scenarioWorld 0 1 privmsgPattern
        (privmsgArgs "alice")).getD (idleRun scenarioWorld), rfl,
      ((fanout_excludes_source scenarioEnv 1 scenarioWorld (some 1) 1 0 (some 0) privmsgPattern
        (privmsgArgs "alice")).1 _ rfl).1, by decide⟩,
    ⟨(sendto_match_servs scenarioEnv 1 scenarioWorld (some 0) 1 privmsgPattern
        (privmsgArgs "alice")).getD (idleRun scenarioWorld), rfl,
      ((fanout_excludes_source scenarioEnv 1 scenarioWorld (some 1) 1 0 (some 0) privmsgPattern
        (privmsgArgs "alice")).2.1 _ rfl).2⟩,
    ⟨(sendto_channel_butone scenarioEnv 1 scenarioWorld (some 1) 1 0 privmsgPattern
        (privmsgArgs "alice")).getD (idleRun scenarioWorld), rfl,
      ((fanout_excludes_source scenarioEnv 1 scenarioWorld (some 1) 1 0 (some 0) privmsgPattern
        (privmsgArgs "alice")).2.2 _ rfl).2.1 (Or.inl ⟨by decide, by decide⟩)⟩⟩

/-- C7 on a failing input: on the anonymous `#dev` of `droppedPeerWorld`,
`bob` is sent the anonymous line, but the send to `peer.example.` finds its
queue over the cap, the diagnostic for `&ERRORS` is prepared in `psendbuf`
while the loop is under way, and `dave` is then sent the first 50 bytes of
that diagnostic instead of the anonymous line. -/
theorem butone_anonymous_line_clobbered :
    (sendto_channel_butone scenarioEnv 2 droppedPeerWorld (some 1) 1 0 privmsgPattern
        (privmsgArgs "alice")).map
      (fun r => (r.fan.map Prod.fst, (r.w.cl 2).sendQ, (r.w.cl 5).sendQ, (r.w.cl 4).dead))
      = some ([2, 4, 5],
          ":anonymous!anonymous@anonymous. PRIVMSG #dev :hi\r\n".toList,
          ":irc.example. NOTICE &ERRORS :Max SendQ limit exce".toList, true) := by
  decide

/-- C8 fails as stated: on the quiet `#dev`, a message whose source is the
server itself is passed to the local members `alice` and `bob`. -/
theorem butserv_quiet_fans_out_for_server_source :
    (quietWorld.ch 0).quiet = true ∧
    ∃ r, sendto_channel_butserv scenarioEnv 1 quietWorld 0 0 privmsgPattern
        (privmsgArgs "irc.example.") = some r ∧ r.fan.map Prod.fst = [1, 2] :=
  ⟨by decide, (sendto_channel_butserv scenarioEnv 1 quietWorld 0 0 privmsgPattern
      (privmsgArgs "irc.example.")).getD (idleRun quietWorld), rfl, by decide⟩

/-- C8, amended: on a quiet channel, when the source is a local client
`sendto_channel_butserv` makes one call of `send_message`, the echo to the
source, and returns as soon as that call does; when the source is not a local
client (a remote client, a server, the server itself) the quiet mode is not
consulted: there is no echo, and every local client on `clist` other than the
source is passed the message. -/
theorem butserv_quiet_rule (env : Env) (fuel : Nat) (w : World) (chptr from_ : Nat)
    (pattern : Str) (va : List Arg) (hq : (w.ch chptr).quiet = true) :
    (MyClient (w.cl from_) = true →
      ((send_message env fuel (vsendpreprep w from_ (CPtr.reg from_) pattern va).1 from_
          Buf.psendbuf (vsendpreprep w from_ (CPtr.reg from_) pattern va).2).isSome = true →
        (sendto_channel_butserv env fuel w chptr from_ pattern va).isSome = true) ∧
      ∀ r, sendto_channel_butserv env fuel w chptr from_ pattern va = some r →
        r.echo = [(from_, (vsendpreprep w from_ (CPtr.reg from_) pattern va).1.readBuf
          Buf.psendbuf (vsendpreprep w from_ (CPtr.reg from_) pattern va).2)] ∧
        r.fan = []) ∧
    (MyClient (w.cl from_) = false →
      ∀ r, sendto_channel_butserv env fuel w chptr from_ pattern va = some r →
        r.echo = [] ∧
        r.fan.map Prod.fst
          = (w.ch chptr).clist.filter (fun a => MyClient (w.cl a) && decide (a ≠ from_))) := by
  refine ⟨fun hmc => ⟨?_, ?_⟩, fun hmc => ?_⟩
  · intro hs
    obtain ⟨r1, hr1⟩ := Option.isSome_iff_exists.mp hs
    have f1 : Frame w r1.1 :=
      (frame_vsendpreprep _ _ _ _ _).trans (send_message_frame env fuel _ _ _ _ _ hr1)
    simp [sendto_channel_butserv, sendto_channel_butserv_g, hmc, hr1, f1.ch, hq]
  · intro r h
    have ht := sendto_channel_butserv_g_targets _ (send_message_frame env fuel) w chptr from_
      pattern va r h
    rw [if_pos hmc] at ht
    rw [if_pos ⟨hmc, hq⟩] at ht
    exact ⟨ht.1, List.map_eq_nil_iff.mp ht.2⟩
  · intro r h
    have ht := sendto_channel_butserv_g_targets _ (send_message_frame env fuel) w chptr from_
      pattern va r h
    rw [if_neg (by simp [hmc])] at ht
    rw [if_neg (by simp [hmc])] at ht
    exact ht

/-- C8 amended, on the quiet `#dev`: a message of `alice` is echoed to her
and goes to nobody else. -/
theorem butserv_quiet_rule_witness :
    (quietWorld.ch 0).quiet = true ∧ MyClient (quietWorld.cl 1) = true ∧
    ∃ r, sendto_channel_butserv scenarioEnv 1 quietWorld 0 1 privmsgPattern
        (privmsgArgs "alice") = some r ∧
      r.echo = [(1, ":alice!~alice@host.local PRIVMSG #dev :hi\r\n".toList)] ∧ r.fan = [] :=
  ⟨by decide, by decide,
    (sendto_channel_butserv scenarioEnv 1 quietWorld 0 1 privmsgPattern
      (privmsgArgs "alice")).getD (idleRun quietWorld), rfl,
    (((butserv_quiet_rule scenarioEnv 1 quietWorld 0 1 privmsgPattern (privmsgArgs "alice")
      (by decide)).1 (by decide)).2 _ rfl).1.trans (by decide),
    (((butserv_quiet_rule scenarioEnv 1 quietWorld 0 1 privmsgPattern (privmsgArgs "alice")
      (by decide)).1 (by decide)).2 _ rfl).2⟩

/-- C3: in a state that satisfies the registry invariants for `user`, each
of the two parts of `sendto_common_channels` (the scan of `local[]` and the
scan of the channel lists with `sentalong`) returns whenever the calls of
`send_message` it makes do, and whenever both return they have made the same
echo call, and their calls to the peers are a permutation of each other: the
same targets, each the same number of times, each with the same bytes. -/
theorem common_channels_parts_agree (env : Env) (fuel : Nat) (w : World) (user : Nat)
    (pattern : Str) (va : List Arg) (hok : RegistryOK w user) :
    (SMReturns (send_message env fuel) w →
      (sendto_common_channels_fds (send_message env fuel) w user pattern va).isSome = true ∧
      (sendto_common_channels_chans (send_message env fuel) w user pattern va).isSome
        = true) ∧
    ∀ r1 r2,
      sendto_common_channels_fds (send_message env fuel) w user pattern va = some r1 →
      sendto_common_channels_chans (send_message env fuel) w user pattern va = some r2 →
        r1.echo = r2.echo ∧ List.Perm r1.fan r2.fan := by
  refine ⟨fun hret => ⟨?_, ?_⟩, fun r1 r2 h1 h2 => ?_⟩
  · exact sendto_common_channels_fds_returns _ (send_message_frame env fuel) w user pattern
      va hret
  · exact sendto_common_channels_chans_returns _ (send_message_frame env fuel) w user pattern
      va hret
  · obtain ⟨e1, f1⟩ := sendto_common_channels_fds_spec _ (send_message_frame env fuel)
      (send_message_keeps env fuel) w user pattern va hok r1 h1
    obtain ⟨e2, T, f2, nd2, m2⟩ := sendto_common_channels_chans_spec _
      (send_message_frame env fuel) (send_message_keeps env fuel) w user pattern va hok r2 h2
    obtain ⟨nd1, m1⟩ := fdPeer_peers w user hok
    refine ⟨e1.trans e2.symm, ?_⟩
    rw [f1, f2]
    exact List.Perm.map _
      ((List.perm_ext_iff_of_nodup nd1 nd2).mpr (fun c => (m1 c).trans (m2 c).symm))

/-- C3, on the scenario: both parts return for a message of `alice`, with the
echo to `alice` and one call for `bob`. -/
theorem common_channels_parts_agree_witness :
    RegistryOK scenarioWorld 1 ∧ SMReturns (send_message scenarioEnv 1) scenarioWorld ∧
    ∃ r1 r2,
      sendto_common_channels_fds (send_message scenarioEnv 1) scenarioWorld 1 privmsgPattern
        (privmsgArgs "alice") = some r1 ∧
      sendto_common_channels_chans (send_message scenarioEnv 1) scenarioWorld 1 privmsgPattern
        (privmsgArgs "alice") = some r2 ∧
      r1.echo = r2.echo ∧ List.Perm r1.fan r2.fan ∧ r1.fan.map Prod.fst = [2] :=
  ⟨scenario_registry_ok, scenario_send_message_returns,
    (sendto_common_channels_fds (send_message scenarioEnv 1) scenarioWorld 1 privmsgPattern
      (privmsgArgs "alice")).getD (idleRun scenarioWorld),
    (sendto_common_channels_chans (send_message scenarioEnv 1) scenarioWorld 1 privmsgPattern
      (privmsgArgs "alice")).getD (idleRun scenarioWorld), rfl, rfl,
    ((common_channels_parts_agree scenarioEnv 1 scenarioWorld 1 privmsgPattern
      (privmsgArgs "alice") scenario_registry_ok).2 _ _ rfl rfl).1,
    ((common_channels_parts_agree scenarioEnv 1 scenarioWorld 1 privmsgPattern
      (privmsgArgs "alice") scenario_registry_ok).2 _ _ rfl rfl).2, by decide⟩

/-- C4: in a state that satisfies the registry invariants for `user`,
`sendto_common_channels` returns whenever the calls of `send_message` it makes
do, and when it returns it has called `send_message` once for `user` itself if
`user` is locally connected and not at all otherwise, and, in its loop,
exactly once for each locally connected peer other than `user` that is on a
channel of `user` that is neither quiet nor anonymous, and for nobody else. -/
theorem common_channels_each_peer_once (env : Env) (fuel : Nat) (w : World) (user : Nat)
    (pattern : Str) (va : List Arg) (hok : RegistryOK w user) :
    (SMReturns (send_message env fuel) w →
      (sendto_common_channels env fuel w user pattern va).isSome = true) ∧
    ∀ r, sendto_common_channels env fuel w user pattern va = some r →
      r.echo.map Prod.fst = (if MyConnect (w.cl user) = true then [user] else []) ∧
      (r.fan.map Prod.fst).Nodup ∧
      (∀ c, c ∈ r.fan.map Prod.fst ↔ CommonPeer w user c) ∧
      user ∉ r.fan.map Prod.fst := by
  refine ⟨fun hret => sendto_common_channels_g_returns _ (send_message_frame env fuel) w user
    pattern va hret, fun r h => ?_⟩
  have key : r.echo = (if MyConnect (w.cl user) = true then
        [(user, commonLine w user user pattern va)] else []) ∧
      ∃ T : List Nat, r.fan = T.map (fun c => (c, commonLine w c user pattern va)) ∧ T.Nodup ∧
        ∀ c, c ∈ T ↔ CommonPeer w user c := by
    unfold sendto_common_channels sendto_common_channels_g at h
    split at h
    · obtain ⟨e1, f1⟩ := sendto_common_channels_fds_spec _ (send_message_frame env fuel)
        (send_message_keeps env fuel) w user pattern va hok r h
      obtain ⟨nd1, m1⟩ := fdPeer_peers w user hok
      exact ⟨e1, _, f1, nd1, m1⟩
    · exact sendto_common_channels_chans_spec _ (send_message_frame env fuel)
        (send_message_keeps env fuel) w user pattern va hok r h
  obtain ⟨e, T, f, nd, m⟩ := key
  have hT : r.fan.map Prod.fst = T := by
    rw [f, List.map_map]
    exact List.map_id'' (fun _ => rfl) T
  rw [hT]
  refine ⟨?_, nd, m, fun hu => ((m user).mp hu).1 rfl⟩
  rw [e]
  split <;> rfl

/-- C4, on the scenario: for a message of `alice` the call returns, with one
call for `alice` and one for `bob`. -/
theorem common_channels_each_peer_once_witness :
    RegistryOK scenarioWorld 1 ∧ SMReturns (send_message scenarioEnv 1) scenarioWorld ∧
    ∃ r, sendto_common_channels scenarioEnv 1 scenarioWorld 1 privmsgPattern
        (privmsgArgs "alice") = some r ∧
      r.echo.map Prod.fst = [1] ∧ r.fan.map Prod.fst = [2] ∧
      (∀ c, c ∈ r.fan.map Prod.fst ↔ CommonPeer scenarioWorld 1 c) :=
  ⟨scenario_registry_ok, scenario_send_message_returns,
    (sendto_common_channels scenarioEnv 1 scenarioWorld 1 privmsgPattern
      (privmsgArgs "alice")).getD (idleRun scenarioWorld), rfl, by decide, by decide,
    ((common_channels_each_peer_once scenarioEnv 1 scenarioWorld 1 privmsgPattern
      (privmsgArgs "alice") scenario_registry_ok).2 _ rfl).2.2.1⟩

/-- C11 fails as stated: the server link `peer.example.`, over its cap and not
in connect burst, is marked CLOSING; the call returns -1 and kills the link,
but no diagnostic is prepared and the queue of the operator on `&ERRORS` stays
empty, while for the same link not marked CLOSING the operator is sent the
diagnostic. -/
theorem send_message_over_cap_closing_posts_nothing :
    IsServer (closingPeerWorld.cl 4) = true ∧ (closingPeerWorld.cl 4).cburst = false ∧
    ((closingPeerWorld.cl 4).sendQ.length : Int) > get_sendq closingPeerWorld 4 ∧
    (send_message scenarioEnv 2 closingPeerWorld 4 (Buf.mem "PING :x\r\n".toList) 9).map
        (fun r => (r.2, (r.1.cl 4).dead, (r.1.cl 6).sendQ, r.1.psendbuf))
      = some (-1, true, [], []) ∧
    (send_message scenarioEnv 2 droppedPeerWorld 4 (Buf.mem "PING :x\r\n".toList) 9).map
        (fun r => (r.2, (r.1.cl 4).dead, (r.1.cl 6).sendQ))
      = some (-1, true, (":irc.example. NOTICE &ERRORS :Max SendQ limit exceeded for " ++
          "peer.example.: 5 > 4\r\n").toList) := by
  decide

/-- C11, amended: for a live link (other than the server's own record) that
is not in connect burst and whose send queue is longer than its cap,
`send_message` returns whenever the one call of `sendto_flag` it may make does,
and when it returns the result is -1, the link is marked dead, its receive and
send queues are empty (so the message was not queued) and its exit code is
SENDQ.  For a server or service link that is not marked CLOSING what the call
does besides is exactly one call of `sendto_flag` for `&ERRORS`, made after
the queues were cleared, with the text "Max SendQ limit exceeded for NAME: L >
C" made of the name, the queue length and the cap read before the queues were
cleared; the text is used as the format of the notice, and is posted as it is
when NAME contains no '%'.  For a server or service link marked CLOSING
nothing is posted. -/
theorem send_message_over_cap_kills (env : Env) (fuel : Nat) (w : World) (to_ : Nat)
    (msg : Buf) (len : Nat) (hme : IsMe (w.cl (effective w to_)) = false)
    (hdead : (w.cl (effective w to_)).dead = false)
    (hb : (w.cl (effective w to_)).cburst = false)
    (hover : ((w.cl (effective w to_)).sendQ.length : Int) > get_sendq w (effective w to_)) :
    ((∀ notice, (sendto_flag env fuel (overCapState w (effective w to_)) SChanId.SCH_ERROR notice
        [Arg.str (env.get_client_name (overCapState w (effective w to_)) (effective w to_))]).isSome
          = true) →
      (send_message env (fuel + 1) w to_ msg len).isSome = true) ∧
    (∀ va, '%' ∉ env.get_client_name w (effective w to_) →
      vsprintf (maxSendqText (env.get_client_name w (effective w to_))
          (w.cl (effective w to_)).sendQ.length (get_sendq w (effective w to_))) va
        = maxSendqText (env.get_client_name w (effective w to_))
          (w.cl (effective w to_)).sendQ.length (get_sendq w (effective w to_))) ∧
    ∀ r, send_message env (fuel + 1) w to_ msg len = some r →
      r.2 = -1 ∧ (r.1.cl (effective w to_)).dead = true ∧
      (r.1.cl (effective w to_)).recvQ = [] ∧ (r.1.cl (effective w to_)).sendQ = [] ∧
      (r.1.cl (effective w to_)).exitc = ExitCode.SENDQ ∧
      (IsService (w.cl (effective w to_)) = true ∨ IsServer (w.cl (effective w to_)) = true →
        if (w.cl (effective w to_)).closing = false then
          sendto_flag env fuel (overCapState w (effective w to_)) SChanId.SCH_ERROR
            (maxSendqText (env.get_client_name w (effective w to_))
              (w.cl (effective w to_)).sendQ.length (get_sendq w (effective w to_)))
            [Arg.str (env.get_client_name (overCapState w (effective w to_)) (effective w to_))]
            = some r.1
        else r.1 = overCapState w (effective w to_)) := by
  have hred := send_message_over_cap env fuel w to_ msg len hme hdead hb hover
  have hc := dead_link_g_contract env (send_message env fuel)
    (setExitc w (effective w to_) ExitCode.SENDQ) (effective w to_)
    (if IsService (w.cl (effective w to_)) = true ∨ IsServer (w.cl (effective w to_)) = true
      then maxSendqText (env.get_client_name w (effective w to_))
        (w.cl (effective w to_)).sendQ.length (get_sendq w (effective w to_))
      else "Max Sendq exceeded".toList)
    (fun w t1 msg len r h => send_message_gone env _ fuel w t1 msg len r h)
  obtain ⟨e1, e2, e3, e4⟩ := setExitc_cl w (effective w to_) ExitCode.SENDQ
  refine ⟨fun hs => ?_, fun va hp => maxSendqText_plain _ _ _ va hp, fun r h => ?_⟩
  · rw [hred]
    exact hc.1 (hs _)
  · rw [hred] at h
    obtain ⟨h1, h2, h3, h4, h5, h6⟩ := hc.2 r h
    refine ⟨h1, h2, h3, h4, h5.trans e1, fun hsv => ?_⟩
    have hnp : IsPerson (w.cl (effective w to_)) = false ∧
        IsUnknown (w.cl (effective w to_)) = false := by
      rcases hsv with hs | hs
      · simp only [IsService, decide_eq_true_eq] at hs
        simp [IsPerson, IsUnknown, IsClient, hs]
      · simp only [IsServer, decide_eq_true_eq] at hs
        simp [IsPerson, IsUnknown, IsClient, hs]
    rw [e2, e3, e4, if_pos hsv] at h6
    by_cases hcl : (w.cl (effective w to_)).closing = false
    · rw [if_pos hcl]
      rw [if_pos ⟨hnp.1, hnp.2, hcl⟩] at h6
      exact h6
    · rw [if_neg hcl]
      rw [if_neg (fun h => hcl h.2.2)] at h6
      exact h6

/-- C11 amended, on the second scenario: the link `peer.example.` has 5 bytes
queued against a cap of 4; the call returns -1, the link is dead with empty
queues and exit code SENDQ, and the operator on `&ERRORS` is sent the one
diagnostic "Max SendQ limit exceeded for peer.example.: 5 > 4". -/
theorem send_message_over_cap_kills_witness :
    IsMe (droppedPeerWorld.cl (effective droppedPeerWorld 4)) = false ∧
    (droppedPeerWorld.cl (effective droppedPeerWorld 4)).dead = false ∧
    (droppedPeerWorld.cl (effective droppedPeerWorld 4)).cburst = false ∧
    ((droppedPeerWorld.cl (effective droppedPeerWorld 4)).sendQ.length : Int)
      > get_sendq droppedPeerWorld (effective droppedPeerWorld 4) ∧
    ∃ r, send_message scenarioEnv 2 droppedPeerWorld 4 (Buf.mem "PING :x\r\n".toList) 9
        = some r ∧
      r.2 = -1 ∧ (r.1.cl 4).dead = true ∧ (r.1.cl 4).recvQ = [] ∧ (r.1.cl 4).sendQ = [] ∧
      (r.1.cl 4).exitc = ExitCode.SENDQ ∧
      (r.1.cl 6).sendQ = (":irc.example. NOTICE &ERRORS :Max SendQ limit exceeded for " ++
          "peer.example.: 5 > 4\r\n").toList :=
  ⟨by decide, by decide, by decide, by decide,
    (send_message scenarioEnv 2 droppedPeerWorld 4 (Buf.mem "PING :x\r\n".toList) 9).getD
      (droppedPeerWorld, 0), rfl,
    ((send_message_over_cap_kills scenarioEnv 1 droppedPeerWorld 4 (Buf.mem "PING :x\r\n".toList)
      9 (by decide) (by decide) (by decide) (by decide)).2.2 _ rfl).1,
    ((send_message_over_cap_kills scenarioEnv 1 droppedPeerWorld 4 (Buf.mem "PING :x\r\n".toList)
      9 (by decide) (by decide) (by decide) (by decide)).2.2 _ rfl).2.1,
    ((send_message_over_cap_kills scenarioEnv 1 droppedPeerWorld 4 (Buf.mem "PING :x\r\n".toList)
      9 (by decide) (by decide) (by decide) (by decide)).2.2 _ rfl).2.2.1,
    ((send_message_over_cap_kills scenarioEnv 1 droppedPeerWorld 4 (Buf.mem "PING :x\r\n".toList)
      9 (by decide) (by decide) (by decide) (by decide)).2.2 _ rfl).2.2.2.1,
    ((send_message_over_cap_kills scenarioEnv 1 droppedPeerWorld 4 (Buf.mem "PING :x\r\n".toList)
      9 (by decide) (by decide) (by decide) (by decide)).2.2 _ rfl).2.2.2.2.1, by decide⟩

/-- C15: `dead_link` returns whenever the one call of `sendto_flag` it may
make does, and when it returns the result is -1, the link is marked dead and
its receive and send queues are empty (its exit code is the one it had).  When
the link is neither a person, nor unknown, nor marked CLOSING, what
`dead_link` does after marking and clearing is exactly one call of
`sendto_flag` for `&ERRORS` with the notice and the name of the link, made in
the state in which the link is already dead with both queues empty; otherwise
nothing is posted: the state it leaves is the one right after marking and
clearing. -/
theorem dead_link_marks_clears_then_posts (env : Env) (fuel : Nat) (w : World) (to_ : Nat)
    (notice : Str) :
    ((sendto_flag env fuel (setDeadAndClear w to_) SChanId.SCH_ERROR notice
        [Arg.str (env.get_client_name (setDeadAndClear w to_) to_)]).isSome = true →
      (dead_link env fuel w to_ notice).isSome = true) ∧
    (((setDeadAndClear w to_).cl to_).dead = true ∧ ((setDeadAndClear w to_).cl to_).recvQ = [] ∧
      ((setDeadAndClear w to_).cl to_).sendQ = []) ∧
    ∀ r, dead_link env fuel w to_ notice = some r →
      r.2 = -1 ∧ (r.1.cl to_).dead = true ∧ (r.1.cl to_).recvQ = [] ∧ (r.1.cl to_).sendQ = [] ∧
      (r.1.cl to_).exitc = (w.cl to_).exitc ∧
      (if IsPerson (w.cl to_) = false ∧ IsUnknown (w.cl to_) = false ∧
          (w.cl to_).closing = false then
        sendto_flag env fuel (setDeadAndClear w to_) SChanId.SCH_ERROR notice
          [Arg.str (env.get_client_name (setDeadAndClear w to_) to_)] = some r.1
      else r.1 = setDeadAndClear w to_) := by
  have h := dead_link_g_contract env (send_message env fuel) w to_ notice
    (fun w t1 msg len r h => send_message_gone env to_ fuel w t1 msg len r h)
  have c := setDeadAndClear_cl w to_
  exact ⟨h.1, ⟨c.1, c.2.1, c.2.2.1⟩, h.2⟩

/-- C15, on the second scenario: for the server link `peer.example.` the call
returns -1, the link is dead with empty queues, and the operator on `&ERRORS`
has the one diagnostic in his queue; for the person `bob` the call returns
and nothing is posted. -/
theorem dead_link_marks_clears_then_posts_witness :
    (∃ r, dead_link scenarioEnv 1 droppedPeerWorld 4 "Write error to %s, closing link".toList
        = some r ∧ r.2 = -1 ∧ (r.1.cl 4).dead = true ∧ (r.1.cl 4).recvQ = [] ∧
      (r.1.cl 4).sendQ = [] ∧
      (r.1.cl 6).sendQ
        = ":irc.example. NOTICE &ERRORS :Write error to peer.example., closing link\r\n".toList) ∧
    (∃ r, dead_link scenarioEnv 1 droppedPeerWorld 2 "Write error to %s, closing link".toList
        = some r ∧ r.1 = setDeadAndClear droppedPeerWorld 2) :=
  ⟨⟨(dead_link scenarioEnv 1 droppedPeerWorld 4 "Write error to %s, closing link".toList).getD
      (droppedPeerWorld, 0), rfl,
    ((dead_link_marks_clears_then_posts scenarioEnv 1 droppedPeerWorld 4
      "Write error to %s, closing link".toList).2.2 _ rfl).1,
    ((dead_link_marks_clears_then_posts scenarioEnv 1 droppedPeerWorld 4
      "Write error to %s, closing link".toList).2.2 _ rfl).2.1,
    ((dead_link_marks_clears_then_posts scenarioEnv 1 droppedPeerWorld 4
      "Write error to %s, closing link".toList).2.2 _ rfl).2.2.1,
    ((dead_link_marks_clears_then_posts scenarioEnv 1 droppedPeerWorld 4
      "Write error to %s, closing link".toList).2.2 _ rfl).2.2.2.1, by decide⟩,
   ⟨(dead_link scenarioEnv 1 droppedPeerWorld 2 "Write error to %s, closing link".toList).getD
      (droppedPeerWorld, 0), rfl,
    ((dead_link_marks_clears_then_posts scenarioEnv 1 droppedPeerWorld 2
      "Write error to %s, closing link".toList).2.2 _ rfl).2.2.2.2.2⟩⟩

/-- C13: for a live link whose socket reports no error, each write result
lying between 0 and the number of bytes offered (and `dbuf_map` offering a
non-empty head of the queue), `send_queued` returns 0 once it is allowed more
iterations than the queue has bytes; the bytes the socket accepted, in the
order of the writes, followed by the bytes left in the send queue are the send
queue before the call; every write but the last took all it was offered, so
the loop stops at the first short write; and `lastsq` is the length of what is
left divided by 1024, provided a write was attempted (the queue was not empty)
or `lastsq` was up to date before the call. -/
theorem send_queued_conserves_bytes (env : Env) (fuel : Nat) (w : World) (to_ : Nat)
    (hmap : ∀ w : World, (w.cl to_).sendQ ≠ [] →
      0 < env.dbuf_map w to_ ∧ env.dbuf_map w to_ ≤ (w.cl to_).sendQ.length)
    (hdel : ∀ (w : World) (m : List Char),
      0 ≤ env.deliver_it w to_ m ∧ env.deliver_it w to_ m ≤ (m.length : Int))
    (hlive : (w.cl to_).dead = false) (hfuel : (w.cl to_).sendQ.length < fuel) :
    ∃ w1, send_queued env fuel w to_ = some (w1, 0) ∧
      wireBytes (send_queued_writes env to_ fuel w) ++ (w1.cl to_).sendQ = (w.cl to_).sendQ ∧
      stopsAtShort (send_queued_writes env to_ fuel w) = true ∧
      (w1.cl to_).dead = false ∧
      ((w.cl to_).sendQ ≠ [] ∨ (w.cl to_).lastsq = (w.cl to_).sendQ.length / 1024 →
        (w1.cl to_).lastsq = (w1.cl to_).sendQ.length / 1024) := by
  obtain ⟨w1, h1, h2⟩ := send_queued_loop_wire env (send_message env fuel) to_ hmap hdel fuel w
    hlive hfuel
  refine ⟨w1, ?_, h2⟩
  simp only [send_queued, send_queued_g, hlive, Bool.false_eq_true, if_false]
  exact h1

/-- C13, on the second scenario with a slow socket: of the five bytes "abcde"
queued for `peer.example.` the socket takes "ab" and then only "c" of "cd";
the call returns 0 with "de" left in the queue. -/
theorem send_queued_conserves_bytes_witness :
    (droppedPeerWorld.cl 4).dead = false ∧ (droppedPeerWorld.cl 4).sendQ.length < 6 ∧
    (∃ w1, send_queued slowSocketEnv 6 droppedPeerWorld 4 = some (w1, 0) ∧
      wireBytes (send_queued_writes slowSocketEnv 4 6 droppedPeerWorld) ++ (w1.cl 4).sendQ
        = (droppedPeerWorld.cl 4).sendQ ∧
      stopsAtShort (send_queued_writes slowSocketEnv 4 6 droppedPeerWorld) = true ∧
      (w1.cl 4).dead = false ∧
      ((droppedPeerWorld.cl 4).sendQ ≠ [] ∨
          (droppedPeerWorld.cl 4).lastsq = (droppedPeerWorld.cl 4).sendQ.length / 1024 →
        (w1.cl 4).lastsq = (w1.cl 4).sendQ.length / 1024)) ∧
    send_queued_writes slowSocketEnv 4 6 droppedPeerWorld
      = [("ab".toList, 2), ("cd".toList, 1)] ∧
    (send_queued slowSocketEnv 6 droppedPeerWorld 4).map (fun r => (r.2, (r.1.cl 4).sendQ))
      = some (0, "de".toList) :=
  ⟨by decide, by decide,
    send_queued_conserves_bytes slowSocketEnv 6 droppedPeerWorld 4 slowSocket_map
      slowSocket_deliver (by decide) (by decide),
    by decide, by decide⟩

/-- C14 fails as stated: on the second scenario with a socket that reports an
error, `send_queued` for the live link `peer.example.` returns -1 and leaves
the link dead with both queues empty, but the exit code of the link is still
the undefined one it had: no exit code is recorded for the write error. -/
theorem send_queued_write_error_records_no_exit_code :
    (droppedPeerWorld.cl 4).dead = false ∧ send_queued_errs brokenSocketEnv 4 2 droppedPeerWorld
      = true ∧
    (send_queued brokenSocketEnv 2 droppedPeerWorld 4).map
        (fun r => (r.2, (r.1.cl 4).dead, (r.1.cl 4).recvQ, (r.1.cl 4).sendQ, (r.1.cl 4).exitc))
      = some (-1, true, [], [], ExitCode.UNDEF) ∧
    ExitCode.UNDEF ≠ ExitCode.IOERR := by
  decide

/-- C14, amended: for a live link, `send_queued` returns within as many
iterations as the queue has bytes (when `dbuf_map` offers a non-empty head of
the queue, the socket never takes more than it is offered and the calls of
`send_message` for the notices return); when it returns after a write for
which the socket reported an error, the result is -1 and the link is marked
dead with both queues empty, and when no write reported an error the result
is 0 and the link is alive; in both cases the exit code of the link is the
one it had before the call, unless SENDQ or MBUF was recorded meanwhile: the
write error itself records none. -/
theorem send_queued_write_error_kills (env : Env) (fuel : Nat) (w : World) (to_ : Nat)
    (hlive : (w.cl to_).dead = false) :
    (SMReturns (send_message env fuel) w →
      (∀ w1 : World, (w1.cl to_).sendQ ≠ [] →
        0 < env.dbuf_map w1 to_ ∧ env.dbuf_map w1 to_ ≤ (w1.cl to_).sendQ.length) →
      (∀ (w1 : World) (m : List Char), env.deliver_it w1 to_ m ≤ (m.length : Int)) →
      (w.cl to_).sendQ.length < fuel →
      (send_queued env fuel w to_).isSome = true) ∧
    ∀ r, send_queued env fuel w to_ = some r →
      (send_queued_errs env to_ fuel w = true →
        r.2 = -1 ∧ (r.1.cl to_).dead = true ∧ (r.1.cl to_).recvQ = [] ∧
          (r.1.cl to_).sendQ = []) ∧
      (send_queued_errs env to_ fuel w = false → r.2 = 0 ∧ (r.1.cl to_).dead = false) ∧
      ((r.1.cl to_).exitc = (w.cl to_).exitc ∨ (r.1.cl to_).exitc = ExitCode.SENDQ ∨
        (r.1.cl to_).exitc = ExitCode.MBUF) := by
  refine ⟨fun hret hmap hdel hfuel => ?_, fun r h => ?_⟩
  · simp only [send_queued, send_queued_g, hlive, Bool.false_eq_true, if_false]
    exact send_queued_loop_returns env _ (send_message_frame env fuel) to_ w hret hmap hdel
      fuel w (Frame.refl w) hfuel
  · simp only [send_queued, send_queued_g, hlive, Bool.false_eq_true, if_false] at h
    have ho := send_queued_loop_outcome env (send_message env fuel) to_
      (fun w t1 msg len r h => send_message_gone env to_ fuel w t1 msg len r h) fuel w r hlive h
    have hx := send_queued_loop_updates ExitKept exitKept_passes exitKept_updates env
      (send_message env fuel)
      (send_message_updates ExitKept exitKept_passes exitKept_updates env fuel) to_ fuel w r h
    exact ⟨ho.1, ho.2, hx to_⟩

/-- C14 amended, on the second scenario with a socket that reports an error:
the call for `peer.example.` returns -1, the link is dead with empty queues,
and its exit code is the one it had. -/
theorem send_queued_write_error_kills_witness :
    (droppedPeerWorld.cl 4).dead = false ∧
    send_queued_errs brokenSocketEnv 4 2 droppedPeerWorld = true ∧
    ∃ r, send_queued brokenSocketEnv 2 droppedPeerWorld 4 = some r ∧
      r.2 = -1 ∧ (r.1.cl 4).dead = true ∧ (r.1.cl 4).recvQ = [] ∧ (r.1.cl 4).sendQ = [] ∧
      (r.1.cl 4).exitc = (droppedPeerWorld.cl 4).exitc :=
  ⟨by decide, by decide,
    (send_queued brokenSocketEnv 2 droppedPeerWorld 4).getD (droppedPeerWorld, 0), rfl,
    (((send_queued_write_error_kills brokenSocketEnv 2 droppedPeerWorld 4 (by decide)).2 _
      rfl).1 (by decide)).1,
    (((send_queued_write_error_kills brokenSocketEnv 2 droppedPeerWorld 4 (by decide)).2 _
      rfl).1 (by decide)).2.1,
    (((send_queued_write_error_kills brokenSocketEnv 2 droppedPeerWorld 4 (by decide)).2 _
      rfl).1 (by decide)).2.2.1,
    (((send_queued_write_error_kills brokenSocketEnv 2 droppedPeerWorld 4 (by decide)).2 _
      rfl).1 (by decide)).2.2.2, by decide⟩

/-- C16: let `sendto_serv_v` be called in a state `w` and `sendto_serv_notv`
with the same arguments in `w` or in any state delivery has led to from `w`.
Both return whenever the calls of `send_message` they make do.  The links they
consider are the same: those found in `local[]` under the descriptors of
`fdas` other than the `from` link of `one` and the server itself.
`sendto_serv_v` passes the message to those whose version intersects the mask,
`sendto_serv_notv` to those whose version does not, each in the order of the
scan; so the two target lists together are a rearrangement of the links
considered, no link is on both, and each call returns 1 exactly when the other
one has a target, and 0 otherwise. -/
theorem serv_v_notv_partition (env : Env) (fuel : Nat) (w w1 : World) (one : Option Nat)
    (ver : Nat) (pattern : Str) (va : List Arg) (hf : Frame w w1) :
    (SMReturns (send_message env fuel) w →
      (sendto_serv_v env fuel w one ver pattern va).isSome = true ∧
      (sendto_serv_notv env fuel w1 one ver pattern va).isSome = true) ∧
    ∀ r1 r2, sendto_serv_v env fuel w one ver pattern va = some r1 →
      sendto_serv_notv env fuel w1 one ver pattern va = some r2 →
        r1.fan.map Prod.fst
          = (servLinks w one).filter (fun c => decide (servVersion (w.cl c) &&& ver ≠ 0)) ∧
        r2.fan.map Prod.fst
          = (servLinks w one).filter (fun c => decide (servVersion (w.cl c) &&& ver = 0)) ∧
        List.Perm (r1.fan.map Prod.fst ++ r2.fan.map Prod.fst) (servLinks w one) ∧
        (∀ c, ¬ (c ∈ r1.fan.map Prod.fst ∧ c ∈ r2.fan.map Prod.fst)) ∧
        r1.rc = (if r2.fan = [] then 0 else 1) ∧ r2.rc = (if r1.fan = [] then 0 else 1) := by
  have hsm := send_message_frame env fuel
  refine ⟨fun hret => ⟨?_, ?_⟩, fun r1 r2 h1 h2 => ?_⟩
  · unfold sendto_serv_v sendto_serv_v_g
    rw [Option.isSome_map']
    exact serv_loop_returns _ hsm one _ pattern va w hret _ w 0 0 (Frame.refl w)
  · unfold sendto_serv_notv sendto_serv_notv_g
    rw [Option.isSome_map']
    exact serv_loop_returns _ hsm one _ pattern va w hret _ w1 0 0 hf
  · unfold sendto_serv_v sendto_serv_v_g at h1
    unfold sendto_serv_notv sendto_serv_notv_g at h2
    obtain ⟨a1, ha1, rfl⟩ := Option.map_eq_some'.mp h1
    obtain ⟨a2, ha2, rfl⟩ := Option.map_eq_some'.mp h2
    obtain ⟨_, t1, c1⟩ := serv_loop_spec _ hsm one (fun v => decide (v &&& ver ≠ 0)) pattern va w
      (fdasIndices w) w 0 0 a1 (Frame.refl w) ha1
    have hidx : fdasIndices w1 = fdasIndices w := by simp [fdasIndices, hf.fdas_highest]
    rw [hidx] at ha2
    obtain ⟨_, t2, c2⟩ := serv_loop_spec _ hsm one (fun v => decide (v &&& ver = 0)) pattern va w
      (fdasIndices w) w1 0 0 a2 hf ha2
    have e2 : (fun c => !decide (servVersion (w.cl c) &&& ver ≠ 0))
        = (fun c => decide (servVersion (w.cl c) &&& ver = 0)) := by
      funext c; simp
    have e1 : (fun c => !decide (servVersion (w.cl c) &&& ver = 0))
        = (fun c => decide (servVersion (w.cl c) &&& ver ≠ 0)) := by
      funext c; simp
    simp only [e2] at c1
    simp only [e1] at c2
    have t1' : a1.2.1.map Prod.fst
        = (servLinks w one).filter (fun c => decide (servVersion (w.cl c) &&& ver ≠ 0)) := t1
    have t2' : a2.2.1.map Prod.fst
        = (servLinks w one).filter (fun c => decide (servVersion (w.cl c) &&& ver = 0)) := t2
    have n1 : a1.2.1 = [] ↔ a1.2.1.map Prod.fst = [] := by simp
    have n2 : a2.2.1 = [] ↔ a2.2.1.map Prod.fst = [] := by simp
    refine ⟨t1', t2', ?_, ?_, ?_, ?_⟩
    · rw [t1', t2', ← e2]
      exact List.filter_append_perm _ _
    · intro c hc
      rw [t1', t2'] at hc
      have p1 := (List.mem_filter.mp hc.1).2
      have p2 := (List.mem_filter.mp hc.2).2
      simp only [decide_eq_true_eq] at p1 p2
      exact p1 p2
    · show a1.2.2 = _
      rw [c1]
      by_cases hn : a2.2.1 = []
      · rw [if_pos hn, if_pos (by rw [← t2]; exact n2.mp hn)]
      · rw [if_neg hn, if_neg (by rw [← t2]; exact fun h => hn (n2.mpr h))]
    · show a2.2.2 = _
      rw [c2]
      by_cases hn : a1.2.1 = []
      · rw [if_pos hn, if_pos (by rw [← t1]; exact n1.mp hn)]
      · rw [if_neg hn, if_neg (by rw [← t1]; exact fun h => hn (n1.mpr h))]

/-- C16, on the scenario: for a message that came from `alice` and the mask 1,
`sendto_serv_v` passes the message to `peer.example.`, whose version is 1, and
returns 0; `sendto_serv_notv` passes it to nobody and returns 1. -/
theorem serv_v_notv_partition_witness :
    Frame scenarioWorld scenarioWorld ∧
    SMReturns (send_message scenarioEnv 1) scenarioWorld ∧
    servLinks scenarioWorld (some 1) = [4] ∧
    ∃ r1 r2,
      sendto_serv_v scenarioEnv 1 scenarioWorld (some 1) 1 privmsgPattern (privmsgArgs "alice")
        = some r1 ∧
      sendto_serv_notv scenarioEnv 1 scenarioWorld (some 1) 1 privmsgPattern
        (privmsgArgs "alice") = some r2 ∧
      List.Perm (r1.fan.map Prod.fst ++ r2.fan.map Prod.fst) (servLinks scenarioWorld (some 1)) ∧
      r1.fan.map Prod.fst = [4] ∧ r2.fan.map Prod.fst = [] ∧ r1.rc = 0 ∧ r2.rc = 1 :=
  ⟨Frame.refl _, scenario_send_message_returns, by decide,
    (sendto_serv_v scenarioEnv 1 scenarioWorld (some 1) 1 privmsgPattern
      (privmsgArgs "alice")).getD (idleRun scenarioWorld),
    (sendto_serv_notv scenarioEnv 1 scenarioWorld (some 1) 1 privmsgPattern
      (privmsgArgs "alice")).getD (idleRun scenarioWorld), rfl, rfl,
    ((serv_v_notv_partition scenarioEnv 1 scenarioWorld scenarioWorld (some 1) 1 privmsgPattern
      (privmsgArgs "alice") (Frame.refl _)).2 _ _ rfl rfl).2.2.1,
    by decide, by decide, by decide, by decide⟩

/-- C12 fails as stated.  With the odd cap 3, the server link `peer.example.`
in connect burst and over its cap has its class cap raised by 3, to 6, while
the pool size goes up by 2, which is not half of 3.  And when the allocator
refuses the message, the same link is marked dead with its queue cleared: the
message has not been queued. -/
theorem send_message_burst_odd_cap_and_refusal :
    (IsServer (oddCapWorld.cl 4) = true ∧ (oddCapWorld.cl 4).cburst = true ∧
      ((oddCapWorld.cl 4).sendQ.length : Int) > get_sendq oddCapWorld 4 ∧
      ∃ r, send_message scenarioEnv 2 oddCapWorld 4 (Buf.mem "PING :x\r\n".toList) 9 = some r ∧
        r.1.MaxSendq 1 - oddCapWorld.MaxSendq 1 = 3 ∧ r.1.poolsize - oddCapWorld.poolsize = 2 ∧
        r.1.poolsize - oddCapWorld.poolsize ≠ 3 / 2) ∧
    (IsServer (burstPeerWorld.cl 4) = true ∧ (burstPeerWorld.cl 4).cburst = true ∧
      ((burstPeerWorld.cl 4).sendQ.length : Int) > get_sendq burstPeerWorld 4 ∧
      ∃ r, send_message refusingEnv 2 burstPeerWorld 4 (Buf.mem "PING :x\r\n".toList) 9
          = some r ∧ (r.1.cl 4).dead = true ∧ (r.1.cl 4).sendQ = []) :=
  ⟨⟨by decide, by decide, by decide,
      (send_message scenarioEnv 2 oddCapWorld 4 (Buf.mem "PING :x\r\n".toList) 9).getD
        (oddCapWorld, 0), rfl, by decide, by decide, by decide⟩,
    ⟨by decide, by decide, by decide,
      (send_message refusingEnv 2 burstPeerWorld 4 (Buf.mem "PING :x\r\n".toList) 9).getD
        (burstPeerWorld, 0), rfl, by decide, by decide⟩⟩

/-- C12, amended: let a live server link in connect burst have more bytes
queued than the cap C of its class, let the message not be held in `psendbuf`,
let every local client be an ordinary one, let the allocator accept the
message, and let the socket of the link report no error and take at most what
it is offered.  Then `send_message` returns as soon as its one call of
`sendto_flag` for `&NOTICES` does (given as many iterations as the queue and
the message have bytes), with result 0; after the call the class cap is 2*C,
the pool size has gone down by C/2 (rounded down) and up by C, which is up by
exactly C/2 when C is even, the burst counter is one higher, the link is not
marked dead, and the queue is the old queue followed by the message, less what
a flush has taken from its head. -/
theorem send_message_burst_doubles_cap (env : Env) (fuel : Nat) (w : World) (to_ : Nat)
    (msg : Buf) (len : Nat) (hsrv : IsServer (w.cl (effective w to_)) = true)
    (hb : (w.cl (effective w to_)).cburst = true)
    (hlive : (w.cl (effective w to_)).dead = false)
    (hover : ((w.cl (effective w to_)).sendQ.length : Int) > get_sendq w (effective w to_))
    (hmsg : msg ≠ Buf.psendbuf) (hloc : LocalsPlain w)
    (hput : ∀ (w1 : World) (b : List Char), 0 ≤ env.dbuf_put w1 (effective w to_) b)
    (hmap : ∀ w1 : World, (w1.cl (effective w to_)).sendQ ≠ [] →
      0 < env.dbuf_map w1 (effective w to_) ∧
        env.dbuf_map w1 (effective w to_) ≤ (w1.cl (effective w to_)).sendQ.length)
    (hdel : ∀ (w1 : World) (m : List Char),
      0 ≤ env.deliver_it w1 (effective w to_) m ∧
        env.deliver_it w1 (effective w to_) m ≤ (m.length : Int))
    (hfuel : (w.cl (effective w to_)).sendQ.length + (w.readBuf msg len).length < fuel + 1)
    (hnote : (sendto_flag env fuel (raise_sendq w (effective w to_)) SChanId.SCH_NOTICE
      "New poolsize %d. (sendq adjusted)".toList
      [Arg.int (raise_sendq w (effective w to_)).poolsize]).isSome = true) :
    ∃ r, send_message env (fuel + 1) w to_ msg len = some r ∧ r.2 = 0 ∧
      r.1.MaxSendq (w.cl (effective w to_)).cls = 2 * get_sendq w (effective w to_) ∧
      r.1.poolsize = w.poolsize - get_sendq w (effective w to_) / 2
        + get_sendq w (effective w to_) ∧
      (get_sendq w (effective w to_) % 2 = 0 →
        r.1.poolsize = w.poolsize + get_sendq w (effective w to_) / 2) ∧
      r.1.is_dbufmore = w.is_dbufmore + 1 ∧
      (r.1.cl (effective w to_)).dead = false ∧
      ∃ sent, sent ++ (r.1.cl (effective w to_)).sendQ
        = (w.cl (effective w to_)).sendQ ++ w.readBuf msg len := by
  obtain ⟨r, h1, h2, h3, h4, h5, h6, h7⟩ := send_message_burst_raise env fuel w to_ msg len hsrv
    hb hlive hover hmsg hloc hput hmap hdel hfuel hnote
  refine ⟨r, h1, h2, h3, h4, fun he => ?_, h5, h6, h7⟩
  rw [h4]
  omega

/-- C12 amended, on the second scenario with the link in connect burst: the
cap 4 of its class becomes 8, the pool size goes from 1000000 to 1000002, the
link is alive and the message is at the tail of its queue. -/
theorem send_message_burst_doubles_cap_witness :
    IsServer (burstPeerWorld.cl (effective burstPeerWorld 4)) = true ∧
    (burstPeerWorld.cl (effective burstPeerWorld 4)).cburst = true ∧
    (burstPeerWorld.cl (effective burstPeerWorld 4)).dead = false ∧
    ((burstPeerWorld.cl (effective burstPeerWorld 4)).sendQ.length : Int)
      > get_sendq burstPeerWorld (effective burstPeerWorld 4) ∧
    LocalsPlain burstPeerWorld ∧
    (∃ r, send_message scenarioEnv 20 burstPeerWorld 4 (Buf.mem "PING :x\r\n".toList) 9
        = some r ∧ r.2 = 0 ∧
      r.1.MaxSendq (burstPeerWorld.cl (effective burstPeerWorld 4)).cls
        = 2 * get_sendq burstPeerWorld (effective burstPeerWorld 4) ∧
      r.1.poolsize = burstPeerWorld.poolsize - get_sendq burstPeerWorld
          (effective burstPeerWorld 4) / 2 + get_sendq burstPeerWorld (effective burstPeerWorld 4) ∧
      (get_sendq burstPeerWorld (effective burstPeerWorld 4) % 2 = 0 →
        r.1.poolsize = burstPeerWorld.poolsize
          + get_sendq burstPeerWorld (effective burstPeerWorld 4) / 2) ∧
      r.1.is_dbufmore = burstPeerWorld.is_dbufmore + 1 ∧
      (r.1.cl (effective burstPeerWorld 4)).dead = false ∧
      ∃ sent, sent ++ (r.1.cl (effective burstPeerWorld 4)).sendQ
        = (burstPeerWorld.cl (effective burstPeerWorld 4)).sendQ
          ++ burstPeerWorld.readBuf (Buf.mem "PING :x\r\n".toList) 9) ∧
    (send_message scenarioEnv 20 burstPeerWorld 4 (Buf.mem "PING :x\r\n".toList) 9).map
        (fun r => (r.1.MaxSendq 1, r.1.poolsize, (r.1.cl 4).sendQ))
      = some (8, 1000002, "abcdePING :x\r\n".toList) :=
  ⟨by decide, by decide, by decide, by decide, burstPeerWorld_localsPlain,
    send_message_burst_doubles_cap scenarioEnv 19 burstPeerWorld 4
      (Buf.mem "PING :x\r\n".toList) 9 (by decide) (by decide) (by decide) (by decide)
      (by decide) burstPeerWorld_localsPlain (scenarioEnv_put · _) (scenarioEnv_map _)
      (scenarioEnv_deliver _) (by decide) (by decide),
    by decide⟩

/-- C17: `make_cache` either allocates no entry, and then leaves the TTL and
the expiry time of every entry and the counter `re_shortttl` as they are, or
it allocates one entry, which it returns, whose TTL is the larger of the TTL
of the request and 600 and whose expiry time is the current time plus that
TTL, and `re_shortttl` goes up by one exactly when the TTL of the request is
under 600.  Hence, whatever is done to a cache that starts empty, every entry
of the cache list has a TTL of at least 600. -/
theorem make_cache_ttl_floor (k : ResConf) (c : Cache) (rhe : hent) (t : Int) :
    (((make_cache k c rhe t).1.brk = c.brk ∧ SameTimes c (make_cache k c rhe t).1) ∨
      ((make_cache k c rhe t).1.brk = c.brk + 1 ∧ (make_cache k c rhe t).2.1 = some c.brk ∧
        ((make_cache k c rhe t).1.ce c.brk).ttl = max t 600 ∧
        ((make_cache k c rhe t).1.ce c.brk).expireat = c.timeofday + max t 600 ∧
        (make_cache k c rhe t).1.re_shortttl
          = (if t < 600 then c.re_shortttl + 1 else c.re_shortttl) ∧
        (make_cache k c rhe t).1.timeofday = c.timeofday ∧
        ∀ p, p ≠ c.brk → ((make_cache k c rhe t).1.ce p).ttl = (c.ce p).ttl ∧
          ((make_cache k c rhe t).1.ce p).expireat = (c.ce p).expireat)) ∧
    (0 ≤ k.MAXCACHED → c.cachetop = [] → c.incache = 0 → ∀ ops : List CacheOp,
      ∀ p ∈ (ops.foldl (fun c op => op.apply k c) c).cachetop,
        600 ≤ ((ops.foldl (fun c op => op.apply k c) c).ce p).ttl) :=
  ⟨make_cache_times k c rhe t,
    fun hk he hi ops => (run_ok k ops c (empty_ok k c hk he hi)).ttl⟩

/-- C17, on the fourth scenario of the specification: the answer
`A 192.0.2.7` for `host.example.` with TTL 300 is cached at time 1000 with TTL
600 and expiry time 1600, and `re_shortttl` becomes 1. -/
theorem make_cache_ttl_floor_witness :
    (0 : Int) ≤ stdConf.MAXCACHED ∧ emptyCache.cachetop = [] ∧ emptyCache.incache = 0 ∧
    (make_cache stdConf emptyCache (answered "host.example." 7) 300).2.1 = some 0 ∧
    (make_cache stdConf emptyCache (answered "host.example." 7) 300).1.cachetop = [0] ∧
    ((make_cache stdConf emptyCache (answered "host.example." 7) 300).1.ce 0).ttl = 600 ∧
    ((make_cache stdConf emptyCache (answered "host.example." 7) 300).1.ce 0).expireat = 1600 ∧
    (make_cache stdConf emptyCache (answered "host.example." 7) 300).1.re_shortttl = 1 ∧
    ∀ p ∈ ([CacheOp.make (answered "host.example." 7) 300].foldl
        (fun c op => op.apply stdConf c) emptyCache).cachetop,
      600 ≤ (([CacheOp.make (answered "host.example." 7) 300].foldl
        (fun c op => op.apply stdConf c) emptyCache).ce p).ttl :=
  ⟨by decide, rfl, rfl, by decide, by decide, by decide, by decide, by decide,
    (make_cache_ttl_floor stdConf emptyCache (answered "host.example." 7) 300).2 (by decide)
      rfl rfl [CacheOp.make (answered "host.example." 7) 300]⟩

/-- C18: whatever is done to a cache that starts empty (entries made by
`make_cache`, lookups by name and by address, `expire_cache`, `flush_cache`,
`rem_cache` for an entry of the list), the cache list has at most `MAXCACHED`
entries, and `incache` is their number; and when `add_to_cache` links one
entry more into a list that already has `MAXCACHED` (at least 1) entries, the
list it leaves is the new entry followed by the old list without its last
entry: the entry removed is the last of the list, not the one just linked
in. -/
theorem cache_bounded_and_evicts_last (k : ResConf) (c : Cache) (hk : 0 ≤ k.MAXCACHED)
    (he : c.cachetop = []) (hi : c.incache = 0) (ops : List CacheOp) :
    ((ops.foldl (fun c op => op.apply k c) c).cachetop.length : Int) ≤ k.MAXCACHED ∧
    (ops.foldl (fun c op => op.apply k c) c).incache
      = (ops.foldl (fun c op => op.apply k c) c).cachetop.length ∧
    ∀ cp, cp ∉ (ops.foldl (fun c op => op.apply k c) c).cachetop → 0 < k.MAXCACHED →
      (ops.foldl (fun c op => op.apply k c) c).incache + 1 > k.MAXCACHED →
        (ops.foldl (fun c op => op.apply k c) c).cachetop ≠ [] ∧
        (add_to_cache k (ops.foldl (fun c op => op.apply k c) c) cp).cachetop
          = cp :: (ops.foldl (fun c op => op.apply k c) c).cachetop.dropLast := by
  have hok := run_ok k ops c (empty_ok k c hk he hi)
  exact ⟨hok.bound, hok.count, fun cp hcp hpos hfull =>
    add_to_cache_evicts_last k _ cp hok hcp hpos hfull⟩

/-- C18, with room for two entries: after three answers have been cached the
list holds the third and the second entry, the first one is gone. -/
theorem cache_bounded_and_evicts_last_witness :
    (0 : Int) ≤ tinyConf.MAXCACHED ∧ emptyCache.cachetop = [] ∧ emptyCache.incache = 0 ∧
    (([CacheOp.make (answered "a.example." 1) 700, CacheOp.make (answered "b.example." 2) 700,
        CacheOp.make (answered "c.example." 3) 700].foldl
      (fun c op => op.apply tinyConf c) emptyCache).cachetop.length : Int) ≤ tinyConf.MAXCACHED ∧
    ([CacheOp.make (answered "a.example." 1) 700, CacheOp.make (answered "b.example." 2) 700,
        CacheOp.make (answered "c.example." 3) 700].foldl
      (fun c op => op.apply tinyConf c) emptyCache).cachetop = [2, 1] :=
  ⟨by decide, rfl, rfl,
    (cache_bounded_and_evicts_last tinyConf emptyCache (by decide) rfl rfl
      [CacheOp.make (answered "a.example." 1) 700, CacheOp.make (answered "b.example." 2) 700,
        CacheOp.make (answered "c.example." 3) 700]).1,
    by decide⟩

/-- C19 (evaluation of the code): the name `bad*host.example.` is one that
`bad_hostname` rejects; as the owner of an A record in a reply from the name
server to the request in flight, `proc_answer` counts the record (it returns
1, not -1) and `get_res` stores a cache entry under that name, without a
notice; as the owner of a CNAME record the same name makes `proc_answer`
return -1, and `get_res` posts the notice and leaves the cache empty. -/
theorem proc_answer_accepts_bad_name_of_A_record :
    bad_hostname "bad*host.example.".toList 17 = -1 ∧
    (proc_answer stdConf lookupState 0
      (replyWith ⟨192, 0, 2, 53⟩ 77 (recordA "bad*host.example."))).2 = 1 ∧
    (get_res stdConf exampleResEnv 10 lookupState
      (replyWith ⟨192, 0, 2, 53⟩ 77 (recordA "bad*host.example.")) false).map
      (fun r => (r.2.1, r.1.cache.cachetop, (r.1.cache.ce 1).he.h_name, r.1.notices.length))
      = some (some 1, [1], "bad*host.example.".toList, 0) ∧
    (proc_answer stdConf lookupState 0
      (replyWith ⟨192, 0, 2, 53⟩ 77 (recordCNAME "bad*host.example."))).2 = -1 ∧
    (get_res stdConf exampleResEnv 10 lookupState
      (replyWith ⟨192, 0, 2, 53⟩ 77 (recordCNAME "bad*host.example.")) false).map
      (fun r => (r.2.1, r.1.cache.cachetop, r.1.notices.length))
      = some (none, [], 1) := by
  refine ⟨by decide, by decide, by decide, by decide, by decide⟩

/-- C20 (counterexample): the source 10.0.0.1 is not the configured name
server 192.0.2.53.  A datagram from it whose id is that of no request leaves
`re_unkrep` at 0; with 0.0.0.0 in the list of name servers a reply from it is
taken for one of the server, completes the request and creates a cache entry,
and `re_unkrep` stays 0; and with `NO_DATA` left in `h_errno` the reply is
counted once, but the request is sent again, with a new id. -/
theorem get_res_unknown_source_uncounted_or_accepted :
    (⟨10, 0, 0, 1⟩ : InAddr) ≠ ⟨192, 0, 2, 53⟩ ∧
    (get_res stdConf exampleResEnv 10 lookupState
      (replyWith ⟨10, 0, 0, 1⟩ 78 (recordA "host.example.")) false).map
      (fun r => r.1.reinfo.re_unkrep) = some 0 ∧
    (get_res stdConf exampleResEnv 10 wildcardState
      (replyWith ⟨10, 0, 0, 1⟩ 77 (recordA "host.example.")) false).map
      (fun r => (r.1.reinfo.re_unkrep, r.2.1, r.1.cache.cachetop, r.1.flight))
      = some (0, some 1, [1], []) ∧
    (get_res stdConf exampleResEnv 10 staleErrnoState
      (replyWith ⟨10, 0, 0, 1⟩ 77 (recordA "host.example.")) false).map
      (fun r => (r.1.reinfo.re_unkrep, r.1.reinfo.re_resends, (r.1.rq 0).sends, (r.1.rq 0).id))
      = some (1, 1, 2, 6) := by
  refine ⟨by decide, by decide, by decide, by decide⟩

/-- C20 (amended): a datagram longer than a DNS header that carries the id of
the request `p` in flight, while at least one name server is configured, none
of the configured addresses is 0.0.0.0 and the source is none of them: the
code goes to `getres_err` with `re_replies` and `re_unkrep` one higher; when
`get_res` returns, `re_unkrep` is one higher than before, the cache and the
list of requests in flight are as before, no host entry is returned, no notice
is posted and every other request is as before; and with `TRY_AGAIN` in
`h_errno` it returns, the two counters being the only change. -/
theorem get_res_unknown_source_counts_and_drops (k : ResConf) (env : ResEnv) (fuel : Nat)
    (s : Resolver) (d : Datagram) (lp : Bool) (p : Nat)
    (hlen : ¬ (0 ≤ d.rc ∧ d.rc ≤ sizeofHEADER))
    (hid : find_id s d.id = some p)
    (hcount : 0 < s.nscount) (hsends : 0 ≤ (s.rq p).sends)
    (hns : ∀ a : Nat, (a : Int) < s.nscount →
      s.nsaddr_list a ≠ InAddr.zero ∧ d.src ≠ s.nsaddr_list a) :
    get_res k env fuel s d lp = getres_err k env fuel (countUnknown s) (some p) lp ∧
    (∀ r, get_res k env fuel s d lp = some r →
      r.1.reinfo.re_unkrep = s.reinfo.re_unkrep + 1 ∧ r.1.cache = s.cache ∧
      r.1.flight = s.flight ∧ r.2.1 = none ∧ r.1.notices = s.notices ∧
      ∀ q, q ≠ p → r.1.rq q = s.rq q) ∧
    (s.h_errno = TRY_AGAIN →
      get_res k env fuel s d lp
        = some (countUnknown s, none, if lp then some (s.rq p).cinfo else none)) := by
  have hfrom := fromNameserver_unknown s p d.src hcount hsends hns
  have heq : get_res k env fuel s d lp = getres_err k env fuel (countUnknown s) (some p) lp := by
    unfold get_res
    rw [if_neg hlen]
    have hid1 : find_id { s with reinfo := { s.reinfo with re_replies := s.reinfo.re_replies + 1 } }
        d.id = some p := hid
    have hfrom1 : fromNameserver
        { s with reinfo := { s.reinfo with re_replies := s.reinfo.re_replies + 1 } } p d.src
          = false := hfrom
    simp only [hid1, hfrom1]
    rfl
  refine ⟨heq, ?_, ?_⟩
  · intro r hr
    rw [heq] at hr
    obtain ⟨hu, hn⟩ := getres_err_untouched k env fuel (countUnknown s) p lp r hr
    exact ⟨hu.2.2.1, hu.1, hu.2.1, hn, hu.2.2.2.2.1, hu.2.2.2.2.2⟩
  · intro he
    rw [heq]
    have he1 : (countUnknown s).h_errno = TRY_AGAIN := he
    simp only [getres_err, he1, ne_eq, not_true_eq_false, if_false]
    rfl

/-- C20 (witness): the state `lookupState`, whose request 0 has the id 77 and whose
name server is 192.0.2.53, and a reply with that id from 10.0.0.1. -/
theorem get_res_unknown_source_counts_and_drops_witness :
    find_id lookupState 77 = some 0 ∧
    get_res stdConf exampleResEnv 10 lookupState
      (replyWith ⟨10, 0, 0, 1⟩ 77 (recordA "host.example.")) false
      = some (countUnknown lookupState, none, none) :=
  ⟨rfl, (get_res_unknown_source_counts_and_drops stdConf exampleResEnv 10 lookupState
    (replyWith ⟨10, 0, 0, 1⟩ 77 (recordA "host.example.")) false 0 (by decide) rfl (by decide)
    (by decide)
    (fun _ _ => ⟨by show (⟨192, 0, 2, 53⟩ : InAddr) ≠ InAddr.zero; decide,
      by show (⟨10, 0, 0, 1⟩ : InAddr) ≠ ⟨192, 0, 2, 53⟩; decide⟩)).2.2 rfl⟩

/-- C22: `make_request` leaves a request with 3 retries, the timeout 4, the
resend flag set and the clock at the time of the call, at the end of the
list.  For such a request `p` of time `t0` in flight, three passes of
`timeout_query_list` at `t0 + 4`, `t0 + 12` and `t0 + 28` all return (with
fuel for the search of an id); after the first `p` is in flight with 2
retries, the clock at `t0 + 4` and the timeout 8, and a resend has been
counted; after the second it has 1 retry, the clock at `t0 + 12` and the
timeout 16, and a resend has been counted; after the third it is off the
list, a timeout has been counted, its context has been told, and it has been
sent at most twice more in all, not in the third pass. -/
theorem request_resent_twice_then_timed_out (k : ResConf) (env : ResEnv) (fuel : Nat)
    (w : ResWorld) (p : Nat) (t0 : Int) (hnd : w.res.flight.Nodup) (hp : p ∈ w.res.flight)
    (hlen : w.res.flight.length < 65536) (hfuel : 2 * w.res.flight.length < fuel)
    (hret : (w.res.rq p).retries = 3) (hto : (w.res.rq p).timeout = 4)
    (hsent : (w.res.rq p).sentat = t0) (hres : (w.res.rq p).resend = 1) :
    (∀ (s : Resolver) (lp : Option Link),
      ((make_request s lp).1.rq (make_request s lp).2).retries = 3 ∧
      ((make_request s lp).1.rq (make_request s lp).2).timeout = 4 ∧
      ((make_request s lp).1.rq (make_request s lp).2).resend = 1 ∧
      ((make_request s lp).1.rq (make_request s lp).2).sentat = s.cache.timeofday ∧
      (make_request s lp).1.flight = s.flight ++ [(make_request s lp).2]) ∧
    ∃ w1 n1 w2 n2 w3 n3,
      timeout_query_list k env fuel w (t0 + 4) = some (w1, n1) ∧
      p ∈ w1.res.flight ∧ (w1.res.rq p).retries = 2 ∧ (w1.res.rq p).sentat = t0 + 4 ∧
      (w1.res.rq p).timeout = 8 ∧ w.res.reinfo.re_resends + 1 ≤ w1.res.reinfo.re_resends ∧
      timeout_query_list k env fuel w1 (t0 + 12) = some (w2, n2) ∧
      p ∈ w2.res.flight ∧ (w2.res.rq p).retries = 1 ∧ (w2.res.rq p).sentat = t0 + 12 ∧
      (w2.res.rq p).timeout = 16 ∧ w1.res.reinfo.re_resends + 1 ≤ w2.res.reinfo.re_resends ∧
      timeout_query_list k env fuel w2 (t0 + 28) = some (w3, n3) ∧
      p ∉ w3.res.flight ∧ w2.res.reinfo.re_timeouts + 1 ≤ w3.res.reinfo.re_timeouts ∧
      Notified w2 w3 (w2.res.rq p) ∧ (w2.res.rq p).cinfo = (w.res.rq p).cinfo ∧
      (w2.res.rq p).name = (w.res.rq p).name ∧
      (w3.res.rq p).sends = (w2.res.rq p).sends ∧
      (w3.res.rq p).sends ≤ (w.res.rq p).sends + 2 := by
  refine ⟨fun s lp => ?_, ?_⟩
  · simp [make_request, add_request, freshRequest]
  obtain ⟨⟨w1, n1⟩, e1, l1, _, b1, _⟩ :=
    timeout_pass_spec k env fuel w (t0 + 4) p hnd hp hlen hfuel
  dsimp only at l1 b1
  obtain ⟨m1, c1, r1⟩ := b1 (by unfold deadline; omega) (by omega)
  have hnd1 : w1.res.flight.Nodup := hnd.sublist l1.flight
  have hlen1 := l1.flight.length_le
  simp only [restart, countDown] at c1
  have hret1 : (w1.res.rq p).retries = 2 := by rw [c1.2.2.1]; simp only; omega
  have hto1 : (w1.res.rq p).timeout = 8 := by rw [c1.2.1]; simp only; omega
  have hsa1 : (w1.res.rq p).sentat = t0 + 4 := c1.1
  have hres1 : (w1.res.rq p).resend = 1 := by rw [c1.2.2.2.2.2.1]; exact hres
  obtain ⟨⟨w2, n2⟩, e2, l2, _, b2, _⟩ :=
    timeout_pass_spec k env fuel w1 (t0 + 12) p hnd1 m1 (by omega) (by omega)
  dsimp only at l2 b2
  obtain ⟨m2, c2, r2⟩ := b2 (by unfold deadline; omega) (by omega)
  have hnd2 : w2.res.flight.Nodup := hnd1.sublist l2.flight
  have hlen2 := l2.flight.length_le
  simp only [restart, countDown] at c2
  have hret2 : (w2.res.rq p).retries = 1 := by rw [c2.2.2.1]; simp only; omega
  have hto2 : (w2.res.rq p).timeout = 16 := by rw [c2.2.1]; simp only; omega
  have hsa2 : (w2.res.rq p).sentat = t0 + 12 := c2.1
  obtain ⟨⟨w3, n3⟩, e3, l3, _, _, b3⟩ :=
    timeout_pass_spec k env fuel w2 (t0 + 28) p hnd2 m2 (by omega) (by omega)
  dsimp only at l3 b3
  obtain ⟨m3, c3, t3, nt3⟩ := b3 (by unfold deadline; omega) (by omega)
  refine ⟨w1, n1, w2, n2, w3, n3, e1, m1, hret1, hsa1, hto1, r1 (by omega), e2, m2, hret2, hsa2,
    hto2, r2 (by omega), e3, m3, t3, nt3, ?_, ?_, ?_, ?_⟩
  · rw [c2.2.2.2.1, c1.2.2.2.1]
  · rw [c2.2.2.2.2.1, c1.2.2.2.2.1]
  · rw [c3]; rfl
  · rw [c3]
    have s1 := c1.2.2.2.2.2.2.2.2
    have s2 := c2.2.2.2.2.2.2.2.2
    simp only [countDown] at s1 s2 ⊢
    omega

/-- C22 (witness): the request 0 of `timeoutWorld`, made at time 1000, and the
passes at 1004, 1012 and 1028. -/
theorem request_resent_twice_then_timed_out_witness :
    (timeoutWorld.res.rq 0).retries = 3 ∧ (timeoutWorld.res.rq 0).timeout = 4 ∧
    ∃ w1 n1 w2 n2 w3 n3,
      timeout_query_list stdConf exampleResEnv 10 timeoutWorld 1004 = some (w1, n1) ∧
      timeout_query_list stdConf exampleResEnv 10 w1 1012 = some (w2, n2) ∧
      timeout_query_list stdConf exampleResEnv 10 w2 1028 = some (w3, n3) ∧
      0 ∉ w3.res.flight ∧ (w3.client 0).doingDNS = false := by
  refine ⟨rfl, rfl, ?_⟩
  obtain ⟨_, w1, n1, w2, n2, w3, n3, e1, _, _, _, _, _, e2, _, _, _, _, _, e3, h3, _, hn, hc, _⟩ :=
    request_resent_twice_then_timed_out stdConf exampleResEnv 10 timeoutWorld 0 1000
      (by decide) (by decide) (by decide) (by decide) rfl rfl rfl rfl
  refine ⟨w1, n1, w2, n2, w3, n3, e1, e2, e3, h3, ?_⟩
  have hf : (w2.res.rq 0).cinfo.flags = ASYNC_CLIENT := by rw [hc]; rfl
  have hv : (w2.res.rq 0).cinfo.value = 0 := by rw [hc]; rfl
  have := (hn.1 hf).1
  rw [hv] at this
  exact this

/-- C29: for a list of distinct requests with positive timeouts, a time `now`
that is not negative and a positive `AR_TTL`, `timeout_query_list` returns
(with fuel for the search of an id) a time after `now`: `now + AR_TTL` when no
request is left in the list after the pass, else the least `sentat + timeout`
of the requests that are left. -/
theorem timeout_query_list_next_deadline (k : ResConf) (env : ResEnv) (fuel : Nat)
    (w : ResWorld) (now : Int) (hnd : w.res.flight.Nodup)
    (hpos : ∀ p ∈ w.res.flight, 0 < (w.res.rq p).timeout) (h0 : 0 ≤ now)
    (httl : 0 < k.AR_TTL) (hlen : w.res.flight.length < 65536)
    (hfuel : 2 * w.res.flight.length < fuel) :
    ∃ r, timeout_query_list k env fuel w now = some r ∧ now < r.2 ∧
      (r.1.res.flight = [] → r.2 = now + k.AR_TTL) ∧
      (r.1.res.flight ≠ [] →
        (∃ p ∈ r.1.res.flight, r.2 = deadline r.1.res p) ∧
        ∀ p ∈ r.1.res.flight, r.2 ≤ deadline r.1.res p) := by
  obtain ⟨r0, hr0, _, _⟩ := timeout_loop_spec k env fuel now w.res.flight w 0 hlen hfuel
  have hn := timeout_loop_next k env fuel now h0 w.res.flight w 0 [] r0 hr0 rfl hnd hpos
    ⟨fun _ h => absurd h (List.not_mem_nil _), Or.inl ⟨rfl, rfl⟩⟩
  unfold timeout_query_list
  rw [hr0]
  refine ⟨_, rfl, ?_, ?_, ?_⟩
  · show now < (if r0.2 > now then r0.2 else now + k.AR_TTL)
    split
    · assumption
    · omega
  · intro he
    show (if r0.2 > now then r0.2 else now + k.AR_TTL) = now + k.AR_TTL
    rcases hn.2 with ⟨_, e2⟩ | ⟨e1, _⟩
    · rw [e2, if_neg (by omega)]
    · exact absurd he e1
  · intro hne
    show (∃ p ∈ r0.1.res.flight, (if r0.2 > now then r0.2 else now + k.AR_TTL) = _) ∧
      ∀ p ∈ r0.1.res.flight, (if r0.2 > now then r0.2 else now + k.AR_TTL) ≤ _
    rcases hn.2 with ⟨e1, _⟩ | ⟨_, ⟨p, hp, e2⟩, e3⟩
    · exact absurd e1 hne
    · have hgt : r0.2 > now := by rw [e2]; exact hn.1 p hp
      rw [if_pos hgt]
      exact ⟨⟨p, hp, e2⟩, e3⟩

/-- C29 (witness): the pass at 1004 over `timeoutWorld` sends the one request
again, with the timeout 8, and returns 1012. -/
theorem timeout_query_list_next_deadline_witness :
    (timeout_query_list stdConf exampleResEnv 10 timeoutWorld 1004).map (fun r => r.2)
      = some 1012 ∧
    ∃ r, timeout_query_list stdConf exampleResEnv 10 timeoutWorld 1004 = some r ∧ 1004 < r.2 :=
  ⟨by decide,
    (timeout_query_list_next_deadline stdConf exampleResEnv 10 timeoutWorld 1004 (by decide)
      (fun _ _ => by show (0 : Int) < 4; decide) (by decide) (by decide) (by decide)
      (by decide)).imp (fun _ h => ⟨h.1, h.2.1⟩)⟩

/-- C21 (counterexample): the name of 192.0.2.7 is asked for; the PTR reply
gives `host.example.`, and `get_res` queues the forward lookup (request 1,
id 6) and leaves the cache empty; the reply to the forward lookup gives
198.51.100.9 only, and `get_res` creates and returns a cache entry for
`host.example.` with that address, although 192.0.2.7 is not in the list. -/
theorem forward_reply_cached_without_original_address :
    (get_res stdConf exampleResEnv 10 reverseState
        (replyWith ⟨192, 0, 2, 53⟩ 77 (recordPTR "host.example.")) false).map
      (fun r => (r.1.cache.cachetop, r.1.flight, (r.1.rq 1).id, (r.1.rq 1).type))
      = some ([], [1], 6, T_A) ∧
    (get_res_twice stdConf exampleResEnv 10 reverseState
        (replyWith ⟨192, 0, 2, 53⟩ 77 (recordPTR "host.example."))
        (replyWith ⟨192, 0, 2, 53⟩ 6 (recordAt "host.example." ⟨198, 51, 100, 9⟩))).map
      (fun r => (r.2.1, r.1.cache.cachetop, (r.1.cache.ce 2).he.h_name,
        (r.1.cache.ce 2).he.h_addr_list))
      = some (some 2, [2], "host.example.".toList, [⟨198, 51, 100, 9⟩]) ∧
    (⟨192, 0, 2, 7⟩ : InAddr) ∉ [(⟨198, 51, 100, 9⟩ : InAddr)] := by
  refine ⟨by decide, by decide, by decide⟩

/-- C21 (amended): a reply from a name server to the request `p` in flight,
without error code, of which `proc_answer` counts at least one record and
which does not end a PTR lookup: `get_res` returns, and the cache and the
entry returned are those of `make_cache` for the request as `proc_answer`
leaves it, whatever address the name was looked up for; an entry is returned
whenever the request has a name and a first address; an entry of the cache
has an address afterwards only if it had it before or the request has it; and
the request has an address only if it had it before, or it is 0.0.0.0, or it
is the address of an A record of the reply. -/
theorem forward_reply_cached_from_its_own_addresses (k : ResConf) (env : ResEnv) (fuel : Nat)
    (s : Resolver) (d : Datagram) (lp : Bool) (p : Nat)
    (hlen : ¬ (0 ≤ d.rc ∧ d.rc ≤ sizeofHEADER)) (hid : find_id s d.id = some p)
    (hfrom : fromNameserver s p d.src = true) (hok : d.rcode = NOERROR ∧ d.ancount ≠ 0)
    (hans : 0 < (proc_answer k (countReply s) p d).2)
    (htype : (requestAfter k s p d).type ≠ T_PTR) :
    ∃ r, get_res k env fuel s d lp = some r ∧
      r.1.cache = (make_cache k s.cache (requestAfter k s p d).he (requestAfter k s p d).ttl).1 ∧
      r.2.1 = (make_cache k s.cache (requestAfter k s p d).he (requestAfter k s p d).ttl).2.1 ∧
      ((requestAfter k s p d).he.h_name.isSome →
        WHOSTENTP ((requestAfter k s p d).he.h_addr_list.headD InAddr.zero) = true →
        r.2.1.isSome) ∧
      AddrsFrom s.cache r.1.cache (requestAfter k s p d).he.h_addr_list ∧
      ∀ a ∈ (requestAfter k s p d).he.h_addr_list,
        a ∈ (s.rq p).he.h_addr_list ∨ a = InAddr.zero ∨
          ∃ rr ∈ d.answers, rr.type = T_A ∧ rr.addr = a := by
  obtain ⟨hc, _, ha⟩ := answer_loop_spec k p (d.answers.take d.ancount.toNat) (countReply s)
    (firstFree ((countReply s).rq p).he.h_addr_list) 0
  have hc1 : (proc_answer k (countReply s) p d).1.cache = s.cache := hc
  have hne : ¬ (proc_answer k (countReply s) p d).2 = -1 := by omega
  have heq : get_res k env fuel s d lp
      = some (rem_request
          (({ (proc_answer k (countReply s) p d).1 with
              cache := (make_cache k s.cache (requestAfter k s p d).he
                (requestAfter k s p d).ttl).1 }).setRq p
            { requestAfter k s p d with
              he := (make_cache k s.cache (requestAfter k s p d).he
                (requestAfter k s p d).ttl).2.2 }) p,
        (make_cache k s.cache (requestAfter k s p d).he (requestAfter k s p d).ttl).2.1,
        if lp then some (requestAfter k s p d).cinfo else none) := by
    unfold get_res
    rw [if_neg hlen]
    have hid1 : find_id { s with reinfo := { s.reinfo with re_replies := s.reinfo.re_replies + 1 } }
        d.id = some p := hid
    have hfrom1 : fromNameserver
        { s with reinfo := { s.reinfo with re_replies := s.reinfo.re_replies + 1 } } p d.src
          = true := hfrom
    have hpa : proc_answer k
        { s with reinfo := { s.reinfo with re_replies := s.reinfo.re_replies + 1 } } p d
          = proc_answer k (countReply s) p d := rfl
    simp only [hid1, hfrom1, hpa, Bool.not_true, Bool.false_eq_true, if_false]
    have hok1 : ¬ (d.rcode ≠ NOERROR ∨ d.ancount = 0) := by
      intro h; rcases h with h | h
      · exact h hok.1
      · exact hok.2 h
    rw [if_neg hok1]
    simp only [if_neg hne]
    have ht : ¬ ((proc_answer k (countReply s) p d).2 > 0 ∧
        ((proc_answer k (countReply s) p d).1.rq p).type = T_PTR) := fun h => htype h.2
    rw [if_neg ht, if_pos hans]
    simp only [hc1]
    rfl
  refine ⟨_, heq, rfl, rfl, fun hn hw => make_cache_some k _ _ _ hn hw,
    make_cache_addrs k s.cache _ _, fun a hm => ?_⟩
  rcases ha a hm with h1 | h1 | ⟨rr, hr, h1⟩
  · exact Or.inl h1
  · exact Or.inr (Or.inl h1)
  · exact Or.inr (Or.inr ⟨rr, List.mem_of_mem_take hr, h1⟩)

/-- C21 (witness): the request for `host.example.` of `lookupState` and a reply
that gives the address 198.51.100.9. -/
theorem forward_reply_cached_from_its_own_addresses_witness :
    find_id lookupState 77 = some 0 ∧
    ∃ r, get_res stdConf exampleResEnv 10 lookupState
        (replyWith ⟨192, 0, 2, 53⟩ 77 (recordAt "host.example." ⟨198, 51, 100, 9⟩)) false
          = some r ∧ r.2.1.isSome :=
  ⟨rfl, (forward_reply_cached_from_its_own_addresses stdConf exampleResEnv 10 lookupState
    (replyWith ⟨192, 0, 2, 53⟩ 77 (recordAt "host.example." ⟨198, 51, 100, 9⟩)) false 0
    (by decide) rfl (by decide) (by decide) (by decide) (by decide)).imp
    (fun _ h => ⟨h.1, h.2.2.2.1 (by decide) (by decide)⟩)⟩

/-- C28 (evaluation of the code): the cache that holds `host.example.` with the
address 192.0.2.7 satisfies the invariant of the chains.  `make_cache` for a
later answer with the addresses 192.0.2.7, 192.0.2.8 and 192.0.2.9 finds the
entry, and `update_list` merges the two new addresses into it: the entry is
left with the one address 192.0.2.9, it is still in the address chain of
bucket 32, that of 192.0.2.7, and not in that of bucket 34, that of its first
address, so the invariant is broken; a lookup of 192.0.2.9 misses it; and
after `rem_cache` for it the list is empty and bucket 32 still holds it. -/
theorem update_list_second_new_address_breaks_chains :
    chainsOK stdConf emptyCache = true ∧ chainsOK stdConf oneAddrCache = true ∧
    mergedCache = (update_list stdConf
      { oneAddrCache with
        cainfo := { oneAddrCache.cainfo with
          ca_nu_hits := oneAddrCache.cainfo.ca_nu_hits + 1 } }
      (some threeAddrAnswer) 0) ∧
    mergedCache.cachetop = [0] ∧ (mergedCache.ce 0).he.h_addr_list = [⟨192, 0, 2, 9⟩] ∧
    hash_number stdConf ⟨192, 0, 2, 7⟩ = 32 ∧ hash_number stdConf ⟨192, 0, 2, 9⟩ = 34 ∧
    mergedCache.num_list 32 = [0] ∧ mergedCache.num_list 34 = [] ∧
    chainsOK stdConf mergedCache = false ∧
    (find_cache_number stdConf mergedCache none ⟨192, 0, 2, 9⟩).2 = none ∧
    (rem_cache stdConf mergedCache 0).cachetop = [] ∧
    (rem_cache stdConf mergedCache 0).num_list 32 = [0] := by
  refine ⟨by decide, by decide, rfl, by decide, by decide, by decide, by decide, by decide,
    by decide, by decide, by decide, by decide, by decide⟩

/-- C30 (evaluation of the code): the cache holds one entry, `www.example.` with
the aliases `mail.example.` and `ftp.example.`, and satisfies the invariants.
`find_cache_name` finds the entry by its name and by its first alias, whose
buckets differ from that of the name; it returns NULL for the second alias
`ftp.example.`, and for the name in capitals, which `mycmp` takes for equal
to the name of the entry. -/
theorem find_cache_name_misses_second_alias :
    CacheOK stdConf aliasCache ∧ chainsOK stdConf aliasCache = true ∧
    aliasCache.cachetop = [0] ∧
    (aliasCache.ce 0).he.h_name = "www.example.".toList ∧
    (aliasCache.ce 0).he.h_aliases = ["mail.example.".toList, "ftp.example.".toList] ∧
    (find_cache_name stdConf aliasCache "www.example.".toList).2 = some 0 ∧
    (find_cache_name stdConf aliasCache "mail.example.".toList).2 = some 0 ∧
    mycmp "ftp.example.".toList "ftp.example.".toList = 0 ∧
    (find_cache_name stdConf aliasCache "ftp.example.".toList).2 = none ∧
    mycmp "www.example.".toList "WWW.EXAMPLE.".toList = 0 ∧
    (find_cache_name stdConf aliasCache "WWW.EXAMPLE.".toList).2 = none := by
  refine ⟨make_cache_ok stdConf emptyCache aliasAnswer 3600
      (empty_ok stdConf emptyCache (by decide) rfl rfl),
    by decide, by decide, by decide, by decide, by decide, by decide, by decide, by decide,
    by decide, by decide⟩

/-- C25 (counterexample): for the client of the scenario and the exit code
`'0'`, the one `write` goes to the user log and its bytes end in `4321` and
the newline: the space the format has behind the last field is overwritten,
so the record does not end in `17 4321 \n`. -/
theorem sendto_flog_newline_replaces_last_space :
    (sendto_flog openLogs aliceLogged '0' "alice".toList "host.local".toList).written
      = [(5, ("0 1000 2000 alice host.local ~alice 192.0.2.7 56789 irc.example.:6667 " ++
              "42 12345 17 4321\n").toList)] ∧
    "17 4321 \n".toList.isSuffixOf
      ("0 1000 2000 alice host.local ~alice 192.0.2.7 56789 irc.example.:6667 " ++
        "42 12345 17 4321\n").toList = false := by
  refine ⟨by decide, by decide⟩

/-- C25 (amended): when the log file that `msg` selects is open (the user log
for `EXITC_REG`, the connection log for any other code), `sendto_flog` adds
one `write` to it, of the thirteen fields with one space between each two
and the newline straight behind the last; when that file is not open nothing
is written. -/
theorem sendto_flog_writes_one_line (t : LogFiles) (cptr : LoggedClient) (msg : Char)
    (username hostname : Str)
    (hopen : (if msg = EXITC_REG then t.userlog else t.connlog) ≠ -1) :
    (sendto_flog t cptr msg username hostname).written
      = t.written ++ [(if msg = EXITC_REG then t.userlog else t.connlog,
          List.intercalate [' '] (flogFields t cptr username hostname) ++ ['\n'])] ∧
    (flogFields t cptr username hostname).length = 13 ∧
    ∀ t1 : LogFiles, (if msg = EXITC_REG then t1.userlog else t1.connlog) = -1 →
      sendto_flog t1 cptr msg username hostname = t1 := by
  refine ⟨?_, rfl, fun t1 h => ?_⟩
  · unfold sendto_flog
    simp only [if_neg hopen, flog_render, bufSet_last]
  · unfold sendto_flog
    simp only [if_pos h]

/-- C25 (witness): the client of the scenario is rejected with the code `'Q'`;
the line goes to the connection log. -/
theorem sendto_flog_writes_one_line_witness :
    (if 'Q' = EXITC_REG then openLogs.userlog else openLogs.connlog) = 6 ∧
    (sendto_flog openLogs aliceLogged 'Q' "alice".toList "host.local".toList).written
      = openLogs.written ++ [(if 'Q' = EXITC_REG then openLogs.userlog else openLogs.connlog,
          List.intercalate [' '] (flogFields openLogs aliceLogged "alice".toList
            "host.local".toList) ++ ['\n'])] :=
  ⟨by decide, (sendto_flog_writes_one_line openLogs aliceLogged 'Q' "alice".toList
    "host.local".toList (by decide)).1⟩

/-- C27 (counterexample): `alice` is alone on `#dev` and is both the origin and
the source of a call of `sendto_channel_butone`: no call of `send_message` is
made, neither the echo nor one of the loop, and `psendbuf` stays empty; but
`sendbuf`, empty before, holds the formatted line afterwards, because
`vsendprep` is called before the loop. -/
theorem butone_formats_sendbuf_without_recipient :
    loneWorld.sendbuf = [] ∧
    (sendto_channel_butone scenarioEnv 5 loneWorld (some 1) 1 0 privmsgPattern
        (privmsgArgs "alice")).map (fun r => (r.echo, r.fan, r.w.sendbuf, r.w.psendbuf))
      = some ([], [], ":alice PRIVMSG #dev :hi\r\n".toList ++ [NUL], []) := by
  refine ⟨rfl, by decide⟩

/-- C27 (amended): a call that makes no call of `send_message`, neither for an
echo nor in its recipient loop.  For `sendto_channel_butserv`,
`sendto_serv_butone`, `sendto_serv_v`, `sendto_serv_notv` and
`sendto_match_servs` the state is left as it was; for
`sendto_common_channels` the two scratch buffers are left as they were; for
`sendto_channel_butone` `sendbuf` is what `vsendprep` has made of it, and
`psendbuf` is left as it was when the source, if locally connected, is its own
`from` link.  In each case the call returns the same whatever the bound on
the recursion of `send_message`. -/
theorem idle_fanout_formats_nothing_but_butone_sendbuf (env : Env) (fuel : Nat) (w : World)
    (one : Option Nat) (from_ chptr user ver : Nat) (mchptr : Option Nat) (pattern : Str)
    (va : List Arg) :
    (∀ r, sendto_channel_butserv env fuel w chptr from_ pattern va = some r → r.echo = [] →
      r.fan = [] → r.w = w ∧
        ∀ fuel1, sendto_channel_butserv env fuel1 w chptr from_ pattern va = some r) ∧
    (∀ r, sendto_serv_butone env fuel w one pattern va = some r → r.echo = [] →
      r.fan = [] → r.w = w ∧ ∀ fuel1, sendto_serv_butone env fuel1 w one pattern va = some r) ∧
    (∀ r, sendto_serv_v env fuel w one ver pattern va = some r → r.echo = [] →
      r.fan = [] → r.w = w ∧ ∀ fuel1, sendto_serv_v env fuel1 w one ver pattern va = some r) ∧
    (∀ r, sendto_serv_notv env fuel w one ver pattern va = some r → r.echo = [] →
      r.fan = [] → r.w = w ∧
        ∀ fuel1, sendto_serv_notv env fuel1 w one ver pattern va = some r) ∧
    (∀ r, sendto_match_servs env fuel w mchptr from_ pattern va = some r → r.echo = [] →
      r.fan = [] → r.w = w ∧
        ∀ fuel1, sendto_match_servs env fuel1 w mchptr from_ pattern va = some r) ∧
    (∀ r, sendto_common_channels env fuel w user pattern va = some r → r.echo = [] →
      r.fan = [] → r.w.sendbuf = w.sendbuf ∧ r.w.psendbuf = w.psendbuf ∧
        ∀ fuel1, sendto_common_channels env fuel1 w user pattern va = some r) ∧
    (∀ r, sendto_channel_butone env fuel w one from_ chptr pattern va = some r → r.echo = [] →
      r.fan = [] → r.w.sendbuf = (vsendprep w pattern va).1.sendbuf ∧
        ((MyConnect (w.cl from_) = true → (w.cl from_).«from» = some from_) →
          r.w.psendbuf = w.psendbuf) ∧
        ∀ fuel1, sendto_channel_butone env fuel1 w one from_ chptr pattern va = some r) := by
  refine ⟨fun r h he hf => ?_, fun r h _ hf => ?_, fun r h _ hf => ?_, fun r h _ hf => ?_,
    fun r h _ hf => ?_, fun r h he hf => ?_, fun r h he hf => ?_⟩
  · exact ⟨(sendto_channel_butserv_g_idle _ (send_message env fuel) w chptr from_ pattern va r
        h he hf).1,
      fun fuel1 => (sendto_channel_butserv_g_idle _ (send_message env fuel1) w chptr from_
        pattern va r h he hf).2⟩
  · exact ⟨(serv_run_idle _ (send_message env fuel) one _ pattern va w _ (fun _ => rfl)
        (fun _ => rfl) r h hf).1,
      fun fuel1 => (serv_run_idle _ (send_message env fuel1) one _ pattern va w _
        (fun _ => rfl) (fun _ => rfl) r h hf).2⟩
  · exact ⟨(serv_run_idle _ (send_message env fuel) one _ pattern va w _ (fun _ => rfl)
        (fun _ => rfl) r h hf).1,
      fun fuel1 => (serv_run_idle _ (send_message env fuel1) one _ pattern va w _
        (fun _ => rfl) (fun _ => rfl) r h hf).2⟩
  · exact ⟨(serv_run_idle _ (send_message env fuel) one _ pattern va w _ (fun _ => rfl)
        (fun _ => rfl) r h hf).1,
      fun fuel1 => (serv_run_idle _ (send_message env fuel1) one _ pattern va w _
        (fun _ => rfl) (fun _ => rfl) r h hf).2⟩
  · exact ⟨(sendto_match_servs_g_idle env _ (send_message env fuel) w mchptr from_ pattern va r
        h hf).1,
      fun fuel1 => (sendto_match_servs_g_idle env _ (send_message env fuel1) w mchptr from_
        pattern va r h hf).2⟩
  · have k := sendto_common_channels_g_idle _ (send_message env fuel) w user pattern va r h he hf
    exact ⟨k.1, k.2.1, fun fuel1 =>
      (sendto_common_channels_g_idle _ (send_message env fuel1) w user pattern va r h he hf).2.2⟩
  · have k := sendto_channel_butone_g_idle _ (send_message env fuel) w one from_ chptr pattern
      va r h he hf
    exact ⟨k.1, k.2.2, fun fuel1 =>
      (sendto_channel_butone_g_idle _ (send_message env fuel1) w one from_ chptr pattern va r
        h he hf).2.1⟩

/-- C27 (witness): in the first scenario the only server link is the one
`carol` is behind, so `sendto_serv_butone` with `carol` as origin finds no
recipient and leaves the state as it was. -/
theorem idle_fanout_formats_nothing_but_butone_sendbuf_witness :
    sendto_serv_butone scenarioEnv 5 scenarioWorld (some 3) privmsgPattern (privmsgArgs "alice")
      = some (idleRun scenarioWorld) ∧
    (idleRun scenarioWorld).w = scenarioWorld ∧
    ∀ fuel1, sendto_serv_butone scenarioEnv fuel1 scenarioWorld (some 3) privmsgPattern
      (privmsgArgs "alice") = some (idleRun scenarioWorld) :=
  ⟨rfl, (idle_fanout_formats_nothing_but_butone_sendbuf scenarioEnv 5 scenarioWorld (some 3) 1 0
    1 1 none privmsgPattern (privmsgArgs "alice")).2.1 (idleRun scenarioWorld) rfl rfl rfl⟩

/-- C23: a reply that `read` delivers with some bytes and without filling the
buffer, that `sscanf` accepts with the ports `remp` and `locp`, both not
zero, and whose fields are the system tag `sys` and the remote user `r` (what
follows the last ':', without white space, ':' and '@'), not empty:
`read_authports` returns, sets `FLAGS_GOTID`, and stores as the user name the
first `USERLEN` characters of `r` when `sys` does not start with `OTHER`, and
of `-` followed by `r` when it does; the name has at most `USERLEN`
characters. -/
theorem read_authports_stores_username (k : AuthConf) (sscanf : Str → Option (Nat × Nat))
    (w : AuthWorld) (cptr : Nat) (d : Str) (remp locp i : Nat) (sys r : Str)
    (hlen : readLen k (w.cl cptr) (some d) > 0)
    (hroom : (afterRead k (w.cl cptr) (some d)).count ≠ k.bufferSize - 1)
    (hscan : sscanf (replyText k w cptr (some d)) = some (remp, locp))
    (hfields : identFields (replyText k w cptr (some d)) = some (i, sys, r))
    (hremp : remp ≠ 0) (hlocp : locp ≠ 0) (hr : r ≠ []) :
    ∃ w1, read_authports k sscanf w cptr (some d) = some w1 ∧ (w1.cl cptr).gotid = true ∧
      (w1.cl cptr).username
        = (if isOther sys then ('-' :: r).take k.USERLEN else r.take k.USERLEN) ∧
      (w1.cl cptr).username.length ≤ k.USERLEN := by
  have hs : sscanf (cstrAt (afterRead k (w.cl cptr) (some d)).buffer 0) = some (remp, locp) :=
    hscan
  have hf : identFields (cstrAt (afterRead k (w.cl cptr) (some d)).buffer 0)
      = some (i, sys, r) := hfields
  have heq : read_authports k sscanf w cptr (some d)
      = some (finish_authports k
          ((w.setCl cptr (afterRead k (w.cl cptr) (some d))).setCl cptr
            { afterRead k (w.cl cptr) (some d) with
              buffer := (afterRead k (w.cl cptr) (some d)).buffer.set i NUL })
          cptr remp locp sys r) := by
    unfold read_authports
    dsimp only
    rw [if_pos ⟨hlen, hroom⟩, hs]
    dsimp only
    rw [hf]
  obtain ⟨h1, h2⟩ := finish_authports_accept k
    ((w.setCl cptr (afterRead k (w.cl cptr) (some d))).setCl cptr
      { afterRead k (w.cl cptr) (some d) with
        buffer := (afterRead k (w.cl cptr) (some d)).buffer.set i NUL })
    cptr remp locp sys r hlocp hremp hr
  refine ⟨_, heq, h2, h1, ?_⟩
  rw [h1]
  split <;> exact List.length_take_le _ _

/-- C23 (witness): the reply `56789 , 6667 : USERID : OTHER : alice-the-long-one`
for `alice`, with `USERLEN` 10: the name stored is `-alice-the`. -/
theorem read_authports_stores_username_witness :
    scanIdent (replyText stdAuthConf authWorld 1
      (some "56789 , 6667 : USERID : OTHER : alice-the-long-one\r\n".toList))
      = some (56789, 6667) ∧
    ∃ w1, read_authports stdAuthConf scanIdent authWorld 1
        (some "56789 , 6667 : USERID : OTHER : alice-the-long-one\r\n".toList) = some w1 ∧
      (w1.cl 1).gotid = true ∧ (w1.cl 1).username = "-alice-the".toList :=
  ⟨by decide,
    (read_authports_stores_username stdAuthConf scanIdent authWorld 1
      "56789 , 6667 : USERID : OTHER : alice-the-long-one\r\n".toList 56789 6667 30
      "OTHER ".toList "alice-the-long-one".toList (by decide) (by decide) (by decide)
      (by decide) (by decide) (by decide) (by decide)).imp
      (fun _ h => ⟨h.1, h.2.1, h.2.2.1.trans (by decide)⟩)⟩

/-- C24 (counterexample): `alice` has connected from port 56789 to port 6667;
the reply to her ident query names the ports 1234 and 4321.
`read_authports` takes it like any other reply: the user name becomes
`mallory` and `FLAGS_GOTID` is set. -/
theorem read_authports_accepts_other_ports :
    (authWorld.cl 1).port = 56789 ∧ (authWorld.cl 1).username = [] ∧
    (authWorld.cl 1).gotid = false ∧
    scanIdent "1234 , 4321 : USERID : UNIX : mallory\r\n".toList = some (1234, 4321) ∧
    (read_authports stdAuthConf scanIdent authWorld 1
        (some "1234 , 4321 : USERID : UNIX : mallory\r\n".toList)).map
      (fun w => ((w.cl 1).username, (w.cl 1).gotid, (w.cl 1).dead))
      = some ("mallory".toList, true, false) := by
  refine ⟨rfl, rfl, rfl, by decide, by decide⟩

/-- C24 (amended): after a read error, an empty read, or a reply that `sscanf`
does not accept, `read_authports` returns and leaves the user name, the flag
`FLAGS_GOTID` and the flag of a dead socket of the client as they were; so it
does for an accepted reply with a port 0 or without remote user; and whatever
the reply, it never changes the flag of a dead socket, nor any other
client. -/
theorem read_authports_bad_reply_keeps_username (k : AuthConf)
    (sscanf : Str → Option (Nat × Nat)) (w : AuthWorld) (cptr : Nat) (rd : Option Str)
    (hbad : rd = none ∨ rd = some [] ∨ sscanf (replyText k w cptr rd) = none) :
    (∃ w1, read_authports k sscanf w cptr rd = some w1 ∧
      (w1.cl cptr).username = (w.cl cptr).username ∧ (w1.cl cptr).gotid = (w.cl cptr).gotid ∧
      (w1.cl cptr).dead = (w.cl cptr).dead) ∧
    (∀ rd1 w1 remp locp i sys r, read_authports k sscanf w cptr rd1 = some w1 →
      sscanf (replyText k w cptr rd1) = some (remp, locp) →
      identFields (replyText k w cptr rd1) = some (i, sys, r) →
      remp = 0 ∨ locp = 0 ∨ r = [] →
      (w1.cl cptr).username = (w.cl cptr).username ∧
        (w1.cl cptr).gotid = (w.cl cptr).gotid) ∧
    (∀ rd1 w1, read_authports k sscanf w cptr rd1 = some w1 →
      (w1.cl cptr).dead = (w.cl cptr).dead ∧ ∀ q, q ≠ cptr → w1.cl q = w.cl q) := by
  have key : ∀ rd1 w1, read_authports k sscanf w cptr rd1 = some w1 →
      ((w1.cl cptr).dead = (w.cl cptr).dead ∧ ∀ q, q ≠ cptr → w1.cl q = w.cl q) ∧
      ((∀ remp locp i sys r, sscanf (replyText k w cptr rd1) = some (remp, locp) →
          identFields (replyText k w cptr rd1) = some (i, sys, r) →
          ¬ (remp = 0 ∨ locp = 0 ∨ r = [])) ∨
        ((w1.cl cptr).username = (w.cl cptr).username ∧
          (w1.cl cptr).gotid = (w.cl cptr).gotid)) := by
    intro rd1 w1 h
    obtain ⟨c1, u1, g1, d1, _, hc⟩ := read_authports_cases k sscanf w cptr rd1 w1 h
    rcases hc with rfl | rfl | ⟨remp, locp, i, sys, r, rfl, _, e1, e2⟩
    · exact ⟨⟨by rw [setCl_same]; exact d1, fun q hq => setCl_other w cptr q c1 hq⟩,
        Or.inr ⟨by rw [setCl_same]; exact u1, by rw [setCl_same]; exact g1⟩⟩
    · obtain ⟨a1, a2⟩ := finish_authports_frame k (w.setCl cptr c1) cptr 0 0 [] []
      obtain ⟨b1, b2, _⟩ := finish_authports_reject k (w.setCl cptr c1) cptr 0 0 [] []
        (Or.inl rfl)
      rw [setCl_same] at a1 b1 b2
      exact ⟨⟨a1.trans d1, fun q hq => (a2 q hq).trans (setCl_other w cptr q c1 hq)⟩,
        Or.inr ⟨b1.trans u1, b2.trans g1⟩⟩
    · obtain ⟨a1, a2⟩ := finish_authports_frame k (w.setCl cptr c1) cptr remp locp sys r
      rw [setCl_same] at a1
      refine ⟨⟨a1.trans d1, fun q hq => (a2 q hq).trans (setCl_other w cptr q c1 hq)⟩, ?_⟩
      by_cases hz : locp = 0 ∨ remp = 0 ∨ r = []
      · obtain ⟨b1, b2, _⟩ := finish_authports_reject k (w.setCl cptr c1) cptr remp locp sys r hz
        rw [setCl_same] at b1 b2
        exact Or.inr ⟨b1.trans u1, b2.trans g1⟩
      · refine Or.inl (fun remp1 locp1 i1 sys1 r1 s1 s2 hx => ?_)
        rw [e1] at s1
        rw [e2] at s2
        cases s1
        cases s2
        rcases hx with hx | hx | hx
        · exact hz (Or.inr (Or.inl hx))
        · exact hz (Or.inl hx)
        · exact hz (Or.inr (Or.inr hx))
  refine ⟨?_, fun rd1 w1 remp locp i sys r h s1 s2 hx => ?_, fun rd1 w1 h => (key rd1 w1 h).1⟩
  · have hret : ∃ w1, read_authports k sscanf w cptr rd = some w1 ∧
        (w1 = w.setCl cptr (afterRead k (w.cl cptr) rd) ∨
          w1 = finish_authports k (w.setCl cptr (afterRead k (w.cl cptr) rd)) cptr 0 0 [] []) := by
      unfold read_authports
      dsimp only
      rcases hbad with rfl | rfl | hs
      · rw [if_neg (by simp [readLen]), if_pos (by simp [readLen])]
        unfold badReply
        split
        · exact ⟨_, rfl, Or.inl rfl⟩
        · exact ⟨_, rfl, Or.inr rfl⟩
      · rw [if_neg (by simp [readLen]), if_neg (by simp [readLen])]
        exact ⟨_, rfl, Or.inr rfl⟩
      · have hs1 : sscanf (cstrAt (afterRead k (w.cl cptr) rd).buffer 0) = none := hs
        split
        · rw [hs1]
          dsimp only
          unfold badReply
          split
          · exact ⟨_, rfl, Or.inl rfl⟩
          · exact ⟨_, rfl, Or.inr rfl⟩
        · split
          · unfold badReply
            split
            · exact ⟨_, rfl, Or.inl rfl⟩
            · exact ⟨_, rfl, Or.inr rfl⟩
          · exact ⟨_, rfl, Or.inr rfl⟩
    obtain ⟨w1, h1, hc⟩ := hret
    obtain ⟨f1, f2, f3, _⟩ := afterRead_fields k (w.cl cptr) rd
    refine ⟨w1, h1, ?_⟩
    rcases hc with rfl | rfl
    · rw [setCl_same]; exact ⟨f1, f2, f3⟩
    · obtain ⟨a1, _⟩ := finish_authports_frame k
        (w.setCl cptr (afterRead k (w.cl cptr) rd)) cptr 0 0 [] []
      obtain ⟨b1, b2, _⟩ := finish_authports_reject k
        (w.setCl cptr (afterRead k (w.cl cptr) rd)) cptr 0 0 [] [] (Or.inl rfl)
      rw [setCl_same] at a1 b1 b2
      exact ⟨b1.trans f1, b2.trans f2, a1.trans f3⟩
  · rcases (key rd1 w1 h).2 with hk | hk
    · exact absurd hx (hk remp locp i sys r s1 s2)
    · exact hk

/-- C24 (witness): the reply `56789 , 6667 : ERROR : NO-USER` for `alice`. -/
theorem read_authports_bad_reply_keeps_username_witness :
    scanIdent (replyText stdAuthConf authWorld 1
      (some "56789 , 6667 : ERROR : NO-USER\r\n".toList)) = none ∧
    ∃ w1, read_authports stdAuthConf scanIdent authWorld 1
        (some "56789 , 6667 : ERROR : NO-USER\r\n".toList) = some w1 ∧
      (w1.cl 1).username = (authWorld.cl 1).username ∧
      (w1.cl 1).gotid = (authWorld.cl 1).gotid ∧ (w1.cl 1).dead = (authWorld.cl 1).dead :=
  ⟨by decide, (read_authports_bad_reply_keeps_username stdAuthConf scanIdent authWorld 1
    (some "56789 , 6667 : ERROR : NO-USER\r\n".toList) (Or.inr (Or.inr (by decide)))).1⟩

/-- C26 (evaluation of the code): two clients are with the helper process,
`alice` on descriptor 4 and a second one on descriptor 5, and one `recv`
delivers the two lines `U 4 192.0.2.7 56789 alice` and
`u 5 192.0.2.8 40000 bob`.  Line by line, `read_iauth` names the first client
`alice` and the second `-bob`.  For the two lines in one buffer it deals with
the second line under the verb and the tuple of the first: the first client
is named `bob`, and the second is left without name and without
`FLAGS_GOTID`.  And a `>` line is not done with when its text has been
posted: `>hello` adds the notice `client gone` on `&DEBUG`, and a `>` line
that carries the tuple of descriptor 4 gives that client the exit code of a
refusal. -/
theorem read_iauth_second_line_read_at_buffer_start :
    (((read_iauth_each stdAuthConf helperWorld
        ["U 4 192.0.2.7 56789 alice".toList, "u 5 192.0.2.8 40000 bob".toList]).cl 1).username,
      ((read_iauth_each stdAuthConf helperWorld
        ["U 4 192.0.2.7 56789 alice".toList, "u 5 192.0.2.8 40000 bob".toList]).cl 2).username,
      ((read_iauth_each stdAuthConf helperWorld
        ["U 4 192.0.2.7 56789 alice".toList, "u 5 192.0.2.8 40000 bob".toList]).cl 2).gotid)
      = ("alice".toList, "-bob".toList, true) ∧
    (((read_iauth stdAuthConf helperWorld
        "U 4 192.0.2.7 56789 alice\nu 5 192.0.2.8 40000 bob\n".toList).1.cl 1).username,
      ((read_iauth stdAuthConf helperWorld
        "U 4 192.0.2.7 56789 alice\nu 5 192.0.2.8 40000 bob\n".toList).1.cl 2).username,
      ((read_iauth stdAuthConf helperWorld
        "U 4 192.0.2.7 56789 alice\nu 5 192.0.2.8 40000 bob\n".toList).1.cl 2).gotid,
      (read_iauth stdAuthConf helperWorld
        "U 4 192.0.2.7 56789 alice\nu 5 192.0.2.8 40000 bob\n".toList).2)
      = ("bob".toList, [], false, []) ∧
    (read_iauth stdAuthConf helperWorld ">hello\n".toList).1.notices
      = [(SChanId.SCH_AUTH, "hello".toList), (SChanId.SCH_DEBUG, "client gone".toList)] ∧
    (helperWorld.cl 1).exitc = '-' ∧
    ((read_iauth stdAuthConf helperWorld "> 4 192.0.2.7 56789 hello\n".toList).1.notices,
      ((read_iauth stdAuthConf helperWorld "> 4 192.0.2.7 56789 hello\n".toList).1.cl 1).exitc)
      = ([(SChanId.SCH_AUTH, " 4 192.0.2.7 56789 hello".toList)], stdAuthConf.EXITC_AREF) := by
  refine ⟨by decide, by decide, by decide, by decide, by decide⟩

end Ircd
